import Mathlib

/-!
# Timeline model of `src/timeline2/model/timelinemodel.cpp`

A shallow embedding of the timeline model: tracks holding clips, the group
forest, and the undo/redo closures every mutating request builds.

Conventions of the embedding.

* Objects held through `std::shared_ptr` (`ClipModel`, `TrackModel`,
  `CompositionModel`) live in a store indexed by their id (`clipObj`,
  `trackObj`, `compoObj`): ids are unique, so an object's id stands for its
  address.  The containers of the C++ class (`m_allClips`, `m_allTracks`, ...)
  hold the ids of the objects they point to.  An object that is deregistered
  but still captured by an undo/redo closure stays in the store, exactly as the
  captured `shared_ptr` keeps it alive.
* A `Fun` (`std::function<bool(void)>`) is a state transformer returning a
  boolean.
* `Q_ASSERT` lines are contracts of the caller; theorems state them as
  hypotheses.
* C++ `int` is `Int`.
-/

/-! ## Data model -/

/-- A clip item (`ClipModel`): identity, source reference, placement and the
part of the source it plays. -/
structure ClipModel where
  m_id : Int := -1
  m_binClipId : String := ""
  m_currentTrackId : Int := -1
  m_position : Int := -1
  m_in : Int := 0
  m_playtime : Int := 0
  m_sourceLength : Int := 0
  deriving DecidableEq

/-- A composition item (`CompositionModel`). -/
structure CompositionModel where
  m_id : Int := -1
  m_currentTrackId : Int := -1
  m_position : Int := -1
  m_playtime : Int := 0
  a_track : Int := -1
  deriving DecidableEq

/-- A track (`TrackModel`): the ids of the clips and of the compositions it
holds, in ascending id order as in the `std::map` of the class. -/
structure TrackModel where
  m_id : Int := -1
  m_allClips : List Int := []
  m_allCompositions : List Int := []
  deriving DecidableEq

/-- The group forest (`GroupsModel`): `m_nodes` lists the ids that have a slot
in the forest, `m_upLink` gives the parent of a node (`-1` for a root). -/
structure GroupsModel where
  m_nodes : List Int := []
  m_upLink : Int → Int := fun _ => -1

/-- Identifier of the black background producer in the tractor. -/
def black_track : Int := -2

/-- Modelled from the spec: a transition attached in the field of the backing
engine, which is not under src/: the composition object that was planted (a
`CompositionModel` is the engine's transition object) and the engine indices of
its A-track and B-track given when it was planted. -/
structure Planted where
  id : Int
  a_track : Int
  b_track : Int
  deriving DecidableEq

/-- Members of `TimelineModel` other than the undo stack, together with the
object store and the static id counter `TimelineModel::next_id`.  `m_field` is
the field of `m_tractor`: the transitions attached in the backing engine, in the
order they were planted. -/
structure TimelineState where
  next_id : Int := 0
  clipObj : Int → ClipModel := fun _ => {}
  trackObj : Int → TrackModel := fun _ => {}
  compoObj : Int → CompositionModel := fun _ => {}
  m_allClips : List Int := []
  m_allCompositions : List Int := []
  m_allTracks : List Int := []
  m_iteratorTable : List Int := []
  m_tractor : List Int := [black_track]
  m_groups : GroupsModel := {}
  m_allGroups : List Int := []
  viewNotifications : Nat := 0
  m_field : List Planted := []

/-- The C++ type `Fun = std::function<bool(void)>`: a closure over the model. -/
abbrev Fun := TimelineState → Bool × TimelineState

/-- The closure `[]() { return true; }`. -/
def noop : Fun := fun s => (true, s)

/-- The undo stack (`DocUndoStack`): the commands that can be undone, most
recent first, and the undone commands that can be redone, next one first. -/
structure DocUndoStack where
  m_done : List (Fun × Fun) := []
  m_undone : List (Fun × Fun) := []

/-- The `TimelineModel` object: its state and the undo stack it pushes to. -/
structure TimelineModel where
  st : TimelineState := {}
  m_undoStack : DocUndoStack := {}

/-- Result of a request that contributes to an in-flight transaction
(`Fun &undo, Fun &redo` parameters). -/
structure Res where
  ok : Bool
  s : TimelineState
  undo : Fun
  redo : Fun

/-- Result of an insertion request: as `Res`, with the `int &id` parameter. -/
structure ResId where
  ok : Bool
  s : TimelineState
  id : Int
  undo : Fun
  redo : Fun

/-! ## Helpers for the containers -/

/-- Assignment `store[k] = v` in the object store. -/
def setAt {α : Type} (f : Int → α) (k : Int) (v : α) : Int → α :=
  fun i => if i = k then v else f i

/-- Insertion of a key in an id container (a key is held at most once). -/
def insertKey (k : Int) (l : List Int) : List Int :=
  if k ∈ l then l else l.orderedInsert (· ≤ ·) k

/-- Removal of a key from an id container (`erase(key)`). -/
def eraseKey (k : Int) (l : List Int) : List Int :=
  l.filter (fun c => c != k)

/-- The intervals `[p, p+d)` and `[q, q+e)` have a time unit in common. -/
def intervalsOverlap (p d q e : Int) : Bool :=
  decide (max p q < min (p + d) (q + e))

/-- Modelled from the spec: the macro `UPDATE_UNDO_REDO` of `macros.hpp`, which
is not under src/.  It chains one step into a transaction: the new undo runs
the step's reverse and then the undo accumulated so far, the new redo runs the
redo accumulated so far and then the step's operation; both closures of a pair
are run and the result is the conjunction. -/
def UPDATE_UNDO_REDO (operation reverse undo redo : Fun) : Fun × Fun :=
  (fun s =>
      let v := reverse s
      let u := undo v.2
      (u.1 && v.1, u.2),
   fun s =>
      let v := redo s
      let o := operation v.2
      (o.1 && v.1, o.2))

/-- Modelled from the spec: the macro `PUSH_LAMBDA` of `macros.hpp`, which is
not under src/.  It appends `operation` to `lambda`; the operation runs only
when the closure built so far succeeded. -/
def PUSH_LAMBDA (operation lambda : Fun) : Fun :=
  fun s =>
    let v := lambda s
    if v.1 then operation v.2 else (false, v.2)

/-- Modelled from the spec: `DocUndoStack::push` behind the macro `PUSH_UNDO`.
The pair becomes the most recent command; the undone commands are dropped. -/
def DocUndoStack.push (st : DocUndoStack) (undo redo : Fun) : DocUndoStack :=
  { m_done := (undo, redo) :: st.m_done, m_undone := [] }

/-- The macro `PUSH_UNDO(undo, redo, text)`. -/
def PUSH_UNDO (m : TimelineModel) (s : TimelineState) (undo redo : Fun) : TimelineModel :=
  { st := s, m_undoStack := m.m_undoStack.push undo redo }

/-- The view is told of a change (`notifyChange`, `_resetView`, row signals). -/
def TimelineState.notify (s : TimelineState) (b : Bool) : TimelineState :=
  { s with viewNotifications := s.viewNotifications + (if b then 1 else 0) }

/-! ## Group forest (queries and item slots) -/

namespace GroupsModel

/-- Walk towards the root, at most `fuel` steps. -/
def rootFrom (g : GroupsModel) : Nat → Int → Int
  | 0, id => id
  | fuel + 1, id => if g.m_upLink id = -1 then id else rootFrom g fuel (g.m_upLink id)

/-- Modelled from the spec: `GroupsModel::getRootId`, not under src/: the
topmost node reachable from `id`. -/
def getRootId (g : GroupsModel) (id : Int) : Int :=
  rootFrom g g.m_nodes.length id

/-- Modelled from the spec: `GroupsModel::isInGroup`, not under src/: the
item is not its own root. -/
def isInGroup (g : GroupsModel) (id : Int) : Bool :=
  getRootId g id != id

/-- Modelled from the spec: `GroupsModel::getDirectChildren`, not under src/. -/
def getDirectChildren (g : GroupsModel) (id : Int) : List Int :=
  g.m_nodes.filter (fun n => g.m_upLink n == id)

/-- Node `n` lies in the subtree of `top` (within `fuel` steps). -/
def below (g : GroupsModel) (top : Int) : Nat → Int → Bool
  | 0, n => n == top
  | fuel + 1, n => n == top || (g.m_upLink n != -1 && below g top fuel (g.m_upLink n))

/-- Modelled from the spec: `GroupsModel::getLeaves`, not under src/: the
items (nodes without children) under `id`, each once, as the
`std::unordered_set` it returns. -/
def getLeaves (g : GroupsModel) (id : Int) : List Int :=
  (g.m_nodes.filter (fun n => (getDirectChildren g n).isEmpty && below g id g.m_nodes.length n)).dedup

/-- Modelled from the spec: `GroupsModel::createGroupItem`, not under src/:
the item gets its own singleton slot. -/
def createGroupItem (g : GroupsModel) (id : Int) : GroupsModel :=
  { m_nodes := insertKey id g.m_nodes, m_upLink := setAt g.m_upLink id (-1) }

/-- Modelled from the spec: `GroupsModel::destructGroupItem`, not under src/:
the slot of the item is removed. -/
def destructGroupItem (g : GroupsModel) (id : Int) : GroupsModel :=
  { m_nodes := eraseKey id g.m_nodes, m_upLink := setAt g.m_upLink id (-1) }

end GroupsModel

/-! ## Track (`TrackModel`) -/

namespace TrackModel

/-- No clip held by the track overlaps `[position, position + playtime)`. -/
def isFree (s : TimelineState) (trackId position playtime : Int) : Bool :=
  (s.trackObj trackId).m_allClips.all
    (fun c => !intervalsOverlap position playtime (s.clipObj c).m_position (s.clipObj c).m_playtime)

/-- The clip may enter the track at `position`: it is unplaced and its
interval is free on the track. -/
def canInsert (s : TimelineState) (trackId clipId position : Int) : Bool :=
  decide ((s.clipObj clipId).m_currentTrackId = -1) &&
    isFree s trackId position (s.clipObj clipId).m_playtime

/-- The bookkeeping of a successful insertion: the clip joins the track's
collection and takes the track and the position; the view is told when
`updateView` is set. -/
def place (s : TimelineState) (trackId clipId position : Int) (updateView : Bool) :
    TimelineState :=
  { s with
    trackObj := setAt s.trackObj trackId
      { s.trackObj trackId with m_allClips := insertKey clipId (s.trackObj trackId).m_allClips }
    clipObj := setAt s.clipObj clipId
      { s.clipObj clipId with m_currentTrackId := trackId, m_position := position }
    viewNotifications := s.viewNotifications + (if updateView then 1 else 0) }

/-- The bookkeeping of a successful deletion: the clip leaves the track's
collection and becomes unplaced; the view is told when `updateView` is set. -/
def unplace (s : TimelineState) (trackId clipId : Int) (updateView : Bool) : TimelineState :=
  { s with
    trackObj := setAt s.trackObj trackId
      { s.trackObj trackId with m_allClips := eraseKey clipId (s.trackObj trackId).m_allClips }
    clipObj := setAt s.clipObj clipId { s.clipObj clipId with m_currentTrackId := -1 }
    viewNotifications := s.viewNotifications + (if updateView then 1 else 0) }

/-- Modelled from the spec: the insertion step of `TrackModel`, not under
src/.  It is the transition Unplaced -> Placed of an item: it fails when the
clip is already placed or when `[position, position + duration)` overlaps a
clip of the track; on success the clip joins the track's collection and takes
the track and the position. -/
def requestClipInsertion_lambda (trackId clipId position : Int) (updateView : Bool) : Fun :=
  fun s =>
    if canInsert s trackId clipId position = true then
      (true, place s trackId clipId position updateView)
    else (false, s)

/-- Modelled from the spec: the deletion step of `TrackModel`, not under src/,
the inverse of the insertion step (Placed -> Unplaced): it fails when the
track does not hold the clip; on success the clip leaves the collection and
its track id becomes -1. -/
def requestClipDeletion_lambda (trackId clipId : Int) (updateView : Bool) : Fun :=
  fun s =>
    if clipId ∈ (s.trackObj trackId).m_allClips then
      (true, unplace s trackId clipId updateView)
    else (false, s)

/-- Modelled from the spec: `TrackModel::requestClipInsertion`, not under
src/: runs the insertion step and, on success, chains it with the deletion
step as its reverse. -/
def requestClipInsertion (s : TimelineState) (trackId clipId position : Int) (updateView : Bool)
    (undo redo : Fun) : Res :=
  let operation := requestClipInsertion_lambda trackId clipId position updateView
  let r := operation s
  if r.1 then
    let reverse := requestClipDeletion_lambda trackId clipId updateView
    let p := UPDATE_UNDO_REDO operation reverse undo redo
    { ok := true, s := r.2, undo := p.1, redo := p.2 }
  else { ok := false, s := r.2, undo := undo, redo := redo }

/-- Modelled from the spec: `TrackModel::requestClipDeletion`, not under
src/: runs the deletion step and, on success, chains it with the insertion at
the position the clip had as its reverse. -/
def requestClipDeletion (s : TimelineState) (trackId clipId : Int) (updateView : Bool)
    (undo redo : Fun) : Res :=
  let old_position := (s.clipObj clipId).m_position
  let operation := requestClipDeletion_lambda trackId clipId updateView
  let r := operation s
  if r.1 then
    let reverse := requestClipInsertion_lambda trackId clipId old_position updateView
    let p := UPDATE_UNDO_REDO operation reverse undo redo
    { ok := true, s := r.2, undo := p.1, redo := p.2 }
  else { ok := false, s := r.2, undo := undo, redo := redo }

end TrackModel

/-! ## Timeline model: queries -/

namespace TimelineModel

/-- `TimelineModel::isClip`. -/
def isClip (s : TimelineState) (id : Int) : Bool := decide (id ∈ s.m_allClips)

/-- `TimelineModel::isComposition`. -/
def isComposition (s : TimelineState) (id : Int) : Bool := decide (id ∈ s.m_allCompositions)

/-- `TimelineModel::isTrack`. -/
def isTrack (s : TimelineState) (id : Int) : Bool := decide (id ∈ s.m_iteratorTable)

/-- `TimelineModel::isGroup`. -/
def isGroup (s : TimelineState) (id : Int) : Bool := decide (id ∈ s.m_allGroups)

/-- `TimelineModel::getTracksCount`: the tractor's count without the black
background track. -/
def getTracksCount (s : TimelineState) : Int := (s.m_tractor.length : Int) - 1

/-- `TimelineModel::getClipsCount`. -/
def getClipsCount (s : TimelineState) : Int := (s.m_allClips.length : Int)

/-- `TimelineModel::getClipTrackId`. -/
def getClipTrackId (s : TimelineState) (clipId : Int) : Int := (s.clipObj clipId).m_currentTrackId

/-- `TimelineModel::getClipPosition`. -/
def getClipPosition (s : TimelineState) (clipId : Int) : Int := (s.clipObj clipId).m_position

/-- `TimelineModel::getClipPlaytime`. -/
def getClipPlaytime (s : TimelineState) (clipId : Int) : Int := (s.clipObj clipId).m_playtime

/-- `TimelineModel::getTrackClipsCount`. -/
def getTrackClipsCount (s : TimelineState) (trackId : Int) : Int :=
  ((s.trackObj trackId).m_allClips.length : Int)

/-- `TimelineModel::getTrackPosition`: the distance from the beginning of
`m_allTracks` to the node of the track. -/
def getTrackPosition (s : TimelineState) (trackId : Int) : Int :=
  (s.m_allTracks.indexOf trackId : Int)

/-- `TimelineModel::getNextId`: `return next_id++`. -/
def getNextId (s : TimelineState) : Int × TimelineState :=
  (s.next_id, { s with next_id := s.next_id + 1 })

/-! ## Timeline model: registration -/

/-- `TimelineModel::registerClip`.  The call `setTimelineEffectsEnabled`
concerns effects, which are outside the modelled state. -/
def registerClip (s : TimelineState) (id : Int) : TimelineState :=
  { s with
    m_allClips := insertKey id s.m_allClips
    m_groups := s.m_groups.createGroupItem id }

/-- `TimelineModel::deregisterClip_lambda`. -/
def deregisterClip_lambda (clipId : Int) : Fun :=
  fun s =>
    (true,
      { s with
        m_allClips := eraseKey clipId s.m_allClips
        m_groups := s.m_groups.destructGroupItem clipId })

end TimelineModel

/-- Modelled from the spec: `ClipModel::construct`, not under src/: builds the
clip object for the bin clip `binClipId` under the given id, unplaced, playing
the whole source (whose length the bin `bin` gives), and registers it. -/
def ClipModel.construct (bin : String → Int) (s : TimelineState) (binClipId : String) (id : Int) :
    TimelineState :=
  TimelineModel.registerClip
    { s with
      clipObj := setAt s.clipObj id
        { m_id := id, m_binClipId := binClipId, m_currentTrackId := -1, m_position := -1,
          m_in := 0, m_playtime := bin binClipId, m_sourceLength := bin binClipId } }
    id

namespace TimelineModel

/-! ## Timeline model: clip move and insertion -/

/-- `TimelineModel::requestClipMove(int, int, int, bool, Fun &, Fun &)`. -/
def requestClipMoveFun (s : TimelineState) (clipId trackId position : Int) (updateView : Bool)
    (undo redo : Fun) : Res :=
  let local_undo : Fun := noop
  let local_redo : Fun := noop
  let old_trackId := getClipTrackId s clipId
  let r1 : Res :=
    if old_trackId ≠ -1 then
      TrackModel.requestClipDeletion s old_trackId clipId updateView local_undo local_redo
    else { ok := true, s := s, undo := local_undo, redo := local_redo }
  if r1.ok = false then
    { ok := false, s := (r1.undo r1.s).2, undo := undo, redo := redo }
  else
    let r2 := TrackModel.requestClipInsertion r1.s trackId clipId position updateView r1.undo r1.redo
    if r2.ok = false then
      { ok := false, s := (r2.undo r2.s).2, undo := undo, redo := redo }
    else
      let p := UPDATE_UNDO_REDO r2.redo r2.undo undo redo
      { ok := true, s := r2.s, undo := p.1, redo := p.2 }

/-! ## Timeline model: group move -/

/-- The comparator `requestGroupMove` hands to `std::sort`. -/
def groupMoveComp (s : TimelineState) (delta_track delta_pos : Int) (clipId1 clipId2 : Int) : Bool :=
  let trackId1 := getClipTrackId s clipId1
  let trackId2 := getClipTrackId s clipId2
  let track_pos1 := getTrackPosition s trackId1
  let track_pos2 := getTrackPosition s trackId2
  if trackId1 = trackId2 then
    let p1 := (s.clipObj clipId1).m_position
    let p2 := (s.clipObj clipId2).m_position
    (!decide (p1 ≤ p2)) == (!decide (delta_pos ≤ 0))
  else
    (!decide (track_pos1 ≤ track_pos2)) == (!decide (delta_track ≤ 0))

/-- The `for (int clip : sorted_clips)` loop of `requestGroupMove`, with the
rollback `undo()` of the failing iteration. -/
def groupMoveLoop (clipId delta_track delta_pos : Int) (updateView : Bool) :
    List Int → TimelineState → Fun → Fun → Res
  | [], s, undo, redo => { ok := true, s := s, undo := undo, redo := redo }
  | clip :: rest, s, undo, redo =>
    let current_track_id := getClipTrackId s clip
    let current_track_position := getTrackPosition s current_track_id
    let target_track_position := current_track_position + delta_track
    let r : Res :=
      if 0 ≤ target_track_position ∧ target_track_position < getTracksCount s then
        let target_track := s.m_allTracks.getD target_track_position.toNat (-1)
        let target_position := (s.clipObj clip).m_position + delta_pos
        requestClipMoveFun s clip target_track target_position (updateView || clip != clipId) undo redo
      else { ok := false, s := s, undo := undo, redo := redo }
    if r.ok = false then
      { ok := false, s := (r.undo r.s).2, undo := r.undo, redo := r.redo }
    else groupMoveLoop clipId delta_track delta_pos updateView rest r.s r.undo r.redo

/-- The leaves of the group in the order `requestGroupMove` moves them.
`std::sort` is rendered by an insertion sort with the same comparator. -/
def sortedLeaves (s : TimelineState) (groupId delta_track delta_pos : Int) : List Int :=
  (s.m_groups.getLeaves groupId).insertionSort
    (fun a b => groupMoveComp s delta_track delta_pos a b = true)

/-- `TimelineModel::requestGroupMove`. -/
def requestGroupMove (m : TimelineModel) (clipId groupId delta_track delta_pos : Int)
    (updateView logUndo : Bool) : Bool × TimelineModel :=
  let sorted_clips := sortedLeaves m.st groupId delta_track delta_pos
  let r := groupMoveLoop clipId delta_track delta_pos updateView sorted_clips m.st noop noop
  if r.ok = false then (false, { m with st := r.s })
  else if logUndo then (true, PUSH_UNDO m r.s r.undo r.redo)
  else (true, { m with st := r.s })

/-- `TimelineModel::requestClipMove(int, int, int, bool, bool)`. -/
def requestClipMove (m : TimelineModel) (clipId trackId position : Int)
    (updateView logUndo : Bool) : Bool × TimelineModel :=
  if (m.st.clipObj clipId).m_position = position ∧ getClipTrackId m.st clipId = trackId then
    (true, m)
  else if m.st.m_groups.isInGroup clipId then
    let groupId := m.st.m_groups.getRootId clipId
    let current_trackId := getClipTrackId m.st clipId
    let track_pos1 := getTrackPosition m.st trackId
    let track_pos2 := getTrackPosition m.st current_trackId
    let delta_track := track_pos1 - track_pos2
    let delta_pos := position - (m.st.clipObj clipId).m_position
    requestGroupMove m clipId groupId delta_track delta_pos updateView logUndo
  else
    let r := requestClipMoveFun m.st clipId trackId position updateView noop noop
    if r.ok ∧ logUndo then (r.ok, PUSH_UNDO m r.s r.undo r.redo)
    else (r.ok, { m with st := r.s })

/-! ## Timeline model: clip insertion -/

/-- The closure `[clip, this]() { registerClip(clip); clip->refreshProducerFromBin(); return true; }`.
The captured pointer is the id of the object; the producer refresh does not
touch the modelled state. -/
def registerClip_lambda (clipId : Int) : Fun :=
  fun s => (true, registerClip s clipId)

/-- `TimelineModel::requestClipInsertion(const QString &, int, int, int &, Fun &, Fun &)`. -/
def requestClipInsertionFun (bin : String → Int) (s : TimelineState) (binClipId : String)
    (trackId position : Int) (undo redo : Fun) : ResId :=
  let n := getNextId s
  let clipId := n.1
  let local_undo := deregisterClip_lambda clipId
  let s1 := ClipModel.construct bin n.2 binClipId clipId
  let local_redo := registerClip_lambda clipId
  let r := requestClipMoveFun s1 clipId trackId position true local_undo local_redo
  if r.ok = false then
    { ok := false, s := (r.undo r.s).2, id := -1, undo := undo, redo := redo }
  else
    let p := UPDATE_UNDO_REDO r.redo r.undo undo redo
    { ok := true, s := r.s, id := clipId, undo := p.1, redo := p.2 }

/-- `TimelineModel::requestClipInsertion(const QString &, int, int, int &, bool)`:
returns the result, the `id` parameter and the model. -/
def requestClipInsertion (bin : String → Int) (m : TimelineModel) (binClipId : String)
    (trackId position : Int) (logUndo : Bool) : Bool × Int × TimelineModel :=
  let r := requestClipInsertionFun bin m.st binClipId trackId position noop noop
  if r.ok ∧ logUndo then (r.ok, r.id, PUSH_UNDO m r.s r.undo r.redo)
  else (r.ok, r.id, { m with st := r.s })


/-! ## Timeline model: tracks -/

/-- Insertion before position `pos` in a sequence (at the end when `pos` is
past it). -/
def insertAt (pos : Nat) (a : Int) (l : List Int) : List Int :=
  l.take pos ++ a :: l.drop pos

/-- `TimelineModel::registerTrack`: the track enters the tractor at `pos + 1`
(slot 0 is the black background), the sequence of tracks at `pos` and the
iterator table; the view is reset. -/
def registerTrack (s : TimelineState) (id pos : Int) : TimelineState :=
  let pos := if pos = -1 then (s.m_allTracks.length : Int) else pos
  { s with
    m_tractor := insertAt (pos + 1).toNat id s.m_tractor
    m_allTracks := insertAt pos.toNat id s.m_allTracks
    m_iteratorTable := insertKey id s.m_iteratorTable
    viewNotifications := s.viewNotifications + 1 }

/-- The closure `[track, position, this]() { registerTrack(track, position); return true; }`. -/
def registerTrack_lambda (id pos : Int) : Fun :=
  fun s => (true, registerTrack s id pos)

/-- `TimelineModel::deregisterTrack_lambda`. -/
def deregisterTrack_lambda (id : Int) (updateView : Bool) : Fun :=
  fun s =>
    let index := getTrackPosition s id
    (true,
      { s with
        m_tractor := s.m_tractor.eraseIdx (index + 1).toNat
        m_allTracks := s.m_allTracks.eraseIdx index.toNat
        m_iteratorTable := eraseKey id s.m_iteratorTable
        viewNotifications := s.viewNotifications + (if updateView then 1 else 0) })

/-- `TimelineModel::registerGroup`. -/
def registerGroup (s : TimelineState) (groupId : Int) : TimelineState :=
  { s with m_allGroups := insertKey groupId s.m_allGroups }

/-- `TimelineModel::deregisterGroup`. -/
def deregisterGroup (s : TimelineState) (id : Int) : TimelineState :=
  { s with m_allGroups := eraseKey id s.m_allGroups }

/-- `TimelineModel::registerComposition`. -/
def registerComposition (s : TimelineState) (id : Int) : TimelineState :=
  { s with
    m_allCompositions := insertKey id s.m_allCompositions
    m_groups := s.m_groups.createGroupItem id }

/-- The closure `[this, composition]() { registerComposition(composition); return true; }`. -/
def registerComposition_lambda (id : Int) : Fun :=
  fun s => (true, registerComposition s id)

/-- `TimelineModel::deregisterComposition_lambda`. -/
def deregisterComposition_lambda (compoId : Int) : Fun :=
  fun s =>
    (true,
      { s with
        m_allCompositions := eraseKey compoId s.m_allCompositions
        m_groups := s.m_groups.destructGroupItem compoId })

/-- `TimelineModel::getCompositionTrackId`. -/
def getCompositionTrackId (s : TimelineState) (compoId : Int) : Int :=
  (s.compoObj compoId).m_currentTrackId

/-- `TimelineModel::getItemTrackId`. -/
def getItemTrackId (s : TimelineState) (itemId : Int) : Int :=
  if isComposition s itemId then getCompositionTrackId s itemId else getClipTrackId s itemId

end TimelineModel

/-- Modelled from the spec: `TrackModel::construct`, not under src/: builds the
empty track object under the given id and registers it at lane `pos`. -/
def TrackModel.construct (s : TimelineState) (id pos : Int) : TimelineState :=
  TimelineModel.registerTrack { s with trackObj := setAt s.trackObj id { m_id := id } } id pos

namespace TrackModel

/-- No composition held by the track overlaps `[position, position + playtime)`. -/
def isFreeCompo (s : TimelineState) (trackId position playtime : Int) : Bool :=
  (s.trackObj trackId).m_allCompositions.all
    (fun c => !intervalsOverlap position playtime (s.compoObj c).m_position (s.compoObj c).m_playtime)

/-- Modelled from the spec: the composition insertion step of `TrackModel`, not
under src/; same contract shape as the clip insertion step. -/
def requestCompositionInsertion_lambda (trackId compoId position : Int) (updateView : Bool) : Fun :=
  fun s =>
    if (s.compoObj compoId).m_currentTrackId = -1 ∧
        isFreeCompo s trackId position (s.compoObj compoId).m_playtime = true then
      (true,
        { s with
          trackObj := setAt s.trackObj trackId
            { s.trackObj trackId with
              m_allCompositions := insertKey compoId (s.trackObj trackId).m_allCompositions }
          compoObj := setAt s.compoObj compoId
            { s.compoObj compoId with m_currentTrackId := trackId, m_position := position }
          viewNotifications := s.viewNotifications + (if updateView then 1 else 0) })
    else (false, s)

/-- Modelled from the spec: the composition deletion step of `TrackModel`, not
under src/; same contract shape as the clip deletion step. -/
def requestCompositionDeletion_lambda (trackId compoId : Int) (updateView : Bool) : Fun :=
  fun s =>
    if compoId ∈ (s.trackObj trackId).m_allCompositions then
      (true,
        { s with
          trackObj := setAt s.trackObj trackId
            { s.trackObj trackId with
              m_allCompositions := eraseKey compoId (s.trackObj trackId).m_allCompositions }
          compoObj := setAt s.compoObj compoId { s.compoObj compoId with m_currentTrackId := -1 }
          viewNotifications := s.viewNotifications + (if updateView then 1 else 0) })
    else (false, s)

/-- Modelled from the spec: `TrackModel::requestCompositionDeletion`, not under
src/. -/
def requestCompositionDeletion (s : TimelineState) (trackId compoId : Int) (updateView : Bool)
    (undo redo : Fun) : Res :=
  let old_position := (s.compoObj compoId).m_position
  let operation := requestCompositionDeletion_lambda trackId compoId updateView
  let r := operation s
  if r.1 then
    let reverse := requestCompositionInsertion_lambda trackId compoId old_position updateView
    let p := UPDATE_UNDO_REDO operation reverse undo redo
    { ok := true, s := r.2, undo := p.1, redo := p.2 }
  else { ok := false, s := r.2, undo := undo, redo := redo }

end TrackModel

/-! ## Group forest (grouping and ungrouping) -/

namespace GroupsModel

/-- Modelled from the spec: the step that creates the internal node `gid`
rooting `children`, not under src/; the node is registered as a group of the
timeline (`registerGroup`). -/
def groupItems_lambda (gid : Int) (children : List Int) : Fun :=
  fun s =>
    (true,
      TimelineModel.registerGroup
        { s with
          m_groups :=
            { m_nodes := insertKey gid s.m_groups.m_nodes
              m_upLink := fun n =>
                if n ∈ children then gid else if n = gid then -1 else s.m_groups.m_upLink n } }
        gid)

/-- Modelled from the spec: the step that removes the internal node `gid`, not
under src/; its children become roots and the group is deregistered
(`deregisterGroup`). -/
def destructGroupItem_lambda (gid : Int) : Fun :=
  fun s =>
    (true,
      TimelineModel.deregisterGroup
        { s with
          m_groups :=
            { m_nodes := eraseKey gid s.m_groups.m_nodes
              m_upLink := fun n =>
                if n = gid ∨ s.m_groups.m_upLink n = gid then -1 else s.m_groups.m_upLink n } }
        gid)

/-- Modelled from the spec: `GroupsModel::groupItems`, not under src/: for a
non-empty set it creates a new internal node, with a fresh id, rooting the
given items and groups, and returns its id; for the empty set it returns -1. -/
def groupItems (s : TimelineState) (ids : List Int) (undo redo : Fun) : ResId :=
  if ids = [] then { ok := false, s := s, id := -1, undo := undo, redo := redo }
  else
    let n := TimelineModel.getNextId s
    let gid := n.1
    let roots := (ids.map (getRootId s.m_groups)).dedup
    let operation := groupItems_lambda gid roots
    let r := operation n.2
    let reverse := destructGroupItem_lambda gid
    let p := UPDATE_UNDO_REDO operation reverse undo redo
    { ok := true, s := r.2, id := gid, undo := p.1, redo := p.2 }

/-- Modelled from the spec: `GroupsModel::ungroupItem`, not under src/: it
detaches exactly one node, the group the item belongs to (its root; the source
calls it on any element of the group it wants deleted); it fails when the item
is in no group.  The reverse step recreates the node over its children. -/
def ungroupItem (s : TimelineState) (id : Int) (undo redo : Fun) : Res :=
  let gid := getRootId s.m_groups id
  if gid = id then { ok := false, s := s, undo := undo, redo := redo }
  else
    let old_children := getDirectChildren s.m_groups gid
    let operation := destructGroupItem_lambda gid
    let r := operation s
    let reverse := groupItems_lambda gid old_children
    let p := UPDATE_UNDO_REDO operation reverse undo redo
    { ok := true, s := r.2, undo := p.1, redo := p.2 }

end GroupsModel

/-! ## Items: resize -/

/-- The clip object after a resize to `size`: from the right the end moves,
from the left the start (position and in-point) moves. -/
def ClipModel.resized (c : ClipModel) (size : Int) (right : Bool) : ClipModel :=
  if right then { c with m_playtime := size }
  else
    { c with
      m_in := c.m_in + (c.m_playtime - size)
      m_position := c.m_position + (c.m_playtime - size)
      m_playtime := size }

/-- The resize is allowed: the size is positive, the part played stays within
the source and, for a placed clip, the new interval meets no other clip of
its track. -/
def ClipModel.resizeAllowed (s : TimelineState) (clipId size : Int) (right : Bool) : Bool :=
  let c := s.clipObj clipId
  decide (0 < size) &&
  (if right then decide (c.m_in + size ≤ c.m_sourceLength)
    else decide (0 ≤ c.m_in + (c.m_playtime - size))) &&
  (decide (c.m_currentTrackId = -1) ||
    (s.trackObj c.m_currentTrackId).m_allClips.all
      (fun c' => c' == clipId ||
        !intervalsOverlap (c.resized size right).m_position size
          (s.clipObj c').m_position (s.clipObj c').m_playtime))

/-- Modelled from the spec: the resize step of `ClipModel`, not under src/.
It enforces a size > 0 within the source's available range and, for a placed
clip, the invariant of its track that clips never overlap; resizing from the
left moves the start of the clip. -/
def ClipModel.resize_lambda (clipId size : Int) (right : Bool) : Fun :=
  fun s =>
    if ClipModel.resizeAllowed s clipId size right = true then
      (true, { s with clipObj := setAt s.clipObj clipId ((s.clipObj clipId).resized size right) })
    else (false, s)

/-- Modelled from the spec: `ClipModel::requestResize`, not under src/: runs
the resize step and, on success, chains it with the resize back to the old
size as its reverse. -/
def ClipModel.requestResize (s : TimelineState) (clipId size : Int) (right : Bool)
    (undo redo : Fun) : Res :=
  let old_size := (s.clipObj clipId).m_playtime
  let operation := ClipModel.resize_lambda clipId size right
  let r := operation s
  if r.1 then
    let reverse := ClipModel.resize_lambda clipId old_size right
    let p := UPDATE_UNDO_REDO operation reverse undo redo
    { ok := true, s := r.2, undo := p.1, redo := p.2 }
  else { ok := false, s := r.2, undo := undo, redo := redo }

/-- Modelled from the spec: the resize step of `CompositionModel`, not under
src/: it enforces a size > 0. -/
def CompositionModel.resize_lambda (compoId size : Int) (right : Bool) : Fun :=
  fun s =>
    let c := s.compoObj compoId
    let newCompo : CompositionModel :=
      if right then { c with m_playtime := size }
      else { c with m_position := c.m_position + (c.m_playtime - size), m_playtime := size }
    if 0 < size then (true, { s with compoObj := setAt s.compoObj compoId newCompo })
    else (false, s)

/-- Modelled from the spec: `CompositionModel::requestResize`, not under src/. -/
def CompositionModel.requestResize (s : TimelineState) (compoId size : Int) (right : Bool)
    (undo redo : Fun) : Res :=
  let old_size := (s.compoObj compoId).m_playtime
  let operation := CompositionModel.resize_lambda compoId size right
  let r := operation s
  if r.1 then
    let reverse := CompositionModel.resize_lambda compoId old_size right
    let p := UPDATE_UNDO_REDO operation reverse undo redo
    { ok := true, s := r.2, undo := p.1, redo := p.2 }
  else { ok := false, s := r.2, undo := undo, redo := redo }

namespace TimelineModel

/-! ## Timeline model: deletion -/

/-- `TimelineModel::requestClipDeletion(int, Fun &, Fun &)`. -/
def requestClipDeletionFun (s : TimelineState) (clipId : Int) (undo redo : Fun) : Res :=
  let trackId := getClipTrackId s clipId
  let r1 : Res :=
    if trackId ≠ -1 then TrackModel.requestClipDeletion s trackId clipId true undo redo
    else { ok := true, s := s, undo := undo, redo := redo }
  if r1.ok = false then
    { ok := false, s := (r1.undo r1.s).2, undo := r1.undo, redo := r1.redo }
  else
    let operation := deregisterClip_lambda clipId
    let reverse := registerClip_lambda clipId
    let o := operation r1.s
    if o.1 then
      let p := UPDATE_UNDO_REDO operation reverse r1.undo r1.redo
      { ok := true, s := o.2, undo := p.1, redo := p.2 }
    else { ok := false, s := (r1.undo o.2).2, undo := r1.undo, redo := r1.redo }

/-- `TimelineModel::requestCompositionDeletion(int, Fun &, Fun &)`. -/
def requestCompositionDeletionFun (s : TimelineState) (compositionId : Int) (undo redo : Fun) :
    Res :=
  let trackId := getCompositionTrackId s compositionId
  let r1 : Res :=
    if trackId ≠ -1 then
      TrackModel.requestCompositionDeletion s trackId compositionId true undo redo
    else { ok := true, s := s, undo := undo, redo := redo }
  if r1.ok = false then
    { ok := false, s := (r1.undo r1.s).2, undo := r1.undo, redo := r1.redo }
  else
    let operation := deregisterComposition_lambda compositionId
    let reverse := registerComposition_lambda compositionId
    let o := operation r1.s
    if o.1 then
      let p := UPDATE_UNDO_REDO operation reverse r1.undo r1.redo
      { ok := true, s := o.2, undo := p.1, redo := p.2 }
    else { ok := false, s := (r1.undo o.2).2, undo := r1.undo, redo := r1.redo }

/-- `TimelineModel::requestClipUngroup(int, Fun &, Fun &)`. -/
def requestClipUngroupFun (s : TimelineState) (id : Int) (undo redo : Fun) : Res :=
  GroupsModel.ungroupItem s id undo redo

/-- The `for (int c : children)` loop of `requestGroupDeletion`: clips go to
`all_clips`, groups to the queue, and `one_child` is the last child seen. -/
def scanChildren (s : TimelineState) :
    List Int → List Int → Int → List Int → List Int × Int × List Int
  | [], all_clips, one_child, queue => (all_clips, one_child, queue)
  | c :: cs, all_clips, _, queue =>
    if isClip s c then scanChildren s cs (insertKey c all_clips) c queue
    else scanChildren s cs all_clips c (queue ++ [c])

/-- The `while (!group_queue.empty())` loop of `requestGroupDeletion`; the
fuel bounds the number of nodes visited.  It returns the clips collected. -/
def groupDeletionLoop :
    Nat → List Int → List Int → TimelineState → Fun → Fun → Res × List Int
  | 0, _, all_clips, s, undo, redo => ({ ok := true, s := s, undo := undo, redo := redo }, all_clips)
  | _ + 1, [], all_clips, s, undo, redo =>
    ({ ok := true, s := s, undo := undo, redo := redo }, all_clips)
  | fuel + 1, current_group :: queue, all_clips, s, undo, redo =>
    let children := s.m_groups.getDirectChildren current_group
    let sc := scanChildren s children all_clips (-1) queue
    if sc.2.1 ≠ -1 then
      let res := GroupsModel.ungroupItem s sc.2.1 undo redo
      if res.ok = false then
        ({ ok := false, s := (res.undo res.s).2, undo := res.undo, redo := res.redo }, sc.1)
      else groupDeletionLoop fuel sc.2.2 sc.1 res.s res.undo res.redo
    else groupDeletionLoop fuel sc.2.2 sc.1 s undo redo

/-- The `for (int clip : all_clips)` loop of `requestGroupDeletion`. -/
def deleteClipsLoop : List Int → TimelineState → Fun → Fun → Res
  | [], s, undo, redo => { ok := true, s := s, undo := undo, redo := redo }
  | clip :: rest, s, undo, redo =>
    let res := requestClipDeletionFun s clip undo redo
    if res.ok = false then
      { ok := false, s := (res.undo res.s).2, undo := res.undo, redo := res.redo }
    else deleteClipsLoop rest res.s res.undo res.redo

/-- `TimelineModel::requestGroupDeletion`. -/
def requestGroupDeletion (m : TimelineModel) (clipId : Int) : Bool × TimelineModel :=
  let g := groupDeletionLoop (m.st.m_groups.m_nodes.length + 1)
    [m.st.m_groups.getRootId clipId] [] m.st noop noop
  if g.1.ok = false then (false, { m with st := g.1.s })
  else
    let d := deleteClipsLoop g.2 g.1.s g.1.undo g.1.redo
    if d.ok = false then (false, { m with st := d.s })
    else (true, PUSH_UNDO m d.s d.undo d.redo)

/-- `TimelineModel::requestItemDeletion`. -/
def requestItemDeletion (m : TimelineModel) (itemId : Int) (logUndo : Bool) :
    Bool × TimelineModel :=
  if m.st.m_groups.isInGroup itemId then requestGroupDeletion m itemId
  else
    let r :=
      if isClip m.st itemId then requestClipDeletionFun m.st itemId noop noop
      else requestCompositionDeletionFun m.st itemId noop noop
    if r.ok ∧ logUndo then (r.ok, PUSH_UNDO m r.s r.undo r.redo)
    else (r.ok, { m with st := r.s })

/-! ## Timeline model: resize -/

/-- `TimelineModel::requestItemResize(int, int, bool, bool, Fun &, Fun &)`. -/
def requestItemResizeFun (s : TimelineState) (itemId size : Int) (right _logUndo : Bool)
    (undo redo : Fun) : Res :=
  let update_model : Fun := fun t =>
    if getItemTrackId t itemId ≠ -1 then (true, t.notify true) else (true, t)
  let r :=
    if isClip s itemId then ClipModel.requestResize s itemId size right undo redo
    else CompositionModel.requestResize s itemId size right undo redo
  if r.ok then
    { ok := true, s := (update_model r.s).2,
      undo := PUSH_LAMBDA update_model r.undo, redo := PUSH_LAMBDA update_model r.redo }
  else r

/-- The block `if (snapping) { ... }` of `requestItemResize`: the size to
request and the state once the trial resize has been undone.  The snap index
is not under src/: `proposeSize` stands for `SnapModel::proposeSize` evaluated
on the current model. -/
def snapResize (proposeSize : TimelineState → Int → Int → Int → Bool → Int → Int)
    (s : TimelineState) (itemId size : Int) (right : Bool) : Int × TimelineState :=
  let inPoint :=
    if isClip s itemId then getClipPosition s itemId else (s.compoObj itemId).m_position
  let outPoint :=
    if isClip s itemId then inPoint + getClipPlaytime s itemId - 1
    else inPoint + (s.compoObj itemId).m_playtime - 1
  let proposed := proposeSize s inPoint outPoint size right 10
  let proposed_size := if proposed < 0 then size else proposed
  let t :=
    if isClip s itemId then ClipModel.requestResize s itemId proposed_size right noop noop
    else CompositionModel.requestResize s itemId proposed_size right noop noop
  if t.ok then (proposed_size, (t.undo t.s).2) else (size, t.s)

/-- `TimelineModel::requestItemResize(int, int, bool, bool, bool)`. -/
def requestItemResize (proposeSize : TimelineState → Int → Int → Int → Bool → Int → Int)
    (m : TimelineModel) (itemId size : Int) (right logUndo snapping : Bool) :
    Bool × TimelineModel :=
  let snapped : Int × TimelineState :=
    if snapping then snapResize proposeSize m.st itemId size right else (size, m.st)
  let r := requestItemResizeFun snapped.2 itemId snapped.1 right logUndo noop noop
  if r.ok ∧ logUndo then (r.ok, PUSH_UNDO m r.s r.undo r.redo)
  else (r.ok, { m with st := r.s })

/-! ## Timeline model: grouping requests -/

/-- The `for (int id : ids)` check of `requestClipsGroup`. -/
def groupable (s : TimelineState) (ids : List Int) : Bool :=
  ids.all (fun id => if isClip s id then getClipTrackId s id != -1 else isGroup s id)

/-- `TimelineModel::requestClipsGroup`. -/
def requestClipsGroup (m : TimelineModel) (ids : List Int) : Bool × TimelineModel :=
  if groupable m.st ids = false then (false, m)
  else
    let r := GroupsModel.groupItems m.st ids noop noop
    if r.id ≠ -1 then (true, PUSH_UNDO m r.s r.undo r.redo)
    else (false, { m with st := r.s })

/-- `TimelineModel::requestClipUngroup(int)`. -/
def requestClipUngroup (m : TimelineModel) (id : Int) : Bool × TimelineModel :=
  let r := requestClipUngroupFun m.st id noop noop
  if r.ok then (true, PUSH_UNDO m r.s r.undo r.redo)
  else (false, { m with st := r.s })

/-! ## Timeline model: track insertion and deletion -/

/-- `TimelineModel::requestTrackInsertion(int, int &, Fun &, Fun &)`; `id` is
the content of the reference parameter before the call. -/
def requestTrackInsertionFun (s : TimelineState) (position id : Int) (undo redo : Fun) : ResId :=
  let position := if position = -1 then (s.m_allTracks.length : Int) else position
  if position < 0 ∨ position > (s.m_allTracks.length : Int) then
    { ok := false, s := s, id := id, undo := undo, redo := redo }
  else
    let n := getNextId s
    let trackId := n.1
    let local_undo := deregisterTrack_lambda trackId false
    let s1 := TrackModel.construct n.2 trackId position
    let local_redo := registerTrack_lambda trackId position
    let p := UPDATE_UNDO_REDO local_redo local_undo undo redo
    { ok := true, s := s1, id := trackId, undo := p.1, redo := p.2 }

/-- `TimelineModel::requestTrackInsertion(int, int &)`. -/
def requestTrackInsertion (m : TimelineModel) (position id : Int) : Bool × Int × TimelineModel :=
  let r := requestTrackInsertionFun m.st position id noop noop
  if r.ok then (true, r.id, PUSH_UNDO m r.s r.undo r.redo)
  else (false, r.id, { m with st := r.s })

/-- The loop `while (res && m_groups->isInGroup(clip))` of
`requestTrackDeletion`; the fuel bounds the number of nodes removed. -/
def ungroupWhile : Nat → Int → TimelineState → Fun → Fun → Res
  | 0, _, s, undo, redo => { ok := true, s := s, undo := undo, redo := redo }
  | fuel + 1, clip, s, undo, redo =>
    if s.m_groups.isInGroup clip then
      let res := requestClipUngroupFun s clip undo redo
      if res.ok = false then res
      else ungroupWhile fuel clip res.s res.undo res.redo
    else { ok := true, s := s, undo := undo, redo := redo }

/-- The `for (int clip : clips_to_delete)` loop of `requestTrackDeletion`.  In
the failing iteration the state is the one `bool u = local_undo()` leaves; the
source goes on with `Q_ASSERT(u); return false`, and the value `u` of that
assertion is `trackDeletionUndone`. -/
def trackDeletionLoop : List Int → TimelineState → Fun → Fun → Res
  | [], s, undo, redo => { ok := true, s := s, undo := undo, redo := redo }
  | clip :: rest, s, undo, redo =>
    let r1 := ungroupWhile (s.m_groups.m_nodes.length + 1) clip s undo redo
    let r2 := if r1.ok then requestClipDeletionFun r1.s clip r1.undo r1.redo else r1
    if r2.ok = false then
      { ok := false, s := (r2.undo r2.s).2, undo := r2.undo, redo := r2.redo }
    else trackDeletionLoop rest r2.s r2.undo r2.redo

/-- The failing iteration of the `for (int clip : clips_to_delete)` loop of
`requestTrackDeletion`: the state and the accumulators `local_undo`,
`local_redo` at the point where `res` is false, before `local_undo()` is
called; `none` when no iteration fails. -/
def trackDeletionFailing : List Int → TimelineState → Fun → Fun → Option Res
  | [], _, _, _ => none
  | clip :: rest, s, undo, redo =>
    let r1 := ungroupWhile (s.m_groups.m_nodes.length + 1) clip s undo redo
    let r2 := if r1.ok then requestClipDeletionFun r1.s clip r1.undo r1.redo else r1
    if r2.ok = false then some r2
    else trackDeletionFailing rest r2.s r2.undo r2.redo

/-- `TimelineModel::requestTrackDeletion(int, Fun &, Fun &)`. -/
def requestTrackDeletionFun (s : TimelineState) (trackId : Int) (undo redo : Fun) : Res :=
  let clips_to_delete := (s.trackObj trackId).m_allClips
  let l := trackDeletionLoop clips_to_delete s noop noop
  if l.ok = false then { ok := false, s := l.s, undo := undo, redo := redo }
  else
    let old_position := getTrackPosition l.s trackId
    let operation := deregisterTrack_lambda trackId true
    let reverse := registerTrack_lambda trackId old_position
    let o := operation l.s
    if o.1 then
      let p := UPDATE_UNDO_REDO operation reverse l.undo l.redo
      let q := UPDATE_UNDO_REDO p.2 p.1 undo redo
      { ok := true, s := o.2, undo := q.1, redo := q.2 }
    else { ok := false, s := (l.undo o.2).2, undo := undo, redo := redo }

/-- `TimelineModel::requestTrackDeletion(int)`. -/
def requestTrackDeletion (m : TimelineModel) (trackId : Int) : Bool × TimelineModel :=
  let r := requestTrackDeletionFun m.st trackId noop noop
  if r.ok then (true, PUSH_UNDO m r.s r.undo r.redo)
  else (false, { m with st := r.s })

/-! ## Undo stack -/

/-- Modelled from the spec: undoing the most recent command of the stack
(`DocUndoStack`, not under src/): its undo closure runs and the command becomes
the next one to redo. -/
def undo (m : TimelineModel) : TimelineModel :=
  match m.m_undoStack.m_done with
  | [] => m
  | c :: rest =>
    { st := (c.1 m.st).2
      m_undoStack := { m_done := rest, m_undone := c :: m.m_undoStack.m_undone } }

/-- Modelled from the spec: redoing the next undone command of the stack
(`DocUndoStack`, not under src/): its redo closure runs and the command becomes
the most recent one again. -/
def redo (m : TimelineModel) : TimelineModel :=
  match m.m_undoStack.m_undone with
  | [] => m
  | c :: rest =>
    { st := (c.2 m.st).2
      m_undoStack := { m_done := c :: m.m_undoStack.m_done, m_undone := rest } }

end TimelineModel

/-! ## Requests and reachable models -/

/-- The mutating requests of the model, and undo/redo of the stack. -/
inductive Request where
  | clipInsertion (binClipId : String) (trackId position : Int) (logUndo : Bool)
  | clipMove (clipId trackId position : Int) (updateView logUndo : Bool)
  | groupMove (clipId groupId delta_track delta_pos : Int) (updateView logUndo : Bool)
  | itemResize (itemId size : Int) (right logUndo snapping : Bool)
  | itemDeletion (itemId : Int) (logUndo : Bool)
  | clipsGroup (ids : List Int)
  | clipUngroup (id : Int)
  | trackInsertion (position : Int)
  | trackDeletion (trackId : Int)
  | undo
  | redo

/-- The model after a request. -/
def Request.run (bin : String → Int)
    (proposeSize : TimelineState → Int → Int → Int → Bool → Int → Int) (m : TimelineModel) :
    Request → TimelineModel
  | .clipInsertion binClipId trackId position logUndo =>
    (TimelineModel.requestClipInsertion bin m binClipId trackId position logUndo).2.2
  | .clipMove clipId trackId position updateView logUndo =>
    (TimelineModel.requestClipMove m clipId trackId position updateView logUndo).2
  | .groupMove clipId groupId delta_track delta_pos updateView logUndo =>
    (TimelineModel.requestGroupMove m clipId groupId delta_track delta_pos updateView logUndo).2
  | .itemResize itemId size right logUndo snapping =>
    (TimelineModel.requestItemResize proposeSize m itemId size right logUndo snapping).2
  | .itemDeletion itemId logUndo => (TimelineModel.requestItemDeletion m itemId logUndo).2
  | .clipsGroup ids => (TimelineModel.requestClipsGroup m ids).2
  | .clipUngroup id => (TimelineModel.requestClipUngroup m id).2
  | .trackInsertion position => (TimelineModel.requestTrackInsertion m position (-1)).2.2
  | .trackDeletion trackId => (TimelineModel.requestTrackDeletion m trackId).2
  | .undo => TimelineModel.undo m
  | .redo => TimelineModel.redo m

/-- The contract of a request: the `Q_ASSERT`s on its arguments (the ids it is
given designate what the entry point expects). -/
def Request.allowed (m : TimelineModel) : Request → Bool
  | .clipInsertion _ trackId _ _ => TimelineModel.isTrack m.st trackId
  | .clipMove clipId trackId _ _ _ =>
    TimelineModel.isClip m.st clipId && TimelineModel.isTrack m.st trackId
  | .groupMove _ groupId _ _ _ _ => TimelineModel.isGroup m.st groupId
  | .itemResize itemId _ _ _ _ =>
    TimelineModel.isClip m.st itemId || TimelineModel.isComposition m.st itemId
  | .itemDeletion itemId _ =>
    TimelineModel.isClip m.st itemId || TimelineModel.isComposition m.st itemId
  | .clipsGroup _ => true
  | .clipUngroup _ => true
  | .trackInsertion _ => true
  | .trackDeletion trackId => TimelineModel.isTrack m.st trackId
  | .undo => true
  | .redo => true

/-- The models reachable from the empty timeline by requests that respect their
contract. -/
inductive Reachable (bin : String → Int)
    (proposeSize : TimelineState → Int → Int → Int → Bool → Int → Int) : TimelineModel → Prop
  | init : Reachable bin proposeSize {}
  | step (m : TimelineModel) (req : Request) :
      Reachable bin proposeSize m → req.allowed m = true →
      Reachable bin proposeSize (req.run bin proposeSize m)

/-! ## Consistency of the object store -/

/-- The state with another count of view notifications. -/
def TimelineState.withView (s : TimelineState) (n : Nat) : TimelineState :=
  { s with viewNotifications := n }

/-- Consistency of tracks and clips in the object store: every track's
collection is in ascending order, a clip is held by exactly the track it
names, the clips of a track have pairwise disjoint intervals, and every id in
use was handed out by the counter. -/
structure Consistent (s : TimelineState) : Prop where
  sorted : ∀ T, ((s.trackObj T).m_allClips).Sorted (· < ·)
  member_track : ∀ T c, c ∈ (s.trackObj T).m_allClips → (s.clipObj c).m_currentTrackId = T
  no_sentinel : (s.trackObj (-1)).m_allClips = []
  track_member : ∀ c, (s.clipObj c).m_currentTrackId ≠ -1 →
    c ∈ (s.trackObj (s.clipObj c).m_currentTrackId).m_allClips
  disjoint : ∀ T, ∀ c ∈ (s.trackObj T).m_allClips, ∀ c' ∈ (s.trackObj T).m_allClips, c ≠ c' →
    intervalsOverlap (s.clipObj c).m_position (s.clipObj c).m_playtime
      (s.clipObj c').m_position (s.clipObj c').m_playtime = false
  clip_lt : ∀ T c, c ∈ (s.trackObj T).m_allClips → c < s.next_id ∧ T < s.next_id
  tracks_ok : ∀ T ∈ s.m_iteratorTable, 0 ≤ T ∧ T < s.next_id
  allTracks_ok : ∀ T ∈ s.m_allTracks, 0 ≤ T ∧ T < s.next_id
  clips_ok : ∀ c ∈ s.m_allClips, c < s.next_id
  compos_ok : ∀ c ∈ s.m_allCompositions, c < s.next_id
  nodes_ok : ∀ n ∈ s.m_groups.m_nodes, n < s.next_id
  uplink_lt : ∀ n, s.m_groups.m_upLink n < s.next_id
  tractor_len : s.m_tractor.length = s.m_allTracks.length + 1
  next_nonneg : 0 ≤ s.next_id

/-- A closure that keeps the store consistent, whenever the counter has
reached `n`, and leaves the counter alone. -/
def Safe (n : Int) (f : Fun) : Prop :=
  ∀ s, Consistent s → n ≤ s.next_id → Consistent (f s).2 ∧ (f s).2.next_id = s.next_id

/-- A consistent state with safe undo and redo accumulators. -/
def Good (s : TimelineState) (undo redo : Fun) : Prop :=
  Consistent s ∧ Safe s.next_id undo ∧ Safe s.next_id redo

/-- A consistent model whose stack holds safe closures only. -/
def StackOK (m : TimelineModel) : Prop :=
  Consistent m.st ∧
    ∀ c ∈ m.m_undoStack.m_done ++ m.m_undoStack.m_undone,
      Safe m.st.next_id c.1 ∧ Safe m.st.next_id c.2

/-- The result of an insertion request without the id. -/
def ResId.toRes (r : ResId) : Res :=
  { ok := r.ok, s := r.s, undo := r.undo, redo := r.redo }

/-- What a request does to a good state: the result is good again and the
counter has not gone back. -/
def Res.GoodFrom (r : Res) (s : TimelineState) : Prop :=
  Good r.s r.undo r.redo ∧ s.next_id ≤ r.s.next_id

/-! ## Running requests; the scenarios of the tests -/

/-- The model after a sequence of requests. -/
def runAll (bin : String → Int)
    (proposeSize : TimelineState → Int → Int → Int → Bool → Int → Int) :
    TimelineModel → List Request → TimelineModel
  | m, [] => m
  | m, req :: rest => runAll bin proposeSize (req.run bin proposeSize m) rest

/-- Every request of the sequence respects its contract when its turn comes. -/
def allAllowed (bin : String → Int)
    (proposeSize : TimelineState → Int → Int → Int → Bool → Int → Int) :
    TimelineModel → List Request → Bool
  | _, [] => true
  | m, req :: rest => req.allowed m && allAllowed bin proposeSize (req.run bin proposeSize m) rest

/-- A bin for the scenarios: the length of the source named `binClipId`. -/
def scenarioBin (binClipId : String) : Int :=
  if binClipId = "long" then 100 else if binClipId = "short" then 20 else 10

/-- A snap index that never proposes a size. -/
def noSnap : TimelineState → Int → Int → Int → Bool → Int → Int :=
  fun _ _ _ _ _ _ => -1

/-- Scenario A: one track (id 0) with a clip of 100 at 80 (id 1) and a clip of
20 at 180 (id 2). -/
def scenarioA : TimelineModel :=
  runAll scenarioBin noSnap {}
    [.trackInsertion (-1), .clipInsertion "long" 0 80 true, .clipInsertion "short" 0 180 true]

/-- A track insertion that is logged, a clip insertion that is not, and the
undo of the stack: the undo closure of the track insertion runs on a track that
holds a clip. -/
def scenarioUnlogged : TimelineModel :=
  runAll scenarioBin noSnap {}
    [.trackInsertion (-1), .clipInsertion "long" 0 80 false, .undo]

/-- The placement invariant as the tracks registered in the model see it: a
registered clip has track id -1 exactly when no registered track holds it, and
otherwise its track is registered and is the only one that holds it. -/
def PlacementInvariant (s : TimelineState) : Prop :=
  ∀ c ∈ s.m_allClips,
    (TimelineModel.getClipTrackId s c = -1 ↔
      ∀ T ∈ s.m_allTracks, c ∉ (s.trackObj T).m_allClips) ∧
    (TimelineModel.getClipTrackId s c ≠ -1 →
      TimelineModel.isTrack s (TimelineModel.getClipTrackId s c) = true ∧
      c ∈ (s.trackObj (TimelineModel.getClipTrackId s c)).m_allClips ∧
      ∀ T ∈ s.m_allTracks, T ≠ TimelineModel.getClipTrackId s c →
        c ∉ (s.trackObj T).m_allClips)

/-- The placement invariant on the track objects, registered or kept alive by
an undo/redo closure: a registered clip has track id -1 exactly when no track
object holds it, and otherwise the track object it names is the only one that
holds it. -/
def PlacementInvariantStore (s : TimelineState) : Prop :=
  ∀ c ∈ s.m_allClips,
    (TimelineModel.getClipTrackId s c = -1 ↔ ∀ T, c ∉ (s.trackObj T).m_allClips) ∧
    (TimelineModel.getClipTrackId s c ≠ -1 →
      c ∈ (s.trackObj (TimelineModel.getClipTrackId s c)).m_allClips ∧
      ∀ T, T ≠ TimelineModel.getClipTrackId s c → c ∉ (s.trackObj T).m_allClips)

/-! ## Conditions used in the statements -/

/-- The model `s'` is `s` up to the count of notifications sent to the view. -/
def SameModel (s s' : TimelineState) : Prop :=
  s'.withView s.viewNotifications = s

/-- In `s'` the clip `c` is placed on track `T` at position `p` and on no
other track, with the playtime it had in `s`; every other clip object is as in
`s`. -/
def MovedTo (s s' : TimelineState) (c T p : Int) : Prop :=
  TimelineModel.getClipTrackId s' c = T ∧ TimelineModel.getClipPosition s' c = p ∧
  c ∈ (s'.trackObj T).m_allClips ∧ (∀ T', T' ≠ T → c ∉ (s'.trackObj T').m_allClips) ∧
  TimelineModel.getClipPlaytime s' c = TimelineModel.getClipPlaytime s c ∧
  ∀ c', c' ≠ c → s'.clipObj c' = s.clipObj c'

/-- The local undo that `requestClipMove` has built when both steps of the
move of a placed clip succeeded: out of the new track, back on the old one. -/
def TimelineModel.moveUndo (old c oldpos T p : Int) (uv : Bool) : Fun :=
  (UPDATE_UNDO_REDO (TrackModel.requestClipInsertion_lambda T c p uv)
    (TrackModel.requestClipDeletion_lambda T c uv)
    (UPDATE_UNDO_REDO (TrackModel.requestClipDeletion_lambda old c uv)
      (TrackModel.requestClipInsertion_lambda old c oldpos uv) noop noop).1
    (UPDATE_UNDO_REDO (TrackModel.requestClipDeletion_lambda old c uv)
      (TrackModel.requestClipInsertion_lambda old c oldpos uv) noop noop).2).1

/-- The local redo that `requestClipMove` has built when both steps of the
move of a placed clip succeeded: out of the old track, onto the new one. -/
def TimelineModel.moveRedo (old c oldpos T p : Int) (uv : Bool) : Fun :=
  (UPDATE_UNDO_REDO (TrackModel.requestClipInsertion_lambda T c p uv)
    (TrackModel.requestClipDeletion_lambda T c uv)
    (UPDATE_UNDO_REDO (TrackModel.requestClipDeletion_lambda old c uv)
      (TrackModel.requestClipInsertion_lambda old c oldpos uv) noop noop).1
    (UPDATE_UNDO_REDO (TrackModel.requestClipDeletion_lambda old c uv)
      (TrackModel.requestClipInsertion_lambda old c oldpos uv) noop noop).2).2

/-- The local undo `requestClipInsertion` has built when the insertion
succeeded: the clip leaves the track and is deregistered. -/
def TimelineModel.insertionUndo (T c p : Int) : Fun :=
  (UPDATE_UNDO_REDO
    (UPDATE_UNDO_REDO (TrackModel.requestClipInsertion_lambda T c p true)
      (TrackModel.requestClipDeletion_lambda T c true) noop noop).2
    (UPDATE_UNDO_REDO (TrackModel.requestClipInsertion_lambda T c p true)
      (TrackModel.requestClipDeletion_lambda T c true) noop noop).1
    (TimelineModel.deregisterClip_lambda c) (TimelineModel.registerClip_lambda c)).1

/-- The local redo `requestClipInsertion` has built when the insertion
succeeded: the clip object is registered again and put on the track. -/
def TimelineModel.insertionRedo (T c p : Int) : Fun :=
  (UPDATE_UNDO_REDO
    (UPDATE_UNDO_REDO (TrackModel.requestClipInsertion_lambda T c p true)
      (TrackModel.requestClipDeletion_lambda T c true) noop noop).2
    (UPDATE_UNDO_REDO (TrackModel.requestClipInsertion_lambda T c p true)
      (TrackModel.requestClipDeletion_lambda T c true) noop noop).1
    (TimelineModel.deregisterClip_lambda c) (TimelineModel.registerClip_lambda c)).2

/-- The closures lead from `b` back to `a` (`undo`) and from `a` forth to `b`
(`redo`), whatever the count of notifications sent to the view. -/
def Inverse (a b : TimelineState) (undo redo : Fun) : Prop :=
  (∀ v, ∃ v', undo (b.withView v) = (true, a.withView v')) ∧
  (∀ v, ∃ v', redo (a.withView v) = (true, b.withView v'))

/-- The lane of a clip: the position of its track in the sequence of tracks. -/
def TimelineModel.getClipLane (s : TimelineState) (clipId : Int) : Int :=
  TimelineModel.getTrackPosition s (TimelineModel.getClipTrackId s clipId)

/-- The lane `requestGroupMove` computes for a leaf is one of the tracks. -/
def TimelineModel.laneInRange (s : TimelineState) (delta_track clipId : Int) : Prop :=
  0 ≤ TimelineModel.getClipLane s clipId + delta_track ∧
    TimelineModel.getClipLane s clipId + delta_track < TimelineModel.getTracksCount s

/-- The clip object of a leaf once `requestGroupMove` has moved it: on the track
of the target lane, at the old position plus `delta_pos`. -/
def TimelineModel.groupMoveTarget (s : TimelineState) (delta_track delta_pos clipId : Int) :
    ClipModel :=
  { s.clipObj clipId with
    m_currentTrackId :=
      s.m_allTracks.getD (TimelineModel.getClipLane s clipId + delta_track).toNat (-1)
    m_position := (s.clipObj clipId).m_position + delta_pos }

/-- Scenario B: three tracks (ids 0, 1, 2), a clip of 100 at 0 on the first
(id 3) and a clip of 20 at 10 on the second (id 4), grouped (group id 5). -/
def scenarioB : TimelineModel :=
  runAll scenarioBin noSnap {}
    [.trackInsertion (-1), .trackInsertion (-1), .trackInsertion (-1),
     .clipInsertion "long" 0 0 true, .clipInsertion "short" 1 10 true, .clipsGroup [3, 4]]

/-- Every leaf of the group sits in `s'` `delta_track` lanes and `delta_pos`
frames away from where it is in `s`. -/
def LeavesMovedBy (s s' : TimelineState) (groupId delta_track delta_pos : Int) : Prop :=
  ∀ c ∈ s.m_groups.getLeaves groupId,
    TimelineModel.getClipLane s' c = TimelineModel.getClipLane s c + delta_track ∧
    TimelineModel.getClipPosition s' c = TimelineModel.getClipPosition s c + delta_pos

/-- Every clip is in `s'` on the track and at the position it has in `s`. -/
def PlacementKept (s s' : TimelineState) : Prop :=
  ∀ c, TimelineModel.getClipTrackId s' c = TimelineModel.getClipTrackId s c ∧
    TimelineModel.getClipPosition s' c = TimelineModel.getClipPosition s c

/-- `TimelineModel::getTrackMltIndex`: the position of the track plus one, for
the black track in first position. -/
def TimelineModel.getTrackMltIndex (s : TimelineState) (trackId : Int) : Int :=
  TimelineModel.getTrackPosition s trackId + 1

/-- The lane `requestTrackInsertion` inserts at: `-1` stands for the end. -/
def TimelineModel.insertionLane (s : TimelineState) (position : Int) : Int :=
  if position = -1 then (s.m_allTracks.length : Int) else position

/-- The ids `requestClipsGroup` refuses, as the specification words it: a
clip that is on no track, or an id that is neither a clip, nor a composition,
nor a group. -/
def GroupRefusedAsStated (s : TimelineState) (ids : List Int) : Prop :=
  ∃ id ∈ ids,
    (TimelineModel.isClip s id = true ∧ TimelineModel.getClipTrackId s id = -1) ∨
    (TimelineModel.isClip s id = false ∧ TimelineModel.isComposition s id = false ∧
      TimelineModel.isGroup s id = false)

/-- The ids `requestClipsGroup` refuses: a clip that is on no track, or an id
that is neither a clip nor a group. -/
def GroupRefused (s : TimelineState) (ids : List Int) : Prop :=
  ∃ id ∈ ids,
    (TimelineModel.isClip s id = true ∧ TimelineModel.getClipTrackId s id = -1) ∨
    (TimelineModel.isClip s id = false ∧ TimelineModel.isGroup s id = false)

/-- Scenario A with a composition (id 3, 10 frames at 0) registered and placed
on the track. -/
def scenarioComposition : TimelineModel :=
  { scenarioA with
    st :=
      (TrackModel.requestCompositionInsertion_lambda 0 3 0 true
        (TimelineModel.registerComposition
          { (TimelineModel.getNextId scenarioA.st).2 with
            compoObj := setAt scenarioA.st.compoObj 3 { m_id := 3, m_playtime := 10 } } 3)).2 }

/-! ## Snap index and snapping queries -/

/-- Modelled from the spec: the snap index (`SnapModel`, not under src/): the
time points that are eligible as snap targets and the points temporarily
excluded from the queries. -/
structure SnapModel where
  m_snaps : List Int := []
  m_ignore : List Int := []
  deriving DecidableEq

/-- `qAbs` of Qt. -/
def qAbs (t : Int) : Int := if 0 ≤ t then t else -t

/-- The constant `INT_MAX` of a 32-bit `int`. -/
def INT_MAX : Int := 2147483647

/-- The value of a sum or difference as a 32-bit two's complement `int`: the
representative in `[-2^31, 2^31)` modulo `2^32`. -/
def toInt32 (x : Int) : Int := (x + 2147483648) % 4294967296 - 2147483648

namespace SnapModel

/-- Modelled from the spec: `SnapModel::ignore`, not under src/: the points are
excluded from the queries until `unIgnore`. -/
def ignore (sn : SnapModel) (pts : List Int) : SnapModel :=
  { sn with m_ignore := sn.m_ignore ++ pts }

/-- Modelled from the spec: `SnapModel::unIgnore`, not under src/: no point is
excluded any more. -/
def unIgnore (sn : SnapModel) : SnapModel :=
  { sn with m_ignore := [] }

/-- The snap points that are not excluded. -/
def eligible (sn : SnapModel) : List Int :=
  sn.m_snaps.filter (fun p => decide (p ∉ sn.m_ignore))

/-- The closer of two points to `position`; the first one on a tie. -/
def closer (position best p : Int) : Int :=
  if qAbs (position - p) < qAbs (position - best) then p else best

/-- Modelled from the spec: `SnapModel::getClosestPoint`, not under src/: the
nearest point to `position` among those that are not excluded, -1 when there
is none. -/
def getClosestPoint (sn : SnapModel) (position : Int) : Int :=
  match sn.eligible with
  | [] => -1
  | p :: ps => ps.foldl (closer position) p

end SnapModel

/-- `TimelineModel::requestBestSnapPos`, on the snap index `m_snaps` of the
model: the result and the snap index after the call. -/
def TimelineModel.requestBestSnapPos (sn : SnapModel) (pos length : Int) (pts : List Int) :
    Int × SnapModel :=
  let sn1 := if pts ≠ [] then sn.ignore pts else sn
  let snapped_start := sn1.getClosestPoint pos
  let snapped_end := sn1.getClosestPoint (pos + length)
  let sn2 := sn1.unIgnore
  let startDiff := qAbs (pos - snapped_start)
  let endDiff := qAbs (pos + length - snapped_end)
  if startDiff < endDiff ∧ 0 ≤ snapped_start then
    if startDiff < 10 then (snapped_start, sn2) else (-1, sn2)
  else
    if endDiff < 10 ∧ 0 ≤ snapped_end then (snapped_end - length, sn2) else (-1, sn2)

/-- Modelled from the spec: `TrackModel::getBlankSizeNearClip`, not under src/:
the size of the contiguous free space adjacent to the clip in the given
direction: up to the next clip of the track, `INT_MAX` when the space runs to
the end of the track; back to the previous clip, or to the start of the
track. -/
def TrackModel.getBlankSizeNearClip (s : TimelineState) (trackId clipId : Int) (after : Bool) :
    Int :=
  let c := s.clipObj clipId
  let others := (s.trackObj trackId).m_allClips.filter (fun c' => c' != clipId)
  if after then
    let starts := (others.map (fun c' => (s.clipObj c').m_position)).filter
      (fun p => decide (c.m_position + c.m_playtime ≤ p))
    match starts with
    | [] => INT_MAX
    | p :: ps => ps.foldl min p - (c.m_position + c.m_playtime)
  else
    let ends := (others.map (fun c' => (s.clipObj c').m_position + (s.clipObj c').m_playtime)).filter
      (fun e => decide (e ≤ c.m_position))
    c.m_position - ends.foldl max 0

/-- The points `suggestClipMove` has the snap index ignore: the in and out
points of the clips of the group being moved, or of the clip alone. -/
def TimelineModel.ignoredPoints (s : TimelineState) (clipId : Int) : List Int :=
  if s.m_groups.isInGroup clipId then
    (s.m_groups.getLeaves (s.m_groups.getRootId clipId)).foldr
      (fun current_clipId acc =>
        TimelineModel.getClipPosition s current_clipId ::
          (TimelineModel.getClipPosition s current_clipId +
            TimelineModel.getClipPlaytime s current_clipId - 1) :: acc) []
  else
    [TimelineModel.getClipPosition s clipId,
      TimelineModel.getClipPosition s clipId + TimelineModel.getClipPlaytime s clipId - 1]

/-- `TimelineModel::suggestClipMove`: the position suggested, the model and the
snap index after the call. -/
def TimelineModel.suggestClipMove (m : TimelineModel) (sn : SnapModel)
    (clipId trackId position : Int) : Int × TimelineModel × SnapModel :=
  let currentPos := TimelineModel.getClipPosition m.st clipId
  let currentTrack := TimelineModel.getClipTrackId m.st clipId
  if currentPos = position ∨ currentTrack ≠ trackId then (position, m, sn)
  else
    let ignored_pts := TimelineModel.ignoredPoints m.st clipId
    let b := TimelineModel.requestBestSnapPos sn position (m.st.clipObj clipId).m_playtime
      ignored_pts
    let position := if 0 ≤ b.1 then b.1 else position
    let r := TimelineModel.requestClipMoveFun m.st clipId trackId position false noop noop
    if r.ok then (position, { m with st := (r.undo r.s).2 }, b.2)
    else
      let after := decide (currentPos < position)
      let blank_length := TrackModel.getBlankSizeNearClip r.s trackId clipId after
      if blank_length < INT_MAX then
        (if after then currentPos + blank_length else currentPos - blank_length,
          { m with st := r.s }, b.2)
      else (position, { m with st := r.s }, b.2)

/-- The nearest eligible snap point to the start of the clip, as
`requestBestSnapPos` gets it (`snapped_start`). -/
def TimelineModel.snappedStart (sn : SnapModel) (pos : Int) (pts : List Int) : Int :=
  (if pts ≠ [] then sn.ignore pts else sn).getClosestPoint pos

/-- The nearest eligible snap point to the end of the clip, as
`requestBestSnapPos` gets it (`snapped_end`). -/
def TimelineModel.snappedEnd (sn : SnapModel) (pos length : Int) (pts : List Int) : Int :=
  (if pts ≠ [] then sn.ignore pts else sn).getClosestPoint (pos + length)

/-- The point is a snap point that is not excluded, neither before the call nor
by the points the call ignores. -/
def TimelineModel.snapEligible (sn : SnapModel) (pts : List Int) (p : Int) : Prop :=
  p ∈ sn.m_snaps ∧ p ∉ sn.m_ignore ∧ p ∉ pts

/-! ## Conditions used in the statements on resizing -/

/-- The clip plays a non-empty part of its source. -/
def ClipModel.valid (c : ClipModel) : Prop :=
  0 < c.m_playtime ∧ 0 ≤ c.m_in ∧ c.m_in + c.m_playtime ≤ c.m_sourceLength

/-- The size the snap index proposes to `requestItemResize` (`proposed_size`,
before the test `proposed_size < 0`). -/
def TimelineModel.proposedSize (proposeSize : TimelineState → Int → Int → Int → Bool → Int → Int)
    (s : TimelineState) (itemId size : Int) (right : Bool) : Int :=
  if TimelineModel.isClip s itemId then
    proposeSize s (TimelineModel.getClipPosition s itemId)
      (TimelineModel.getClipPosition s itemId + TimelineModel.getClipPlaytime s itemId - 1)
      size right 10
  else
    proposeSize s (s.compoObj itemId).m_position
      ((s.compoObj itemId).m_position + (s.compoObj itemId).m_playtime - 1) size right 10

/-- The item accepts a resize to `size`: the result of its `requestResize`. -/
def TimelineModel.resizeSucceeds (s : TimelineState) (itemId size : Int) (right : Bool) : Bool :=
  (if TimelineModel.isClip s itemId then ClipModel.requestResize s itemId size right noop noop
    else CompositionModel.requestResize s itemId size right noop noop).ok

/-- A snap index that proposes `target` when the size asked is within the
distance, and nothing otherwise. -/
def snapToSize (target : Int) : TimelineState → Int → Int → Int → Bool → Int → Int :=
  fun _ _ _ size _ maxSnapDist => if qAbs (size - target) < maxSnapDist then target else -1

/-! ## Well-formedness of the id containers and of the group forest -/

/-- The number of nodes of the forest whose id is above `n`. -/
def GroupsModel.above (g : GroupsModel) (n : Int) : Nat :=
  (g.m_nodes.filter (fun x => decide (n < x))).length

/-- The containers keyed by id are in ascending order, the tractor holds the
tracks of the sequence behind the background slot, a registered track is in the
sequence, a clip held by a track is registered, every registered clip has its
slot in the forest and is no group, and a node of the forest that has a parent
is a slot of the forest whose parent is a registered group with a greater id
(a group gets its id from the counter when it is created, after its
children). -/
structure Tidy (s : TimelineState) : Prop where
  tractor_eq : s.m_tractor = black_track :: s.m_allTracks
  table_sorted : s.m_iteratorTable.Sorted (· < ·)
  table_tracks : ∀ T ∈ s.m_iteratorTable, T ∈ s.m_allTracks
  clips_sorted : s.m_allClips.Sorted (· < ·)
  nodes_sorted : s.m_groups.m_nodes.Sorted (· < ·)
  groups_sorted : s.m_allGroups.Sorted (· < ·)
  clips_nodes : ∀ c ∈ s.m_allClips, c ∈ s.m_groups.m_nodes
  clips_not_groups : ∀ c ∈ s.m_allClips, c ∉ s.m_allGroups
  parent : ∀ n, s.m_groups.m_upLink n ≠ -1 →
    n ∈ s.m_groups.m_nodes ∧ s.m_groups.m_upLink n ∈ s.m_groups.m_nodes ∧
      s.m_groups.m_upLink n ∈ s.m_allGroups ∧ n < s.m_groups.m_upLink n
  nodes_nonneg : ∀ n ∈ s.m_groups.m_nodes, 0 ≤ n

/-- The clips of every track are held in increasing order of id and no two of
them overlap. -/
structure Lanes (s : TimelineState) : Prop where
  sorted : ∀ T, ((s.trackObj T).m_allClips).Sorted (· < ·)
  disjoint : ∀ T, ∀ c ∈ (s.trackObj T).m_allClips, ∀ c' ∈ (s.trackObj T).m_allClips, c ≠ c' →
    intervalsOverlap (s.clipObj c).m_position (s.clipObj c).m_playtime
      (s.clipObj c').m_position (s.clipObj c').m_playtime = false

/-- The state `requestClipDeletion` leaves when its steps succeed: the clip is
out of its track, if it had one, and deregistered. -/
def TimelineModel.clipDeleted (s : TimelineState) (c : Int) : TimelineState :=
  (TimelineModel.deregisterClip_lambda c
    (if (s.clipObj c).m_currentTrackId ≠ -1 then
      TrackModel.unplace s (s.clipObj c).m_currentTrackId c true
    else s)).2

/-- The closures `requestClipDeletion` hands back when its steps succeed, from
the ones it was given. -/
def TimelineModel.clipDeletionClosures (s : TimelineState) (c : Int) (undo redo : Fun) :
    Fun × Fun :=
  let p :=
    if (s.clipObj c).m_currentTrackId ≠ -1 then
      UPDATE_UNDO_REDO (TrackModel.requestClipDeletion_lambda (s.clipObj c).m_currentTrackId c true)
        (TrackModel.requestClipInsertion_lambda (s.clipObj c).m_currentTrackId c
          (s.clipObj c).m_position true) undo redo
    else (undo, redo)
  UPDATE_UNDO_REDO (TimelineModel.deregisterClip_lambda c) (TimelineModel.registerClip_lambda c)
    p.1 p.2

/-- The state `s'` comes from `s` by removing groups and clips: the tracks are
the same, links of the forest are kept or cut, nothing enters a container, and
a clip that is still registered is as it was. -/
structure Shrunk (s s' : TimelineState) : Prop where
  tracks : s'.m_allTracks = s.m_allTracks
  table : s'.m_iteratorTable = s.m_iteratorTable
  tractor : s'.m_tractor = s.m_tractor
  links : ∀ n, s'.m_groups.m_upLink n = s.m_groups.m_upLink n ∨ s'.m_groups.m_upLink n = -1
  nodes : ∀ n ∈ s'.m_groups.m_nodes, n ∈ s.m_groups.m_nodes
  groups : ∀ n ∈ s'.m_allGroups, n ∈ s.m_allGroups
  clips : ∀ c ∈ s'.m_allClips, c ∈ s.m_allClips
  held : ∀ T c, c ∈ (s'.trackObj T).m_allClips → c ∈ (s.trackObj T).m_allClips
  placed : ∀ c, (s'.clipObj c).m_currentTrackId = (s.clipObj c).m_currentTrackId ∨
    (s'.clipObj c).m_currentTrackId = -1
  kept : ∀ c ∈ s'.m_allClips, s'.clipObj c = s.clipObj c ∧
    ∀ T, c ∈ (s.trackObj T).m_allClips → c ∈ (s'.trackObj T).m_allClips

/-- The state `x` is `s0`, whatever the view counter, except that nodes that
are roots in `s` may be roots in `x` as well. -/
def Pert (s0 s x : TimelineState) : Prop :=
  (∃ v, { x with m_groups := s0.m_groups } = s0.withView v) ∧
  x.m_groups.m_nodes = s0.m_groups.m_nodes ∧
  ∀ n, x.m_groups.m_upLink n = s0.m_groups.m_upLink n ∨
    (s.m_groups.m_upLink n = -1 ∧ x.m_groups.m_upLink n = -1)

/-- Run on the state the transaction started from, the accumulated undo leaves
that state. -/
def Absorb (s0 s : TimelineState) (undo : Fun) : Prop :=
  ∀ x, Pert s0 s x → ∃ b v, undo x = (b, s0.withView v)

/-- The transaction that has led from `s0` to the result `r` went through: the
model is well formed, the closures of `r` lead back to `s0` and forth, and the
state has only lost groups and clips. -/
def TransOK (s0 : TimelineState) (r : Res) : Prop :=
  r.ok = true ∧ Tidy r.s ∧ Lanes r.s ∧ Inverse s0 r.s r.undo r.redo ∧
    Absorb s0 r.s r.undo ∧ Shrunk s0 r.s

/-- Scenario C: three tracks (ids 0, 1, 2); on the middle one a clip of 100 at
0 (id 3), a clip of 20 at 100 (id 4) and a clip of 20 at 200 (id 5); clips 3
and 4 are grouped (group 6). -/
def scenarioC : TimelineModel :=
  runAll scenarioBin noSnap {}
    [.trackInsertion (-1), .trackInsertion (-1), .trackInsertion (-1),
     .clipInsertion "long" 1 0 true, .clipInsertion "short" 1 100 true,
     .clipInsertion "short" 1 200 true, .clipsGroup [3, 4]]

/-- Scenario C with a desynchronised clip, a state no request produces: track 1
still lists clip 4, but the clip names track 2, which does not hold it. -/
def scenarioDesync : TimelineModel :=
  { scenarioC with
    st := { scenarioC.st with
      clipObj := setAt scenarioC.st.clipObj 4
        { scenarioC.st.clipObj 4 with m_currentTrackId := 2 } } }

/-- Node `n` lies under `top` in the forest of parent links `up`: it is `top`
or a descendant of `top`. -/
inductive Under (up : Int → Int) (top : Int) : Int → Prop
  | self : Under up top top
  | step (n : Int) : up n ≠ -1 → Under up top (up n) → Under up top n

/-- Every node with a parent is a registered clip or a registered group, and
every registered group is a node of the forest and has a child. -/
structure GroupsFull (s : TimelineState) : Prop where
  kind : ∀ n, s.m_groups.m_upLink n ≠ -1 → n ∈ s.m_allClips ∨ n ∈ s.m_allGroups
  full : ∀ g ∈ s.m_allGroups, s.m_groups.getDirectChildren g ≠ []
  registered : ∀ g ∈ s.m_allGroups, g ∈ s.m_groups.m_nodes

/-- The state of the breadth-first exploration of `requestGroupDeletion` from
the root `R` of the forest of `s0`: `s` is the current state, `Q` the queue and
`A` the clips collected.  Below `R`, a node whose parent has been removed is
collected if it is a clip, and queued or removed itself otherwise; the queued
nodes are groups without parent; links to nodes that are still there are
intact; only nodes under `R` have been removed. -/
structure BFS (s0 : TimelineState) (R : Int) (s : TimelineState) (Q A : List Int) : Prop where
  root : R ∈ Q ∨ R ∉ s.m_groups.m_nodes
  reach : ∀ n, Under s0.m_groups.m_upLink R n → s0.m_groups.m_upLink n ≠ -1 →
    s0.m_groups.m_upLink n ∉ s.m_groups.m_nodes →
    (n ∈ s0.m_allClips → n ∈ A) ∧ (n ∉ s0.m_allClips → n ∈ Q ∨ n ∉ s.m_groups.m_nodes)
  queue : ∀ q ∈ Q, q ∈ s.m_allGroups ∧ q ∈ s.m_groups.m_nodes ∧ s.m_groups.m_upLink q = -1 ∧
    Under s0.m_groups.m_upLink R q
  queue_nodup : Q.Nodup
  clips : ∀ a ∈ A, a ∈ s0.m_allClips ∧ Under s0.m_groups.m_upLink R a ∧
    s.m_groups.m_upLink a = -1
  clips_sorted : A.Sorted (· < ·)
  gone : ∀ n ∈ s0.m_groups.m_nodes, n ∉ s.m_groups.m_nodes →
    Under s0.m_groups.m_upLink R n ∧ n ∈ s0.m_allGroups ∧ n ∉ s.m_allGroups
  alive : ∀ n, s0.m_groups.m_upLink n ≠ -1 → s0.m_groups.m_upLink n ∈ s.m_groups.m_nodes →
    s.m_groups.m_upLink n = s0.m_groups.m_upLink n
  groups_alive : ∀ g ∈ s0.m_allGroups, g ∈ s.m_groups.m_nodes → g ∈ s.m_allGroups
  frame : s.m_allClips = s0.m_allClips ∧ s.clipObj = s0.clipObj ∧ s.trackObj = s0.trackObj ∧
    s.m_allCompositions = s0.m_allCompositions ∧ s.compoObj = s0.compoObj

/-- The state `s'` is `s` without the clips of `l`: they are deregistered and
out of their tracks, and nothing else has changed. -/
structure ClipsDeleted (s s' : TimelineState) (l : List Int) : Prop where
  clips : ∀ x, x ∈ s'.m_allClips ↔ x ∈ s.m_allClips ∧ x ∉ l
  objects : ∀ x, x ∉ l → s'.clipObj x = s.clipObj x
  unplaced : ∀ x ∈ l, (s'.clipObj x).m_currentTrackId = -1 ∧
    ((s.clipObj x).m_currentTrackId ≠ -1 →
      x ∉ (s'.trackObj (s.clipObj x).m_currentTrackId).m_allClips)
  held : ∀ T x, x ∉ l → (x ∈ (s'.trackObj T).m_allClips ↔ x ∈ (s.trackObj T).m_allClips)
  links : s'.m_groups.m_upLink = s.m_groups.m_upLink
  nodes : ∀ x, x ∈ s'.m_groups.m_nodes ↔ x ∈ s.m_groups.m_nodes ∧ x ∉ l
  groups : s'.m_allGroups = s.m_allGroups
  compos : s'.m_allCompositions = s.m_allCompositions ∧ s'.compoObj = s.compoObj
  tracks : s'.m_allTracks = s.m_allTracks ∧ s'.m_iteratorTable = s.m_iteratorTable ∧
    s'.m_tractor = s.m_tractor

/-- The group rooted at `R` in `s` has been deleted in `s'`: every registered
group under `R` is gone, every leaf under `R` is deregistered and out of its
track, every other item is as it was, the forest outside the subtree of `R` is as
it was, and so are the compositions and the tracks. -/
def GroupDeleted (s s' : TimelineState) (R : Int) : Prop :=
  (∀ g ∈ s.m_allGroups, s.m_groups.below R s.m_groups.m_nodes.length g = true →
    TimelineModel.isGroup s' g = false ∧ g ∉ s'.m_groups.m_nodes) ∧
  (∀ c ∈ s.m_groups.getLeaves R,
    TimelineModel.isClip s' c = false ∧ TimelineModel.getClipTrackId s' c = -1 ∧
    (TimelineModel.getClipTrackId s c ≠ -1 →
      c ∉ (s'.trackObj (TimelineModel.getClipTrackId s c)).m_allClips)) ∧
  (∀ x, x ∉ s.m_groups.getLeaves R →
    TimelineModel.isClip s' x = TimelineModel.isClip s x ∧ s'.clipObj x = s.clipObj x ∧
    ∀ T, (x ∈ (s'.trackObj T).m_allClips ↔ x ∈ (s.trackObj T).m_allClips)) ∧
  (∀ n, s.m_groups.below R s.m_groups.m_nodes.length n = false →
    s'.m_groups.m_upLink n = s.m_groups.m_upLink n ∧
    (n ∈ s'.m_groups.m_nodes ↔ n ∈ s.m_groups.m_nodes) ∧
    TimelineModel.isGroup s' n = TimelineModel.isGroup s n) ∧
  s'.m_allCompositions = s.m_allCompositions ∧ s'.compoObj = s.compoObj ∧
  s'.m_allTracks = s.m_allTracks ∧ s'.m_iteratorTable = s.m_iteratorTable

/-- A nested group: two tracks (ids 0, 1); clips 2 (100 at 0), 3 (20 at 100)
and 5 (20 at 200) on track 0, clip 4 (20 at 0) on track 1; clips 2 and 3 form
group 6, and group 6 with clip 4 forms group 7. -/
def scenarioNested : TimelineModel :=
  runAll scenarioBin noSnap {}
    [.trackInsertion (-1), .trackInsertion (-1),
     .clipInsertion "long" 0 0 true, .clipInsertion "short" 0 100 true,
     .clipInsertion "short" 1 0 true, .clipInsertion "short" 0 200 true,
     .clipsGroup [2, 3], .clipsGroup [2, 4]]

/-! ## Compositions: A-track and the field of the backing engine -/

namespace TimelineModel

/-- `TimelineModel::getPreviousTrackId`: the track before `trackId` in
`m_allTracks`, `-1` when `trackId` is the first one. -/
def getPreviousTrackId (s : TimelineState) (trackId : Int) : Int :=
  let it := s.m_allTracks.indexOf trackId
  if it = 0 then -1 else s.m_allTracks.getD (it - 1) (-1)

/-- `TimelineModel::getCompositionPosition`. -/
def getCompositionPosition (s : TimelineState) (compoId : Int) : Int :=
  (s.compoObj compoId).m_position

/-- `TimelineModel::getCompositionPlaytime`. -/
def getCompositionPlaytime (s : TimelineState) (compoId : Int) : Int :=
  (s.compoObj compoId).m_playtime

/-- Modelled from the spec: `CompositionModel::getATrack`, not under src/. -/
def getATrack (s : TimelineState) (compoId : Int) : Int := (s.compoObj compoId).a_track

/-- Modelled from the spec: `CompositionModel::setATrack`, not under src/. -/
def setATrack (s : TimelineState) (compoId trackId : Int) : TimelineState :=
  { s with compoObj := setAt s.compoObj compoId { s.compoObj compoId with a_track := trackId } }

/-- `TimelineModel::unplantComposition`.  The engine calls are modelled from
the spec: the transition is detached from the field, and
`disconnect_all_producers` counts at least one producer exactly when the
transition was attached. -/
def unplantComposition (compoId : Int) : Fun :=
  fun s =>
    (s.m_field.any (fun p => p.id == compoId),
      { s with m_field := s.m_field.filter (fun p => p.id != compoId) })

/-- Modelled from the spec: `Mlt::Field::plant_transition`, not under src/: the
transition is attached with the given A-track and B-track indices; the result
is 0, the engine's code for success. -/
def plant_transition (s : TimelineState) (compoId aTrack bTrack : Int) : Int × TimelineState :=
  (0, { s with m_field := s.m_field ++ [{ id := compoId, a_track := aTrack, b_track := bTrack }] })

/-- The first loop of `replantCompositions`, over `m_allCompositions`: the
pairs (engine index of the track, id) of the compositions that are placed and
have an A-track are collected, and each of them but `currentCompo` is
unplanted. -/
def replantScan (currentCompo : Int) :
    List Int → List (Int × Int) → TimelineState → List (Int × Int) × TimelineState
  | [], compos, s => (compos, s)
  | k :: ks, compos, s =>
    let trackId := (s.compoObj k).m_currentTrackId
    if trackId = -1 ∨ getATrack s k = -1 then replantScan currentCompo ks compos s
    else
      let trackPos := getTrackMltIndex s trackId
      let s1 := if k ≠ currentCompo then (unplantComposition k s).2 else s
      replantScan currentCompo ks (compos ++ [(trackPos, k)]) s1

/-- The loop `for (const auto &compo : compos)` of `replantCompositions`, with
its early `return false`. -/
def replantLoop : List (Int × Int) → TimelineState → Bool × TimelineState
  | [], s => (true, s)
  | compo :: rest, s =>
    let aTrack := getTrackMltIndex s (getATrack s compo.2)
    let r := plant_transition s compo.2 aTrack compo.1
    if r.1 ≠ 0 then (false, r.2) else replantLoop rest r.2

/-- `TimelineModel::replantCompositions`.  `std::sort` is rendered by an
insertion sort with the same comparator. -/
def replantCompositions (currentCompo : Int) : Fun :=
  fun s =>
    let sc := replantScan currentCompo s.m_allCompositions [] s
    let compos := sc.1.insertionSort (fun a b => a.1 > b.1)
    let r := replantLoop compos sc.2
    if r.1 then (true, r.2.notify true) else (false, r.2)

end TimelineModel

/-- Modelled from the spec: `TrackModel::requestCompositionInsertion`, not
under src/: runs the insertion step and, on success, chains it with the
deletion step as its reverse. -/
def TrackModel.requestCompositionInsertion (s : TimelineState) (trackId compoId position : Int)
    (updateView : Bool) (undo redo : Fun) : Res :=
  let operation := TrackModel.requestCompositionInsertion_lambda trackId compoId position updateView
  let r := operation s
  if r.1 then
    let reverse := TrackModel.requestCompositionDeletion_lambda trackId compoId updateView
    let p := UPDATE_UNDO_REDO operation reverse undo redo
    { ok := true, s := r.2, undo := p.1, redo := p.2 }
  else { ok := false, s := r.2, undo := undo, redo := redo }

/-- Modelled from the spec: `CompositionModel::construct`, not under src/:
builds the composition object under the given id, unplaced and without
A-track, with the initial length `initialLength` of the transition, and
registers it. -/
def CompositionModel.construct (initialLength : String → Int) (s : TimelineState)
    (transitionId : String) (id : Int) : TimelineState :=
  TimelineModel.registerComposition
    { s with
      compoObj := setAt s.compoObj id ({ m_id := id, m_playtime := initialLength transitionId }) }
    id

namespace TimelineModel

/-- The closure `delete_operation` / `insert_reverse` of
`requestCompositionMove`: unplant, and on success forget the A-track. -/
def unplantAndClear (compoId : Int) : Fun :=
  fun s =>
    let res := unplantComposition compoId s
    if res.1 then (true, setATrack res.2 compoId (-1)) else (false, res.2)

/-- The closure `delete_reverse` / `insert_operation` of
`requestCompositionMove`: set the A-track and replant. -/
def setAndReplant (compoId aTrack : Int) : Fun :=
  fun s => replantCompositions compoId (setATrack s compoId aTrack)

/-- `TimelineModel::requestCompositionMove(int, int, int, bool, Fun &, Fun &)`. -/
def requestCompositionMoveFun (s : TimelineState) (compoId trackId position : Int)
    (updateView : Bool) (undo redo : Fun) : Res :=
  let previousTrack := getPreviousTrackId s trackId
  if previousTrack = -1 then { ok := false, s := s, undo := undo, redo := redo }
  else
    let local_undo : Fun := noop
    let local_redo : Fun := noop
    let old_trackId := getCompositionTrackId s compoId
    let r1 : Res :=
      if old_trackId ≠ -1 then
        let delete_operation : Fun :=
          if old_trackId ≠ trackId then unplantAndClear compoId else noop
        let oldAtrack := getATrack s compoId
        let delete_reverse : Fun :=
          if old_trackId ≠ trackId then setAndReplant compoId oldAtrack else noop
        let d := delete_operation s
        if d.1 then
          let p := UPDATE_UNDO_REDO delete_operation delete_reverse local_undo local_redo
          TrackModel.requestCompositionDeletion d.2 old_trackId compoId updateView p.1 p.2
        else { ok := false, s := d.2, undo := local_undo, redo := local_redo }
      else { ok := true, s := s, undo := local_undo, redo := local_redo }
    if r1.ok = false then
      { ok := false, s := (r1.undo r1.s).2, undo := undo, redo := redo }
    else
      let r2 := TrackModel.requestCompositionInsertion r1.s trackId compoId position updateView
        r1.undo r1.redo
      let r3 : Res :=
        if r2.ok then
          let insert_operation : Fun :=
            if old_trackId ≠ trackId then setAndReplant compoId previousTrack else noop
          let insert_reverse : Fun :=
            if old_trackId ≠ trackId then unplantAndClear compoId else noop
          let o := insert_operation r2.s
          if o.1 then
            let p := UPDATE_UNDO_REDO insert_operation insert_reverse r2.undo r2.redo
            { ok := true, s := o.2, undo := p.1, redo := p.2 }
          else { ok := false, s := o.2, undo := r2.undo, redo := r2.redo }
        else r2
      if r3.ok = false then
        { ok := false, s := (r3.undo r3.s).2, undo := undo, redo := redo }
      else
        let p := UPDATE_UNDO_REDO r3.redo r3.undo undo redo
        { ok := true, s := r3.s, undo := p.1, redo := p.2 }

/-- `TimelineModel::requestCompositionInsertion(const QString &, int, int, int, int &, Fun &, Fun &)`. -/
def requestCompositionInsertionFun (initialLength : String → Int) (s : TimelineState)
    (transitionId : String) (trackId position length : Int) (undo redo : Fun) : ResId :=
  let n := getNextId s
  let compositionId := n.1
  let local_undo := deregisterComposition_lambda compositionId
  let s1 := CompositionModel.construct initialLength n.2 transitionId compositionId
  let local_redo := registerComposition_lambda compositionId
  let r := requestCompositionMoveFun s1 compositionId trackId position true local_undo local_redo
  let r' : Res :=
    if r.ok then requestItemResizeFun r.s compositionId length true true r.undo r.redo else r
  if r'.ok = false then
    { ok := false, s := (r'.undo r'.s).2, id := -1, undo := undo, redo := redo }
  else
    let p := UPDATE_UNDO_REDO r'.redo r'.undo undo redo
    { ok := true, s := r'.s, id := compositionId, undo := p.1, redo := p.2 }

/-- `TimelineModel::requestCompositionInsertion(const QString &, int, int, int, int &, bool)`. -/
def requestCompositionInsertion (initialLength : String → Int) (m : TimelineModel)
    (transitionId : String) (trackId position length : Int) (logUndo : Bool) :
    Bool × Int × TimelineModel :=
  let r := requestCompositionInsertionFun initialLength m.st transitionId trackId position length
    noop noop
  if r.ok ∧ logUndo then (r.ok, r.id, PUSH_UNDO m (r.s.notify true) r.undo r.redo)
  else (r.ok, r.id, { m with st := r.s.notify true })

/-- The size `requestItemResizeToPos` asks for; the sums and differences are
those of the 32-bit `int` of the source. -/
def resizeToPosSize (s : TimelineState) (itemId position : Int) (right : Bool) : Int :=
  let inPoint :=
    if isClip s itemId then getClipPosition s itemId else getCompositionPosition s itemId
  let outPoint :=
    if isClip s itemId then toInt32 (toInt32 (inPoint + getClipPlaytime s itemId) - 1)
    else toInt32 (toInt32 (inPoint + getCompositionPlaytime s itemId) - 1)
  if !right then (if position < outPoint then toInt32 (outPoint - position) else 0)
  else (if position > inPoint then toInt32 (position - inPoint) else 0)

/-- `TimelineModel::requestItemResizeToPos`. -/
def requestItemResizeToPos (m : TimelineModel) (itemId position : Int) (right : Bool) :
    Bool × TimelineModel :=
  let size := resizeToPosSize m.st itemId position right
  let r := requestItemResizeFun m.st itemId size right true noop noop
  if r.ok then (true, PUSH_UNDO m r.s r.undo r.redo)
  else (false, { m with st := r.s })

end TimelineModel

/-- The initial length of a transition in the scenarios. -/
def scenarioLength (_transitionId : String) : Int := 1

/-- Three tracks (ids 0, 1, 2) and a composition of 10 at 0 on the middle one
(id 3), whose A-track is track 0. -/
def scenarioCompo : TimelineModel :=
  (TimelineModel.requestCompositionInsertion scenarioLength
    (runAll scenarioBin noSnap {}
      [.trackInsertion (-1), .trackInsertion (-1), .trackInsertion (-1)])
    "composite" 1 0 10 true).2.2

/-- Scenario `scenarioCompo` with two more compositions: one of 10 at 100 on
track 1 (id 4) and one of 10 at 0 on track 2 (id 5). -/
def scenarioCompos : TimelineModel :=
  (TimelineModel.requestCompositionInsertion scenarioLength
    (TimelineModel.requestCompositionInsertion scenarioLength scenarioCompo
      "composite" 1 100 10 true).2.2
    "composite" 2 0 10 true).2.2

/-! ## Conditions used in the statements on the move suggestion -/

/-- The candidate position of `suggestClipMove`: the requested position, or the
snapped one when `requestBestSnapPos` found a snap. -/
def TimelineModel.suggestCandidate (s : TimelineState) (sn : SnapModel)
    (clipId position : Int) : Int :=
  if 0 ≤ (TimelineModel.requestBestSnapPos sn position (s.clipObj clipId).m_playtime
      (TimelineModel.ignoredPoints s clipId)).1 then
    (TimelineModel.requestBestSnapPos sn position (s.clipObj clipId).m_playtime
      (TimelineModel.ignoredPoints s clipId)).1
  else position

/-- The clip fits on the track at `position`: the interval
`[position, position + playtime)` overlaps no other clip held by the track. -/
def TimelineModel.fitsOn (s : TimelineState) (clipId trackId position : Int) : Bool :=
  ((s.trackObj trackId).m_allClips.filter (fun c => c != clipId)).all
    (fun c => !intervalsOverlap position (s.clipObj clipId).m_playtime
      (s.clipObj c).m_position (s.clipObj c).m_playtime)

/-- The positions of the clips of the track are non-negative values of an
`int`. -/
def TimelineModel.positionsInRange (s : TimelineState) (trackId : Int) : Prop :=
  ∀ c ∈ (s.trackObj trackId).m_allClips,
    0 ≤ (s.clipObj c).m_position ∧ (s.clipObj c).m_position ≤ INT_MAX

/-! ## Conditions used in the statements on compositions -/

/-- The composition is placed on a track and has an A-track: the condition
under which `replantCompositions` handles it. -/
def TimelineModel.replantable (s : TimelineState) (compoId : Int) : Bool :=
  decide ((s.compoObj compoId).m_currentTrackId ≠ -1) &&
    decide (TimelineModel.getATrack s compoId ≠ -1)

/-- The composition may enter the track at `position`: it is unplaced and its
interval is free of compositions on the track. -/
def TrackModel.canInsertCompo (s : TimelineState) (trackId compoId position : Int) : Bool :=
  decide ((s.compoObj compoId).m_currentTrackId = -1) &&
    TrackModel.isFreeCompo s trackId position (s.compoObj compoId).m_playtime

/-- The bookkeeping of a successful composition insertion on a track. -/
def TrackModel.placeCompo (s : TimelineState) (trackId compoId position : Int)
    (updateView : Bool) : TimelineState :=
  { s with
    trackObj := setAt s.trackObj trackId
      { s.trackObj trackId with
        m_allCompositions := insertKey compoId (s.trackObj trackId).m_allCompositions }
    compoObj := setAt s.compoObj compoId
      { s.compoObj compoId with m_currentTrackId := trackId, m_position := position }
    viewNotifications := s.viewNotifications + (if updateView then 1 else 0) }

/-- The bookkeeping of a successful composition deletion on a track. -/
def TrackModel.unplaceCompo (s : TimelineState) (trackId compoId : Int) (updateView : Bool) :
    TimelineState :=
  { s with
    trackObj := setAt s.trackObj trackId
      { s.trackObj trackId with
        m_allCompositions := eraseKey compoId (s.trackObj trackId).m_allCompositions }
    compoObj := setAt s.compoObj compoId { s.compoObj compoId with m_currentTrackId := -1 }
    viewNotifications := s.viewNotifications + (if updateView then 1 else 0) }

/-- The composition is attached in the field of the engine. -/
def TimelineModel.isPlanted (s : TimelineState) (compoId : Int) : Bool :=
  s.m_field.any (fun p => p.id == compoId)

/-- The composition fits on its track: its interval overlaps no other
composition held by the track it names. -/
def TimelineModel.compoFitsBack (s : TimelineState) (compoId : Int) : Prop :=
  ∀ c ∈ (s.trackObj (s.compoObj compoId).m_currentTrackId).m_allCompositions, c ≠ compoId →
    intervalsOverlap (s.compoObj compoId).m_position (s.compoObj compoId).m_playtime
      (s.compoObj c).m_position (s.compoObj c).m_playtime = false

/-! ## Consistency check against the backing engine -/

/-- Modelled from the spec: a service in the chain of the field of the backing
engine, which is not under src/: a transition with its B-track and A-track
indices and its in and out points, or a service of another type. -/
inductive Service where
  | transition (b_track a_track tIn tOut : Int)
  | other
  deriving DecidableEq

/-- Modelled from the spec: `CompositionModel::getIn`, not under src/: the
in-point of the transition, the position of the composition. -/
def CompositionModel.getIn (c : CompositionModel) : Int := c.m_position

/-- Modelled from the spec: `CompositionModel::getOut`, not under src/: the
out-point of the transition, the last time unit the composition covers. -/
def CompositionModel.getOut (c : CompositionModel) : Int := c.m_position + c.m_playtime - 1

namespace TimelineModel

/-- The condition under which `checkConsistency` takes the composition for the
transition it looks at. -/
def matchesTransition (s : TimelineState) (currentTrack currentATrack currentIn currentOut : Int)
    (compoId : Int) : Bool :=
  decide (getTrackMltIndex s (getCompositionTrackId s compoId) = currentTrack) &&
    decide (getTrackMltIndex s (getATrack s compoId) = currentATrack) &&
    decide ((s.compoObj compoId).getIn = currentIn) &&
    decide ((s.compoObj compoId).getOut = currentOut)

/-- The inner loop of `checkConsistency`: the first composition of
`remaining_compo` that matches, `-1` when there is none. -/
def findMatch (s : TimelineState) (remaining_compo : List Int)
    (currentTrack currentATrack currentIn currentOut : Int) : Int :=
  match remaining_compo.find? (matchesTransition s currentTrack currentATrack currentIn currentOut)
  with
  | some compoId => compoId
  | none => -1

/-- The `while (nextservice != nullptr)` loop of `checkConsistency` over the
chain of services, followed by the test that no composition remains. -/
def checkServices (s : TimelineState) : List Service → List Int → Bool
  | [], remaining_compo => remaining_compo.isEmpty
  | Service.other :: rest, remaining_compo => checkServices s rest remaining_compo
  | Service.transition currentTrack currentATrack currentIn currentOut :: rest, remaining_compo =>
    let foundId := findMatch s remaining_compo currentTrack currentATrack currentIn currentOut
    if foundId = -1 then false
    else checkServices s rest (eraseKey foundId remaining_compo)

/-- `TimelineModel::checkConsistency`.  `TrackModel::checkConsistency`, which is
not under src/, and the chain of services of the field of the engine are
parameters. -/
def checkConsistency (trackCheck : TimelineState → Int → Bool) (services : List Service)
    (s : TimelineState) : Bool :=
  if s.m_iteratorTable.all (trackCheck s) = false then false
  else
    let remaining_compo := s.m_allCompositions.filter
      (fun k => decide (getCompositionTrackId s k ≠ -1) && decide (getATrack s k ≠ -1))
    checkServices s services remaining_compo

/-- The 4-tuple of a composition that `checkConsistency` compares: the engine
index of its own track, the engine index of its A-track, its in-point and its
out-point. -/
def compoTuple (s : TimelineState) (compoId : Int) : Int × Int × Int × Int :=
  (getTrackMltIndex s (getCompositionTrackId s compoId), getTrackMltIndex s (getATrack s compoId),
    (s.compoObj compoId).getIn, (s.compoObj compoId).getOut)

/-- The 4-tuples of the transitions in a chain of services. -/
def transitionTuples : List Service → List (Int × Int × Int × Int)
  | [] => []
  | Service.other :: rest => transitionTuples rest
  | Service.transition b a i o :: rest => (b, a, i, o) :: transitionTuples rest

/-- The chain of services of the field of the state: its planted transitions,
each with the in and out points of the composition object it is. -/
def fieldServices (s : TimelineState) : List Service :=
  s.m_field.map (fun p =>
    Service.transition p.b_track p.a_track (s.compoObj p.id).getIn (s.compoObj p.id).getOut)

end TimelineModel

/-! ## Conditions used in the statements on the order of a group move -/

theorem setAt_same {α : Type} (f : Int → α) (k : Int) (v : α) : setAt f k v k = v := by
  simp [setAt]

theorem setAt_other {α : Type} (f : Int → α) (k i : Int) (v : α) (h : i ≠ k) :
    setAt f k v i = f i := by
  simp [setAt, h]

theorem setAt_setAt {α : Type} (f : Int → α) (k : Int) (v w : α) :
    setAt (setAt f k v) k w = setAt f k w := by
  funext i; by_cases h : i = k <;> simp [setAt, h]

theorem setAt_eq_self {α : Type} (f : Int → α) (k : Int) (v : α) (h : f k = v) :
    setAt f k v = f := by
  funext i; by_cases hi : i = k
  · subst hi; simp [setAt, h]
  · simp [setAt, hi]

theorem mem_eraseKey {k c : Int} {l : List Int} : c ∈ eraseKey k l ↔ c ∈ l ∧ c ≠ k := by
  simp [eraseKey]

theorem mem_insertKey {k c : Int} {l : List Int} : c ∈ insertKey k l ↔ c = k ∨ c ∈ l := by
  unfold insertKey
  split
  · constructor
    · intro h; exact Or.inr h
    · rintro (h | h)
      · subst h; assumption
      · exact h
  · simp [List.mem_orderedInsert]

theorem eraseKey_of_not_mem {k : Int} {l : List Int} (h : k ∉ l) : eraseKey k l = l := by
  unfold eraseKey
  rw [List.filter_eq_self]
  intro a ha
  have : a ≠ k := fun e => h (e ▸ ha)
  simpa using this

theorem eraseKey_orderedInsert {k : Int} {l : List Int} (h : k ∉ l) :
    eraseKey k (l.orderedInsert (· ≤ ·) k) = l := by
  induction l with
  | nil => simp [eraseKey]
  | cons a t ih =>
    have hne : a ≠ k := fun e => h (by simp [e])
    have ht : k ∉ t := fun e => h (by simp [e])
    by_cases hle : k ≤ a
    · have hcons : eraseKey k (a :: t) = a :: t := eraseKey_of_not_mem h
      simp only [List.orderedInsert, hle, if_true]
      unfold eraseKey at hcons ⊢
      simp [List.filter_cons, hcons]
    · simp only [List.orderedInsert, hle, if_false]
      have := ih ht
      unfold eraseKey at this ⊢
      simp [List.filter_cons, hne, this]

theorem eraseKey_insertKey {k : Int} {l : List Int} (h : k ∉ l) :
    eraseKey k (insertKey k l) = l := by
  simp [insertKey, h, eraseKey_orderedInsert]

theorem length_insertKey {k : Int} {l : List Int} (h : k ∉ l) :
    (insertKey k l).length = l.length + 1 := by
  simp [insertKey, h, List.orderedInsert_length]

/-! ## Claims -/

/-- C9: a `requestClipMove` of a clip to the track and position it already has
returns true and leaves the whole model as it is: state (so no track operation
ran and no notification was counted) and undo stack, for every `updateView`
and `logUndo`, grouped or not. -/
theorem C9_requestClipMove_same_place (m : TimelineModel) (clipId : Int)
    (updateView logUndo : Bool) :
    TimelineModel.requestClipMove m clipId (TimelineModel.getClipTrackId m.st clipId)
      (TimelineModel.getClipPosition m.st clipId) updateView logUndo = (true, m) := by
  simp [TimelineModel.requestClipMove, TimelineModel.getClipPosition]


theorem sorted_insertKey {k : Int} {l : List Int} (h : l.Sorted (· < ·)) :
    (insertKey k l).Sorted (· < ·) := by
  unfold insertKey
  split
  · exact h
  · rename_i hk
    induction l with
    | nil => simp
    | cons a t ih =>
      have hne : k ≠ a := fun e => hk (by simp [e])
      have hkt : k ∉ t := fun e => hk (by simp [e])
      have ht : t.Sorted (· < ·) := (List.sorted_cons.mp h).2
      have ha : ∀ b ∈ t, a < b := (List.sorted_cons.mp h).1
      by_cases hle : k ≤ a
      · simp only [List.orderedInsert, hle, if_true]
        refine List.sorted_cons.mpr ⟨?_, h⟩
        intro b hb
        have hka : k < a := lt_of_le_of_ne hle hne
        rcases List.mem_cons.mp hb with e | e
        · exact e ▸ hka
        · exact lt_trans hka (ha b e)
      · simp only [List.orderedInsert, hle, if_false]
        refine List.sorted_cons.mpr ⟨?_, ih ht hkt⟩
        intro b hb
        rcases (List.mem_orderedInsert (r := (· ≤ ·))).mp hb with e | e
        · exact e ▸ lt_of_not_le hle
        · exact ha b e

theorem sorted_eraseKey {k : Int} {l : List Int} (h : l.Sorted (· < ·)) :
    (eraseKey k l).Sorted (· < ·) := by
  unfold eraseKey
  exact List.Pairwise.filter _ h

theorem insertKey_eraseKey {k : Int} {l : List Int} (h : l.Sorted (· < ·)) (hk : k ∈ l) :
    insertKey k (eraseKey k l) = l := by
  have hnot : k ∉ eraseKey k l := by simp [mem_eraseKey]
  simp only [insertKey, hnot, if_false]
  induction l with
  | nil => simp at hk
  | cons a t ih =>
    have ht : t.Sorted (· < ·) := (List.sorted_cons.mp h).2
    have ha : ∀ b ∈ t, a < b := (List.sorted_cons.mp h).1
    by_cases hak : a = k
    · subst hak
      have hnt : a ∉ t := fun e => lt_irrefl a (ha a e)
      have h1 : eraseKey a (a :: t) = t := by
        have := eraseKey_of_not_mem hnt
        unfold eraseKey at this ⊢
        simp [List.filter_cons, this]
      rw [h1]
      cases t with
      | nil => simp
      | cons b u =>
        have hab : a < b := ha b (by simp)
        simp [List.orderedInsert, le_of_lt hab]
    · have hkt : k ∈ t := by
        rcases List.mem_cons.mp hk with e | e
        · exact absurd e.symm hak
        · exact e
      have hlt : a < k := ha k hkt
      have h1 : eraseKey k (a :: t) = a :: eraseKey k t := by
        unfold eraseKey
        simp [List.filter_cons, hak]
      rw [h1]
      have hnle : ¬ k ≤ a := not_le.mpr hlt
      simp only [List.orderedInsert, hnle, if_false]
      have hnot' : k ∉ eraseKey k t := by simp [mem_eraseKey]
      rw [ih ht hkt hnot']

theorem intervalsOverlap_comm (p d q e : Int) :
    intervalsOverlap p d q e = intervalsOverlap q e p d := by
  unfold intervalsOverlap
  rw [max_comm, min_comm]

theorem isFree_eq_true_iff (s : TimelineState) (T p d : Int) :
    TrackModel.isFree s T p d = true ↔
      ∀ c ∈ (s.trackObj T).m_allClips,
        intervalsOverlap p d (s.clipObj c).m_position (s.clipObj c).m_playtime = false := by
  unfold TrackModel.isFree
  rw [List.all_eq_true]
  simp

theorem isFree_eq_false_iff (s : TimelineState) (T p d : Int) :
    TrackModel.isFree s T p d = false ↔
      ∃ c ∈ (s.trackObj T).m_allClips,
        intervalsOverlap p d (s.clipObj c).m_position (s.clipObj c).m_playtime = true := by
  rw [← Bool.not_eq_true, isFree_eq_true_iff]
  simp

theorem canInsert_eq_true_iff (s : TimelineState) (T c p : Int) :
    TrackModel.canInsert s T c p = true ↔
      (s.clipObj c).m_currentTrackId = -1 ∧
        TrackModel.isFree s T p (s.clipObj c).m_playtime = true := by
  simp [TrackModel.canInsert]

/-! ## The bookkeeping steps on the store -/

theorem place_members (s : TimelineState) (T c p : Int) (uv : Bool) (T' : Int) :
    ((TrackModel.place s T c p uv).trackObj T').m_allClips =
      if T' = T then insertKey c (s.trackObj T).m_allClips else (s.trackObj T').m_allClips := by
  by_cases h : T' = T <;> simp [TrackModel.place, setAt, h]

theorem place_clip (s : TimelineState) (T c p : Int) (uv : Bool) (c' : Int) :
    (TrackModel.place s T c p uv).clipObj c' =
      if c' = c then { s.clipObj c with m_currentTrackId := T, m_position := p }
      else s.clipObj c' := by
  by_cases h : c' = c <;> simp [TrackModel.place, setAt, h]

theorem unplace_members (s : TimelineState) (T c : Int) (uv : Bool) (T' : Int) :
    ((TrackModel.unplace s T c uv).trackObj T').m_allClips =
      if T' = T then eraseKey c (s.trackObj T).m_allClips else (s.trackObj T').m_allClips := by
  by_cases h : T' = T <;> simp [TrackModel.unplace, setAt, h]

theorem unplace_clip (s : TimelineState) (T c : Int) (uv : Bool) (c' : Int) :
    (TrackModel.unplace s T c uv).clipObj c' =
      if c' = c then { s.clipObj c with m_currentTrackId := -1 } else s.clipObj c' := by
  by_cases h : c' = c <;> simp [TrackModel.unplace, setAt, h]

theorem Consistent.not_mem_of_unplaced {s : TimelineState} (h : Consistent s) {c : Int}
    (hc : (s.clipObj c).m_currentTrackId = -1) (T : Int) : c ∉ (s.trackObj T).m_allClips := by
  intro hm
  have h1 := h.member_track T c hm
  have hT : T = -1 := by rw [← h1, hc]
  subst hT
  rw [h.no_sentinel] at hm
  simp at hm

theorem consistent_place {s : TimelineState} (h : Consistent s) {T c p : Int} (uv : Bool)
    (hcan : TrackModel.canInsert s T c p = true) (hT : T ≠ -1) (hTn : T < s.next_id)
    (hcn : c < s.next_id) : Consistent (TrackModel.place s T c p uv) := by
  obtain ⟨hun, hfree⟩ := (canInsert_eq_true_iff s T c p).mp hcan
  have hnot := h.not_mem_of_unplaced hun
  rw [isFree_eq_true_iff] at hfree
  refine
    { sorted := ?_, member_track := ?_, no_sentinel := ?_, track_member := ?_, disjoint := ?_,
      clip_lt := ?_, tracks_ok := h.tracks_ok, allTracks_ok := h.allTracks_ok,
      clips_ok := h.clips_ok, compos_ok := h.compos_ok, nodes_ok := h.nodes_ok,
      uplink_lt := h.uplink_lt, tractor_len := h.tractor_len,
      next_nonneg := h.next_nonneg }
  · intro T'
    rw [place_members]
    split
    · exact sorted_insertKey (h.sorted T)
    · exact h.sorted T'
  · intro T' c' hm
    rw [place_members] at hm
    rw [place_clip]
    by_cases hT' : T' = T
    · subst hT'
      simp only [if_true] at hm
      by_cases hc' : c' = c
      · simp [hc']
      · simp only [hc', if_false]
        rcases mem_insertKey.mp hm with e | e
        · exact absurd e hc'
        · exact h.member_track _ _ e
    · simp only [hT', if_false] at hm
      have hc' : c' ≠ c := fun e => hnot T' (e ▸ hm)
      simp only [hc', if_false]
      exact h.member_track _ _ hm
  · rw [place_members]
    have : (-1 : Int) ≠ T := fun e => hT e.symm
    simp [this, h.no_sentinel]
  · intro c' hc'
    rw [place_clip] at hc' ⊢
    rw [place_members]
    by_cases hcc : c' = c
    · subst hcc
      simp [mem_insertKey]
    · simp only [hcc, if_false] at hc' ⊢
      have := h.track_member c' hc'
      split
      · rename_i e
        rw [e] at this
        exact mem_insertKey.mpr (Or.inr this)
      · exact this
  · intro T' c1 h1 c2 h2 hne
    rw [place_members] at h1 h2
    simp only [place_clip]
    by_cases hT' : T' = T
    · subst hT'
      simp only [if_true] at h1 h2
      by_cases e1 : c1 = c
      · have e2 : c2 ≠ c := fun e => hne (e1.trans e.symm)
        have m2 : c2 ∈ (s.trackObj T').m_allClips := by
          rcases mem_insertKey.mp h2 with e | e
          · exact absurd e e2
          · exact e
        simp only [e1, e2, if_true, if_false]
        exact hfree c2 m2
      · have m1 : c1 ∈ (s.trackObj T').m_allClips := by
          rcases mem_insertKey.mp h1 with e | e
          · exact absurd e e1
          · exact e
        by_cases e2 : c2 = c
        · simp only [e1, e2, if_true, if_false]
          rw [intervalsOverlap_comm]
          exact hfree c1 m1
        · have m2 : c2 ∈ (s.trackObj T').m_allClips := by
            rcases mem_insertKey.mp h2 with e | e
            · exact absurd e e2
            · exact e
          simp only [e1, e2, if_false]
          exact h.disjoint T' c1 m1 c2 m2 hne
    · simp only [hT', if_false] at h1 h2
      have e1 : c1 ≠ c := fun e => hnot T' (e ▸ h1)
      have e2 : c2 ≠ c := fun e => hnot T' (e ▸ h2)
      simp only [e1, e2, if_false]
      exact h.disjoint T' c1 h1 c2 h2 hne
  · intro T' c' hm
    rw [place_members] at hm
    have hn : (TrackModel.place s T c p uv).next_id = s.next_id := rfl
    rw [hn]
    by_cases hT' : T' = T
    · subst hT'
      simp only [if_true] at hm
      rcases mem_insertKey.mp hm with e | e
      · exact ⟨e ▸ hcn, hTn⟩
      · exact h.clip_lt _ _ e
    · simp only [hT', if_false] at hm
      exact h.clip_lt _ _ hm

theorem consistent_unplace {s : TimelineState} (h : Consistent s) {T c : Int} (uv : Bool)
    (hm : c ∈ (s.trackObj T).m_allClips) : Consistent (TrackModel.unplace s T c uv) := by
  have hTc := h.member_track T c hm
  refine
    { sorted := ?_, member_track := ?_, no_sentinel := ?_, track_member := ?_, disjoint := ?_,
      clip_lt := ?_, tracks_ok := h.tracks_ok, allTracks_ok := h.allTracks_ok,
      clips_ok := h.clips_ok, compos_ok := h.compos_ok, nodes_ok := h.nodes_ok,
      uplink_lt := h.uplink_lt, tractor_len := h.tractor_len,
      next_nonneg := h.next_nonneg }
  · intro T'
    rw [unplace_members]
    split
    · exact sorted_eraseKey (h.sorted T)
    · exact h.sorted T'
  · intro T' c' hm'
    rw [unplace_members] at hm'
    rw [unplace_clip]
    by_cases hT' : T' = T
    · subst hT'
      simp only [if_true] at hm'
      obtain ⟨m1, hne⟩ := mem_eraseKey.mp hm'
      simp only [hne, if_false]
      exact h.member_track _ _ m1
    · simp only [hT', if_false] at hm'
      have hne : c' ≠ c := by
        intro e
        subst e
        exact hT' ((h.member_track _ _ hm').symm.trans hTc)
      simp only [hne, if_false]
      exact h.member_track _ _ hm'
  · rw [unplace_members]
    split
    · rename_i e
      rw [← e, h.no_sentinel]
      rfl
    · exact h.no_sentinel
  · intro c' hc'
    rw [unplace_clip] at hc' ⊢
    rw [unplace_members]
    by_cases hcc : c' = c
    · simp [hcc] at hc'
    · simp only [hcc, if_false] at hc' ⊢
      have := h.track_member c' hc'
      split
      · rename_i e
        rw [e] at this
        exact mem_eraseKey.mpr ⟨this, hcc⟩
      · exact this
  · intro T' c1 h1 c2 h2 hne
    rw [unplace_members] at h1 h2
    simp only [unplace_clip]
    have key : ∀ x, x ∈ (if T' = T then eraseKey c (s.trackObj T).m_allClips
        else (s.trackObj T').m_allClips) → x ∈ (s.trackObj T').m_allClips ∧ x ≠ c := by
      intro x hx
      by_cases hT' : T' = T
      · subst hT'
        simp only [if_true] at hx
        exact mem_eraseKey.mp hx
      · simp only [hT', if_false] at hx
        refine ⟨hx, ?_⟩
        intro e
        subst e
        exact hT' ((h.member_track _ _ hx).symm.trans hTc)
    obtain ⟨m1, e1⟩ := key c1 h1
    obtain ⟨m2, e2⟩ := key c2 h2
    simp only [e1, e2, if_false]
    exact h.disjoint T' c1 m1 c2 m2 hne
  · intro T' c' hm'
    rw [unplace_members] at hm'
    have hn : (TrackModel.unplace s T c uv).next_id = s.next_id := rfl
    rw [hn]
    by_cases hT' : T' = T
    · subst hT'
      simp only [if_true] at hm'
      exact h.clip_lt _ _ (mem_eraseKey.mp hm').1
    · simp only [hT', if_false] at hm'
      exact h.clip_lt _ _ hm'

/-! ## Safe closures -/

theorem Safe.mono {n n' : Int} {f : Fun} (h : Safe n f) (hn : n ≤ n') : Safe n' f :=
  fun s hs hle => h s hs (le_trans hn hle)

theorem safe_noop (n : Int) : Safe n noop := fun _ hs _ => ⟨hs, rfl⟩

theorem safe_update_undo {n : Int} {reverse undo : Fun} (operation redo : Fun)
    (h1 : Safe n reverse) (h2 : Safe n undo) :
    Safe n (UPDATE_UNDO_REDO operation reverse undo redo).1 := by
  intro s hs hle
  obtain ⟨a1, a2⟩ := h1 s hs hle
  obtain ⟨b1, b2⟩ := h2 (reverse s).2 a1 (a2 ▸ hle)
  exact ⟨b1, b2.trans a2⟩

theorem safe_update_redo {n : Int} {operation redo : Fun} (reverse undo : Fun)
    (h1 : Safe n operation) (h2 : Safe n redo) :
    Safe n (UPDATE_UNDO_REDO operation reverse undo redo).2 := by
  intro s hs hle
  obtain ⟨a1, a2⟩ := h2 s hs hle
  obtain ⟨b1, b2⟩ := h1 (redo s).2 a1 (a2 ▸ hle)
  exact ⟨b1, b2.trans a2⟩

theorem safe_push_lambda {n : Int} {operation lambda : Fun}
    (h1 : Safe n operation) (h2 : Safe n lambda) : Safe n (PUSH_LAMBDA operation lambda) := by
  intro s hs hle
  obtain ⟨a1, a2⟩ := h2 s hs hle
  unfold PUSH_LAMBDA
  by_cases hv : (lambda s).1 = true
  · rw [if_pos hv]
    obtain ⟨b1, b2⟩ := h1 (lambda s).2 a1 (a2 ▸ hle)
    exact ⟨b1, b2.trans a2⟩
  · rw [if_neg hv]
    exact ⟨a1, a2⟩

theorem safe_insertion_lambda {n T c : Int} (p : Int) (uv : Bool) (hT : T ≠ -1) (hTn : T < n)
    (hcn : c < n) : Safe n (TrackModel.requestClipInsertion_lambda T c p uv) := by
  intro s hs hle
  unfold TrackModel.requestClipInsertion_lambda
  by_cases hcan : TrackModel.canInsert s T c p = true
  · rw [if_pos hcan]
    exact ⟨consistent_place hs uv hcan hT (lt_of_lt_of_le hTn hle) (lt_of_lt_of_le hcn hle), rfl⟩
  · rw [if_neg hcan]
    exact ⟨hs, rfl⟩

theorem safe_deletion_lambda (n T c : Int) (uv : Bool) :
    Safe n (TrackModel.requestClipDeletion_lambda T c uv) := by
  intro s hs _
  unfold TrackModel.requestClipDeletion_lambda
  by_cases hm : c ∈ (s.trackObj T).m_allClips
  · rw [if_pos hm]
    exact ⟨consistent_unplace hs uv hm, rfl⟩
  · rw [if_neg hm]
    exact ⟨hs, rfl⟩

theorem Good.run {s : TimelineState} {undo redo f : Fun} (h : Good s undo redo)
    (hf : Safe s.next_id f) : Good (f s).2 undo redo := by
  obtain ⟨a1, a2⟩ := hf s h.1 (le_refl _)
  exact ⟨a1, a2 ▸ h.2.1, a2 ▸ h.2.2⟩

theorem Good.update {s : TimelineState} {undo redo operation reverse : Fun}
    (h : Good s undo redo) (ho : Safe s.next_id operation) (hr : Safe s.next_id reverse) :
    Good (operation s).2 (UPDATE_UNDO_REDO operation reverse undo redo).1
      (UPDATE_UNDO_REDO operation reverse undo redo).2 := by
  obtain ⟨a1, a2⟩ := ho s h.1 (le_refl _)
  refine ⟨a1, ?_, ?_⟩
  · rw [a2]; exact safe_update_undo operation redo hr h.2.1
  · rw [a2]; exact safe_update_redo reverse undo ho h.2.2

theorem trackInsertion_good {s : TimelineState} {undo redo : Fun} (h : Good s undo redo)
    {T c : Int} (p : Int) (uv : Bool) (hT : T ≠ -1) (hTn : T < s.next_id) (hcn : c < s.next_id) :
    (TrackModel.requestClipInsertion s T c p uv undo redo).GoodFrom s ∧
      (TrackModel.requestClipInsertion s T c p uv undo redo).s.next_id = s.next_id := by
  have hop := safe_insertion_lambda p uv hT hTn hcn
  have hrev := safe_deletion_lambda s.next_id T c uv
  have hn := (hop s h.1 (le_refl _)).2
  unfold TrackModel.requestClipInsertion
  by_cases hok : (TrackModel.requestClipInsertion_lambda T c p uv s).1 = true
  · simp only [hok, if_true]
    exact ⟨⟨h.update hop hrev, le_of_eq hn.symm⟩, hn⟩
  · simp only [hok]
    exact ⟨⟨h.run hop, le_of_eq hn.symm⟩, hn⟩

theorem trackDeletion_good {s : TimelineState} {undo redo : Fun} (h : Good s undo redo)
    {T c : Int} (uv : Bool) (hT : T ≠ -1) (hTn : T < s.next_id) (hcn : c < s.next_id) :
    (TrackModel.requestClipDeletion s T c uv undo redo).GoodFrom s ∧
      (TrackModel.requestClipDeletion s T c uv undo redo).s.next_id = s.next_id := by
  have hop := safe_deletion_lambda s.next_id T c uv
  have hrev := safe_insertion_lambda (s.clipObj c).m_position uv hT hTn hcn
  have hn := (hop s h.1 (le_refl _)).2
  unfold TrackModel.requestClipDeletion
  by_cases hok : (TrackModel.requestClipDeletion_lambda T c uv s).1 = true
  · simp only [hok, if_true]
    exact ⟨⟨h.update hop hrev, le_of_eq hn.symm⟩, hn⟩
  · simp only [hok]
    exact ⟨⟨h.run hop, le_of_eq hn.symm⟩, hn⟩

theorem Consistent.placed_bounds {s : TimelineState} (h : Consistent s) {c : Int}
    (hc : (s.clipObj c).m_currentTrackId ≠ -1) :
    c < s.next_id ∧ (s.clipObj c).m_currentTrackId < s.next_id :=
  h.clip_lt _ _ (h.track_member c hc)

theorem clipMove_good {s : TimelineState} {undo redo : Fun} (h : Good s undo redo)
    {T c : Int} (p : Int) (uv : Bool) (hT : T ≠ -1) (hTn : T < s.next_id) (hcn : c < s.next_id) :
    (TimelineModel.requestClipMoveFun s c T p uv undo redo).GoodFrom s ∧
      (TimelineModel.requestClipMoveFun s c T p uv undo redo).s.next_id = s.next_id := by
  have hnoop : Good s noop noop := ⟨h.1, safe_noop _, safe_noop _⟩
  have hcaller : ∀ s', Consistent s' → s'.next_id = s.next_id → Good s' undo redo :=
    fun s' hs' e => ⟨hs', e ▸ h.2.1, e ▸ h.2.2⟩
  -- the removal from the old track
  obtain ⟨r1, hr1, hg, hn⟩ : ∃ r1 : Res,
      (if TimelineModel.getClipTrackId s c ≠ -1 then
        TrackModel.requestClipDeletion s (TimelineModel.getClipTrackId s c) c uv noop noop
      else { ok := true, s := s, undo := noop, redo := noop }) = r1 ∧
      r1.GoodFrom s ∧ r1.s.next_id = s.next_id := by
    refine ⟨_, rfl, ?_⟩
    by_cases hold : TimelineModel.getClipTrackId s c ≠ -1
    · rw [if_pos hold]
      exact trackDeletion_good hnoop uv hold (h.1.placed_bounds hold).2 hcn
    · rw [if_neg hold]
      exact ⟨⟨hnoop, le_refl _⟩, rfl⟩
  unfold TimelineModel.requestClipMoveFun
  simp only [hr1]
  by_cases h1 : r1.ok = false
  · rw [if_pos h1]
    obtain ⟨a1, a2⟩ := hg.1.2.1 r1.s hg.1.1 (le_refl _)
    exact ⟨⟨hcaller _ a1 (a2.trans hn), le_of_eq (a2.trans hn).symm⟩, a2.trans hn⟩
  · rw [if_neg h1]
    obtain ⟨g2, n2⟩ := trackInsertion_good hg.1 p uv hT (hn ▸ hTn) (hn ▸ hcn)
    generalize TrackModel.requestClipInsertion r1.s T c p uv r1.undo r1.redo = r2 at g2 n2 ⊢
    by_cases h2 : r2.ok = false
    · rw [if_pos h2]
      obtain ⟨a1, a2⟩ := g2.1.2.1 _ g2.1.1 (le_refl _)
      have e := a2.trans (n2.trans hn)
      exact ⟨⟨hcaller _ a1 e, le_of_eq e.symm⟩, e⟩
    · rw [if_neg h2]
      have e := n2.trans hn
      have hu : Safe r2.s.next_id undo := by rw [e]; exact h.2.1
      have hr : Safe r2.s.next_id redo := by rw [e]; exact h.2.2
      exact ⟨⟨⟨g2.1.1, safe_update_undo r2.redo redo g2.1.2.1 hu,
        safe_update_redo r2.undo undo g2.1.2.2 hr⟩, le_of_eq e.symm⟩, e⟩

/-- A state with the same tracks' clip collections and the same placement data
of the clips is consistent as soon as its id containers are within the
counter. -/
theorem Consistent.of_same_store {s s' : TimelineState} (h : Consistent s)
    (hm : ∀ T, (s'.trackObj T).m_allClips = (s.trackObj T).m_allClips)
    (hc : ∀ c, (s'.clipObj c).m_currentTrackId = (s.clipObj c).m_currentTrackId ∧
      ((s.clipObj c).m_currentTrackId ≠ -1 →
        (s'.clipObj c).m_position = (s.clipObj c).m_position ∧
        (s'.clipObj c).m_playtime = (s.clipObj c).m_playtime))
    (hn : s.next_id ≤ s'.next_id)
    (h1 : ∀ T ∈ s'.m_iteratorTable, 0 ≤ T ∧ T < s'.next_id)
    (h2 : ∀ T ∈ s'.m_allTracks, 0 ≤ T ∧ T < s'.next_id)
    (h3 : ∀ c ∈ s'.m_allClips, c < s'.next_id)
    (h3' : ∀ c ∈ s'.m_allCompositions, c < s'.next_id)
    (h4 : ∀ n ∈ s'.m_groups.m_nodes, n < s'.next_id)
    (h4' : ∀ n, s'.m_groups.m_upLink n < s'.next_id)
    (h5 : s'.m_tractor.length = s'.m_allTracks.length + 1) : Consistent s' := by
  refine
    { sorted := ?_, member_track := ?_, no_sentinel := ?_, track_member := ?_, disjoint := ?_,
      clip_lt := ?_, tracks_ok := h1, allTracks_ok := h2, clips_ok := h3, compos_ok := h3',
      nodes_ok := h4, uplink_lt := h4', tractor_len := h5,
      next_nonneg := le_trans h.next_nonneg hn }
  · intro T; rw [hm]; exact h.sorted T
  · intro T c hmem; rw [hm] at hmem; rw [(hc c).1]; exact h.member_track T c hmem
  · rw [hm]; exact h.no_sentinel
  · intro c hne; rw [(hc c).1] at hne ⊢; rw [hm]; exact h.track_member c hne
  · intro T c1 m1 c2 m2 hne
    rw [hm] at m1 m2
    have p1 : (s.clipObj c1).m_currentTrackId ≠ -1 := fun e => h.not_mem_of_unplaced e T m1
    have p2 : (s.clipObj c2).m_currentTrackId ≠ -1 := fun e => h.not_mem_of_unplaced e T m2
    rw [((hc c1).2 p1).1, ((hc c1).2 p1).2, ((hc c2).2 p2).1, ((hc c2).2 p2).2]
    exact h.disjoint T c1 m1 c2 m2 hne
  · intro T c hmem
    rw [hm] at hmem
    have := h.clip_lt T c hmem
    exact ⟨lt_of_lt_of_le this.1 hn, lt_of_lt_of_le this.2 hn⟩

theorem Consistent.neg_one_lt {s : TimelineState} (h : Consistent s) : (-1 : Int) < s.next_id :=
  lt_of_lt_of_le (by decide) h.next_nonneg

theorem uplink_setAt_lt {s : TimelineState} (h : Consistent s) (k : Int) :
    ∀ n, setAt s.m_groups.m_upLink k (-1) n < s.next_id := by
  intro n
  by_cases e : n = k
  · simp only [setAt, e, if_true]; exact h.neg_one_lt
  · simp only [setAt, e, if_false]; exact h.uplink_lt n

theorem safe_registerClip_lambda {n c : Int} (hc : c < n) :
    Safe n (TimelineModel.registerClip_lambda c) := by
  intro s hs hle
  refine ⟨hs.of_same_store (fun _ => rfl) (fun _ => ⟨rfl, fun _ => ⟨rfl, rfl⟩⟩) (le_refl _) hs.tracks_ok
    hs.allTracks_ok ?_ hs.compos_ok ?_ (uplink_setAt_lt hs c) hs.tractor_len, rfl⟩
  · intro x hx
    rcases mem_insertKey.mp hx with e | e
    · rw [e]; exact lt_of_lt_of_le hc hle
    · exact hs.clips_ok x e
  · intro x hx
    rcases mem_insertKey.mp hx with e | e
    · rw [e]; exact lt_of_lt_of_le hc hle
    · exact hs.nodes_ok x e

theorem safe_deregisterClip_lambda (n c : Int) :
    Safe n (TimelineModel.deregisterClip_lambda c) := by
  intro s hs _
  refine ⟨hs.of_same_store (fun _ => rfl) (fun _ => ⟨rfl, fun _ => ⟨rfl, rfl⟩⟩) (le_refl _) hs.tracks_ok
    hs.allTracks_ok ?_ hs.compos_ok ?_ (uplink_setAt_lt hs c) hs.tractor_len, rfl⟩
  · intro x hx
    exact hs.clips_ok x (mem_eraseKey.mp hx).1
  · intro x hx
    exact hs.nodes_ok x (mem_eraseKey.mp hx).1

theorem safe_registerComposition_lambda {n c : Int} (hc : c < n) :
    Safe n (TimelineModel.registerComposition_lambda c) := by
  intro s hs hle
  refine ⟨hs.of_same_store (fun _ => rfl) (fun _ => ⟨rfl, fun _ => ⟨rfl, rfl⟩⟩) (le_refl _) hs.tracks_ok
    hs.allTracks_ok hs.clips_ok ?_ ?_ (uplink_setAt_lt hs c) hs.tractor_len, rfl⟩
  · intro x hx
    rcases mem_insertKey.mp hx with e | e
    · rw [e]; exact lt_of_lt_of_le hc hle
    · exact hs.compos_ok x e
  · intro x hx
    rcases mem_insertKey.mp hx with e | e
    · rw [e]; exact lt_of_lt_of_le hc hle
    · exact hs.nodes_ok x e

theorem safe_deregisterComposition_lambda (n c : Int) :
    Safe n (TimelineModel.deregisterComposition_lambda c) := by
  intro s hs _
  refine ⟨hs.of_same_store (fun _ => rfl) (fun _ => ⟨rfl, fun _ => ⟨rfl, rfl⟩⟩) (le_refl _) hs.tracks_ok
    hs.allTracks_ok hs.clips_ok ?_ ?_ (uplink_setAt_lt hs c) hs.tractor_len, rfl⟩
  · intro x hx
    exact hs.compos_ok x (mem_eraseKey.mp hx).1
  · intro x hx
    exact hs.nodes_ok x (mem_eraseKey.mp hx).1

theorem safe_groupItems_lambda {n gid : Int} (children : List Int) (hg : gid < n) :
    Safe n (GroupsModel.groupItems_lambda gid children) := by
  intro s hs hle
  refine ⟨hs.of_same_store (fun _ => rfl) (fun _ => ⟨rfl, fun _ => ⟨rfl, rfl⟩⟩) (le_refl _) hs.tracks_ok
    hs.allTracks_ok hs.clips_ok hs.compos_ok ?_ ?_ hs.tractor_len, rfl⟩
  · intro x hx
    rcases mem_insertKey.mp hx with e | e
    · rw [e]; exact lt_of_lt_of_le hg hle
    · exact hs.nodes_ok x e
  · intro x
    show (if x ∈ children then gid else if x = gid then -1 else s.m_groups.m_upLink x) < s.next_id
    split
    · exact lt_of_lt_of_le hg hle
    · split
      · exact hs.neg_one_lt
      · exact hs.uplink_lt x

theorem safe_destructGroupItem_lambda (n gid : Int) :
    Safe n (GroupsModel.destructGroupItem_lambda gid) := by
  intro s hs _
  refine ⟨hs.of_same_store (fun _ => rfl) (fun _ => ⟨rfl, fun _ => ⟨rfl, rfl⟩⟩) (le_refl _) hs.tracks_ok
    hs.allTracks_ok hs.clips_ok hs.compos_ok ?_ ?_ hs.tractor_len, rfl⟩
  · intro x hx
    exact hs.nodes_ok x (mem_eraseKey.mp hx).1
  · intro x
    show (if x = gid ∨ s.m_groups.m_upLink x = gid then -1 else s.m_groups.m_upLink x) < s.next_id
    split
    · exact hs.neg_one_lt
    · exact hs.uplink_lt x

theorem safe_compositionInsertion_lambda (n T c p : Int) (uv : Bool) :
    Safe n (TrackModel.requestCompositionInsertion_lambda T c p uv) := by
  intro s hs _
  unfold TrackModel.requestCompositionInsertion_lambda
  split
  · refine ⟨hs.of_same_store ?_ (fun _ => ⟨rfl, fun _ => ⟨rfl, rfl⟩⟩) (le_refl _) hs.tracks_ok
      hs.allTracks_ok hs.clips_ok hs.compos_ok hs.nodes_ok hs.uplink_lt hs.tractor_len, rfl⟩
    intro T'
    by_cases e : T' = T <;> simp [setAt, e]
  · exact ⟨hs, rfl⟩

theorem safe_compositionDeletion_lambda (n T c : Int) (uv : Bool) :
    Safe n (TrackModel.requestCompositionDeletion_lambda T c uv) := by
  intro s hs _
  unfold TrackModel.requestCompositionDeletion_lambda
  split
  · refine ⟨hs.of_same_store ?_ (fun _ => ⟨rfl, fun _ => ⟨rfl, rfl⟩⟩) (le_refl _) hs.tracks_ok
      hs.allTracks_ok hs.clips_ok hs.compos_ok hs.nodes_ok hs.uplink_lt hs.tractor_len, rfl⟩
    intro T'
    by_cases e : T' = T <;> simp [setAt, e]
  · exact ⟨hs, rfl⟩

theorem safe_compositionResize_lambda (n c size : Int) (right : Bool) :
    Safe n (CompositionModel.resize_lambda c size right) := by
  intro s hs _
  unfold CompositionModel.resize_lambda
  by_cases hsz : 0 < size
  · dsimp only
    rw [if_pos hsz]
    exact ⟨hs.of_same_store (fun _ => rfl) (fun _ => ⟨rfl, fun _ => ⟨rfl, rfl⟩⟩) (le_refl _) hs.tracks_ok
      hs.allTracks_ok hs.clips_ok hs.compos_ok hs.nodes_ok hs.uplink_lt hs.tractor_len, rfl⟩
  · dsimp only
    rw [if_neg hsz]
    exact ⟨hs, rfl⟩

theorem mem_insertAt {pos : Nat} {a x : Int} {l : List Int} :
    x ∈ TimelineModel.insertAt pos a l ↔ x = a ∨ x ∈ l := by
  unfold TimelineModel.insertAt
  constructor
  · intro h
    rcases List.mem_append.mp h with h | h
    · exact Or.inr (List.mem_of_mem_take h)
    · rcases List.mem_cons.mp h with h | h
      · exact Or.inl h
      · exact Or.inr (List.mem_of_mem_drop h)
  · rintro (h | h)
    · subst h; simp
    · rw [← List.take_append_drop pos l] at h
      rcases List.mem_append.mp h with h | h
      · exact List.mem_append.mpr (Or.inl h)
      · exact List.mem_append.mpr (Or.inr (List.mem_cons_of_mem _ h))

theorem length_insertAt (pos : Nat) (a : Int) (l : List Int) :
    (TimelineModel.insertAt pos a l).length = l.length + 1 := by
  unfold TimelineModel.insertAt
  simp only [List.length_append, List.length_cons, List.length_take, List.length_drop]
  omega

theorem safe_registerTrack_lambda {n id : Int} (pos : Int) (h0 : 0 ≤ id) (hid : id < n) :
    Safe n (TimelineModel.registerTrack_lambda id pos) := by
  intro s hs hle
  refine ⟨hs.of_same_store (fun _ => rfl) (fun _ => ⟨rfl, fun _ => ⟨rfl, rfl⟩⟩) (le_refl _) ?_ ?_
    hs.clips_ok hs.compos_ok hs.nodes_ok hs.uplink_lt ?_, rfl⟩
  · intro x hx
    rcases mem_insertKey.mp hx with e | e
    · rw [e]; exact ⟨h0, lt_of_lt_of_le hid hle⟩
    · exact hs.tracks_ok x e
  · intro x hx
    rcases mem_insertAt.mp hx with e | e
    · rw [e]; exact ⟨h0, lt_of_lt_of_le hid hle⟩
    · exact hs.allTracks_ok x e
  · show (TimelineModel.insertAt _ id s.m_tractor).length = (TimelineModel.insertAt _ id s.m_allTracks).length + 1
    rw [length_insertAt, length_insertAt, hs.tractor_len]

theorem safe_deregisterTrack_lambda (n id : Int) (uv : Bool) :
    Safe n (TimelineModel.deregisterTrack_lambda id uv) := by
  intro s hs _
  refine ⟨hs.of_same_store (fun _ => rfl) (fun _ => ⟨rfl, fun _ => ⟨rfl, rfl⟩⟩) (le_refl _) ?_ ?_
    hs.clips_ok hs.compos_ok hs.nodes_ok hs.uplink_lt ?_, rfl⟩
  · intro x hx
    exact hs.tracks_ok x (mem_eraseKey.mp hx).1
  · intro x hx
    exact hs.allTracks_ok x (List.mem_of_mem_eraseIdx hx)
  · show (s.m_tractor.eraseIdx _).length = (s.m_allTracks.eraseIdx _).length + 1
    have hlen := hs.tractor_len
    simp only [TimelineModel.getTrackPosition, List.length_eraseIdx]
    have e1 : ((s.m_allTracks.indexOf id : Int) + 1).toNat = s.m_allTracks.indexOf id + 1 := by
      omega
    have e2 : ((s.m_allTracks.indexOf id : Int)).toNat = s.m_allTracks.indexOf id := by omega
    rw [e1, e2]
    split <;> split <;> omega

theorem resized_track (c : ClipModel) (size : Int) (right : Bool) :
    (c.resized size right).m_currentTrackId = c.m_currentTrackId := by
  cases right <;> rfl

theorem resized_playtime (c : ClipModel) (size : Int) (right : Bool) :
    (c.resized size right).m_playtime = size := by
  cases right <;> rfl

theorem safe_clipResize_lambda (n c size : Int) (right : Bool) :
    Safe n (ClipModel.resize_lambda c size right) := by
  intro s hs _
  unfold ClipModel.resize_lambda
  by_cases hal : ClipModel.resizeAllowed s c size right = true
  · rw [if_pos hal]
    refine ⟨?_, rfl⟩
    have hfit : (s.clipObj c).m_currentTrackId = -1 ∨
        ∀ c' ∈ (s.trackObj (s.clipObj c).m_currentTrackId).m_allClips, c' ≠ c →
          intervalsOverlap ((s.clipObj c).resized size right).m_position size
            (s.clipObj c').m_position (s.clipObj c').m_playtime = false := by
      unfold ClipModel.resizeAllowed at hal
      simp only [Bool.and_eq_true, Bool.or_eq_true, decide_eq_true_eq, List.all_eq_true] at hal
      rcases hal.2 with e | e
      · exact Or.inl e
      · refine Or.inr ?_
        intro c' hc' hne
        have := e c' hc'
        simpa [hne] using this
    have htrack : ∀ c', ((setAt s.clipObj c ((s.clipObj c).resized size right)) c').m_currentTrackId
        = (s.clipObj c').m_currentTrackId := by
      intro c'
      by_cases e : c' = c
      · subst e
        rw [setAt_same, resized_track]
      · rw [setAt_other _ _ _ _ e]
    refine
      { sorted := hs.sorted, member_track := ?_, no_sentinel := hs.no_sentinel,
        track_member := ?_, disjoint := ?_, clip_lt := hs.clip_lt, tracks_ok := hs.tracks_ok,
        allTracks_ok := hs.allTracks_ok, clips_ok := hs.clips_ok, compos_ok := hs.compos_ok,
        nodes_ok := hs.nodes_ok, uplink_lt := hs.uplink_lt, tractor_len := hs.tractor_len,
        next_nonneg := hs.next_nonneg }
    · intro T c' hm
      show (setAt s.clipObj c _ c').m_currentTrackId = T
      rw [htrack]
      exact hs.member_track T c' hm
    · intro c' hne
      change (setAt s.clipObj c _ c').m_currentTrackId ≠ -1 at hne
      show c' ∈ (s.trackObj (setAt s.clipObj c _ c').m_currentTrackId).m_allClips
      rw [htrack] at hne ⊢
      exact hs.track_member c' hne
    · intro T c1 m1 c2 m2 hne
      change c1 ∈ (s.trackObj T).m_allClips at m1
      change c2 ∈ (s.trackObj T).m_allClips at m2
      show intervalsOverlap (setAt s.clipObj c _ c1).m_position (setAt s.clipObj c _ c1).m_playtime
        (setAt s.clipObj c _ c2).m_position (setAt s.clipObj c _ c2).m_playtime = false
      have hfits : ∀ c' ∈ (s.trackObj T).m_allClips, c ∈ (s.trackObj T).m_allClips → c' ≠ c →
          intervalsOverlap ((s.clipObj c).resized size right).m_position size
            (s.clipObj c').m_position (s.clipObj c').m_playtime = false := by
        intro c' hc' hcm hc'ne
        have hT := hs.member_track T c hcm
        have hTne : (s.clipObj c).m_currentTrackId ≠ -1 := by
          intro e
          exact hs.not_mem_of_unplaced e T hcm
        rcases hfit with e | e
        · exact absurd e hTne
        · exact e c' (hT ▸ hc') hc'ne
      by_cases e1 : c1 = c
      · have e2 : c2 ≠ c := fun e => hne (e1.trans e.symm)
        rw [e1, setAt_same, setAt_other _ _ _ _ e2, resized_playtime]
        exact hfits c2 m2 (e1 ▸ m1) e2
      · by_cases e2 : c2 = c
        · rw [e2, setAt_same, setAt_other _ _ _ _ e1, resized_playtime, intervalsOverlap_comm]
          exact hfits c1 m1 (e2 ▸ m2) e1
        · rw [setAt_other _ _ _ _ e1, setAt_other _ _ _ _ e2]
          exact hs.disjoint T c1 m1 c2 m2 hne
  · rw [if_neg hal]
    exact ⟨hs, rfl⟩

/-! ## Requests keep the store consistent -/

theorem Good.of_next {s s' : TimelineState} {undo redo : Fun} (h : Good s undo redo)
    (hs' : Consistent s') (hn : s.next_id ≤ s'.next_id) : Good s' undo redo :=
  ⟨hs', h.2.1.mono hn, h.2.2.mono hn⟩

theorem Good.goodFrom {s : TimelineState} {undo redo : Fun} (h : Good s undo redo) (b : Bool) :
    ({ ok := b, s := s, undo := undo, redo := redo } : Res).GoodFrom s :=
  ⟨h, le_refl _⟩

theorem Res.GoodFrom.trans {r r' : Res} {s : TimelineState} (h : r.GoodFrom s)
    (h' : r'.GoodFrom r.s) : r'.GoodFrom s :=
  ⟨h'.1, le_trans h.2 h'.2⟩

theorem Res.GoodFrom.rollback_caller {r : Res} {s : TimelineState} {undo redo : Fun}
    (h : r.GoodFrom s) (hc : Good s undo redo) (b : Bool) :
    ({ ok := b, s := (r.undo r.s).2, undo := undo, redo := redo } : Res).GoodFrom s := by
  obtain ⟨a1, a2⟩ := h.1.2.1 r.s h.1.1 (le_refl _)
  have hle : s.next_id ≤ (r.undo r.s).2.next_id := by rw [a2]; exact h.2
  exact ⟨hc.of_next a1 hle, hle⟩

theorem Res.GoodFrom.rollback {r : Res} {s : TimelineState} (h : r.GoodFrom s) (b : Bool) :
    ({ ok := b, s := (r.undo r.s).2, undo := r.undo, redo := r.redo } : Res).GoodFrom s := by
  obtain ⟨a1, a2⟩ := h.1.2.1 r.s h.1.1 (le_refl _)
  have hle : s.next_id ≤ (r.undo r.s).2.next_id := by rw [a2]; exact h.2
  exact ⟨h.1.of_next a1 (le_of_eq a2.symm), hle⟩

theorem goodFrom_ite_rollback {r : Res} {s : TimelineState} (X : Res) (h : r.GoodFrom s)
    (hX : X.GoodFrom s) :
    (if r.ok = false then
      ({ ok := false, s := (r.undo r.s).2, undo := r.undo, redo := r.redo } : Res)
    else X).GoodFrom s := by
  split
  · exact h.rollback false
  · exact hX

theorem lambdaRequest_good {s : TimelineState} {undo redo : Fun} (operation reverse : Fun)
    (h : Good s undo redo) (ho : Safe s.next_id operation) (hr : Safe s.next_id reverse) :
    (if (operation s).1 = true then
      ({ ok := true, s := (operation s).2,
         undo := (UPDATE_UNDO_REDO operation reverse undo redo).1,
         redo := (UPDATE_UNDO_REDO operation reverse undo redo).2 } : Res)
    else { ok := false, s := (operation s).2, undo := undo, redo := redo }).GoodFrom s := by
  have hn := (ho s h.1 (le_refl _)).2
  split
  · exact ⟨h.update ho hr, le_of_eq hn.symm⟩
  · exact ⟨h.run ho, le_of_eq hn.symm⟩

theorem compositionDeletionTrack_good {s : TimelineState} {undo redo : Fun}
    (h : Good s undo redo) (T c : Int) (uv : Bool) :
    (TrackModel.requestCompositionDeletion s T c uv undo redo).GoodFrom s :=
  lambdaRequest_good _ _ h (safe_compositionDeletion_lambda _ T c uv)
    (safe_compositionInsertion_lambda _ T c _ uv)

theorem clipResize_good {s : TimelineState} {undo redo : Fun} (h : Good s undo redo)
    (c size : Int) (right : Bool) :
    (ClipModel.requestResize s c size right undo redo).GoodFrom s :=
  lambdaRequest_good _ _ h (safe_clipResize_lambda _ c size right)
    (safe_clipResize_lambda _ c _ right)

theorem compositionResize_good {s : TimelineState} {undo redo : Fun} (h : Good s undo redo)
    (c size : Int) (right : Bool) :
    (CompositionModel.requestResize s c size right undo redo).GoodFrom s :=
  lambdaRequest_good _ _ h (safe_compositionResize_lambda _ c size right)
    (safe_compositionResize_lambda _ c _ right)

theorem clipDeletion_good {s : TimelineState} {undo redo : Fun} (h : Good s undo redo)
    {c : Int} (hcn : c < s.next_id) :
    (TimelineModel.requestClipDeletionFun s c undo redo).GoodFrom s := by
  obtain ⟨r1, hr1, hg⟩ : ∃ r1 : Res,
      (if TimelineModel.getClipTrackId s c ≠ -1 then
        TrackModel.requestClipDeletion s (TimelineModel.getClipTrackId s c) c true undo redo
      else { ok := true, s := s, undo := undo, redo := redo }) = r1 ∧ r1.GoodFrom s := by
    refine ⟨_, rfl, ?_⟩
    by_cases hold : TimelineModel.getClipTrackId s c ≠ -1
    · rw [if_pos hold]
      exact (trackDeletion_good h true hold (h.1.placed_bounds hold).2 hcn).1
    · rw [if_neg hold]
      exact h.goodFrom true
  unfold TimelineModel.requestClipDeletionFun
  simp only [hr1]
  apply goodFrom_ite_rollback _ hg
  have hc' : c < r1.s.next_id := lt_of_lt_of_le hcn hg.2
  have := lambdaRequest_good (TimelineModel.deregisterClip_lambda c)
    (TimelineModel.registerClip_lambda c) hg.1 (safe_deregisterClip_lambda _ c)
    (safe_registerClip_lambda hc')
  rw [if_pos (show (TimelineModel.deregisterClip_lambda c r1.s).1 = true from rfl)] at this ⊢
  exact hg.trans this

theorem compositionDeletion_good {s : TimelineState} {undo redo : Fun} (h : Good s undo redo)
    {c : Int} (hcn : c < s.next_id) :
    (TimelineModel.requestCompositionDeletionFun s c undo redo).GoodFrom s := by
  obtain ⟨r1, hr1, hg⟩ : ∃ r1 : Res,
      (if TimelineModel.getCompositionTrackId s c ≠ -1 then
        TrackModel.requestCompositionDeletion s (TimelineModel.getCompositionTrackId s c) c true
          undo redo
      else { ok := true, s := s, undo := undo, redo := redo }) = r1 ∧ r1.GoodFrom s := by
    refine ⟨_, rfl, ?_⟩
    split
    · exact compositionDeletionTrack_good h _ c true
    · exact h.goodFrom true
  unfold TimelineModel.requestCompositionDeletionFun
  simp only [hr1]
  apply goodFrom_ite_rollback _ hg
  have hc' : c < r1.s.next_id := lt_of_lt_of_le hcn hg.2
  have := lambdaRequest_good (TimelineModel.deregisterComposition_lambda c)
    (TimelineModel.registerComposition_lambda c) hg.1 (safe_deregisterComposition_lambda _ c)
    (safe_registerComposition_lambda hc')
  rw [if_pos (show (TimelineModel.deregisterComposition_lambda c r1.s).1 = true from rfl)]
    at this ⊢
  exact hg.trans this

theorem rootFrom_cases (g : GroupsModel) (fuel : Nat) (id : Int) :
    g.rootFrom fuel id = id ∨ ∃ n, g.rootFrom fuel id = g.m_upLink n := by
  induction fuel generalizing id with
  | zero => exact Or.inl rfl
  | succ k ih =>
    unfold GroupsModel.rootFrom
    split
    · exact Or.inl rfl
    · rcases ih (g.m_upLink id) with e | ⟨n, e⟩
      · exact Or.inr ⟨id, e⟩
      · exact Or.inr ⟨n, e⟩

theorem ungroupItem_good {s : TimelineState} {undo redo : Fun} (h : Good s undo redo) (id : Int) :
    (GroupsModel.ungroupItem s id undo redo).GoodFrom s := by
  unfold GroupsModel.ungroupItem
  dsimp only
  split
  · exact h.goodFrom false
  · rename_i hne
    have hlt : GroupsModel.getRootId s.m_groups id < s.next_id := by
      rcases rootFrom_cases s.m_groups s.m_groups.m_nodes.length id with e | ⟨n, e⟩
      · exact absurd e hne
      · unfold GroupsModel.getRootId
        rw [e]
        exact h.1.uplink_lt n
    exact ⟨h.update (safe_destructGroupItem_lambda _ _) (safe_groupItems_lambda _ hlt),
      le_refl _⟩

theorem Consistent.bump {s : TimelineState} (h : Consistent s) :
    Consistent (TimelineModel.getNextId s).2 := by
  have hlt : s.next_id < s.next_id + 1 := by omega
  refine h.of_same_store (fun _ => rfl) (fun _ => ⟨rfl, fun _ => ⟨rfl, rfl⟩⟩) (le_of_lt hlt) ?_ ?_
    ?_ ?_ ?_ ?_ h.tractor_len
  · exact fun T hT => ⟨(h.tracks_ok T hT).1, lt_trans (h.tracks_ok T hT).2 hlt⟩
  · exact fun T hT => ⟨(h.allTracks_ok T hT).1, lt_trans (h.allTracks_ok T hT).2 hlt⟩
  · exact fun c hc => lt_trans (h.clips_ok c hc) hlt
  · exact fun c hc => lt_trans (h.compos_ok c hc) hlt
  · exact fun c hc => lt_trans (h.nodes_ok c hc) hlt
  · exact fun n => lt_trans (h.uplink_lt n) hlt

theorem groupItems_good {s : TimelineState} {undo redo : Fun} (h : Good s undo redo)
    (ids : List Int) : (GroupsModel.groupItems s ids undo redo).toRes.GoodFrom s := by
  unfold GroupsModel.groupItems ResId.toRes
  dsimp only
  split
  · exact h.goodFrom false
  · have hlt : s.next_id < (TimelineModel.getNextId s).2.next_id := by
      show s.next_id < s.next_id + 1
      omega
    have hg : Good (TimelineModel.getNextId s).2 undo redo := h.of_next h.1.bump (le_of_lt hlt)
    exact ⟨hg.update (safe_groupItems_lambda _ hlt) (safe_destructGroupItem_lambda _ _),
      le_of_lt hlt⟩

theorem consistent_constructClip {s : TimelineState} (h : Consistent s) (bin : String → Int)
    (binClipId : String) :
    Consistent (ClipModel.construct bin (TimelineModel.getNextId s).2 binClipId s.next_id) := by
  have hlt : s.next_id < s.next_id + 1 := by omega
  have hb := h.bump
  have hun : (s.clipObj s.next_id).m_currentTrackId = -1 := by
    by_contra hne
    exact lt_irrefl _ (h.placed_bounds hne).1
  refine hb.of_same_store (fun _ => rfl) ?_ (le_refl _) hb.tracks_ok hb.allTracks_ok ?_
    hb.compos_ok ?_ ?_ hb.tractor_len
  · intro c
    show (setAt s.clipObj s.next_id _ c).m_currentTrackId = (s.clipObj c).m_currentTrackId ∧
      ((s.clipObj c).m_currentTrackId ≠ -1 →
        (setAt s.clipObj s.next_id _ c).m_position = (s.clipObj c).m_position ∧
        (setAt s.clipObj s.next_id _ c).m_playtime = (s.clipObj c).m_playtime)
    by_cases e : c = s.next_id
    · subst e
      rw [setAt_same, hun]
      exact ⟨rfl, fun hne => absurd rfl hne⟩
    · rw [setAt_other _ _ _ _ e]
      exact ⟨rfl, fun _ => ⟨rfl, rfl⟩⟩
  · intro x hx
    rcases mem_insertKey.mp hx with e | e
    · rw [e]; exact hlt
    · exact hb.clips_ok x e
  · intro x hx
    rcases mem_insertKey.mp hx with e | e
    · rw [e]; exact hlt
    · exact hb.nodes_ok x e
  · exact uplink_setAt_lt hb _

theorem consistent_constructTrack {s : TimelineState} (h : Consistent s) (pos : Int) :
    Consistent (TrackModel.construct (TimelineModel.getNextId s).2 s.next_id pos) := by
  have hlt : s.next_id < s.next_id + 1 := by omega
  have hb := h.bump
  have hempty : (s.trackObj s.next_id).m_allClips = [] := by
    rw [List.eq_nil_iff_forall_not_mem]
    intro c hc
    exact lt_irrefl _ (h.clip_lt _ _ hc).2
  refine hb.of_same_store ?_ (fun _ => ⟨rfl, fun _ => ⟨rfl, rfl⟩⟩) (le_refl _) ?_ ?_ hb.clips_ok
    hb.compos_ok hb.nodes_ok hb.uplink_lt ?_
  · intro T
    show ((setAt s.trackObj s.next_id _) T).m_allClips = (s.trackObj T).m_allClips
    by_cases e : T = s.next_id
    · subst e
      rw [setAt_same, hempty]
    · rw [setAt_other _ _ _ _ e]
  · intro x hx
    rcases mem_insertKey.mp hx with e | e
    · rw [e]; exact ⟨h.next_nonneg, hlt⟩
    · exact hb.tracks_ok x e
  · intro x hx
    rcases mem_insertAt.mp hx with e | e
    · rw [e]; exact ⟨h.next_nonneg, hlt⟩
    · exact hb.allTracks_ok x e
  · show (TimelineModel.insertAt _ s.next_id s.m_tractor).length =
      (TimelineModel.insertAt _ s.next_id s.m_allTracks).length + 1
    rw [length_insertAt, length_insertAt, h.tractor_len]

theorem clipInsertion_good {s : TimelineState} {undo redo : Fun} (h : Good s undo redo)
    (bin : String → Int) (binClipId : String) {T : Int} (p : Int)
    (hT : T ∈ s.m_iteratorTable) :
    (TimelineModel.requestClipInsertionFun bin s binClipId T p undo redo).toRes.GoodFrom s := by
  have hlt : s.next_id < s.next_id + 1 := by omega
  have hs1 := consistent_constructClip h.1 bin binClipId
  have hn1 : (ClipModel.construct bin (TimelineModel.getNextId s).2 binClipId s.next_id).next_id
      = s.next_id + 1 := rfl
  have hlocal : Good (ClipModel.construct bin (TimelineModel.getNextId s).2 binClipId s.next_id)
      (TimelineModel.deregisterClip_lambda s.next_id)
      (TimelineModel.registerClip_lambda s.next_id) :=
    ⟨hs1, safe_deregisterClip_lambda _ _, safe_registerClip_lambda (by rw [hn1]; exact hlt)⟩
  have hTb := h.1.tracks_ok T hT
  have hTne : T ≠ -1 := by omega
  obtain ⟨g, n⟩ := clipMove_good hlocal p true hTne (by rw [hn1]; omega) (by rw [hn1]; exact hlt)
  unfold TimelineModel.requestClipInsertionFun ResId.toRes
  dsimp only
  change (TimelineModel.requestClipMoveFun
    (ClipModel.construct bin (TimelineModel.getNextId s).2 binClipId (TimelineModel.getNextId s).1)
    (TimelineModel.getNextId s).1 T p true
    (TimelineModel.deregisterClip_lambda (TimelineModel.getNextId s).1)
    (TimelineModel.registerClip_lambda (TimelineModel.getNextId s).1)).GoodFrom
      (ClipModel.construct bin (TimelineModel.getNextId s).2 binClipId
        (TimelineModel.getNextId s).1) at g
  change (TimelineModel.requestClipMoveFun
    (ClipModel.construct bin (TimelineModel.getNextId s).2 binClipId (TimelineModel.getNextId s).1)
    (TimelineModel.getNextId s).1 T p true
    (TimelineModel.deregisterClip_lambda (TimelineModel.getNextId s).1)
    (TimelineModel.registerClip_lambda (TimelineModel.getNextId s).1)).s.next_id = _ at n
  generalize TimelineModel.requestClipMoveFun
    (ClipModel.construct bin (TimelineModel.getNextId s).2 binClipId (TimelineModel.getNextId s).1)
    (TimelineModel.getNextId s).1 T p true
    (TimelineModel.deregisterClip_lambda (TimelineModel.getNextId s).1)
    (TimelineModel.registerClip_lambda (TimelineModel.getNextId s).1) = r at g n ⊢
  have hle : s.next_id ≤ r.s.next_id := by rw [n, hn1]; exact le_of_lt hlt
  split
  · obtain ⟨a1, a2⟩ := g.1.2.1 r.s g.1.1 (le_refl _)
    exact ⟨h.of_next a1 (by rw [a2]; exact hle), by show s.next_id ≤ _; rw [a2]; exact hle⟩
  · exact ⟨⟨g.1.1, safe_update_undo r.redo redo g.1.2.1 (h.2.1.mono hle),
      safe_update_redo r.undo undo g.1.2.2 (h.2.2.mono hle)⟩, hle⟩

theorem trackInsertion_request_good {s : TimelineState} {undo redo : Fun}
    (h : Good s undo redo) (position id : Int) :
    (TimelineModel.requestTrackInsertionFun s position id undo redo).toRes.GoodFrom s := by
  have hlt : s.next_id < s.next_id + 1 := by omega
  unfold TimelineModel.requestTrackInsertionFun
  dsimp only
  generalize (if position = -1 then (s.m_allTracks.length : Int) else position) = pos'
  rw [apply_ite ResId.toRes]
  split
  · exact h.goodFrom false
  · have hs1 := consistent_constructTrack h.1 pos'
    have hn1 : (TrackModel.construct (TimelineModel.getNextId s).2 s.next_id pos').next_id
        = s.next_id + 1 := rfl
    have hle : s.next_id ≤
        (TrackModel.construct (TimelineModel.getNextId s).2 s.next_id pos').next_id := by
      rw [hn1]; exact le_of_lt hlt
    refine ⟨⟨hs1, ?_, ?_⟩, hle⟩
    · exact safe_update_undo (TimelineModel.registerTrack_lambda s.next_id pos') redo
        (safe_deregisterTrack_lambda (s.next_id + 1) s.next_id false)
        (h.2.1.mono (le_of_lt hlt))
    · exact safe_update_redo (TimelineModel.deregisterTrack_lambda s.next_id false) undo
        (safe_registerTrack_lambda pos' h.1.next_nonneg hlt) (h.2.2.mono (le_of_lt hlt))

theorem safe_update_model (n itemId : Int) :
    Safe n (fun t =>
      if TimelineModel.getItemTrackId t itemId ≠ -1 then (true, t.notify true) else (true, t)) := by
  intro s hs _
  dsimp only
  split
  · exact ⟨hs.of_same_store (fun _ => rfl) (fun _ => ⟨rfl, fun _ => ⟨rfl, rfl⟩⟩) (le_refl _)
      hs.tracks_ok hs.allTracks_ok hs.clips_ok hs.compos_ok hs.nodes_ok hs.uplink_lt
      hs.tractor_len, rfl⟩
  · exact ⟨hs, rfl⟩

theorem itemResize_good {s : TimelineState} {undo redo : Fun} (h : Good s undo redo)
    (itemId size : Int) (right logUndo : Bool) :
    (TimelineModel.requestItemResizeFun s itemId size right logUndo undo redo).GoodFrom s := by
  obtain ⟨r, hr, hg⟩ : ∃ r : Res,
      (if TimelineModel.isClip s itemId = true then
        ClipModel.requestResize s itemId size right undo redo
      else CompositionModel.requestResize s itemId size right undo redo) = r ∧ r.GoodFrom s := by
    refine ⟨_, rfl, ?_⟩
    split
    · exact clipResize_good h _ _ _
    · exact compositionResize_good h _ _ _
  unfold TimelineModel.requestItemResizeFun
  simp only [hr]
  split
  · have hu := safe_update_model r.s.next_id itemId
    obtain ⟨a1, a2⟩ := hu r.s hg.1.1 (le_refl _)
    refine ⟨⟨a1, ?_, ?_⟩, ?_⟩
    · rw [a2]; exact safe_push_lambda hu hg.1.2.1
    · rw [a2]; exact safe_push_lambda hu hg.1.2.2
    · rw [a2]; exact hg.2
  · exact hg

theorem groupMoveLoop_good (clipId delta_track delta_pos : Int) (updateView : Bool)
    (l : List Int) :
    ∀ {s : TimelineState} {undo redo : Fun}, Good s undo redo → (∀ c ∈ l, c < s.next_id) →
      (TimelineModel.groupMoveLoop clipId delta_track delta_pos updateView l s undo redo).GoodFrom s ∧
      (TimelineModel.groupMoveLoop clipId delta_track delta_pos updateView l s undo
        redo).s.next_id = s.next_id := by
  induction l with
  | nil =>
    intro s undo redo h _
    exact ⟨h.goodFrom true, rfl⟩
  | cons clip rest ih =>
    intro s undo redo h hl
    obtain ⟨r, hr, hg, hn⟩ : ∃ r : Res,
        (if 0 ≤ TimelineModel.getTrackPosition s (TimelineModel.getClipTrackId s clip) + delta_track ∧
            TimelineModel.getTrackPosition s (TimelineModel.getClipTrackId s clip) + delta_track <
              TimelineModel.getTracksCount s then
          TimelineModel.requestClipMoveFun s clip
            (s.m_allTracks.getD
              (TimelineModel.getTrackPosition s (TimelineModel.getClipTrackId s clip) +
                delta_track).toNat (-1))
            ((s.clipObj clip).m_position + delta_pos) (updateView || clip != clipId) undo redo
        else { ok := false, s := s, undo := undo, redo := redo }) = r ∧
        r.GoodFrom s ∧ r.s.next_id = s.next_id := by
      refine ⟨_, rfl, ?_⟩
      split
      · rename_i hrange
        have hlen : (TimelineModel.getTrackPosition s (TimelineModel.getClipTrackId s clip) +
            delta_track).toNat < s.m_allTracks.length := by
          have := h.1.tractor_len
          unfold TimelineModel.getTracksCount at hrange
          omega
        have hmem : s.m_allTracks.getD
            (TimelineModel.getTrackPosition s (TimelineModel.getClipTrackId s clip) +
              delta_track).toNat (-1) ∈ s.m_allTracks := by
          rw [List.getD_eq_getElem _ _ hlen]
          exact List.getElem_mem _
        have hb := h.1.allTracks_ok _ hmem
        exact clipMove_good h _ _ (by omega) hb.2 (hl clip (by simp))
      · exact ⟨h.goodFrom false, rfl⟩
    unfold TimelineModel.groupMoveLoop
    simp only [hr]
    split
    · obtain ⟨a1, a2⟩ := hg.1.2.1 r.s hg.1.1 (le_refl _)
      refine ⟨⟨hg.1.of_next a1 (le_of_eq a2.symm), ?_⟩, ?_⟩
      · rw [a2, hn]
      · exact a2.trans hn
    · have hl' : ∀ c ∈ rest, c < r.s.next_id := fun c hc => by
        rw [hn]; exact hl c (List.mem_cons_of_mem _ hc)
      obtain ⟨g2, n2⟩ := ih hg.1 hl'
      exact ⟨hg.trans g2, n2.trans hn⟩

theorem ungroupWhile_good (clip : Int) (fuel : Nat) :
    ∀ {s : TimelineState} {undo redo : Fun}, Good s undo redo →
      (TimelineModel.ungroupWhile fuel clip s undo redo).GoodFrom s := by
  induction fuel with
  | zero => intro s undo redo h; exact h.goodFrom true
  | succ k ih =>
    intro s undo redo h
    unfold TimelineModel.ungroupWhile
    split
    · have hg := ungroupItem_good h clip
      dsimp only
      unfold TimelineModel.requestClipUngroupFun
      split
      · exact hg
      · exact hg.trans (ih hg.1)
    · exact h.goodFrom true

theorem deleteClipsLoop_good (l : List Int) :
    ∀ {s : TimelineState} {undo redo : Fun}, Good s undo redo → (∀ c ∈ l, c < s.next_id) →
      (TimelineModel.deleteClipsLoop l s undo redo).GoodFrom s := by
  induction l with
  | nil => intro s undo redo h _; exact h.goodFrom true
  | cons clip rest ih =>
    intro s undo redo h hl
    have hg := clipDeletion_good h (hl clip (by simp))
    unfold TimelineModel.deleteClipsLoop
    dsimp only
    apply goodFrom_ite_rollback _ hg
    exact hg.trans (ih hg.1 (fun c hc => lt_of_lt_of_le (hl c (List.mem_cons_of_mem _ hc)) hg.2))

theorem trackDeletionLoop_good (l : List Int) :
    ∀ {s : TimelineState} {undo redo : Fun}, Good s undo redo → (∀ c ∈ l, c < s.next_id) →
      (TimelineModel.trackDeletionLoop l s undo redo).GoodFrom s := by
  induction l with
  | nil => intro s undo redo h _; exact h.goodFrom true
  | cons clip rest ih =>
    intro s undo redo h hl
    have hg1 := ungroupWhile_good clip (s.m_groups.m_nodes.length + 1) h
    obtain ⟨r2, hr2, hg2⟩ : ∃ r2 : Res,
        (if (TimelineModel.ungroupWhile (s.m_groups.m_nodes.length + 1) clip s undo redo).ok = true
          then TimelineModel.requestClipDeletionFun
            (TimelineModel.ungroupWhile (s.m_groups.m_nodes.length + 1) clip s undo redo).s clip
            (TimelineModel.ungroupWhile (s.m_groups.m_nodes.length + 1) clip s undo redo).undo
            (TimelineModel.ungroupWhile (s.m_groups.m_nodes.length + 1) clip s undo redo).redo
          else TimelineModel.ungroupWhile (s.m_groups.m_nodes.length + 1) clip s undo redo) = r2 ∧
        r2.GoodFrom s := by
      refine ⟨_, rfl, ?_⟩
      split
      · exact hg1.trans (clipDeletion_good hg1.1 (lt_of_lt_of_le (hl clip (by simp)) hg1.2))
      · exact hg1
    unfold TimelineModel.trackDeletionLoop
    simp only [hr2]
    apply goodFrom_ite_rollback _ hg2
    exact hg2.trans (ih hg2.1 (fun c hc => lt_of_lt_of_le (hl c (List.mem_cons_of_mem _ hc)) hg2.2))

theorem trackDeletion_request_good {s : TimelineState} {undo redo : Fun}
    (h : Good s undo redo) {trackId : Int} (h0 : 0 ≤ trackId) (hlt : trackId < s.next_id) :
    (TimelineModel.requestTrackDeletionFun s trackId undo redo).GoodFrom s := by
  have hnoop : Good s noop noop := ⟨h.1, safe_noop _, safe_noop _⟩
  have hl := trackDeletionLoop_good (s.trackObj trackId).m_allClips hnoop
    (fun c hc => (h.1.clip_lt trackId c hc).1)
  unfold TimelineModel.requestTrackDeletionFun
  dsimp only
  generalize TimelineModel.trackDeletionLoop (s.trackObj trackId).m_allClips s noop noop = l
    at hl ⊢
  split
  · exact ⟨h.of_next hl.1.1 hl.2, hl.2⟩
  · rw [if_pos (show (TimelineModel.deregisterTrack_lambda trackId true l.s).1 = true from rfl)]
    have hop := safe_deregisterTrack_lambda l.s.next_id trackId true
    have hrev : Safe l.s.next_id (TimelineModel.registerTrack_lambda trackId
        (TimelineModel.getTrackPosition l.s trackId)) :=
      safe_registerTrack_lambda _ h0 (lt_of_lt_of_le hlt hl.2)
    obtain ⟨a1, a2⟩ := hop l.s hl.1.1 (le_refl _)
    have hle : s.next_id ≤ (TimelineModel.deregisterTrack_lambda trackId true l.s).2.next_id := by
      rw [a2]; exact hl.2
    have hu1 := safe_update_undo (TimelineModel.deregisterTrack_lambda trackId true) l.redo
      hrev hl.1.2.1
    have hr1 := safe_update_redo (TimelineModel.registerTrack_lambda trackId
      (TimelineModel.getTrackPosition l.s trackId)) l.undo hop hl.1.2.2
    have hu2 := safe_update_undo
      (UPDATE_UNDO_REDO (TimelineModel.deregisterTrack_lambda trackId true)
        (TimelineModel.registerTrack_lambda trackId (TimelineModel.getTrackPosition l.s trackId))
        l.undo l.redo).2 redo hu1 (h.2.1.mono hl.2)
    have hr2 := safe_update_redo
      (UPDATE_UNDO_REDO (TimelineModel.deregisterTrack_lambda trackId true)
        (TimelineModel.registerTrack_lambda trackId (TimelineModel.getTrackPosition l.s trackId))
        l.undo l.redo).1 undo hr1 (h.2.2.mono hl.2)
    exact ⟨⟨a1, hu2, hr2⟩, hle⟩

theorem scanChildren_clips (s : TimelineState) (cs : List Int) :
    ∀ (a : List Int) (o : Int) (q : List Int), ∀ x ∈ (TimelineModel.scanChildren s cs a o q).1,
      x ∈ a ∨ TimelineModel.isClip s x = true := by
  induction cs with
  | nil => intro a o q x hx; exact Or.inl hx
  | cons c rest ih =>
    intro a o q x hx
    unfold TimelineModel.scanChildren at hx
    split at hx
    · rename_i hc
      rcases ih _ _ _ x hx with e | e
      · rcases mem_insertKey.mp e with e' | e'
        · exact Or.inr (e' ▸ hc)
        · exact Or.inl e'
      · exact Or.inr e
    · exact ih _ _ _ x hx

theorem groupDeletionLoop_good (fuel : Nat) :
    ∀ (queue all_clips : List Int) {s : TimelineState} {undo redo : Fun}, Good s undo redo →
      (∀ c ∈ all_clips, c < s.next_id) →
      (TimelineModel.groupDeletionLoop fuel queue all_clips s undo redo).1.GoodFrom s ∧
      ∀ c ∈ (TimelineModel.groupDeletionLoop fuel queue all_clips s undo redo).2,
        c < (TimelineModel.groupDeletionLoop fuel queue all_clips s undo redo).1.s.next_id := by
  induction fuel with
  | zero =>
    intro queue all_clips s undo redo h hl
    exact ⟨h.goodFrom true, hl⟩
  | succ k ih =>
    intro queue all_clips s undo redo h hl
    cases queue with
    | nil => exact ⟨h.goodFrom true, hl⟩
    | cons current_group queue =>
      unfold TimelineModel.groupDeletionLoop
      dsimp only
      have hsc : ∀ c ∈ (TimelineModel.scanChildren s
          (s.m_groups.getDirectChildren current_group) all_clips (-1) queue).1,
          c < s.next_id := by
        intro c hc
        rcases scanChildren_clips s _ _ _ _ c hc with e | e
        · exact hl c e
        · exact h.1.clips_ok c (by simpa [TimelineModel.isClip] using e)
      generalize TimelineModel.scanChildren s (s.m_groups.getDirectChildren current_group)
        all_clips (-1) queue = sc at hsc ⊢
      split
      · have hg := ungroupItem_good h sc.2.1
        generalize GroupsModel.ungroupItem s sc.2.1 undo redo = res at hg ⊢
        split
        · refine ⟨hg.rollback false, ?_⟩
          intro c hc
          have := (hg.rollback false).2
          exact lt_of_lt_of_le (hsc c hc) this
        · obtain ⟨g2, l2⟩ := ih sc.2.2 sc.1 hg.1 (fun c hc => lt_of_lt_of_le (hsc c hc) hg.2)
          exact ⟨hg.trans g2, l2⟩
      · exact ih sc.2.2 sc.1 h hsc

/-! ## The public requests keep the stack safe -/

theorem StackOK.of_state {m : TimelineModel} (h : StackOK m) {s : TimelineState}
    (hs : Consistent s) (hn : m.st.next_id ≤ s.next_id) : StackOK { m with st := s } :=
  ⟨hs, fun c hc => ⟨(h.2 c hc).1.mono hn, (h.2 c hc).2.mono hn⟩⟩

theorem StackOK.push {m : TimelineModel} (h : StackOK m) {r : Res} (hr : r.GoodFrom m.st) :
    StackOK (PUSH_UNDO m r.s r.undo r.redo) := by
  refine ⟨hr.1.1, ?_⟩
  intro c hc
  have hc' : c = (r.undo, r.redo) ∨ c ∈ m.m_undoStack.m_done := by
    simpa [PUSH_UNDO, DocUndoStack.push] using hc
  rcases hc' with e | e
  · subst e
    exact ⟨hr.1.2.1, hr.1.2.2⟩
  · have := h.2 c (List.mem_append.mpr (Or.inl e))
    exact ⟨this.1.mono hr.2, this.2.mono hr.2⟩

theorem StackOK.good {m : TimelineModel} (h : StackOK m) : Good m.st noop noop :=
  ⟨h.1, safe_noop _, safe_noop _⟩

/-- A request that pushes when it succeeded and `logUndo` is set. -/
theorem StackOK.finish {m : TimelineModel} (h : StackOK m) {r : Res} (hr : r.GoodFrom m.st)
    (b : Prop) [Decidable b] :
    StackOK (if b then PUSH_UNDO m r.s r.undo r.redo else { m with st := r.s }) := by
  split
  · exact h.push hr
  · exact h.of_state hr.1.1 hr.2

theorem stackOK_undo {m : TimelineModel} (h : StackOK m) : StackOK (TimelineModel.undo m) := by
  unfold TimelineModel.undo
  split
  · exact h
  · rename_i c rest hd
    have hc := h.2 c (List.mem_append.mpr (Or.inl (by rw [hd]; simp)))
    obtain ⟨a1, a2⟩ := hc.1 m.st h.1 (le_refl _)
    refine ⟨a1, ?_⟩
    intro c' hc'
    have hmem : c' ∈ m.m_undoStack.m_done ++ m.m_undoStack.m_undone := by
      have : c' ∈ rest ∨ c' = c ∨ c' ∈ m.m_undoStack.m_undone := by simpa using hc'
      rw [hd]
      rcases this with e | e | e
      · simp [e]
      · simp [e]
      · simp [e]
    have := h.2 c' hmem
    exact ⟨this.1.mono (le_of_eq a2.symm), this.2.mono (le_of_eq a2.symm)⟩

theorem stackOK_redo {m : TimelineModel} (h : StackOK m) : StackOK (TimelineModel.redo m) := by
  unfold TimelineModel.redo
  split
  · exact h
  · rename_i c rest hd
    have hc := h.2 c (List.mem_append.mpr (Or.inr (by rw [hd]; simp)))
    obtain ⟨a1, a2⟩ := hc.2 m.st h.1 (le_refl _)
    refine ⟨a1, ?_⟩
    intro c' hc'
    have hmem : c' ∈ m.m_undoStack.m_done ++ m.m_undoStack.m_undone := by
      have : c' = c ∨ c' ∈ m.m_undoStack.m_done ∨ c' ∈ rest := by simpa using hc'
      rw [hd]
      rcases this with e | e | e
      · simp [e]
      · simp [e]
      · simp [e]
    have := h.2 c' hmem
    exact ⟨this.1.mono (le_of_eq a2.symm), this.2.mono (le_of_eq a2.symm)⟩

theorem sortedLeaves_mem_nodes (s : TimelineState) (groupId delta_track delta_pos : Int) :
    ∀ c ∈ TimelineModel.sortedLeaves s groupId delta_track delta_pos, c ∈ s.m_groups.m_nodes := by
  intro c hc
  unfold TimelineModel.sortedLeaves at hc
  have h1 := (List.perm_insertionSort _ _).subset hc
  unfold GroupsModel.getLeaves at h1
  exact (List.mem_filter.mp (List.mem_dedup.mp h1)).1

theorem stackOK_clipInsertion {m : TimelineModel} (h : StackOK m) (bin : String → Int)
    (binClipId : String) {T : Int} (p : Int) (logUndo : Bool)
    (hT : TimelineModel.isTrack m.st T = true) :
    StackOK (TimelineModel.requestClipInsertion bin m binClipId T p logUndo).2.2 := by
  have hT' : T ∈ m.st.m_iteratorTable := by simpa [TimelineModel.isTrack] using hT
  have hg := clipInsertion_good h.good bin binClipId p hT'
  unfold TimelineModel.requestClipInsertion
  dsimp only
  rw [apply_ite (fun x : Bool × Int × TimelineModel => x.2.2)]
  exact h.finish hg _

theorem stackOK_clipMove {m : TimelineModel} (h : StackOK m) {c T : Int} (p : Int)
    (updateView logUndo : Bool) (hc : TimelineModel.isClip m.st c = true)
    (hT : TimelineModel.isTrack m.st T = true) :
    StackOK (TimelineModel.requestClipMove m c T p updateView logUndo).2 := by
  have hT' : T ∈ m.st.m_iteratorTable := by simpa [TimelineModel.isTrack] using hT
  have hc' : c ∈ m.st.m_allClips := by simpa [TimelineModel.isClip] using hc
  have hTb := h.1.tracks_ok T hT'
  unfold TimelineModel.requestClipMove
  split
  · exact h
  · split
    · dsimp only
      unfold TimelineModel.requestGroupMove
      dsimp only
      have hg := (groupMoveLoop_good c
        (TimelineModel.getTrackPosition m.st T -
          TimelineModel.getTrackPosition m.st (TimelineModel.getClipTrackId m.st c))
        (p - (m.st.clipObj c).m_position) updateView
        (TimelineModel.sortedLeaves m.st (m.st.m_groups.getRootId c)
          (TimelineModel.getTrackPosition m.st T -
            TimelineModel.getTrackPosition m.st (TimelineModel.getClipTrackId m.st c))
          (p - (m.st.clipObj c).m_position)) h.good
        (fun x hx => h.1.nodes_ok x (sortedLeaves_mem_nodes _ _ _ _ x hx))).1
      split
      · exact h.of_state hg.1.1 hg.2
      · split
        · exact h.push hg
        · exact h.of_state hg.1.1 hg.2
    · have hg := (clipMove_good h.good p updateView (by omega) hTb.2 (h.1.clips_ok c hc')).1
      dsimp only
      rw [apply_ite (fun x : Bool × TimelineModel => x.2)]
      exact h.finish hg _

theorem stackOK_groupMove {m : TimelineModel} (h : StackOK m)
    (clipId groupId delta_track delta_pos : Int) (updateView logUndo : Bool) :
    StackOK (TimelineModel.requestGroupMove m clipId groupId delta_track delta_pos updateView
      logUndo).2 := by
  unfold TimelineModel.requestGroupMove
  dsimp only
  have hg := (groupMoveLoop_good clipId delta_track delta_pos updateView
    (TimelineModel.sortedLeaves m.st groupId delta_track delta_pos) h.good
    (fun x hx => h.1.nodes_ok x (sortedLeaves_mem_nodes _ _ _ _ x hx))).1
  split
  · exact h.of_state hg.1.1 hg.2
  · split
    · exact h.push hg
    · exact h.of_state hg.1.1 hg.2

theorem snapResize_consistent {s : TimelineState} (h : Consistent s)
    (proposeSize : TimelineState → Int → Int → Int → Bool → Int → Int)
    (itemId size : Int) (right : Bool) :
    Consistent (TimelineModel.snapResize proposeSize s itemId size right).2 ∧
      s.next_id ≤ (TimelineModel.snapResize proposeSize s itemId size right).2.next_id := by
  have hnoop : Good s noop noop := ⟨h, safe_noop _, safe_noop _⟩
  unfold TimelineModel.snapResize
  dsimp only
  generalize (if proposeSize s _ _ size right 10 < 0 then size else proposeSize s _ _ size right 10)
    = psize
  obtain ⟨t, ht, hg⟩ : ∃ t : Res,
      (if TimelineModel.isClip s itemId = true then
        ClipModel.requestResize s itemId psize right noop noop
      else CompositionModel.requestResize s itemId psize right noop noop) = t ∧ t.GoodFrom s := by
    refine ⟨_, rfl, ?_⟩
    split
    · exact clipResize_good hnoop _ _ _
    · exact compositionResize_good hnoop _ _ _
  simp only [ht]
  split
  · have := hg.rollback false
    exact ⟨this.1.1, this.2⟩
  · exact ⟨hg.1.1, hg.2⟩

theorem stackOK_itemResize {m : TimelineModel} (h : StackOK m)
    (proposeSize : TimelineState → Int → Int → Int → Bool → Int → Int)
    (itemId size : Int) (right logUndo snapping : Bool) :
    StackOK (TimelineModel.requestItemResize proposeSize m itemId size right logUndo snapping).2 := by
  obtain ⟨sn, hsn, hcons, hnext⟩ : ∃ sn : Int × TimelineState,
      (if snapping = true then TimelineModel.snapResize proposeSize m.st itemId size right
        else (size, m.st)) = sn ∧ Consistent sn.2 ∧ m.st.next_id ≤ sn.2.next_id := by
    refine ⟨_, rfl, ?_⟩
    split
    · exact snapResize_consistent h.1 _ _ _ _
    · exact ⟨h.1, le_refl _⟩
  have hg0 : Good sn.2 noop noop := ⟨hcons, safe_noop _, safe_noop _⟩
  have hg := itemResize_good hg0 itemId sn.1 right logUndo
  have hg' : (TimelineModel.requestItemResizeFun sn.2 itemId sn.1 right logUndo noop
      noop).GoodFrom m.st := ⟨hg.1, le_trans hnext hg.2⟩
  unfold TimelineModel.requestItemResize
  simp only [hsn]
  rw [apply_ite (fun x : Bool × TimelineModel => x.2)]
  exact h.finish hg' _

theorem stackOK_groupDeletion {m : TimelineModel} (h : StackOK m) (clipId : Int) :
    StackOK (TimelineModel.requestGroupDeletion m clipId).2 := by
  obtain ⟨g1, g2⟩ := groupDeletionLoop_good (m.st.m_groups.m_nodes.length + 1)
    [m.st.m_groups.getRootId clipId] [] h.good (by simp)
  unfold TimelineModel.requestGroupDeletion
  dsimp only
  generalize TimelineModel.groupDeletionLoop (m.st.m_groups.m_nodes.length + 1)
    [m.st.m_groups.getRootId clipId] [] m.st noop noop = g at g1 g2 ⊢
  split
  · exact h.of_state g1.1.1 g1.2
  · have hd := g1.trans (deleteClipsLoop_good g.2 g1.1 g2)
    generalize TimelineModel.deleteClipsLoop g.2 g.1.s g.1.undo g.1.redo = d at hd ⊢
    split
    · exact h.of_state hd.1.1 hd.2
    · exact h.push hd

theorem stackOK_itemDeletion {m : TimelineModel} (h : StackOK m) {itemId : Int} (logUndo : Bool)
    (hitem : (TimelineModel.isClip m.st itemId || TimelineModel.isComposition m.st itemId) = true) :
    StackOK (TimelineModel.requestItemDeletion m itemId logUndo).2 := by
  unfold TimelineModel.requestItemDeletion
  split
  · exact stackOK_groupDeletion h itemId
  · obtain ⟨r, hr, hg⟩ : ∃ r : Res,
        (if TimelineModel.isClip m.st itemId = true then
          TimelineModel.requestClipDeletionFun m.st itemId noop noop
        else TimelineModel.requestCompositionDeletionFun m.st itemId noop noop) = r ∧
        r.GoodFrom m.st := by
      refine ⟨_, rfl, ?_⟩
      split
      · rename_i hc
        exact clipDeletion_good h.good
          (h.1.clips_ok itemId (by simpa [TimelineModel.isClip] using hc))
      · rename_i hc
        have hcomp : itemId ∈ m.st.m_allCompositions := by
          have hc' : itemId ∉ m.st.m_allClips := by simpa [TimelineModel.isClip] using hc
          have : itemId ∈ m.st.m_allClips ∨ itemId ∈ m.st.m_allCompositions := by
            simpa [TimelineModel.isClip, TimelineModel.isComposition] using hitem
          exact this.resolve_left hc'
        exact compositionDeletion_good h.good (h.1.compos_ok itemId hcomp)
    simp only [hr]
    rw [apply_ite (fun x : Bool × TimelineModel => x.2)]
    exact h.finish hg _

theorem stackOK_clipsGroup {m : TimelineModel} (h : StackOK m) (ids : List Int) :
    StackOK (TimelineModel.requestClipsGroup m ids).2 := by
  have hg := groupItems_good h.good ids
  unfold TimelineModel.requestClipsGroup
  split
  · exact h
  · dsimp only
    split
    · exact h.push hg
    · exact h.of_state hg.1.1 hg.2

theorem stackOK_clipUngroup {m : TimelineModel} (h : StackOK m) (id : Int) :
    StackOK (TimelineModel.requestClipUngroup m id).2 := by
  have hg := ungroupItem_good h.good id
  unfold TimelineModel.requestClipUngroup TimelineModel.requestClipUngroupFun
  dsimp only
  split
  · exact h.push hg
  · exact h.of_state hg.1.1 hg.2

theorem stackOK_trackInsertion {m : TimelineModel} (h : StackOK m) (position id : Int) :
    StackOK (TimelineModel.requestTrackInsertion m position id).2.2 := by
  have hg := trackInsertion_request_good h.good position id
  unfold TimelineModel.requestTrackInsertion
  dsimp only
  split
  · exact h.push hg
  · exact h.of_state hg.1.1 hg.2

theorem stackOK_trackDeletion {m : TimelineModel} (h : StackOK m) {trackId : Int}
    (hT : TimelineModel.isTrack m.st trackId = true) :
    StackOK (TimelineModel.requestTrackDeletion m trackId).2 := by
  have hT' : trackId ∈ m.st.m_iteratorTable := by simpa [TimelineModel.isTrack] using hT
  have hb := h.1.tracks_ok trackId hT'
  have hg := trackDeletion_request_good h.good hb.1 hb.2
  unfold TimelineModel.requestTrackDeletion
  dsimp only
  split
  · exact h.push hg
  · exact h.of_state hg.1.1 hg.2

theorem consistent_empty : Consistent ({} : TimelineState) := by
  refine
    { sorted := fun _ => List.sorted_nil, member_track := ?_, no_sentinel := rfl,
      track_member := ?_, disjoint := ?_, clip_lt := ?_, tracks_ok := ?_, allTracks_ok := ?_,
      clips_ok := ?_, compos_ok := ?_, nodes_ok := ?_, uplink_lt := ?_, tractor_len := rfl,
      next_nonneg := le_refl _ }
  · intro T c hc; exact absurd hc (List.not_mem_nil _)
  · intro c hc; exact absurd rfl hc
  · intro T c hc; exact absurd hc (List.not_mem_nil _)
  · intro T c hc; exact absurd hc (List.not_mem_nil _)
  · intro T hT; exact absurd hT (List.not_mem_nil _)
  · intro T hT; exact absurd hT (List.not_mem_nil _)
  · intro T hT; exact absurd hT (List.not_mem_nil _)
  · intro T hT; exact absurd hT (List.not_mem_nil _)
  · intro T hT; exact absurd hT (List.not_mem_nil _)
  · intro n; show (-1 : Int) < 0; decide

theorem stackOK_run {m : TimelineModel} (h : StackOK m) (bin : String → Int)
    (proposeSize : TimelineState → Int → Int → Int → Bool → Int → Int) (req : Request)
    (hreq : req.allowed m = true) : StackOK (req.run bin proposeSize m) := by
  cases req with
  | clipInsertion binClipId trackId position logUndo =>
    exact stackOK_clipInsertion h bin binClipId position logUndo hreq
  | clipMove clipId trackId position updateView logUndo =>
    have hreq' : TimelineModel.isClip m.st clipId = true ∧
        TimelineModel.isTrack m.st trackId = true := by
      simpa [Request.allowed] using hreq
    exact stackOK_clipMove h position updateView logUndo hreq'.1 hreq'.2
  | groupMove clipId groupId delta_track delta_pos updateView logUndo =>
    exact stackOK_groupMove h clipId groupId delta_track delta_pos updateView logUndo
  | itemResize itemId size right logUndo snapping =>
    exact stackOK_itemResize h proposeSize itemId size right logUndo snapping
  | itemDeletion itemId logUndo => exact stackOK_itemDeletion h logUndo hreq
  | clipsGroup ids => exact stackOK_clipsGroup h ids
  | clipUngroup id => exact stackOK_clipUngroup h id
  | trackInsertion position => exact stackOK_trackInsertion h position (-1)
  | trackDeletion trackId => exact stackOK_trackDeletion h hreq
  | undo => exact stackOK_undo h
  | redo => exact stackOK_redo h

theorem stackOK_of_reachable {bin : String → Int}
    {proposeSize : TimelineState → Int → Int → Int → Bool → Int → Int} {m : TimelineModel}
    (h : Reachable bin proposeSize m) : StackOK m := by
  induction h with
  | init => exact ⟨consistent_empty, fun c hc => absurd hc (List.not_mem_nil _)⟩
  | step m req _ hreq ih => exact stackOK_run ih bin proposeSize req hreq

theorem reachable_runAll {bin : String → Int}
    {proposeSize : TimelineState → Int → Int → Int → Bool → Int → Int} (reqs : List Request) :
    ∀ {m : TimelineModel}, Reachable bin proposeSize m →
      allAllowed bin proposeSize m reqs = true →
      Reachable bin proposeSize (runAll bin proposeSize m reqs) := by
  induction reqs with
  | nil => intro m h _; exact h
  | cons req rest ih =>
    intro m h ha
    unfold allAllowed at ha
    rw [Bool.and_eq_true] at ha
    exact ih (Reachable.step m req h ha.1) ha.2

theorem scenarioA_reachable : Reachable scenarioBin noSnap scenarioA :=
  reachable_runAll _ Reachable.init (by decide)

theorem not_overlap_iff (p d q e : Int) :
    intervalsOverlap p d q e = false ↔ ∀ t : Int, ¬ (p ≤ t ∧ t < p + d ∧ q ≤ t ∧ t < q + e) := by
  unfold intervalsOverlap
  rw [decide_eq_false_iff_not]
  constructor
  · intro h t ht
    apply h
    rcases ht with ⟨h1, h2, h3, h4⟩
    exact lt_of_le_of_lt (max_le h1 h3) (lt_min h2 h4)
  · intro h hlt
    exact h (max p q) ⟨le_max_left _ _, lt_of_lt_of_le hlt (min_le_left _ _), le_max_right _ _,
      lt_of_lt_of_le hlt (min_le_right _ _)⟩

/-- C3 (non-overlap invariant): in every model reachable from the empty
timeline by the mutating requests (clip insertion, move, group move, resize,
deletion, grouping, track insertion and deletion) and by undo/redo of the
stack, two distinct clips held by the same track have no time unit in common:
their intervals `[position, position + playtime)` are disjoint. -/
theorem C3_clips_of_a_track_never_overlap (bin : String → Int)
    (proposeSize : TimelineState → Int → Int → Int → Bool → Int → Int) (m : TimelineModel)
    (hreach : Reachable bin proposeSize m) (trackId c1 c2 : Int)
    (h1 : c1 ∈ (m.st.trackObj trackId).m_allClips)
    (h2 : c2 ∈ (m.st.trackObj trackId).m_allClips) (hne : c1 ≠ c2) (t : Int) :
    ¬ (TimelineModel.getClipPosition m.st c1 ≤ t ∧
        t < TimelineModel.getClipPosition m.st c1 + TimelineModel.getClipPlaytime m.st c1 ∧
        TimelineModel.getClipPosition m.st c2 ≤ t ∧
        t < TimelineModel.getClipPosition m.st c2 + TimelineModel.getClipPlaytime m.st c2) :=
  (not_overlap_iff _ _ _ _).mp
    ((stackOK_of_reachable hreach).1.disjoint trackId c1 h1 c2 h2 hne) t

/-- Witness of C3 on scenario A: the clips 1 and 2 of track 0 do not both play
at time 179. -/
theorem C3_witness :
    ¬ (TimelineModel.getClipPosition scenarioA.st 1 ≤ 179 ∧
        179 < TimelineModel.getClipPosition scenarioA.st 1 +
          TimelineModel.getClipPlaytime scenarioA.st 1 ∧
        TimelineModel.getClipPosition scenarioA.st 2 ≤ 179 ∧
        179 < TimelineModel.getClipPosition scenarioA.st 2 +
          TimelineModel.getClipPlaytime scenarioA.st 2) :=
  C3_clips_of_a_track_never_overlap scenarioBin noSnap scenarioA scenarioA_reachable 0 1 2
    (by decide) (by decide) (by decide) 179

theorem scenarioUnlogged_reachable : Reachable scenarioBin noSnap scenarioUnlogged :=
  reachable_runAll _ Reachable.init (by decide)

/-- C4, as stated, fails: after a logged track insertion, an unlogged clip
insertion on that track and the undo of the stack, the registered clip 1 still
names track 0, which is no longer registered and is held by no registered
track. -/
theorem C4_counterexample :
    Reachable scenarioBin noSnap scenarioUnlogged ∧ ¬ PlacementInvariant scenarioUnlogged.st := by
  refine ⟨scenarioUnlogged_reachable, ?_⟩
  intro h
  have h1 := (h 1 (by decide)).2 (by decide)
  exact absurd h1.1 (by decide)

/-- C4 (amended): in every model reachable from the empty timeline by the
mutating requests and by undo/redo of the stack, every registered clip has
track id -1 if and only if no track object holds it, and when its track id is
`T != -1` the track object `T` holds it and no other track object does. -/
theorem C4_placement_on_track_objects (bin : String → Int)
    (proposeSize : TimelineState → Int → Int → Int → Bool → Int → Int) (m : TimelineModel)
    (hreach : Reachable bin proposeSize m) : PlacementInvariantStore m.st := by
  have hc := (stackOK_of_reachable hreach).1
  intro c _
  refine ⟨⟨fun h T => hc.not_mem_of_unplaced h T, ?_⟩, ?_⟩
  · intro h
    by_contra hne
    exact h _ (hc.track_member c hne)
  · intro hne
    refine ⟨hc.track_member c hne, ?_⟩
    intro T hT hmem
    exact hT (hc.member_track T c hmem).symm

/-- Witness of the amended C4 on the model of the counterexample. -/
theorem C4_witness : PlacementInvariantStore scenarioUnlogged.st :=
  C4_placement_on_track_objects scenarioBin noSnap scenarioUnlogged scenarioUnlogged_reachable

/-! ## What a clip move computes -/

theorem trackInsertion_fail {s : TimelineState} {T c p : Int} (uv : Bool) (undo redo : Fun)
    (h : TrackModel.canInsert s T c p = false) :
    TrackModel.requestClipInsertion s T c p uv undo redo =
      { ok := false, s := s, undo := undo, redo := redo } := by
  simp [TrackModel.requestClipInsertion, TrackModel.requestClipInsertion_lambda, h]

theorem trackInsertion_ok {s : TimelineState} {T c p : Int} (uv : Bool) (undo redo : Fun)
    (h : TrackModel.canInsert s T c p = true) :
    TrackModel.requestClipInsertion s T c p uv undo redo =
      { ok := true, s := TrackModel.place s T c p uv,
        undo := (UPDATE_UNDO_REDO (TrackModel.requestClipInsertion_lambda T c p uv)
          (TrackModel.requestClipDeletion_lambda T c uv) undo redo).1,
        redo := (UPDATE_UNDO_REDO (TrackModel.requestClipInsertion_lambda T c p uv)
          (TrackModel.requestClipDeletion_lambda T c uv) undo redo).2 } := by
  simp [TrackModel.requestClipInsertion, TrackModel.requestClipInsertion_lambda, h]

theorem trackDeletion_fail {s : TimelineState} {T c : Int} (uv : Bool) (undo redo : Fun)
    (h : c ∉ (s.trackObj T).m_allClips) :
    TrackModel.requestClipDeletion s T c uv undo redo =
      { ok := false, s := s, undo := undo, redo := redo } := by
  simp [TrackModel.requestClipDeletion, TrackModel.requestClipDeletion_lambda, h]

theorem trackDeletion_ok {s : TimelineState} {T c : Int} (uv : Bool) (undo redo : Fun)
    (h : c ∈ (s.trackObj T).m_allClips) :
    TrackModel.requestClipDeletion s T c uv undo redo =
      { ok := true, s := TrackModel.unplace s T c uv,
        undo := (UPDATE_UNDO_REDO (TrackModel.requestClipDeletion_lambda T c uv)
          (TrackModel.requestClipInsertion_lambda T c (s.clipObj c).m_position uv) undo redo).1,
        redo := (UPDATE_UNDO_REDO (TrackModel.requestClipDeletion_lambda T c uv)
          (TrackModel.requestClipInsertion_lambda T c (s.clipObj c).m_position uv)
          undo redo).2 } := by
  simp [TrackModel.requestClipDeletion, TrackModel.requestClipDeletion_lambda, h]

theorem clipMove_unplaced_fail {s : TimelineState} {T c p : Int} (uv : Bool) (undo redo : Fun)
    (hun : TimelineModel.getClipTrackId s c = -1)
    (h : TrackModel.canInsert s T c p = false) :
    TimelineModel.requestClipMoveFun s c T p uv undo redo =
      { ok := false, s := s, undo := undo, redo := redo } := by
  simp [TimelineModel.requestClipMoveFun, hun, trackInsertion_fail uv noop noop h, noop]

theorem clipMove_unplaced_ok {s : TimelineState} {T c p : Int} (uv : Bool) (undo redo : Fun)
    (hun : TimelineModel.getClipTrackId s c = -1)
    (h : TrackModel.canInsert s T c p = true) :
    TimelineModel.requestClipMoveFun s c T p uv undo redo =
      { ok := true, s := TrackModel.place s T c p uv,
        undo := (UPDATE_UNDO_REDO
          (UPDATE_UNDO_REDO (TrackModel.requestClipInsertion_lambda T c p uv)
            (TrackModel.requestClipDeletion_lambda T c uv) noop noop).2
          (UPDATE_UNDO_REDO (TrackModel.requestClipInsertion_lambda T c p uv)
            (TrackModel.requestClipDeletion_lambda T c uv) noop noop).1 undo redo).1,
        redo := (UPDATE_UNDO_REDO
          (UPDATE_UNDO_REDO (TrackModel.requestClipInsertion_lambda T c p uv)
            (TrackModel.requestClipDeletion_lambda T c uv) noop noop).2
          (UPDATE_UNDO_REDO (TrackModel.requestClipInsertion_lambda T c p uv)
            (TrackModel.requestClipDeletion_lambda T c uv) noop noop).1 undo redo).2 } := by
  simp [TimelineModel.requestClipMoveFun, hun, trackInsertion_ok uv noop noop h]

theorem construct_clip (bin : String → Int) (s : TimelineState) (binClipId : String) (c : Int) :
    (ClipModel.construct bin (TimelineModel.getNextId s).2 binClipId s.next_id).clipObj c =
      if c = s.next_id then
        { m_id := s.next_id, m_binClipId := binClipId, m_currentTrackId := -1, m_position := -1,
          m_in := 0, m_playtime := bin binClipId, m_sourceLength := bin binClipId }
      else s.clipObj c := by
  by_cases h : c = s.next_id <;>
    simp [ClipModel.construct, TimelineModel.registerClip, TimelineModel.getNextId, setAt, h]

theorem construct_isFree (bin : String → Int) (s : TimelineState) (binClipId : String)
    (T p d : Int) (hfresh : s.next_id ∉ (s.trackObj T).m_allClips) :
    TrackModel.isFree (ClipModel.construct bin (TimelineModel.getNextId s).2 binClipId s.next_id)
      T p d = TrackModel.isFree s T p d := by
  rw [Bool.eq_iff_iff, isFree_eq_true_iff, isFree_eq_true_iff]
  have hne : ∀ c ∈ (s.trackObj T).m_allClips, c ≠ s.next_id := fun c hc e => hfresh (e ▸ hc)
  constructor
  · intro h c hc
    have := h c hc
    rw [construct_clip, if_neg (hne c hc)] at this
    exact this
  · intro h c hc
    rw [construct_clip, if_neg (hne c hc)]
    exact h c hc

theorem construct_canInsert (bin : String → Int) (s : TimelineState) (binClipId : String)
    (T p : Int) (hfresh : s.next_id ∉ (s.trackObj T).m_allClips) :
    TrackModel.canInsert (ClipModel.construct bin (TimelineModel.getNextId s).2 binClipId s.next_id)
      T s.next_id p = TrackModel.isFree s T p (bin binClipId) := by
  unfold TrackModel.canInsert
  rw [construct_clip]
  simp [construct_isFree bin s binClipId T p _ hfresh]

theorem clipInsertionFun_fail (bin : String → Int) (s : TimelineState) (binClipId : String)
    (T p : Int) (undo redo : Fun) (hfresh : s.next_id ∉ (s.trackObj T).m_allClips)
    (hfree : TrackModel.isFree s T p (bin binClipId) = false) :
    TimelineModel.requestClipInsertionFun bin s binClipId T p undo redo =
      { ok := false,
        s := (TimelineModel.deregisterClip_lambda s.next_id
          (ClipModel.construct bin (TimelineModel.getNextId s).2 binClipId s.next_id)).2,
        id := -1, undo := undo, redo := redo } := by
  have hcan := construct_canInsert bin s binClipId T p hfresh
  rw [hfree] at hcan
  have hun : TimelineModel.getClipTrackId
      (ClipModel.construct bin (TimelineModel.getNextId s).2 binClipId s.next_id) s.next_id = -1 := by
    unfold TimelineModel.getClipTrackId
    rw [construct_clip]
    simp
  have hmove := clipMove_unplaced_fail true (TimelineModel.deregisterClip_lambda s.next_id)
    (TimelineModel.registerClip_lambda s.next_id) hun hcan
  unfold TimelineModel.requestClipInsertionFun
  simp only [show (TimelineModel.getNextId s).1 = s.next_id from rfl, hmove]
  simp

theorem clipInsertionFun_ok (bin : String → Int) (s : TimelineState) (binClipId : String)
    (T p : Int) (undo redo : Fun) (hfresh : s.next_id ∉ (s.trackObj T).m_allClips)
    (hfree : TrackModel.isFree s T p (bin binClipId) = true) :
    (TimelineModel.requestClipInsertionFun bin s binClipId T p undo redo).ok = true ∧
    (TimelineModel.requestClipInsertionFun bin s binClipId T p undo redo).id = s.next_id ∧
    (TimelineModel.requestClipInsertionFun bin s binClipId T p undo redo).s =
      TrackModel.place (ClipModel.construct bin (TimelineModel.getNextId s).2 binClipId s.next_id)
        T s.next_id p true := by
  have hcan := construct_canInsert bin s binClipId T p hfresh
  rw [hfree] at hcan
  have hun : TimelineModel.getClipTrackId
      (ClipModel.construct bin (TimelineModel.getNextId s).2 binClipId s.next_id) s.next_id = -1 := by
    unfold TimelineModel.getClipTrackId
    rw [construct_clip]
    simp
  have hmove := clipMove_unplaced_ok true (TimelineModel.deregisterClip_lambda s.next_id)
    (TimelineModel.registerClip_lambda s.next_id) hun hcan
  unfold TimelineModel.requestClipInsertionFun
  simp only [show (TimelineModel.getNextId s).1 = s.next_id from rfl, hmove]
  simp

/-- C1: when the interval `[position, position + duration)` of the new clip
overlaps a clip already on the track, `requestClipInsertion` returns false,
sets `id` to -1, pushes nothing on the undo stack and leaves the registered
clips, the clips of every track and the (track, position, playtime) of every
clip as they were. -/
theorem C1_requestClipInsertion_fails_on_overlap (bin : String → Int) (m : TimelineModel)
    (binClipId : String) (trackId position : Int) (logUndo : Bool)
    (hfreshClip : m.st.next_id ∉ m.st.m_allClips)
    (hfreshTrack : m.st.next_id ∉ (m.st.trackObj trackId).m_allClips)
    (hoverlap : ∃ c ∈ (m.st.trackObj trackId).m_allClips,
      intervalsOverlap position (bin binClipId) (TimelineModel.getClipPosition m.st c)
        (TimelineModel.getClipPlaytime m.st c) = true) :
    (TimelineModel.requestClipInsertion bin m binClipId trackId position logUndo).1 = false ∧
    (TimelineModel.requestClipInsertion bin m binClipId trackId position logUndo).2.1 = -1 ∧
    (TimelineModel.requestClipInsertion bin m binClipId trackId position logUndo).2.2.m_undoStack
      = m.m_undoStack ∧
    (TimelineModel.requestClipInsertion bin m binClipId trackId position logUndo).2.2.st.m_allClips
      = m.st.m_allClips ∧
    (∀ T, ((TimelineModel.requestClipInsertion bin m binClipId trackId position
        logUndo).2.2.st.trackObj T).m_allClips = (m.st.trackObj T).m_allClips) ∧
    (∀ c ∈ m.st.m_allClips,
      TimelineModel.getClipTrackId
          (TimelineModel.requestClipInsertion bin m binClipId trackId position logUndo).2.2.st c
        = TimelineModel.getClipTrackId m.st c ∧
      TimelineModel.getClipPosition
          (TimelineModel.requestClipInsertion bin m binClipId trackId position logUndo).2.2.st c
        = TimelineModel.getClipPosition m.st c ∧
      TimelineModel.getClipPlaytime
          (TimelineModel.requestClipInsertion bin m binClipId trackId position logUndo).2.2.st c
        = TimelineModel.getClipPlaytime m.st c) := by
  have hfree : TrackModel.isFree m.st trackId position (bin binClipId) = false :=
    (isFree_eq_false_iff _ _ _ _).mpr hoverlap
  have hres := clipInsertionFun_fail bin m.st binClipId trackId position noop noop hfreshTrack
    hfree
  unfold TimelineModel.requestClipInsertion
  simp only [hres]
  refine ⟨by simp, by simp, by simp, ?_, ?_, ?_⟩
  · simp [TimelineModel.deregisterClip_lambda, ClipModel.construct, TimelineModel.registerClip,
      TimelineModel.getNextId, eraseKey_insertKey hfreshClip]
  · intro T
    simp [TimelineModel.deregisterClip_lambda, ClipModel.construct, TimelineModel.registerClip,
      TimelineModel.getNextId]
  · intro c hc
    have hne : c ≠ m.st.next_id := fun e => hfreshClip (e ▸ hc)
    simp [TimelineModel.deregisterClip_lambda, ClipModel.construct, TimelineModel.registerClip,
      TimelineModel.getNextId, TimelineModel.getClipTrackId, TimelineModel.getClipPosition,
      TimelineModel.getClipPlaytime, setAt, hne]

/-- Witness of C1 on scenario A: a clip of 10 at 85 overlaps the clip
`[80, 180)` of track 0. -/
theorem C1_witness :
    (scenarioA.st.next_id ∉ scenarioA.st.m_allClips ∧
      scenarioA.st.next_id ∉ (scenarioA.st.trackObj 0).m_allClips ∧
      intervalsOverlap 85 (scenarioBin "tiny") (TimelineModel.getClipPosition scenarioA.st 1)
        (TimelineModel.getClipPlaytime scenarioA.st 1) = true) ∧
    (TimelineModel.requestClipInsertion scenarioBin scenarioA "tiny" 0 85 true).1 = false ∧
    (TimelineModel.requestClipInsertion scenarioBin scenarioA "tiny" 0 85 true).2.1 = -1 ∧
    (TimelineModel.requestClipInsertion scenarioBin scenarioA "tiny" 0 85 true).2.2.m_undoStack
      = scenarioA.m_undoStack ∧
    (TimelineModel.requestClipInsertion scenarioBin scenarioA "tiny" 0 85 true).2.2.st.m_allClips
      = scenarioA.st.m_allClips ∧
    (∀ T, ((TimelineModel.requestClipInsertion scenarioBin scenarioA "tiny" 0 85
        true).2.2.st.trackObj T).m_allClips = (scenarioA.st.trackObj T).m_allClips) ∧
    (∀ c ∈ scenarioA.st.m_allClips,
      TimelineModel.getClipTrackId
          (TimelineModel.requestClipInsertion scenarioBin scenarioA "tiny" 0 85 true).2.2.st c
        = TimelineModel.getClipTrackId scenarioA.st c ∧
      TimelineModel.getClipPosition
          (TimelineModel.requestClipInsertion scenarioBin scenarioA "tiny" 0 85 true).2.2.st c
        = TimelineModel.getClipPosition scenarioA.st c ∧
      TimelineModel.getClipPlaytime
          (TimelineModel.requestClipInsertion scenarioBin scenarioA "tiny" 0 85 true).2.2.st c
        = TimelineModel.getClipPlaytime scenarioA.st c) :=
  ⟨⟨by decide, by decide, by decide⟩,
    C1_requestClipInsertion_fails_on_overlap scenarioBin scenarioA "tiny" 0 85 true (by decide)
      (by decide) ⟨1, by decide, by decide⟩⟩

/-- C2: when `[position, position + duration)` overlaps no clip of the track
(a clip ending exactly at `position` does not overlap), `requestClipInsertion`
returns true and hands out a fresh id, which was not a clip before and is one
now, placed on the track at the position; the clip count and the track's clip
count have grown by one and every other clip keeps its track, position and
playtime. -/
theorem C2_requestClipInsertion_succeeds_when_free (bin : String → Int) (m : TimelineModel)
    (binClipId : String) (trackId position : Int) (logUndo : Bool)
    (hfreshClip : m.st.next_id ∉ m.st.m_allClips)
    (hfreshTrack : m.st.next_id ∉ (m.st.trackObj trackId).m_allClips)
    (hfree : ∀ c ∈ (m.st.trackObj trackId).m_allClips,
      intervalsOverlap position (bin binClipId) (TimelineModel.getClipPosition m.st c)
        (TimelineModel.getClipPlaytime m.st c) = false) :
    (TimelineModel.requestClipInsertion bin m binClipId trackId position logUndo).1 = true ∧
    TimelineModel.isClip m.st
      (TimelineModel.requestClipInsertion bin m binClipId trackId position logUndo).2.1 = false ∧
    TimelineModel.isClip
      (TimelineModel.requestClipInsertion bin m binClipId trackId position logUndo).2.2.st
      (TimelineModel.requestClipInsertion bin m binClipId trackId position logUndo).2.1 = true ∧
    TimelineModel.getClipTrackId
      (TimelineModel.requestClipInsertion bin m binClipId trackId position logUndo).2.2.st
      (TimelineModel.requestClipInsertion bin m binClipId trackId position logUndo).2.1
        = trackId ∧
    TimelineModel.getClipPosition
      (TimelineModel.requestClipInsertion bin m binClipId trackId position logUndo).2.2.st
      (TimelineModel.requestClipInsertion bin m binClipId trackId position logUndo).2.1
        = position ∧
    TimelineModel.getClipsCount
      (TimelineModel.requestClipInsertion bin m binClipId trackId position logUndo).2.2.st
        = TimelineModel.getClipsCount m.st + 1 ∧
    TimelineModel.getTrackClipsCount
      (TimelineModel.requestClipInsertion bin m binClipId trackId position logUndo).2.2.st trackId
        = TimelineModel.getTrackClipsCount m.st trackId + 1 ∧
    (∀ c, c ≠ (TimelineModel.requestClipInsertion bin m binClipId trackId position logUndo).2.1 →
      TimelineModel.getClipTrackId
          (TimelineModel.requestClipInsertion bin m binClipId trackId position logUndo).2.2.st c
        = TimelineModel.getClipTrackId m.st c ∧
      TimelineModel.getClipPosition
          (TimelineModel.requestClipInsertion bin m binClipId trackId position logUndo).2.2.st c
        = TimelineModel.getClipPosition m.st c ∧
      TimelineModel.getClipPlaytime
          (TimelineModel.requestClipInsertion bin m binClipId trackId position logUndo).2.2.st c
        = TimelineModel.getClipPlaytime m.st c) := by
  have hfree' : TrackModel.isFree m.st trackId position (bin binClipId) = true :=
    (isFree_eq_true_iff _ _ _ _).mpr hfree
  obtain ⟨hok, hid, hst⟩ := clipInsertionFun_ok bin m.st binClipId trackId position noop noop
    hfreshTrack hfree'
  have h1 : (TimelineModel.requestClipInsertion bin m binClipId trackId position logUndo).1
      = true := by
    unfold TimelineModel.requestClipInsertion
    dsimp only
    split <;> exact hok
  have h2 : (TimelineModel.requestClipInsertion bin m binClipId trackId position logUndo).2.1
      = m.st.next_id := by
    unfold TimelineModel.requestClipInsertion
    dsimp only
    split <;> exact hid
  have h3 : (TimelineModel.requestClipInsertion bin m binClipId trackId position logUndo).2.2.st
      = TrackModel.place
          (ClipModel.construct bin (TimelineModel.getNextId m.st).2 binClipId m.st.next_id)
          trackId m.st.next_id position true := by
    unfold TimelineModel.requestClipInsertion
    dsimp only
    split <;> exact hst
  rw [h2, h3]
  refine ⟨h1, ?_, ?_, ?_, ?_, ?_, ?_, ?_⟩
  · simpa [TimelineModel.isClip] using hfreshClip
  · simp [TimelineModel.isClip, TrackModel.place, ClipModel.construct,
      TimelineModel.registerClip, TimelineModel.getNextId, mem_insertKey]
  · simp [TimelineModel.getClipTrackId, place_clip]
  · simp [TimelineModel.getClipPosition, place_clip]
  · simp [TimelineModel.getClipsCount, TrackModel.place, ClipModel.construct,
      TimelineModel.registerClip, TimelineModel.getNextId, length_insertKey hfreshClip]
  · unfold TimelineModel.getTrackClipsCount
    rw [place_members, if_pos rfl]
    show ((insertKey m.st.next_id (m.st.trackObj trackId).m_allClips).length : Int) = _
    rw [length_insertKey hfreshTrack]
    push_cast
    rfl
  · intro c hne
    simp [TimelineModel.getClipTrackId, TimelineModel.getClipPosition,
      TimelineModel.getClipPlaytime, place_clip, construct_clip, hne]

/-- Witness of C2: on one track holding the clip `[80, 180)`, a clip of 20 is
inserted at 180, right where the first one ends. -/
theorem C2_witness :
    ((runAll scenarioBin noSnap {}
        [.trackInsertion (-1), .clipInsertion "long" 0 80 true]).st.next_id ∉
      (runAll scenarioBin noSnap {}
        [.trackInsertion (-1), .clipInsertion "long" 0 80 true]).st.m_allClips) ∧
    (TimelineModel.requestClipInsertion scenarioBin
      (runAll scenarioBin noSnap {} [.trackInsertion (-1), .clipInsertion "long" 0 80 true])
      "short" 0 180 true).1 = true :=
  ⟨by decide,
    (C2_requestClipInsertion_succeeds_when_free scenarioBin
      (runAll scenarioBin noSnap {} [.trackInsertion (-1), .clipInsertion "long" 0 80 true])
      "short" 0 180 true (by decide) (by decide) (by decide)).1⟩

/-! ## Undoing a step gives the state back -/

theorem withView_self (s : TimelineState) : s.withView s.viewNotifications = s := rfl

theorem withView_withView (s : TimelineState) (a b : Nat) :
    (s.withView a).withView b = s.withView b := rfl

theorem canInsert_withView (s : TimelineState) (n : Nat) (T c p : Int) :
    TrackModel.canInsert (s.withView n) T c p = TrackModel.canInsert s T c p := rfl

theorem place_withView (s : TimelineState) (n : Nat) (T c p : Int) (uv : Bool) :
    TrackModel.place (s.withView n) T c p uv =
      (TrackModel.place s T c p uv).withView (n + (if uv then 1 else 0)) := rfl

theorem unplace_withView (s : TimelineState) (n : Nat) (T c : Int) (uv : Bool) :
    TrackModel.unplace (s.withView n) T c uv =
      (TrackModel.unplace s T c uv).withView (n + (if uv then 1 else 0)) := rfl

/-- Once a clip has left its track it fits back where it was. -/
theorem canInsert_back {s : TimelineState} (h : Consistent s) {c : Int} (uv : Bool)
    (hold : (s.clipObj c).m_currentTrackId ≠ -1) :
    TrackModel.canInsert (TrackModel.unplace s (s.clipObj c).m_currentTrackId c uv)
      (s.clipObj c).m_currentTrackId c (s.clipObj c).m_position = true := by
  have hm := h.track_member c hold
  rw [canInsert_eq_true_iff]
  constructor
  · rw [unplace_clip]; simp
  · rw [isFree_eq_true_iff]
    intro c' hc'
    rw [unplace_members, if_pos rfl] at hc'
    obtain ⟨m', hne⟩ := mem_eraseKey.mp hc'
    simp only [unplace_clip, hne, if_false, if_true]
    exact h.disjoint _ c hm c' m' (fun e => hne e.symm)

/-- Putting a clip back on its track at its position restores the state. -/
theorem place_unplace {s : TimelineState} (h : Consistent s) {c : Int} (uv uv' : Bool)
    (hold : (s.clipObj c).m_currentTrackId ≠ -1) :
    (TrackModel.place (TrackModel.unplace s (s.clipObj c).m_currentTrackId c uv)
      (s.clipObj c).m_currentTrackId c (s.clipObj c).m_position uv').withView
        s.viewNotifications = s := by
  have hm := h.track_member c hold
  have h1 : setAt (setAt s.trackObj (s.clipObj c).m_currentTrackId
        { s.trackObj (s.clipObj c).m_currentTrackId with
          m_allClips := eraseKey c (s.trackObj (s.clipObj c).m_currentTrackId).m_allClips })
      (s.clipObj c).m_currentTrackId
        { m_id := (s.trackObj (s.clipObj c).m_currentTrackId).m_id,
          m_allClips := insertKey c
            (eraseKey c (s.trackObj (s.clipObj c).m_currentTrackId).m_allClips),
          m_allCompositions := (s.trackObj (s.clipObj c).m_currentTrackId).m_allCompositions }
      = s.trackObj := by
    rw [setAt_setAt, insertKey_eraseKey (h.sorted _) hm]
    exact setAt_eq_self _ _ _ rfl
  have h2 : setAt (setAt s.clipObj c { s.clipObj c with m_currentTrackId := -1 }) c
      { s.clipObj c with
        m_currentTrackId := (s.clipObj c).m_currentTrackId,
        m_position := (s.clipObj c).m_position } = s.clipObj := by
    rw [setAt_setAt]
    exact setAt_eq_self _ _ _ rfl
  have h3 : TrackModel.place (TrackModel.unplace s (s.clipObj c).m_currentTrackId c uv)
      (s.clipObj c).m_currentTrackId c (s.clipObj c).m_position uv' =
      { s with
        trackObj := setAt (setAt s.trackObj (s.clipObj c).m_currentTrackId
            { s.trackObj (s.clipObj c).m_currentTrackId with
              m_allClips := eraseKey c (s.trackObj (s.clipObj c).m_currentTrackId).m_allClips })
          (s.clipObj c).m_currentTrackId
            { m_id := (s.trackObj (s.clipObj c).m_currentTrackId).m_id,
              m_allClips := insertKey c
                (eraseKey c (s.trackObj (s.clipObj c).m_currentTrackId).m_allClips),
              m_allCompositions :=
                (s.trackObj (s.clipObj c).m_currentTrackId).m_allCompositions }
        clipObj := setAt (setAt s.clipObj c { s.clipObj c with m_currentTrackId := -1 }) c
          { s.clipObj c with
            m_currentTrackId := (s.clipObj c).m_currentTrackId,
            m_position := (s.clipObj c).m_position }
        viewNotifications := s.viewNotifications + (if uv then 1 else 0) +
          (if uv' then 1 else 0) } := by
    simp [TrackModel.place, TrackModel.unplace, setAt_same]
  rw [h3, h1, h2]
  rfl

theorem insertion_lambda_ok {s : TimelineState} {T c p : Int} (uv : Bool)
    (h : TrackModel.canInsert s T c p = true) :
    TrackModel.requestClipInsertion_lambda T c p uv s = (true, TrackModel.place s T c p uv) := by
  simp [TrackModel.requestClipInsertion_lambda, h]

theorem insertion_lambda_fail {s : TimelineState} {T c p : Int} (uv : Bool)
    (h : TrackModel.canInsert s T c p = false) :
    TrackModel.requestClipInsertion_lambda T c p uv s = (false, s) := by
  simp [TrackModel.requestClipInsertion_lambda, h]

theorem deletion_lambda_ok {s : TimelineState} {T c : Int} (uv : Bool)
    (h : c ∈ (s.trackObj T).m_allClips) :
    TrackModel.requestClipDeletion_lambda T c uv s = (true, TrackModel.unplace s T c uv) := by
  simp [TrackModel.requestClipDeletion_lambda, h]

theorem clipMove_placed_fail {s : TimelineState} (h : Consistent s) {T c p : Int} (uv : Bool)
    (undo redo : Fun) (hold : TimelineModel.getClipTrackId s c ≠ -1)
    (hcan : TrackModel.canInsert
      (TrackModel.unplace s (TimelineModel.getClipTrackId s c) c uv) T c p = false) :
    TimelineModel.requestClipMoveFun s c T p uv undo redo =
      { ok := false,
        s := TrackModel.place (TrackModel.unplace s (TimelineModel.getClipTrackId s c) c uv)
          (TimelineModel.getClipTrackId s c) c (s.clipObj c).m_position uv,
        undo := undo, redo := redo } := by
  have hm := h.track_member c hold
  have hback := canInsert_back h uv hold
  unfold TimelineModel.getClipTrackId at hold hcan ⊢
  unfold TimelineModel.requestClipMoveFun
  simp only [TimelineModel.getClipTrackId, hold, if_true, ne_eq, not_false_eq_true,
    trackDeletion_ok uv noop noop hm, trackInsertion_fail uv _ _ hcan]
  simp [UPDATE_UNDO_REDO, insertion_lambda_ok uv hback, noop]

theorem clipMove_placed_ok {s : TimelineState} (h : Consistent s) {T c p : Int} (uv : Bool)
    (undo redo : Fun) (hold : TimelineModel.getClipTrackId s c ≠ -1)
    (hcan : TrackModel.canInsert
      (TrackModel.unplace s (TimelineModel.getClipTrackId s c) c uv) T c p = true) :
    TimelineModel.requestClipMoveFun s c T p uv undo redo =
      { ok := true,
        s := TrackModel.place (TrackModel.unplace s (TimelineModel.getClipTrackId s c) c uv)
          T c p uv,
        undo := (UPDATE_UNDO_REDO
          (TimelineModel.moveRedo (TimelineModel.getClipTrackId s c) c (s.clipObj c).m_position
            T p uv)
          (TimelineModel.moveUndo (TimelineModel.getClipTrackId s c) c (s.clipObj c).m_position
            T p uv) undo redo).1,
        redo := (UPDATE_UNDO_REDO
          (TimelineModel.moveRedo (TimelineModel.getClipTrackId s c) c (s.clipObj c).m_position
            T p uv)
          (TimelineModel.moveUndo (TimelineModel.getClipTrackId s c) c (s.clipObj c).m_position
            T p uv) undo redo).2 } := by
  have hm := h.track_member c hold
  unfold TimelineModel.getClipTrackId at hold hcan ⊢
  unfold TimelineModel.requestClipMoveFun
  simp only [TimelineModel.getClipTrackId, hold, if_true, ne_eq, not_false_eq_true,
    trackDeletion_ok uv noop noop hm, trackInsertion_ok uv _ _ hcan]
  simp [TimelineModel.moveUndo, TimelineModel.moveRedo]

theorem movedTo_unplaced {s : TimelineState} (h : Consistent s) {c : Int} (T p : Int) (uv : Bool)
    (hun : TimelineModel.getClipTrackId s c = -1) :
    MovedTo s (TrackModel.place s T c p uv) c T p := by
  refine ⟨?_, ?_, ?_, ?_, ?_, ?_⟩
  · simp [TimelineModel.getClipTrackId, place_clip]
  · simp [TimelineModel.getClipPosition, place_clip]
  · rw [place_members, if_pos rfl]; exact mem_insertKey.mpr (Or.inl rfl)
  · intro T' hT'
    rw [place_members, if_neg hT']
    exact h.not_mem_of_unplaced hun T'
  · simp [TimelineModel.getClipPlaytime, place_clip]
  · intro c' hc'
    rw [place_clip, if_neg hc']

theorem movedTo_placed {s : TimelineState} (h : Consistent s) {c : Int} (T p : Int) (uv : Bool) :
    MovedTo s
      (TrackModel.place (TrackModel.unplace s (TimelineModel.getClipTrackId s c) c uv) T c p uv)
      c T p := by
  refine ⟨?_, ?_, ?_, ?_, ?_, ?_⟩
  · simp [TimelineModel.getClipTrackId, place_clip]
  · simp [TimelineModel.getClipPosition, place_clip]
  · rw [place_members, if_pos rfl]; exact mem_insertKey.mpr (Or.inl rfl)
  · intro T' hT'
    rw [place_members, if_neg hT', unplace_members]
    split
    · exact fun hm => (mem_eraseKey.mp hm).2 rfl
    · rename_i hne
      exact fun hm => hne (h.member_track T' c hm).symm
  · simp [TimelineModel.getClipPlaytime, place_clip, unplace_clip]
  · intro c' hc'
    rw [place_clip, if_neg hc', unplace_clip, if_neg hc']

theorem movedTo_refl {s : TimelineState} (h : Consistent s) {c T : Int} (hT : T ≠ -1)
    (htrack : TimelineModel.getClipTrackId s c = T) :
    MovedTo s s c T (TimelineModel.getClipPosition s c) := by
  refine ⟨htrack, rfl, ?_, ?_, rfl, fun _ _ => rfl⟩
  · have := h.track_member c (by rw [show (s.clipObj c).m_currentTrackId = T from htrack]; exact hT)
    rw [show (s.clipObj c).m_currentTrackId = T from htrack] at this
    exact this
  · intro T' hT' hm
    exact hT' ((h.member_track T' c hm).symm.trans htrack)

/-- The move with explicit accumulators is all-or-nothing. -/
theorem clipMoveFun_all_or_nothing {s : TimelineState} (h : Consistent s) (c T p : Int)
    (uv : Bool) (undo redo : Fun) :
    ((TimelineModel.requestClipMoveFun s c T p uv undo redo).ok = true ∧
      MovedTo s (TimelineModel.requestClipMoveFun s c T p uv undo redo).s c T p) ∨
    ((TimelineModel.requestClipMoveFun s c T p uv undo redo).ok = false ∧
      SameModel s (TimelineModel.requestClipMoveFun s c T p uv undo redo).s ∧
      (TimelineModel.requestClipMoveFun s c T p uv undo redo).undo = undo ∧
      (TimelineModel.requestClipMoveFun s c T p uv undo redo).redo = redo) := by
  by_cases hold : TimelineModel.getClipTrackId s c = -1
  · cases hcan : TrackModel.canInsert s T c p
    · rw [clipMove_unplaced_fail uv undo redo hold hcan]
      exact Or.inr ⟨rfl, rfl, rfl, rfl⟩
    · rw [clipMove_unplaced_ok uv undo redo hold hcan]
      exact Or.inl ⟨rfl, movedTo_unplaced h T p uv hold⟩
  · cases hcan : TrackModel.canInsert
        (TrackModel.unplace s (TimelineModel.getClipTrackId s c) c uv) T c p
    · rw [clipMove_placed_fail h uv undo redo hold hcan]
      exact Or.inr ⟨rfl, place_unplace h uv uv hold, rfl, rfl⟩
    · rw [clipMove_placed_ok h uv undo redo hold hcan]
      exact Or.inl ⟨rfl, movedTo_placed h T p uv⟩

/-- C5: for an ungrouped clip, `requestClipMove` is all-or-nothing.  Either it
returns true and the clip is placed on the track at the position, on no other
track, with its playtime and every other clip unchanged; or it returns false
and the model is as before the call (up to the notifications sent to the
view), the caller's undo/redo accumulators are the ones passed in, and nothing
is pushed on the undo stack. -/
theorem C5_requestClipMove_all_or_nothing (m : TimelineModel) (clipId trackId position : Int)
    (updateView logUndo : Bool) (hcons : Consistent m.st)
    (htrack : TimelineModel.isTrack m.st trackId = true)
    (hgroup : m.st.m_groups.isInGroup clipId = false) :
    (∀ undo redo : Fun,
      ((TimelineModel.requestClipMoveFun m.st clipId trackId position updateView undo redo).ok
          = true ∧
        MovedTo m.st
          (TimelineModel.requestClipMoveFun m.st clipId trackId position updateView undo redo).s
          clipId trackId position) ∨
      ((TimelineModel.requestClipMoveFun m.st clipId trackId position updateView undo redo).ok
          = false ∧
        SameModel m.st
          (TimelineModel.requestClipMoveFun m.st clipId trackId position updateView undo redo).s ∧
        (TimelineModel.requestClipMoveFun m.st clipId trackId position updateView undo redo).undo
          = undo ∧
        (TimelineModel.requestClipMoveFun m.st clipId trackId position updateView undo redo).redo
          = redo)) ∧
    (((TimelineModel.requestClipMove m clipId trackId position updateView logUndo).1 = true ∧
        MovedTo m.st
          (TimelineModel.requestClipMove m clipId trackId position updateView logUndo).2.st
          clipId trackId position) ∨
      ((TimelineModel.requestClipMove m clipId trackId position updateView logUndo).1 = false ∧
        SameModel m.st
          (TimelineModel.requestClipMove m clipId trackId position updateView logUndo).2.st ∧
        (TimelineModel.requestClipMove m clipId trackId position updateView logUndo).2.m_undoStack
          = m.m_undoStack)) := by
  refine ⟨fun undo redo => clipMoveFun_all_or_nothing hcons _ _ _ _ _ _, ?_⟩
  have hT : trackId ≠ -1 := by
    have := hcons.tracks_ok trackId (by simpa [TimelineModel.isTrack] using htrack)
    omega
  unfold TimelineModel.requestClipMove
  split
  · rename_i hsame
    left
    refine ⟨rfl, ?_⟩
    have := movedTo_refl hcons hT hsame.2
    rw [show TimelineModel.getClipPosition m.st clipId = position from hsame.1] at this
    exact this
  · rw [if_neg (by simp [hgroup])]
    dsimp only
    rcases clipMoveFun_all_or_nothing hcons clipId trackId position updateView noop noop with
      ⟨hok, hmoved⟩ | ⟨hok, hsame, _, _⟩
    · left
      split
      · exact ⟨hok, hmoved⟩
      · exact ⟨hok, hmoved⟩
    · right
      rw [if_neg (by simp [hok])]
      exact ⟨hok, hsame, rfl⟩

theorem clipInsertionFun_ok_eq (bin : String → Int) (s : TimelineState) (binClipId : String)
    (T p : Int) (undo redo : Fun) (hfresh : s.next_id ∉ (s.trackObj T).m_allClips)
    (hfree : TrackModel.isFree s T p (bin binClipId) = true) :
    TimelineModel.requestClipInsertionFun bin s binClipId T p undo redo =
      { ok := true,
        s := TrackModel.place
          (ClipModel.construct bin (TimelineModel.getNextId s).2 binClipId s.next_id)
          T s.next_id p true,
        id := s.next_id,
        undo := (UPDATE_UNDO_REDO (TimelineModel.insertionRedo T s.next_id p)
          (TimelineModel.insertionUndo T s.next_id p) undo redo).1,
        redo := (UPDATE_UNDO_REDO (TimelineModel.insertionRedo T s.next_id p)
          (TimelineModel.insertionUndo T s.next_id p) undo redo).2 } := by
  have hcan := construct_canInsert bin s binClipId T p hfresh
  rw [hfree] at hcan
  have hun : TimelineModel.getClipTrackId
      (ClipModel.construct bin (TimelineModel.getNextId s).2 binClipId s.next_id) s.next_id = -1 := by
    unfold TimelineModel.getClipTrackId
    rw [construct_clip]
    simp
  have hmove := clipMove_unplaced_ok true (TimelineModel.deregisterClip_lambda s.next_id)
    (TimelineModel.registerClip_lambda s.next_id) hun hcan
  unfold TimelineModel.requestClipInsertionFun
  simp only [show (TimelineModel.getNextId s).1 = s.next_id from rfl, hmove]
  simp [TimelineModel.insertionUndo, TimelineModel.insertionRedo]

theorem insertionUndo_apply {x : TimelineState} {T c : Int} (p : Int)
    (h : c ∈ (x.trackObj T).m_allClips) :
    TimelineModel.insertionUndo T c p x =
      (true, (TimelineModel.deregisterClip_lambda c (TrackModel.unplace x T c true)).2) := by
  simp [TimelineModel.insertionUndo, UPDATE_UNDO_REDO, deletion_lambda_ok true h, noop,
    TimelineModel.deregisterClip_lambda]

theorem insertionRedo_apply {x : TimelineState} {T c p : Int}
    (h : TrackModel.canInsert (TimelineModel.registerClip x c) T c p = true) :
    TimelineModel.insertionRedo T c p x =
      (true, TrackModel.place (TimelineModel.registerClip x c) T c p true) := by
  simp [TimelineModel.insertionRedo, UPDATE_UNDO_REDO, TimelineModel.registerClip_lambda, noop,
    insertion_lambda_ok true h]

/-- The states an insertion, its undo and its redo go through. -/
theorem insertion_round_trip_states (bin : String → Int) (m : TimelineModel)
    (binClipId : String) (T p : Int)
    (hfreshTrack : m.st.next_id ∉ (m.st.trackObj T).m_allClips)
    (hfree : TrackModel.isFree m.st T p (bin binClipId) = true) :
    (TimelineModel.requestClipInsertion bin m binClipId T p true).2.1 = m.st.next_id ∧
    (TimelineModel.requestClipInsertion bin m binClipId T p true).2.2.st =
      TrackModel.place
        (ClipModel.construct bin (TimelineModel.getNextId m.st).2 binClipId m.st.next_id)
        T m.st.next_id p true ∧
    (TimelineModel.undo (TimelineModel.requestClipInsertion bin m binClipId T p true).2.2).st =
      (TimelineModel.deregisterClip_lambda m.st.next_id
        (TrackModel.unplace
          (TrackModel.place
            (ClipModel.construct bin (TimelineModel.getNextId m.st).2 binClipId m.st.next_id)
            T m.st.next_id p true) T m.st.next_id true)).2 ∧
    (TimelineModel.redo (TimelineModel.undo
        (TimelineModel.requestClipInsertion bin m binClipId T p true).2.2)).st =
      TrackModel.place
        (TimelineModel.registerClip
          (TimelineModel.deregisterClip_lambda m.st.next_id
            (TrackModel.unplace
              (TrackModel.place
                (ClipModel.construct bin (TimelineModel.getNextId m.st).2 binClipId m.st.next_id)
                T m.st.next_id p true) T m.st.next_id true)).2 m.st.next_id)
        T m.st.next_id p true := by
  have hres := clipInsertionFun_ok_eq bin m.st binClipId T p noop noop hfreshTrack hfree
  have hmem : m.st.next_id ∈ ((TrackModel.place
      (ClipModel.construct bin (TimelineModel.getNextId m.st).2 binClipId m.st.next_id)
      T m.st.next_id p true).trackObj T).m_allClips := by
    rw [place_members, if_pos rfl]
    exact mem_insertKey.mpr (Or.inl rfl)
  have hcan : TrackModel.canInsert
      (TimelineModel.registerClip
        (TimelineModel.deregisterClip_lambda m.st.next_id
          (TrackModel.unplace
            (TrackModel.place
              (ClipModel.construct bin (TimelineModel.getNextId m.st).2 binClipId m.st.next_id)
              T m.st.next_id p true) T m.st.next_id true)).2 m.st.next_id)
      T m.st.next_id p = true := by
    rw [canInsert_eq_true_iff]
    constructor
    · show ((TrackModel.unplace _ T m.st.next_id true).clipObj m.st.next_id).m_currentTrackId = -1
      rw [unplace_clip, if_pos rfl]
    · rw [isFree_eq_true_iff]
      intro c hc
      change c ∈ ((TrackModel.unplace _ T m.st.next_id true).trackObj T).m_allClips at hc
      rw [unplace_members, if_pos rfl, place_members, if_pos rfl] at hc
      change c ∈ eraseKey m.st.next_id (insertKey m.st.next_id (m.st.trackObj T).m_allClips) at hc
      rw [eraseKey_insertKey hfreshTrack] at hc
      have hne : c ≠ m.st.next_id := fun e => hfreshTrack (e ▸ hc)
      have hfree' := (isFree_eq_true_iff _ _ _ _).mp hfree c hc
      show intervalsOverlap p
        ((TrackModel.unplace _ T m.st.next_id true).clipObj m.st.next_id).m_playtime
        ((TrackModel.unplace _ T m.st.next_id true).clipObj c).m_position
        ((TrackModel.unplace _ T m.st.next_id true).clipObj c).m_playtime = false
      simp only [unplace_clip, place_clip, construct_clip, hne, if_true, if_false]
      exact hfree'
  unfold TimelineModel.requestClipInsertion
  simp only [hres]
  refine ⟨by simp, by simp [PUSH_UNDO], ?_, ?_⟩
  · simp [TimelineModel.undo, PUSH_UNDO, DocUndoStack.push, UPDATE_UNDO_REDO,
      insertionUndo_apply p hmem, noop]
  · simp [TimelineModel.redo, TimelineModel.undo, PUSH_UNDO, DocUndoStack.push, UPDATE_UNDO_REDO,
      insertionUndo_apply p hmem, noop, insertionRedo_apply hcan]

/-- C8 (round trip of insertion): after a successful `requestClipInsertion`
with `logUndo`, undoing the command leaves the id unregistered, out of the
track's collection and the clip count as before the insertion; redoing it makes
the id a clip again, held by the track, and the clip object is the one the
insertion had built: same track, position, playtime and every other field. -/
theorem C8_insertion_undo_redo_round_trip (bin : String → Int) (m : TimelineModel)
    (binClipId : String) (trackId position : Int)
    (hfreshClip : m.st.next_id ∉ m.st.m_allClips)
    (hfreshTrack : m.st.next_id ∉ (m.st.trackObj trackId).m_allClips)
    (hok : (TimelineModel.requestClipInsertion bin m binClipId trackId position true).1 = true) :
    TimelineModel.isClip
      (TimelineModel.undo
        (TimelineModel.requestClipInsertion bin m binClipId trackId position true).2.2).st
      (TimelineModel.requestClipInsertion bin m binClipId trackId position true).2.1 = false ∧
    (TimelineModel.requestClipInsertion bin m binClipId trackId position true).2.1 ∉
      ((TimelineModel.undo
        (TimelineModel.requestClipInsertion bin m binClipId trackId position true).2.2).st.trackObj
          trackId).m_allClips ∧
    TimelineModel.getClipsCount
      (TimelineModel.undo
        (TimelineModel.requestClipInsertion bin m binClipId trackId position true).2.2).st
      = TimelineModel.getClipsCount m.st ∧
    TimelineModel.isClip
      (TimelineModel.redo (TimelineModel.undo
        (TimelineModel.requestClipInsertion bin m binClipId trackId position true).2.2)).st
      (TimelineModel.requestClipInsertion bin m binClipId trackId position true).2.1 = true ∧
    (TimelineModel.requestClipInsertion bin m binClipId trackId position true).2.1 ∈
      ((TimelineModel.redo (TimelineModel.undo
        (TimelineModel.requestClipInsertion bin m binClipId trackId position
          true).2.2)).st.trackObj trackId).m_allClips ∧
    (TimelineModel.redo (TimelineModel.undo
        (TimelineModel.requestClipInsertion bin m binClipId trackId position true).2.2)).st.clipObj
        (TimelineModel.requestClipInsertion bin m binClipId trackId position true).2.1
      = (TimelineModel.requestClipInsertion bin m binClipId trackId position true).2.2.st.clipObj
        (TimelineModel.requestClipInsertion bin m binClipId trackId position true).2.1 ∧
    TimelineModel.getClipTrackId
      (TimelineModel.redo (TimelineModel.undo
        (TimelineModel.requestClipInsertion bin m binClipId trackId position true).2.2)).st
      (TimelineModel.requestClipInsertion bin m binClipId trackId position true).2.1 = trackId ∧
    TimelineModel.getClipPosition
      (TimelineModel.redo (TimelineModel.undo
        (TimelineModel.requestClipInsertion bin m binClipId trackId position true).2.2)).st
      (TimelineModel.requestClipInsertion bin m binClipId trackId position true).2.1 = position ∧
    TimelineModel.getClipPlaytime
      (TimelineModel.redo (TimelineModel.undo
        (TimelineModel.requestClipInsertion bin m binClipId trackId position true).2.2)).st
      (TimelineModel.requestClipInsertion bin m binClipId trackId position true).2.1
      = TimelineModel.getClipPlaytime
        (TimelineModel.requestClipInsertion bin m binClipId trackId position true).2.2.st
        (TimelineModel.requestClipInsertion bin m binClipId trackId position true).2.1 := by
  have hfree : TrackModel.isFree m.st trackId position (bin binClipId) = true := by
    cases hf : TrackModel.isFree m.st trackId position (bin binClipId)
    · have hres := clipInsertionFun_fail bin m.st binClipId trackId position noop noop
        hfreshTrack hf
      unfold TimelineModel.requestClipInsertion at hok
      simp [hres] at hok
    · rfl
  obtain ⟨hid, hst, hundo, hredo⟩ :=
    insertion_round_trip_states bin m binClipId trackId position hfreshTrack hfree
  rw [hid, hst, hundo, hredo]
  have hobj : (TrackModel.place
      (TimelineModel.registerClip
        (TimelineModel.deregisterClip_lambda m.st.next_id
          (TrackModel.unplace
            (TrackModel.place
              (ClipModel.construct bin (TimelineModel.getNextId m.st).2 binClipId m.st.next_id)
              trackId m.st.next_id position true) trackId m.st.next_id true)).2 m.st.next_id)
      trackId m.st.next_id position true).clipObj m.st.next_id =
      (TrackModel.place
        (ClipModel.construct bin (TimelineModel.getNextId m.st).2 binClipId m.st.next_id)
        trackId m.st.next_id position true).clipObj m.st.next_id := by
    rw [place_clip, place_clip, if_pos rfl, if_pos rfl]
    show ({ (TrackModel.unplace _ trackId m.st.next_id true).clipObj m.st.next_id with
      m_currentTrackId := trackId, m_position := position } : ClipModel) = _
    rw [unplace_clip, if_pos rfl, place_clip, if_pos rfl]
  refine ⟨?_, ?_, ?_, ?_, ?_, hobj, ?_, ?_, ?_⟩
  · simp [TimelineModel.isClip, TimelineModel.deregisterClip_lambda, mem_eraseKey]
  · show m.st.next_id ∉ ((TrackModel.unplace _ trackId m.st.next_id true).trackObj
      trackId).m_allClips
    rw [unplace_members, if_pos rfl]
    exact fun h => (mem_eraseKey.mp h).2 rfl
  · show ((eraseKey m.st.next_id (insertKey m.st.next_id m.st.m_allClips)).length : Int) = _
    rw [eraseKey_insertKey hfreshClip]
    rfl
  · simp [TimelineModel.isClip, TrackModel.place, TimelineModel.registerClip, mem_insertKey]
  · rw [place_members, if_pos rfl]
    exact mem_insertKey.mpr (Or.inl rfl)
  · simp [TimelineModel.getClipTrackId, place_clip]
  · simp [TimelineModel.getClipPosition, place_clip]
  · unfold TimelineModel.getClipPlaytime
    rw [hobj]

/-- Witness of C8: the insertion of the second clip of scenario A, undone and
redone. -/
theorem C8_witness :
    ((runAll scenarioBin noSnap {}
        [.trackInsertion (-1), .clipInsertion "long" 0 80 true]).st.next_id ∉
      (runAll scenarioBin noSnap {}
        [.trackInsertion (-1), .clipInsertion "long" 0 80 true]).st.m_allClips ∧
      (TimelineModel.requestClipInsertion scenarioBin
        (runAll scenarioBin noSnap {} [.trackInsertion (-1), .clipInsertion "long" 0 80 true])
        "short" 0 180 true).1 = true) ∧
    TimelineModel.isClip
      (TimelineModel.undo
        (TimelineModel.requestClipInsertion scenarioBin
          (runAll scenarioBin noSnap {} [.trackInsertion (-1), .clipInsertion "long" 0 80 true])
          "short" 0 180 true).2.2).st
      (TimelineModel.requestClipInsertion scenarioBin
        (runAll scenarioBin noSnap {} [.trackInsertion (-1), .clipInsertion "long" 0 80 true])
        "short" 0 180 true).2.1 = false :=
  ⟨⟨by decide, by decide⟩,
    (C8_insertion_undo_redo_round_trip scenarioBin
      (runAll scenarioBin noSnap {} [.trackInsertion (-1), .clipInsertion "long" 0 80 true])
      "short" 0 180 (by decide) (by decide) (by decide)).1⟩

/-- Witness of C5 on scenario A: moving the clip `[180, 200)` to 100 runs into
the clip `[80, 180)`. -/
theorem C5_witness :
    (Consistent scenarioA.st ∧ TimelineModel.isTrack scenarioA.st 0 = true ∧
      scenarioA.st.m_groups.isInGroup 2 = false) ∧
    (((TimelineModel.requestClipMove scenarioA 2 0 100 true true).1 = true ∧
        MovedTo scenarioA.st (TimelineModel.requestClipMove scenarioA 2 0 100 true true).2.st
          2 0 100) ∨
      ((TimelineModel.requestClipMove scenarioA 2 0 100 true true).1 = false ∧
        SameModel scenarioA.st (TimelineModel.requestClipMove scenarioA 2 0 100 true true).2.st ∧
        (TimelineModel.requestClipMove scenarioA 2 0 100 true true).2.m_undoStack
          = scenarioA.m_undoStack)) :=
  ⟨⟨(stackOK_of_reachable scenarioA_reachable).1, by decide, by decide⟩,
    (C5_requestClipMove_all_or_nothing scenarioA 2 0 100 true true
      (stackOK_of_reachable scenarioA_reachable).1 (by decide) (by decide)).2⟩

/-! ## Deletion of an ungrouped clip -/

theorem length_eraseKey {l : List Int} {c : Int} (hn : l.Nodup) (hc : c ∈ l) :
    ((eraseKey c l).length : Int) = (l.length : Int) - 1 := by
  have h1 : eraseKey c l = l.erase c := by
    unfold eraseKey
    rw [hn.erase_eq_filter]
  rw [h1, List.length_erase_of_mem hc]
  have : 0 < l.length := List.length_pos_of_mem hc
  omega

/-- The states the deletion of an ungrouped clip and its undo go through. -/
theorem itemDeletion_states (m : TimelineModel) (c : Int) (logUndo : Bool)
    (h : Consistent m.st) (hclip : TimelineModel.isClip m.st c = true)
    (hgrp : m.st.m_groups.isInGroup c = false) :
    (TimelineModel.requestItemDeletion m c logUndo).1 = true ∧
    (TimelineModel.requestItemDeletion m c logUndo).2.st =
      (TimelineModel.deregisterClip_lambda c
        (if TimelineModel.getClipTrackId m.st c ≠ -1 then
          TrackModel.unplace m.st (TimelineModel.getClipTrackId m.st c) c true
        else m.st)).2 ∧
    (logUndo = true →
      (TimelineModel.undo (TimelineModel.requestItemDeletion m c logUndo).2).st =
        if TimelineModel.getClipTrackId m.st c ≠ -1 then
          TrackModel.place
            (TimelineModel.registerClip
              (TimelineModel.deregisterClip_lambda c
                (TrackModel.unplace m.st (TimelineModel.getClipTrackId m.st c) c true)).2 c)
            (TimelineModel.getClipTrackId m.st c) c (m.st.clipObj c).m_position true
        else
          TimelineModel.registerClip (TimelineModel.deregisterClip_lambda c m.st).2 c) := by
  by_cases hold : TimelineModel.getClipTrackId m.st c ≠ -1
  · have hm := h.track_member c hold
    have hback : TrackModel.canInsert
        (TimelineModel.registerClip
          (TimelineModel.deregisterClip_lambda c
            (TrackModel.unplace m.st (TimelineModel.getClipTrackId m.st c) c true)).2 c)
        (TimelineModel.getClipTrackId m.st c) c (m.st.clipObj c).m_position = true :=
      canInsert_back h true hold
    have hfun : TimelineModel.requestClipDeletionFun m.st c noop noop =
        { ok := true,
          s := (TimelineModel.deregisterClip_lambda c
            (TrackModel.unplace m.st (TimelineModel.getClipTrackId m.st c) c true)).2,
          undo := (UPDATE_UNDO_REDO (TimelineModel.deregisterClip_lambda c)
            (TimelineModel.registerClip_lambda c)
            (UPDATE_UNDO_REDO
              (TrackModel.requestClipDeletion_lambda (TimelineModel.getClipTrackId m.st c) c true)
              (TrackModel.requestClipInsertion_lambda (TimelineModel.getClipTrackId m.st c) c
                (m.st.clipObj c).m_position true) noop noop).1
            (UPDATE_UNDO_REDO
              (TrackModel.requestClipDeletion_lambda (TimelineModel.getClipTrackId m.st c) c true)
              (TrackModel.requestClipInsertion_lambda (TimelineModel.getClipTrackId m.st c) c
                (m.st.clipObj c).m_position true) noop noop).2).1,
          redo := (UPDATE_UNDO_REDO (TimelineModel.deregisterClip_lambda c)
            (TimelineModel.registerClip_lambda c)
            (UPDATE_UNDO_REDO
              (TrackModel.requestClipDeletion_lambda (TimelineModel.getClipTrackId m.st c) c true)
              (TrackModel.requestClipInsertion_lambda (TimelineModel.getClipTrackId m.st c) c
                (m.st.clipObj c).m_position true) noop noop).1
            (UPDATE_UNDO_REDO
              (TrackModel.requestClipDeletion_lambda (TimelineModel.getClipTrackId m.st c) c true)
              (TrackModel.requestClipInsertion_lambda (TimelineModel.getClipTrackId m.st c) c
                (m.st.clipObj c).m_position true) noop noop).2).2 } := by
      unfold TimelineModel.getClipTrackId at hold hm ⊢
      unfold TimelineModel.requestClipDeletionFun
      simp only [TimelineModel.getClipTrackId, hold, if_true, ne_eq, not_false_eq_true,
        trackDeletion_ok true noop noop hm]
      simp [TimelineModel.deregisterClip_lambda]
    unfold TimelineModel.requestItemDeletion
    rw [hgrp, if_neg (by simp), hclip, if_pos rfl, hfun, if_pos hold, if_pos hold]
    cases logUndo
    · simp
    · simp [TimelineModel.undo, PUSH_UNDO, DocUndoStack.push, UPDATE_UNDO_REDO,
        TimelineModel.registerClip_lambda, insertion_lambda_ok true hback, noop]
  · have hfun : TimelineModel.requestClipDeletionFun m.st c noop noop =
        { ok := true,
          s := (TimelineModel.deregisterClip_lambda c m.st).2,
          undo := (UPDATE_UNDO_REDO (TimelineModel.deregisterClip_lambda c)
            (TimelineModel.registerClip_lambda c) noop noop).1,
          redo := (UPDATE_UNDO_REDO (TimelineModel.deregisterClip_lambda c)
            (TimelineModel.registerClip_lambda c) noop noop).2 } := by
      have hun : (m.st.clipObj c).m_currentTrackId = -1 := by
        unfold TimelineModel.getClipTrackId at hold
        exact not_not.mp hold
      unfold TimelineModel.requestClipDeletionFun
      simp [TimelineModel.getClipTrackId, hun, TimelineModel.deregisterClip_lambda]
    unfold TimelineModel.requestItemDeletion
    rw [hgrp, if_neg (by simp), hclip, if_pos rfl, hfun, if_neg hold, if_neg hold]
    cases logUndo
    · simp
    · simp [TimelineModel.undo, PUSH_UNDO, DocUndoStack.push, UPDATE_UNDO_REDO,
        TimelineModel.registerClip_lambda, noop]

/-- C10 (deletion of an ungrouped clip): on a consistent model
`requestItemDeletion` of a registered clip that is in no group returns true; the
clip is no longer registered, the clip count has gone down by one, no track
holds the clip, and every other clip keeps its object, its registration and its
tracks.  With `logUndo`, undoing the command registers the clip again with the
object it had (same track, position and playtime) and puts it back on the track
it was on. -/
theorem C10_requestItemDeletion_ungrouped_clip (m : TimelineModel) (c : Int) (logUndo : Bool)
    (h : Consistent m.st) (hnodup : m.st.m_allClips.Nodup)
    (hclip : TimelineModel.isClip m.st c = true)
    (hgrp : m.st.m_groups.isInGroup c = false) :
    (TimelineModel.requestItemDeletion m c logUndo).1 = true ∧
    TimelineModel.isClip (TimelineModel.requestItemDeletion m c logUndo).2.st c = false ∧
    TimelineModel.getClipsCount (TimelineModel.requestItemDeletion m c logUndo).2.st
      = TimelineModel.getClipsCount m.st - 1 ∧
    (∀ T, c ∉ ((TimelineModel.requestItemDeletion m c logUndo).2.st.trackObj T).m_allClips) ∧
    (∀ c', c' ≠ c →
      (TimelineModel.requestItemDeletion m c logUndo).2.st.clipObj c' = m.st.clipObj c' ∧
      TimelineModel.isClip (TimelineModel.requestItemDeletion m c logUndo).2.st c'
        = TimelineModel.isClip m.st c' ∧
      ∀ T, c' ∈ ((TimelineModel.requestItemDeletion m c logUndo).2.st.trackObj T).m_allClips ↔
        c' ∈ (m.st.trackObj T).m_allClips) ∧
    (logUndo = true →
      TimelineModel.isClip
        (TimelineModel.undo (TimelineModel.requestItemDeletion m c logUndo).2).st c = true ∧
      TimelineModel.getClipsCount
        (TimelineModel.undo (TimelineModel.requestItemDeletion m c logUndo).2).st
        = TimelineModel.getClipsCount m.st ∧
      (TimelineModel.undo (TimelineModel.requestItemDeletion m c logUndo).2).st.clipObj c
        = m.st.clipObj c ∧
      TimelineModel.getClipTrackId
        (TimelineModel.undo (TimelineModel.requestItemDeletion m c logUndo).2).st c
        = TimelineModel.getClipTrackId m.st c ∧
      TimelineModel.getClipPosition
        (TimelineModel.undo (TimelineModel.requestItemDeletion m c logUndo).2).st c
        = TimelineModel.getClipPosition m.st c ∧
      TimelineModel.getClipPlaytime
        (TimelineModel.undo (TimelineModel.requestItemDeletion m c logUndo).2).st c
        = TimelineModel.getClipPlaytime m.st c ∧
      (TimelineModel.getClipTrackId m.st c ≠ -1 →
        c ∈ ((TimelineModel.undo (TimelineModel.requestItemDeletion m c logUndo).2).st.trackObj
          (TimelineModel.getClipTrackId m.st c)).m_allClips)) := by
  obtain ⟨hok, hst, hundo⟩ := itemDeletion_states m c logUndo h hclip hgrp
  have hmem : c ∈ m.st.m_allClips := by simpa [TimelineModel.isClip] using hclip
  have hcount : ∀ x : TimelineState, x.m_allClips = m.st.m_allClips →
      TimelineModel.getClipsCount (TimelineModel.deregisterClip_lambda c x).2
        = TimelineModel.getClipsCount m.st - 1 := by
    intro x hx
    show ((eraseKey c x.m_allClips).length : Int) = _
    rw [hx]
    exact length_eraseKey hnodup hmem
  have hback : ∀ x : TimelineState, x.m_allClips = m.st.m_allClips →
      TimelineModel.getClipsCount
        (TimelineModel.registerClip (TimelineModel.deregisterClip_lambda c x).2 c)
        = TimelineModel.getClipsCount m.st := by
    intro x hx
    show ((insertKey c (eraseKey c x.m_allClips)).length : Int) = _
    rw [hx, length_insertKey (fun hc => (mem_eraseKey.mp hc).2 rfl)]
    have := length_eraseKey hnodup hmem
    unfold TimelineModel.getClipsCount
    omega
  refine ⟨hok, ?_, ?_, ?_, ?_, ?_⟩
  · rw [hst]
    simp [TimelineModel.isClip, TimelineModel.deregisterClip_lambda, mem_eraseKey]
  · rw [hst]
    by_cases hold : TimelineModel.getClipTrackId m.st c ≠ -1
    · rw [if_pos hold]; exact hcount _ rfl
    · rw [if_neg hold]; exact hcount _ rfl
  · intro T
    rw [hst]
    by_cases hold : TimelineModel.getClipTrackId m.st c ≠ -1
    · rw [if_pos hold]
      show c ∉ ((TrackModel.unplace m.st (TimelineModel.getClipTrackId m.st c) c true).trackObj
        T).m_allClips
      rw [unplace_members]
      by_cases hT : T = TimelineModel.getClipTrackId m.st c
      · rw [if_pos hT]
        exact fun hc => (mem_eraseKey.mp hc).2 rfl
      · rw [if_neg hT]
        exact fun hc => hT (h.member_track T c hc).symm
    · rw [if_neg hold]
      exact h.not_mem_of_unplaced (not_not.mp hold) T
  · intro c' hne
    rw [hst]
    by_cases hold : TimelineModel.getClipTrackId m.st c ≠ -1
    · rw [if_pos hold]
      refine ⟨?_, ?_, ?_⟩
      · show (TrackModel.unplace m.st (TimelineModel.getClipTrackId m.st c) c true).clipObj c' = _
        rw [unplace_clip, if_neg hne]
      · simp [TimelineModel.isClip, TimelineModel.deregisterClip_lambda, mem_eraseKey, hne,
          TrackModel.unplace]
      · intro T
        show c' ∈ ((TrackModel.unplace m.st (TimelineModel.getClipTrackId m.st c) c true).trackObj
          T).m_allClips ↔ _
        rw [unplace_members]
        by_cases hT : T = TimelineModel.getClipTrackId m.st c
        · rw [if_pos hT, hT]
          exact ⟨fun hc => (mem_eraseKey.mp hc).1, fun hc => mem_eraseKey.mpr ⟨hc, hne⟩⟩
        · rw [if_neg hT]
    · rw [if_neg hold]
      refine ⟨rfl, ?_, fun T => Iff.rfl⟩
      simp [TimelineModel.isClip, TimelineModel.deregisterClip_lambda, mem_eraseKey, hne]
  · intro hlog
    have hu := hundo hlog
    have hobj : (TimelineModel.undo (TimelineModel.requestItemDeletion m c logUndo).2).st.clipObj c
        = m.st.clipObj c := by
      rw [hu]
      by_cases hold : TimelineModel.getClipTrackId m.st c ≠ -1
      · rw [if_pos hold, place_clip, if_pos rfl]
        show ({ (TrackModel.unplace m.st (TimelineModel.getClipTrackId m.st c) c true).clipObj c
          with m_currentTrackId := TimelineModel.getClipTrackId m.st c,
               m_position := (m.st.clipObj c).m_position } : ClipModel) = _
        rw [unplace_clip, if_pos rfl]
        rfl
      · rw [if_neg hold]
        rfl
    refine ⟨?_, ?_, hobj, ?_, ?_, ?_, ?_⟩
    · rw [hu]
      by_cases hold : TimelineModel.getClipTrackId m.st c ≠ -1
      · rw [if_pos hold]
        simp [TimelineModel.isClip, TrackModel.place, TimelineModel.registerClip, mem_insertKey]
      · rw [if_neg hold]
        simp [TimelineModel.isClip, TimelineModel.registerClip, mem_insertKey]
    · rw [hu]
      by_cases hold : TimelineModel.getClipTrackId m.st c ≠ -1
      · rw [if_pos hold]
        exact hback (TrackModel.unplace m.st (TimelineModel.getClipTrackId m.st c) c true) rfl
      · rw [if_neg hold]
        exact hback m.st rfl
    · unfold TimelineModel.getClipTrackId
      rw [hobj]
    · unfold TimelineModel.getClipPosition
      rw [hobj]
    · unfold TimelineModel.getClipPlaytime
      rw [hobj]
    · intro hold
      rw [hu, if_pos hold, place_members, if_pos rfl]
      exact mem_insertKey.mpr (Or.inl rfl)

/-- Witness of C10 on scenario A: the clip at 80 is deleted and the deletion
undone. -/
theorem C10_witness :
    (Consistent scenarioA.st ∧ scenarioA.st.m_allClips.Nodup ∧
      TimelineModel.isClip scenarioA.st 1 = true ∧
      scenarioA.st.m_groups.isInGroup 1 = false) ∧
    (TimelineModel.requestItemDeletion scenarioA 1 true).1 = true :=
  ⟨⟨(stackOK_of_reachable scenarioA_reachable).1, by decide, by decide, by decide⟩,
    (C10_requestItemDeletion_ungrouped_clip scenarioA 1 true
      (stackOK_of_reachable scenarioA_reachable).1 (by decide) (by decide) (by decide)).1⟩

/-! ## A move and the closures it builds -/

theorem TrackModel.eq_of_fields {a b : TrackModel} (h1 : a.m_id = b.m_id)
    (h2 : a.m_allClips = b.m_allClips) (h3 : a.m_allCompositions = b.m_allCompositions) :
    a = b := by
  cases a; cases b; simp_all

theorem TimelineState.eq_withView {x s : TimelineState} (h0 : x.next_id = s.next_id)
    (h1 : x.clipObj = s.clipObj) (h2 : x.trackObj = s.trackObj) (h3 : x.compoObj = s.compoObj)
    (h4 : x.m_allClips = s.m_allClips) (h5 : x.m_allCompositions = s.m_allCompositions)
    (h6 : x.m_allTracks = s.m_allTracks) (h7 : x.m_iteratorTable = s.m_iteratorTable)
    (h8 : x.m_tractor = s.m_tractor) (h9 : x.m_groups = s.m_groups)
    (h10 : x.m_allGroups = s.m_allGroups) (h11 : x.m_field = s.m_field) :
    x = s.withView x.viewNotifications := by
  cases x; cases s; simp_all [TimelineState.withView]

theorem place_track_fields (s : TimelineState) (T c p : Int) (uv : Bool) (T' : Int) :
    ((TrackModel.place s T c p uv).trackObj T').m_id = (s.trackObj T').m_id ∧
    ((TrackModel.place s T c p uv).trackObj T').m_allCompositions
      = (s.trackObj T').m_allCompositions := by
  by_cases h : T' = T <;> simp [TrackModel.place, setAt, h]

theorem unplace_track_fields (s : TimelineState) (T c : Int) (uv : Bool) (T' : Int) :
    ((TrackModel.unplace s T c uv).trackObj T').m_id = (s.trackObj T').m_id ∧
    ((TrackModel.unplace s T c uv).trackObj T').m_allCompositions
      = (s.trackObj T').m_allCompositions := by
  by_cases h : T' = T <;> simp [TrackModel.unplace, setAt, h]

/-- A clip that has left its track is held by no track. -/
theorem not_mem_unplace {s : TimelineState} (h : Consistent s) (c : Int) (uv : Bool) (T : Int) :
    c ∉ ((TrackModel.unplace s (TimelineModel.getClipTrackId s c) c uv).trackObj T).m_allClips := by
  rw [unplace_members]
  split
  · exact fun hm => (mem_eraseKey.mp hm).2 rfl
  · rename_i hne
    exact fun hm => hne (h.member_track T c hm).symm

/-- The undo of a move of a placed clip gives the state back. -/
theorem moveUndo_apply {s : TimelineState} (h : Consistent s) {c T p : Int} (uv : Bool)
    (hold : TimelineModel.getClipTrackId s c ≠ -1) (v : Nat) :
    TimelineModel.moveUndo (TimelineModel.getClipTrackId s c) c (s.clipObj c).m_position T p uv
      ((TrackModel.place (TrackModel.unplace s (TimelineModel.getClipTrackId s c) c uv)
        T c p uv).withView v) =
      (true, s.withView (v + (if uv then 1 else 0) + (if uv then 1 else 0))) := by
  have hm := h.track_member c hold
  have hnot := not_mem_unplace h c uv
  -- the clip leaves the new track
  have hmem : c ∈ (((TrackModel.place
      (TrackModel.unplace s (TimelineModel.getClipTrackId s c) c uv) T c p uv).withView
        v).trackObj T).m_allClips := by
    show c ∈ ((TrackModel.place _ T c p uv).trackObj T).m_allClips
    rw [place_members, if_pos rfl]
    exact mem_insertKey.mpr (Or.inl rfl)
  have hmembers : ∀ T', ((TrackModel.unplace
      ((TrackModel.place (TrackModel.unplace s (TimelineModel.getClipTrackId s c) c uv)
        T c p uv).withView v) T c uv).trackObj T').m_allClips =
      ((TrackModel.unplace s (TimelineModel.getClipTrackId s c) c uv).trackObj T').m_allClips := by
    intro T'
    rw [unplace_members]
    show (if T' = T then eraseKey c ((TrackModel.place _ T c p uv).trackObj T).m_allClips
      else ((TrackModel.place _ T c p uv).trackObj T').m_allClips) = _
    rw [place_members, place_members, if_pos rfl]
    split
    · rename_i hT
      rw [eraseKey_insertKey (hnot T), hT]
    · rfl
  have hclips : ∀ c', c' ≠ c → (TrackModel.unplace
      ((TrackModel.place (TrackModel.unplace s (TimelineModel.getClipTrackId s c) c uv)
        T c p uv).withView v) T c uv).clipObj c' = s.clipObj c' := by
    intro c' hne
    rw [unplace_clip, if_neg hne]
    show (TrackModel.place _ T c p uv).clipObj c' = _
    rw [place_clip, if_neg hne, unplace_clip, if_neg hne]
  have hclip : (TrackModel.unplace
      ((TrackModel.place (TrackModel.unplace s (TimelineModel.getClipTrackId s c) c uv)
        T c p uv).withView v) T c uv).clipObj c =
      { s.clipObj c with m_currentTrackId := -1, m_position := p } := by
    rw [unplace_clip, if_pos rfl]
    show ({ (TrackModel.place _ T c p uv).clipObj c with m_currentTrackId := -1 } : ClipModel) = _
    rw [place_clip, if_pos rfl, unplace_clip, if_pos rfl]
  -- it fits back on the old track
  have hcan : TrackModel.canInsert
      (TrackModel.unplace
        ((TrackModel.place (TrackModel.unplace s (TimelineModel.getClipTrackId s c) c uv)
          T c p uv).withView v) T c uv)
      (TimelineModel.getClipTrackId s c) c (s.clipObj c).m_position = true := by
    rw [canInsert_eq_true_iff]
    constructor
    · rw [hclip]
    · rw [isFree_eq_true_iff]
      intro c' hc'
      rw [hmembers, unplace_members, if_pos rfl] at hc'
      obtain ⟨m', hne⟩ := mem_eraseKey.mp hc'
      rw [hclips c' hne, hclip]
      exact h.disjoint _ c hm c' m' (fun e => hne e.symm)
  -- and the state is the one before the move
  have hstate : TrackModel.place
      (TrackModel.unplace
        ((TrackModel.place (TrackModel.unplace s (TimelineModel.getClipTrackId s c) c uv)
          T c p uv).withView v) T c uv)
      (TimelineModel.getClipTrackId s c) c (s.clipObj c).m_position uv =
      s.withView (v + (if uv then 1 else 0) + (if uv then 1 else 0)) := by
    have e := TimelineState.eq_withView
      (x := TrackModel.place
        (TrackModel.unplace
          ((TrackModel.place (TrackModel.unplace s (TimelineModel.getClipTrackId s c) c uv)
            T c p uv).withView v) T c uv)
        (TimelineModel.getClipTrackId s c) c (s.clipObj c).m_position uv) (s := s)
      rfl ?_ ?_ rfl rfl rfl rfl rfl rfl rfl rfl rfl
    · rw [e]; rfl
    · funext c'
      rw [place_clip]
      split
      · rename_i hc'
        rw [hclip, hc']
        rfl
      · rename_i hc'
        exact hclips c' hc'
    · funext T'
      apply TrackModel.eq_of_fields
      · rw [(place_track_fields _ _ _ _ _ _).1, (unplace_track_fields _ _ _ _ _).1]
        show ((TrackModel.place _ T c p uv).trackObj T').m_id = _
        rw [(place_track_fields _ _ _ _ _ _).1, (unplace_track_fields _ _ _ _ _).1]
      · rw [place_members, hmembers, hmembers, unplace_members, if_pos rfl, unplace_members]
        split
        · rename_i hT
          rw [hT]
          exact insertKey_eraseKey (h.sorted _) hm
        · rfl
      · rw [(place_track_fields _ _ _ _ _ _).2, (unplace_track_fields _ _ _ _ _).2]
        show ((TrackModel.place _ T c p uv).trackObj T').m_allCompositions = _
        rw [(place_track_fields _ _ _ _ _ _).2, (unplace_track_fields _ _ _ _ _).2]
  simp only [TimelineModel.moveUndo, UPDATE_UNDO_REDO, deletion_lambda_ok uv hmem,
    insertion_lambda_ok uv hcan, noop, hstate, Bool.and_self]

/-- The redo of a move of a placed clip moves it again. -/
theorem moveRedo_apply {s : TimelineState} (h : Consistent s) {c T p : Int} (uv : Bool)
    (hold : TimelineModel.getClipTrackId s c ≠ -1)
    (hcan : TrackModel.canInsert
      (TrackModel.unplace s (TimelineModel.getClipTrackId s c) c uv) T c p = true) (v : Nat) :
    TimelineModel.moveRedo (TimelineModel.getClipTrackId s c) c (s.clipObj c).m_position T p uv
      (s.withView v) =
      (true, (TrackModel.place (TrackModel.unplace s (TimelineModel.getClipTrackId s c) c uv)
        T c p uv).withView (v + (if uv then 1 else 0) + (if uv then 1 else 0))) := by
  have hm : c ∈ ((s.withView v).trackObj (TimelineModel.getClipTrackId s c)).m_allClips :=
    h.track_member c hold
  have hcan' : TrackModel.canInsert
      (TrackModel.unplace (s.withView v) (TimelineModel.getClipTrackId s c) c uv) T c p = true :=
    hcan
  simp only [TimelineModel.moveRedo, UPDATE_UNDO_REDO, deletion_lambda_ok uv hm,
    insertion_lambda_ok uv hcan', noop, Bool.and_self]
  rfl

theorem eq_withView_of_sameModel {s x : TimelineState} (h : SameModel s x) :
    x = s.withView x.viewNotifications := by
  unfold SameModel at h
  rw [← h]
  rfl

/-- A successful move of a placed clip: the new state, and the closures that
lead back and forth. -/
theorem clipMove_inverse {s0 s : TimelineState} (h : Consistent s) {c T : Int} (p : Int)
    (uv : Bool) {undo redo : Fun} (hold : TimelineModel.getClipTrackId s c ≠ -1)
    (hT : T ≠ -1) (hTn : T < s.next_id) (hinv : Inverse s0 s undo redo)
    (hok : (TimelineModel.requestClipMoveFun s c T p uv undo redo).ok = true) :
    (TimelineModel.requestClipMoveFun s c T p uv undo redo).s =
      TrackModel.place (TrackModel.unplace s (TimelineModel.getClipTrackId s c) c uv) T c p uv ∧
    Consistent (TimelineModel.requestClipMoveFun s c T p uv undo redo).s ∧
    Inverse s0 (TimelineModel.requestClipMoveFun s c T p uv undo redo).s
      (TimelineModel.requestClipMoveFun s c T p uv undo redo).undo
      (TimelineModel.requestClipMoveFun s c T p uv undo redo).redo := by
  cases hcan : TrackModel.canInsert
      (TrackModel.unplace s (TimelineModel.getClipTrackId s c) c uv) T c p
  · rw [clipMove_placed_fail h uv undo redo hold hcan] at hok
    exact absurd hok (by simp)
  · have hcons : Consistent
        (TrackModel.place (TrackModel.unplace s (TimelineModel.getClipTrackId s c) c uv)
          T c p uv) := by
      have hg := (@clipMove_good s noop noop ⟨h, safe_noop _, safe_noop _⟩ T c p uv hT hTn
        (h.placed_bounds hold).1).1.1.1
      rw [clipMove_placed_ok h uv noop noop hold hcan] at hg
      exact hg
    rw [clipMove_placed_ok h uv undo redo hold hcan]
    refine ⟨rfl, hcons, ?_, ?_⟩
    · intro v
      obtain ⟨v', hv'⟩ := hinv.1 (v + (if uv then 1 else 0) + (if uv then 1 else 0))
      refine ⟨v', ?_⟩
      simp only [UPDATE_UNDO_REDO, moveUndo_apply h uv hold v, hv', Bool.and_self]
    · intro v
      obtain ⟨v', hv'⟩ := hinv.2 v
      refine ⟨v' + (if uv then 1 else 0) + (if uv then 1 else 0), ?_⟩
      simp only [UPDATE_UNDO_REDO, hv', moveRedo_apply h uv hold hcan v', Bool.and_self]

theorem inverse_refl (s : TimelineState) : Inverse s s noop noop :=
  ⟨fun v => ⟨v, rfl⟩, fun v => ⟨v, rfl⟩⟩

/-- The loop of `requestGroupMove` over distinct placed clips: either every
clip of the list has gone to its target and the closures lead back and forth,
or the loop fails and the state is the one the transaction started from. -/
theorem groupMoveLoop_spec (clipId delta_track delta_pos : Int) (updateView : Bool)
    (s0 : TimelineState) (l : List Int) :
    ∀ {s : TimelineState} {undo redo : Fun}, Consistent s → Inverse s0 s undo redo → l.Nodup →
      (∀ c ∈ l, TimelineModel.getClipTrackId s c ≠ -1) →
      ((TimelineModel.groupMoveLoop clipId delta_track delta_pos updateView l s undo redo).ok
          = true ∧
        Consistent
          (TimelineModel.groupMoveLoop clipId delta_track delta_pos updateView l s undo redo).s ∧
        Inverse s0
          (TimelineModel.groupMoveLoop clipId delta_track delta_pos updateView l s undo redo).s
          (TimelineModel.groupMoveLoop clipId delta_track delta_pos updateView l s undo redo).undo
          (TimelineModel.groupMoveLoop clipId delta_track delta_pos updateView l s undo redo).redo ∧
        (TimelineModel.groupMoveLoop clipId delta_track delta_pos updateView l s undo
          redo).s.m_allTracks = s.m_allTracks ∧
        (TimelineModel.groupMoveLoop clipId delta_track delta_pos updateView l s undo
          redo).s.m_tractor = s.m_tractor ∧
        (∀ c ∈ l, TimelineModel.laneInRange s delta_track c ∧
          (TimelineModel.groupMoveLoop clipId delta_track delta_pos updateView l s undo
            redo).s.clipObj c = TimelineModel.groupMoveTarget s delta_track delta_pos c) ∧
        (∀ c, c ∉ l →
          (TimelineModel.groupMoveLoop clipId delta_track delta_pos updateView l s undo
            redo).s.clipObj c = s.clipObj c)) ∨
      ((TimelineModel.groupMoveLoop clipId delta_track delta_pos updateView l s undo redo).ok
          = false ∧
        ∃ v,
          (TimelineModel.groupMoveLoop clipId delta_track delta_pos updateView l s undo redo).s
            = s0.withView v) := by
  induction l with
  | nil =>
    intro s undo redo hs hinv _ _
    left
    exact ⟨rfl, hs, hinv, rfl, rfl, fun c hc => absurd hc (List.not_mem_nil c), fun _ _ => rfl⟩
  | cons clip rest ih =>
    intro s undo redo hs hinv hnd hpl
    have hold := hpl clip (List.mem_cons_self _ _)
    obtain ⟨r, hr, hstep⟩ : ∃ r : Res,
        (if 0 ≤ TimelineModel.getTrackPosition s (TimelineModel.getClipTrackId s clip) + delta_track ∧
            TimelineModel.getTrackPosition s (TimelineModel.getClipTrackId s clip) + delta_track <
              TimelineModel.getTracksCount s then
          TimelineModel.requestClipMoveFun s clip
            (s.m_allTracks.getD
              (TimelineModel.getTrackPosition s (TimelineModel.getClipTrackId s clip) +
                delta_track).toNat (-1))
            ((s.clipObj clip).m_position + delta_pos) (updateView || clip != clipId) undo redo
        else { ok := false, s := s, undo := undo, redo := redo }) = r ∧
        ((r.ok = true ∧ TimelineModel.laneInRange s delta_track clip ∧
            r.s = TrackModel.place
              (TrackModel.unplace s (TimelineModel.getClipTrackId s clip) clip
                (updateView || clip != clipId))
              (s.m_allTracks.getD
                (TimelineModel.getTrackPosition s (TimelineModel.getClipTrackId s clip) +
                  delta_track).toNat (-1))
              clip ((s.clipObj clip).m_position + delta_pos) (updateView || clip != clipId) ∧
            Consistent r.s ∧ Inverse s0 r.s r.undo r.redo) ∨
          (r.ok = false ∧ ∃ v, (r.undo r.s).2 = s0.withView v)) := by
      refine ⟨_, rfl, ?_⟩
      split
      · rename_i hrange
        have hlen : (TimelineModel.getTrackPosition s (TimelineModel.getClipTrackId s clip) +
            delta_track).toNat < s.m_allTracks.length := by
          have := hs.tractor_len
          unfold TimelineModel.getTracksCount at hrange
          omega
        have hmem : s.m_allTracks.getD
            (TimelineModel.getTrackPosition s (TimelineModel.getClipTrackId s clip) +
              delta_track).toNat (-1) ∈ s.m_allTracks := by
          rw [List.getD_eq_getElem _ _ hlen]
          exact List.getElem_mem _
        have hb := hs.allTracks_ok _ hmem
        rcases clipMoveFun_all_or_nothing hs clip
            (s.m_allTracks.getD
              (TimelineModel.getTrackPosition s (TimelineModel.getClipTrackId s clip) +
                delta_track).toNat (-1))
            ((s.clipObj clip).m_position + delta_pos) (updateView || clip != clipId) undo redo with
          ⟨hok, _⟩ | ⟨hok, hsame, hu, _⟩
        · left
          obtain ⟨e1, e2, e3⟩ := clipMove_inverse hs ((s.clipObj clip).m_position + delta_pos)
            (updateView || clip != clipId) hold (by omega) hb.2 hinv hok
          exact ⟨hok, hrange, e1, e2, e3⟩
        · right
          refine ⟨hok, ?_⟩
          rw [hu, eq_withView_of_sameModel hsame]
          obtain ⟨v', hv'⟩ := hinv.1
            (TimelineModel.requestClipMoveFun s clip
              (s.m_allTracks.getD
                (TimelineModel.getTrackPosition s (TimelineModel.getClipTrackId s clip) +
                  delta_track).toNat (-1))
              ((s.clipObj clip).m_position + delta_pos) (updateView || clip != clipId) undo
              redo).s.viewNotifications
          exact ⟨v', by rw [hv']⟩
      · right
        refine ⟨rfl, ?_⟩
        obtain ⟨v', hv'⟩ := hinv.1 s.viewNotifications
        rw [withView_self] at hv'
        exact ⟨v', by show (undo s).2 = _; rw [hv']⟩
    unfold TimelineModel.groupMoveLoop
    simp only [hr]
    split
    · rename_i hfail
      right
      rcases hstep with ⟨hok, _⟩ | ⟨_, hv⟩
      · rw [hok] at hfail; exact absurd hfail (by simp)
      · exact ⟨rfl, hv⟩
    · rename_i hnf
      rcases hstep with ⟨_, hrange, hrs, hcons, hinv'⟩ | ⟨hok, _⟩
      · have hcl : ∀ c, c ≠ clip → r.s.clipObj c = s.clipObj c := by
          intro c hne
          rw [hrs, place_clip, if_neg hne, unplace_clip, if_neg hne]
        have htr : r.s.m_allTracks = s.m_allTracks := by rw [hrs]; rfl
        have htc : r.s.m_tractor = s.m_tractor := by rw [hrs]; rfl
        have hnotin : clip ∉ rest := (List.nodup_cons.mp hnd).1
        have hne_of : ∀ c ∈ rest, c ≠ clip := fun c hc e => hnotin (e ▸ hc)
        have hpl' : ∀ c ∈ rest, TimelineModel.getClipTrackId r.s c ≠ -1 := by
          intro c hc
          unfold TimelineModel.getClipTrackId
          rw [hcl c (hne_of c hc)]
          exact hpl c (List.mem_cons_of_mem _ hc)
        rcases ih hcons hinv' (List.nodup_cons.mp hnd).2 hpl' with
          ⟨a1, a2, a3, a4, a5, a6, a7⟩ | ⟨b1, b2⟩
        · left
          refine ⟨a1, a2, a3, a4.trans htr, a5.trans htc, ?_, ?_⟩
          · intro c hc
            rcases List.mem_cons.mp hc with e | hc'
            · subst e
              refine ⟨hrange, ?_⟩
              rw [a7 c hnotin, hrs, place_clip, if_pos rfl, unplace_clip, if_pos rfl]
              rfl
            · obtain ⟨x1, x2⟩ := a6 c hc'
              have e := hcl c (hne_of c hc')
              refine ⟨?_, ?_⟩
              · unfold TimelineModel.laneInRange TimelineModel.getClipLane
                  TimelineModel.getTrackPosition TimelineModel.getClipTrackId
                  TimelineModel.getTracksCount at x1 ⊢
                rw [e, htr, htc] at x1
                exact x1
              · rw [x2]
                unfold TimelineModel.groupMoveTarget TimelineModel.getClipLane
                  TimelineModel.getTrackPosition TimelineModel.getClipTrackId
                rw [e, htr]
          · intro c hc
            have hne : c ≠ clip := fun e => hc (e ▸ List.mem_cons_self _ _)
            rw [a7 c (fun hm => hc (List.mem_cons_of_mem _ hm)), hcl c hne]
        · right
          exact ⟨b1, b2⟩
      · exact absurd hok hnf

/-! ## Group move -/

theorem sortedLeaves_nodup (s : TimelineState) (groupId delta_track delta_pos : Int) :
    (TimelineModel.sortedLeaves s groupId delta_track delta_pos).Nodup := by
  unfold TimelineModel.sortedLeaves
  rw [(List.perm_insertionSort _ _).nodup_iff]
  unfold GroupsModel.getLeaves
  exact List.nodup_dedup _

theorem mem_sortedLeaves (s : TimelineState) (groupId delta_track delta_pos c : Int) :
    c ∈ TimelineModel.sortedLeaves s groupId delta_track delta_pos ↔
      c ∈ s.m_groups.getLeaves groupId := by
  unfold TimelineModel.sortedLeaves
  exact (List.perm_insertionSort _ _).mem_iff

theorem placementKept_of_withView {s x : TimelineState} {v : Nat} (h : x = s.withView v) :
    SameModel s x ∧ PlacementKept s x := by
  subst h
  exact ⟨rfl, fun _ => ⟨rfl, rfl⟩⟩

/-- What `requestGroupMove` returns, in terms of its loop. -/
theorem groupMove_cases (m : TimelineModel) (clipId groupId delta_track delta_pos : Int)
    (updateView logUndo : Bool) (hcons : Consistent m.st)
    (hplaced : ∀ c ∈ m.st.m_groups.getLeaves groupId, TimelineModel.getClipTrackId m.st c ≠ -1) :
    ((TimelineModel.requestGroupMove m clipId groupId delta_track delta_pos updateView logUndo).1
        = true ∧
      (TimelineModel.requestGroupMove m clipId groupId delta_track delta_pos updateView
        logUndo).2.st.m_allTracks = m.st.m_allTracks ∧
      (∀ c ∈ m.st.m_groups.getLeaves groupId, TimelineModel.laneInRange m.st delta_track c ∧
        (TimelineModel.requestGroupMove m clipId groupId delta_track delta_pos updateView
          logUndo).2.st.clipObj c = TimelineModel.groupMoveTarget m.st delta_track delta_pos c) ∧
      (logUndo = false →
        (TimelineModel.requestGroupMove m clipId groupId delta_track delta_pos updateView
          logUndo).2.m_undoStack = m.m_undoStack) ∧
      (logUndo = true →
        ∃ undo redo : Fun,
          (TimelineModel.requestGroupMove m clipId groupId delta_track delta_pos updateView
            logUndo).2.m_undoStack = m.m_undoStack.push undo redo ∧
          Inverse m.st
            (TimelineModel.requestGroupMove m clipId groupId delta_track delta_pos updateView
              logUndo).2.st undo redo)) ∨
    ((TimelineModel.requestGroupMove m clipId groupId delta_track delta_pos updateView logUndo).1
        = false ∧
      (TimelineModel.requestGroupMove m clipId groupId delta_track delta_pos updateView
        logUndo).2.m_undoStack = m.m_undoStack ∧
      ∃ v,
        (TimelineModel.requestGroupMove m clipId groupId delta_track delta_pos updateView
          logUndo).2.st = m.st.withView v) := by
  have hpl : ∀ c ∈ TimelineModel.sortedLeaves m.st groupId delta_track delta_pos,
      TimelineModel.getClipTrackId m.st c ≠ -1 :=
    fun c hc => hplaced c ((mem_sortedLeaves _ _ _ _ _).mp hc)
  have hloop := groupMoveLoop_spec clipId delta_track delta_pos updateView m.st
    (TimelineModel.sortedLeaves m.st groupId delta_track delta_pos) hcons (inverse_refl m.st)
    (sortedLeaves_nodup _ _ _ _) hpl
  unfold TimelineModel.requestGroupMove
  dsimp only
  generalize TimelineModel.groupMoveLoop clipId delta_track delta_pos updateView
    (TimelineModel.sortedLeaves m.st groupId delta_track delta_pos) m.st noop noop = r at hloop ⊢
  rcases hloop with ⟨a1, _, a3, a4, _, a6, _⟩ | ⟨b1, b2⟩
  · left
    rw [if_neg (by simp [a1])]
    cases logUndo
    · refine ⟨rfl, a4, ?_, fun _ => rfl, fun hc => absurd hc (by simp)⟩
      exact fun c hc => a6 c ((mem_sortedLeaves _ _ _ _ _).mpr hc)
    · refine ⟨rfl, a4, ?_, fun hc => absurd hc (by simp), fun _ => ⟨r.undo, r.redo, rfl, a3⟩⟩
      exact fun c hc => a6 c ((mem_sortedLeaves _ _ _ _ _).mpr hc)
  · right
    rw [if_pos b1]
    exact ⟨rfl, rfl, b2⟩

/-- A leaf that has reached its target is `delta_track` lanes and `delta_pos`
frames away. -/
theorem target_lane {s x : TimelineState} (hcons : Consistent s) (htracks : s.m_allTracks.Nodup)
    {delta_track delta_pos c : Int} (hx : x.m_allTracks = s.m_allTracks)
    (hrange : TimelineModel.laneInRange s delta_track c)
    (hobj : x.clipObj c = TimelineModel.groupMoveTarget s delta_track delta_pos c) :
    TimelineModel.getClipLane x c = TimelineModel.getClipLane s c + delta_track ∧
    TimelineModel.getClipPosition x c = TimelineModel.getClipPosition s c + delta_pos := by
  have hlen : (TimelineModel.getClipLane s c + delta_track).toNat < s.m_allTracks.length := by
    have := hcons.tractor_len
    unfold TimelineModel.laneInRange TimelineModel.getTracksCount at hrange
    omega
  constructor
  · unfold TimelineModel.getClipLane TimelineModel.getTrackPosition TimelineModel.getClipTrackId
    rw [hobj, hx]
    show ((List.indexOf (s.m_allTracks.getD
      (TimelineModel.getClipLane s c + delta_track).toNat (-1)) s.m_allTracks : Nat) : Int) = _
    rw [List.getD_eq_getElem _ _ hlen, List.indexOf_getElem htracks _ hlen]
    have := hrange.1
    unfold TimelineModel.getClipLane TimelineModel.getTrackPosition
      TimelineModel.getClipTrackId at this ⊢
    omega
  · unfold TimelineModel.getClipPosition
    rw [hobj]
    rfl

/-- A clip on one of the tracks has its lane among the tracks. -/
theorem laneInRange_zero {s : TimelineState} (hcons : Consistent s) {c : Int}
    (h : TimelineModel.getClipTrackId s c ∈ s.m_allTracks) :
    TimelineModel.laneInRange s 0 c := by
  have h1 := List.indexOf_lt_length.mpr h
  have h2 := hcons.tractor_len
  unfold TimelineModel.laneInRange TimelineModel.getClipLane TimelineModel.getTrackPosition
    TimelineModel.getTracksCount
  omega

theorem placed_of_mem_tracks {s : TimelineState} (hcons : Consistent s) {c : Int}
    (h : TimelineModel.getClipTrackId s c ∈ s.m_allTracks) :
    TimelineModel.getClipTrackId s c ≠ -1 := by
  have := hcons.allTracks_ok _ h
  omega

/-- The cascade of `requestGroupMove`. -/
theorem groupMove_cascade (m : TimelineModel) (clipId groupId delta_track delta_pos : Int)
    (updateView logUndo : Bool) (hcons : Consistent m.st) (htracks : m.st.m_allTracks.Nodup)
    (hplaced : ∀ c ∈ m.st.m_groups.getLeaves groupId,
      TimelineModel.getClipTrackId m.st c ∈ m.st.m_allTracks) :
    (((TimelineModel.requestGroupMove m clipId groupId delta_track delta_pos updateView
          logUndo).1 = true ∧
        LeavesMovedBy m.st
          (TimelineModel.requestGroupMove m clipId groupId delta_track delta_pos updateView
            logUndo).2.st groupId delta_track delta_pos) ∨
      ((TimelineModel.requestGroupMove m clipId groupId delta_track delta_pos updateView
          logUndo).1 = false ∧
        PlacementKept m.st
          (TimelineModel.requestGroupMove m clipId groupId delta_track delta_pos updateView
            logUndo).2.st ∧
        SameModel m.st
          (TimelineModel.requestGroupMove m clipId groupId delta_track delta_pos updateView
            logUndo).2.st)) ∧
    ((∃ c ∈ m.st.m_groups.getLeaves groupId, ¬ TimelineModel.laneInRange m.st delta_track c) →
      (TimelineModel.requestGroupMove m clipId groupId delta_track delta_pos updateView
          logUndo).1 = false ∧
        PlacementKept m.st
          (TimelineModel.requestGroupMove m clipId groupId delta_track delta_pos updateView
            logUndo).2.st) := by
  have hpl : ∀ c ∈ m.st.m_groups.getLeaves groupId, TimelineModel.getClipTrackId m.st c ≠ -1 :=
    fun c hc => placed_of_mem_tracks hcons (hplaced c hc)
  rcases groupMove_cases m clipId groupId delta_track delta_pos updateView logUndo hcons hpl with
    ⟨a1, a2, a3, _, _⟩ | ⟨b1, _, v, b3⟩
  · refine ⟨Or.inl ⟨a1, fun c hc => target_lane hcons htracks a2 (a3 c hc).1 (a3 c hc).2⟩, ?_⟩
    rintro ⟨c, hc, hout⟩
    exact absurd (a3 c hc).1 hout
  · have hk := placementKept_of_withView b3
    exact ⟨Or.inr ⟨b1, hk.2, hk.1⟩, fun _ => ⟨b1, hk.2⟩⟩

theorem scenarioB_reachable : Reachable scenarioBin noSnap scenarioB :=
  reachable_runAll _ Reachable.init (by decide)

/-- C6 (group cascade): on a consistent model whose tracks are listed once, for
a group whose leaves are placed on tracks of the timeline, `requestGroupMove` by
`(delta_track, delta_pos)` either returns true and every leaf is `delta_track`
lanes and `delta_pos` frames away from where it was, or returns false and every
clip is on its old track at its old position (the model is as before, up to the
notifications sent to the view); it returns false when the target lane of some
leaf is not a lane of the timeline.  The same holds for `requestClipMove` of a
grouped clip to a track and position that amount to these deltas. -/
theorem C6_group_move_cascade (m : TimelineModel) (clipId groupId delta_track delta_pos : Int)
    (updateView logUndo : Bool) (hcons : Consistent m.st) (htracks : m.st.m_allTracks.Nodup)
    (hplaced : ∀ c ∈ m.st.m_groups.getLeaves groupId,
      TimelineModel.getClipTrackId m.st c ∈ m.st.m_allTracks) :
    ((((TimelineModel.requestGroupMove m clipId groupId delta_track delta_pos updateView
          logUndo).1 = true ∧
        LeavesMovedBy m.st
          (TimelineModel.requestGroupMove m clipId groupId delta_track delta_pos updateView
            logUndo).2.st groupId delta_track delta_pos) ∨
      ((TimelineModel.requestGroupMove m clipId groupId delta_track delta_pos updateView
          logUndo).1 = false ∧
        PlacementKept m.st
          (TimelineModel.requestGroupMove m clipId groupId delta_track delta_pos updateView
            logUndo).2.st ∧
        SameModel m.st
          (TimelineModel.requestGroupMove m clipId groupId delta_track delta_pos updateView
            logUndo).2.st)) ∧
    ((∃ c ∈ m.st.m_groups.getLeaves groupId, ¬ TimelineModel.laneInRange m.st delta_track c) →
      (TimelineModel.requestGroupMove m clipId groupId delta_track delta_pos updateView
          logUndo).1 = false ∧
        PlacementKept m.st
          (TimelineModel.requestGroupMove m clipId groupId delta_track delta_pos updateView
            logUndo).2.st)) ∧
    (∀ trackId position : Int,
      m.st.m_groups.isInGroup clipId = true →
      m.st.m_groups.getRootId clipId = groupId →
      TimelineModel.getTrackPosition m.st trackId - TimelineModel.getClipLane m.st clipId
        = delta_track →
      position - TimelineModel.getClipPosition m.st clipId = delta_pos →
      (((TimelineModel.requestClipMove m clipId trackId position updateView logUndo).1 = true ∧
          LeavesMovedBy m.st
            (TimelineModel.requestClipMove m clipId trackId position updateView logUndo).2.st
            groupId delta_track delta_pos) ∨
        ((TimelineModel.requestClipMove m clipId trackId position updateView logUndo).1 = false ∧
          PlacementKept m.st
            (TimelineModel.requestClipMove m clipId trackId position updateView logUndo).2.st ∧
          SameModel m.st
            (TimelineModel.requestClipMove m clipId trackId position updateView logUndo).2.st)) ∧
      ((∃ c ∈ m.st.m_groups.getLeaves groupId, ¬ TimelineModel.laneInRange m.st delta_track c) →
        (TimelineModel.requestClipMove m clipId trackId position updateView logUndo).1 = false ∧
          PlacementKept m.st
            (TimelineModel.requestClipMove m clipId trackId position updateView logUndo).2.st)) := by
  refine ⟨groupMove_cascade m clipId groupId delta_track delta_pos updateView logUndo hcons
    htracks hplaced, ?_⟩
  intro trackId position hin hroot hdT hdP
  by_cases hsame : (m.st.clipObj clipId).m_position = position ∧
      TimelineModel.getClipTrackId m.st clipId = trackId
  · have e : TimelineModel.requestClipMove m clipId trackId position updateView logUndo
        = (true, m) := by
      unfold TimelineModel.requestClipMove
      rw [if_pos hsame]
    have hT0 : delta_track = 0 := by
      rw [← hdT, ← hsame.2]
      unfold TimelineModel.getClipLane
      omega
    have hP0 : delta_pos = 0 := by
      rw [← hdP, ← hsame.1]
      unfold TimelineModel.getClipPosition
      omega
    rw [e, hT0, hP0]
    refine ⟨Or.inl ⟨rfl, fun c _ => ⟨(add_zero _).symm, (add_zero _).symm⟩⟩, ?_⟩
    rintro ⟨c, hc, hout⟩
    exact absurd (laneInRange_zero hcons (hplaced c hc)) hout
  · have e : TimelineModel.requestClipMove m clipId trackId position updateView logUndo
        = TimelineModel.requestGroupMove m clipId groupId delta_track delta_pos updateView
          logUndo := by
      unfold TimelineModel.requestClipMove
      rw [if_neg hsame, if_pos hin]
      rw [← hroot, ← hdT, ← hdP]
      rfl
    rw [e]
    exact groupMove_cascade m clipId groupId delta_track delta_pos updateView logUndo hcons
      htracks hplaced

/-- Witness of C6 on scenario B: the two grouped clips, on the first and the
second track, moved by one lane and 50 frames. -/
theorem C6_witness :
    (Consistent scenarioB.st ∧ scenarioB.st.m_allTracks.Nodup ∧
      ∀ c ∈ scenarioB.st.m_groups.getLeaves 5,
        TimelineModel.getClipTrackId scenarioB.st c ∈ scenarioB.st.m_allTracks) ∧
    (((TimelineModel.requestGroupMove scenarioB 3 5 1 50 true true).1 = true ∧
        LeavesMovedBy scenarioB.st
          (TimelineModel.requestGroupMove scenarioB 3 5 1 50 true true).2.st 5 1 50) ∨
      ((TimelineModel.requestGroupMove scenarioB 3 5 1 50 true true).1 = false ∧
        PlacementKept scenarioB.st
          (TimelineModel.requestGroupMove scenarioB 3 5 1 50 true true).2.st ∧
        SameModel scenarioB.st
          (TimelineModel.requestGroupMove scenarioB 3 5 1 50 true true).2.st)) :=
  ⟨⟨(stackOK_of_reachable scenarioB_reachable).1, by decide, by decide⟩,
    (C6_group_move_cascade scenarioB 3 5 1 50 true true
      (stackOK_of_reachable scenarioB_reachable).1 (by decide) (by decide)).1.1⟩

/-- C7 (one command for a group move): on a consistent model, for a group whose
leaves are placed, a successful `requestGroupMove` with `logUndo` pushes exactly
one undo/redo pair on the stack; undoing it puts every clip back on the track
and at the position it had before the move (the model is as before, up to the
notifications sent to the view), and redoing it then puts every clip on the
track and at the position the move had given it.  A group move that fails, or
one without `logUndo`, leaves the stack as it was. -/
theorem C7_group_move_single_command (m : TimelineModel)
    (clipId groupId delta_track delta_pos : Int) (updateView logUndo : Bool)
    (hcons : Consistent m.st)
    (hplaced : ∀ c ∈ m.st.m_groups.getLeaves groupId,
      TimelineModel.getClipTrackId m.st c ≠ -1) :
    ((TimelineModel.requestGroupMove m clipId groupId delta_track delta_pos updateView
          logUndo).1 = true → logUndo = true →
      (∃ undo redo : Fun,
        (TimelineModel.requestGroupMove m clipId groupId delta_track delta_pos updateView
          logUndo).2.m_undoStack = m.m_undoStack.push undo redo) ∧
      (TimelineModel.requestGroupMove m clipId groupId delta_track delta_pos updateView
          logUndo).2.m_undoStack.m_done.length = m.m_undoStack.m_done.length + 1 ∧
      PlacementKept m.st
        (TimelineModel.undo
          (TimelineModel.requestGroupMove m clipId groupId delta_track delta_pos updateView
            logUndo).2).st ∧
      SameModel m.st
        (TimelineModel.undo
          (TimelineModel.requestGroupMove m clipId groupId delta_track delta_pos updateView
            logUndo).2).st ∧
      PlacementKept
        (TimelineModel.requestGroupMove m clipId groupId delta_track delta_pos updateView
          logUndo).2.st
        (TimelineModel.redo (TimelineModel.undo
          (TimelineModel.requestGroupMove m clipId groupId delta_track delta_pos updateView
            logUndo).2)).st ∧
      SameModel
        (TimelineModel.requestGroupMove m clipId groupId delta_track delta_pos updateView
          logUndo).2.st
        (TimelineModel.redo (TimelineModel.undo
          (TimelineModel.requestGroupMove m clipId groupId delta_track delta_pos updateView
            logUndo).2)).st) ∧
    ((TimelineModel.requestGroupMove m clipId groupId delta_track delta_pos updateView
          logUndo).1 = false ∨ logUndo = false →
      (TimelineModel.requestGroupMove m clipId groupId delta_track delta_pos updateView
          logUndo).2.m_undoStack = m.m_undoStack) := by
  rcases groupMove_cases m clipId groupId delta_track delta_pos updateView logUndo hcons
      hplaced with ⟨a1, _, _, a4, a5⟩ | ⟨b1, b2, _⟩
  · constructor
    · intro _ hlog
      obtain ⟨undo, redo, hstack, hinv⟩ := a5 hlog
      generalize TimelineModel.requestGroupMove m clipId groupId delta_track delta_pos updateView
        logUndo = r at hstack hinv ⊢
      obtain ⟨v1, hv1⟩ := hinv.1 r.2.st.viewNotifications
      rw [withView_self] at hv1
      obtain ⟨v2, hv2⟩ := hinv.2 v1
      have hu : (TimelineModel.undo r.2).st = m.st.withView v1 := by
        unfold TimelineModel.undo
        rw [hstack]
        show (undo r.2.st).2 = _
        rw [hv1]
      have hr : (TimelineModel.redo (TimelineModel.undo r.2)).st = r.2.st.withView v2 := by
        unfold TimelineModel.redo TimelineModel.undo
        rw [hstack]
        show (redo (undo r.2.st).2).2 = _
        rw [hv1]
        show (redo (m.st.withView v1)).2 = _
        rw [hv2]
      have k1 := placementKept_of_withView hu
      have k2 := placementKept_of_withView hr
      refine ⟨⟨undo, redo, hstack⟩, ?_, k1.2, k1.1, k2.2, k2.1⟩
      rw [hstack]
      rfl
    · rintro (hf | hlog)
      · rw [a1] at hf; exact absurd hf (by simp)
      · exact a4 hlog
  · exact ⟨fun ht => by rw [b1] at ht; exact absurd ht (by simp), fun _ => b2⟩

/-- Witness of C7 on scenario B: the group of the two clips is moved by one
lane and 50 frames, and the single command is undone. -/
theorem C7_witness :
    (Consistent scenarioB.st ∧
      ∀ c ∈ scenarioB.st.m_groups.getLeaves 5,
        TimelineModel.getClipTrackId scenarioB.st c ≠ -1) ∧
    (TimelineModel.requestGroupMove scenarioB 3 5 1 50 true true).2.m_undoStack.m_done.length
      = scenarioB.m_undoStack.m_done.length + 1 ∧
    PlacementKept scenarioB.st
      (TimelineModel.undo (TimelineModel.requestGroupMove scenarioB 3 5 1 50 true true).2).st :=
  ⟨⟨(stackOK_of_reachable scenarioB_reachable).1, by decide⟩,
    ((C7_group_move_single_command scenarioB 3 5 1 50 true true
      (stackOK_of_reachable scenarioB_reachable).1 (by decide)).1 (by decide) rfl).2.1,
    ((C7_group_move_single_command scenarioB 3 5 1 50 true true
      (stackOK_of_reachable scenarioB_reachable).1 (by decide)).1 (by decide) rfl).2.2.1⟩

/-! ## Track insertion -/

theorem indexOf_insertAt_self {a : Int} : ∀ {l : List Int} {pos : Nat}, a ∉ l → pos ≤ l.length →
    List.indexOf a (TimelineModel.insertAt pos a l) = pos := by
  intro l pos ha hp
  unfold TimelineModel.insertAt
  rw [List.indexOf_append_of_not_mem (fun h => ha (List.mem_of_mem_take h)),
    List.indexOf_cons_self, List.length_take]
  omega

theorem indexOf_insertAt_other {a x : Int} (hx : x ≠ a) : ∀ {l : List Int} {pos : Nat},
    x ∈ l → pos ≤ l.length →
    List.indexOf x (TimelineModel.insertAt pos a l) =
      if List.indexOf x l < pos then List.indexOf x l else List.indexOf x l + 1 := by
  intro l
  induction l with
  | nil => intro pos h _; exact absurd h (List.not_mem_nil x)
  | cons b t ih =>
    intro pos hmem hp
    cases pos with
    | zero =>
      unfold TimelineModel.insertAt
      rw [List.take_zero, List.nil_append, List.drop_zero,
        List.indexOf_cons_ne _ (fun e => hx e.symm)]
      simp
    | succ pos =>
      have e : TimelineModel.insertAt (pos + 1) a (b :: t) = b :: TimelineModel.insertAt pos a t := by
        unfold TimelineModel.insertAt
        simp
      rw [e]
      by_cases hb : b = x
      · rw [List.indexOf_cons_eq _ hb, List.indexOf_cons_eq _ hb]
        simp
      · rw [List.indexOf_cons_ne _ hb, List.indexOf_cons_ne _ hb]
        have hmem' : x ∈ t := by
          rcases List.mem_cons.mp hmem with h | h
          · exact absurd h.symm hb
          · exact h
        rw [ih hmem' (by simpa using hp)]
        split <;> rename_i hlt
        · rw [if_pos (by omega)]
        · rw [if_neg (by omega)]

theorem getElem?_insertAt_self (a : Int) (l : List Int) {pos : Nat} (hp : pos ≤ l.length) :
    (TimelineModel.insertAt pos a l)[pos]? = some a := by
  unfold TimelineModel.insertAt
  rw [List.getElem?_append_right (by rw [List.length_take]; omega)]
  rw [List.length_take, Nat.min_eq_left hp, Nat.sub_self]
  simp

theorem head?_insertAt_succ (a : Int) (l : List Int) (pos : Nat) (hl : l ≠ []) :
    (TimelineModel.insertAt (pos + 1) a l).head? = l.head? := by
  cases l with
  | nil => exact absurd rfl hl
  | cons b t => unfold TimelineModel.insertAt; simp

/-- The lane of an insertion that is accepted is a lane of the new sequence. -/
theorem insertionLane_range {s : TimelineState} {position : Int}
    (h : -1 ≤ position ∧ position ≤ (s.m_allTracks.length : Int)) :
    0 ≤ TimelineModel.insertionLane s position ∧
      TimelineModel.insertionLane s position ≤ (s.m_allTracks.length : Int) ∧
      TimelineModel.insertionLane s position ≠ -1 := by
  unfold TimelineModel.insertionLane
  split <;> omega

/-- What `requestTrackInsertion` does on a position it accepts. -/
theorem requestTrackInsertion_ok (m : TimelineModel) (position id : Int)
    (h : -1 ≤ position ∧ position ≤ (m.st.m_allTracks.length : Int)) :
    (TimelineModel.requestTrackInsertion m position id).1 = true ∧
    (TimelineModel.requestTrackInsertion m position id).2.1 = m.st.next_id ∧
    (TimelineModel.requestTrackInsertion m position id).2.2.st =
      TrackModel.construct (TimelineModel.getNextId m.st).2 m.st.next_id
        (TimelineModel.insertionLane m.st position) ∧
    (TimelineModel.requestTrackInsertion m position id).2.2.m_undoStack.m_done.length =
      m.m_undoStack.m_done.length + 1 := by
  have hr := insertionLane_range h
  unfold TimelineModel.insertionLane at hr ⊢
  unfold TimelineModel.requestTrackInsertion TimelineModel.requestTrackInsertionFun
  dsimp only
  generalize (if position = -1 then (m.st.m_allTracks.length : Int) else position) = lane at hr ⊢
  have hc : ¬ (lane < 0 ∨ lane > (m.st.m_allTracks.length : Int)) := by omega
  simp only [if_neg hc]
  exact ⟨rfl, rfl, rfl, rfl⟩

/-- What `requestTrackInsertion` does on a position it refuses. -/
theorem requestTrackInsertion_fail (m : TimelineModel) (position id : Int)
    (h : position < -1 ∨ (m.st.m_allTracks.length : Int) < position) :
    TimelineModel.requestTrackInsertion m position id = (false, id, m) := by
  have hc : (if position = -1 then (m.st.m_allTracks.length : Int) else position) < 0 ∨
      (if position = -1 then (m.st.m_allTracks.length : Int) else position) >
        (m.st.m_allTracks.length : Int) := by
    split <;> omega
  unfold TimelineModel.requestTrackInsertion TimelineModel.requestTrackInsertionFun
  dsimp only
  simp only [if_pos hc]
  rfl

/-- C12 (track insertion, refused positions): with `n` the number of tracks of
the sequence, `requestTrackInsertion` returns false if and only if the position
is below -1 or above `n`; when it returns false the `id` parameter and the whole
model (tracks, tractor, counter, undo stack) are as before the call. -/
theorem C12_requestTrackInsertion_refuses_iff (m : TimelineModel) (position id : Int) :
    ((TimelineModel.requestTrackInsertion m position id).1 = false ↔
      (position < -1 ∨ (m.st.m_allTracks.length : Int) < position)) ∧
    ((TimelineModel.requestTrackInsertion m position id).1 = false →
      TimelineModel.requestTrackInsertion m position id = (false, id, m)) := by
  by_cases h : position < -1 ∨ (m.st.m_allTracks.length : Int) < position
  · rw [requestTrackInsertion_fail m position id h]
    exact ⟨⟨fun _ => h, fun _ => rfl⟩, fun _ => rfl⟩
  · have hok := (requestTrackInsertion_ok m position id (by omega)).1
    rw [hok]
    exact ⟨⟨fun e => absurd e (by simp), fun e => absurd e h⟩, fun e => absurd e (by simp)⟩

/-- Witness of C12 on scenario A (one track): position 2 is refused. -/
theorem C12_witness :
    (TimelineModel.requestTrackInsertion scenarioA 2 (-1)).1 = false ∧
    TimelineModel.requestTrackInsertion scenarioA 2 (-1) = (false, -1, scenarioA) :=
  ⟨by decide, (C12_requestTrackInsertion_refuses_iff scenarioA 2 (-1)).2 (by decide)⟩

theorem constructTrack_fields (s : TimelineState) (id : Int) {lane : Int} (h : lane ≠ -1) :
    (TrackModel.construct s id lane).m_allTracks
      = TimelineModel.insertAt lane.toNat id s.m_allTracks ∧
    (TrackModel.construct s id lane).m_tractor
      = TimelineModel.insertAt (lane + 1).toNat id s.m_tractor ∧
    (TrackModel.construct s id lane).m_iteratorTable = insertKey id s.m_iteratorTable := by
  unfold TrackModel.construct TimelineModel.registerTrack
  simp [h]

/-- C13 (track insertion, effect): after a successful `requestTrackInsertion`
on a consistent model whose registered tracks are all in the sequence, the id
handed out is a track, the track count has grown by one, the new track is at
the lane asked for (`-1` standing for the end) and its engine index is that
lane plus one, where the tractor holds it, the background slot staying first;
every track that was there keeps its lane when it is below the lane of the
insertion and moves up by one otherwise; and the sequence still holds, at the
position of every registered track, that track. -/
theorem C13_requestTrackInsertion_effect (m : TimelineModel) (position id : Int)
    (hcons : Consistent m.st)
    (hlookup : ∀ T ∈ m.st.m_iteratorTable, T ∈ m.st.m_allTracks)
    (hok : (TimelineModel.requestTrackInsertion m position id).1 = true) :
    TimelineModel.isTrack (TimelineModel.requestTrackInsertion m position id).2.2.st
      (TimelineModel.requestTrackInsertion m position id).2.1 = true ∧
    TimelineModel.getTracksCount (TimelineModel.requestTrackInsertion m position id).2.2.st
      = TimelineModel.getTracksCount m.st + 1 ∧
    TimelineModel.getTrackPosition (TimelineModel.requestTrackInsertion m position id).2.2.st
      (TimelineModel.requestTrackInsertion m position id).2.1
      = TimelineModel.insertionLane m.st position ∧
    TimelineModel.getTrackMltIndex (TimelineModel.requestTrackInsertion m position id).2.2.st
      (TimelineModel.requestTrackInsertion m position id).2.1
      = TimelineModel.insertionLane m.st position + 1 ∧
    (TimelineModel.requestTrackInsertion m position id).2.2.st.m_tractor[
        (TimelineModel.insertionLane m.st position + 1).toNat]?
      = some (TimelineModel.requestTrackInsertion m position id).2.1 ∧
    (TimelineModel.requestTrackInsertion m position id).2.2.st.m_tractor.head?
      = m.st.m_tractor.head? ∧
    (∀ T, TimelineModel.isTrack m.st T = true →
      TimelineModel.isTrack (TimelineModel.requestTrackInsertion m position id).2.2.st T = true ∧
      TimelineModel.getTrackPosition (TimelineModel.requestTrackInsertion m position id).2.2.st T
        = if TimelineModel.getTrackPosition m.st T < TimelineModel.insertionLane m.st position
          then TimelineModel.getTrackPosition m.st T
          else TimelineModel.getTrackPosition m.st T + 1) ∧
    (∀ T, TimelineModel.isTrack (TimelineModel.requestTrackInsertion m position id).2.2.st T
        = true →
      (TimelineModel.requestTrackInsertion m position id).2.2.st.m_allTracks[
          (TimelineModel.getTrackPosition
            (TimelineModel.requestTrackInsertion m position id).2.2.st T).toNat]? = some T) := by
  have hrange : -1 ≤ position ∧ position ≤ (m.st.m_allTracks.length : Int) := by
    by_contra hn
    rw [requestTrackInsertion_fail m position id (by omega)] at hok
    exact absurd hok (by simp)
  obtain ⟨_, hid, hst, _⟩ := requestTrackInsertion_ok m position id hrange
  obtain ⟨hl0, hl1, hl2⟩ := insertionLane_range hrange
  obtain ⟨f1, f2, f3⟩ := constructTrack_fields (TimelineModel.getNextId m.st).2 m.st.next_id hl2
  have g1 : (TimelineModel.requestTrackInsertion m position id).2.2.st.m_allTracks =
      TimelineModel.insertAt (TimelineModel.insertionLane m.st position).toNat m.st.next_id
        m.st.m_allTracks := by rw [hst, f1]; rfl
  have g2 : (TimelineModel.requestTrackInsertion m position id).2.2.st.m_tractor =
      TimelineModel.insertAt (TimelineModel.insertionLane m.st position + 1).toNat m.st.next_id
        m.st.m_tractor := by rw [hst, f2]; rfl
  have g3 : (TimelineModel.requestTrackInsertion m position id).2.2.st.m_iteratorTable =
      insertKey m.st.next_id m.st.m_iteratorTable := by rw [hst, f3]; rfl
  have hfresh : m.st.next_id ∉ m.st.m_allTracks := fun hm => by
    have := (hcons.allTracks_ok _ hm).2
    omega
  have hlen : (TimelineModel.insertionLane m.st position).toNat ≤ m.st.m_allTracks.length := by
    omega
  have hlen' : (TimelineModel.insertionLane m.st position + 1).toNat ≤ m.st.m_tractor.length := by
    have := hcons.tractor_len
    omega
  have hself : List.indexOf m.st.next_id
      (TimelineModel.insertAt (TimelineModel.insertionLane m.st position).toNat m.st.next_id
        m.st.m_allTracks) = (TimelineModel.insertionLane m.st position).toNat :=
    indexOf_insertAt_self hfresh hlen
  have hpos : TimelineModel.getTrackPosition
      (TimelineModel.requestTrackInsertion m position id).2.2.st
      (TimelineModel.requestTrackInsertion m position id).2.1
      = TimelineModel.insertionLane m.st position := by
    unfold TimelineModel.getTrackPosition
    rw [g1, hid, hself]
    omega
  refine ⟨?_, ?_, hpos, ?_, ?_, ?_, ?_, ?_⟩
  · unfold TimelineModel.isTrack
    rw [g3, hid]
    exact decide_eq_true (mem_insertKey.mpr (Or.inl rfl))
  · unfold TimelineModel.getTracksCount
    rw [g2, length_insertAt]
    omega
  · unfold TimelineModel.getTrackMltIndex
    rw [hpos]
  · rw [g2, hid]
    exact getElem?_insertAt_self _ _ hlen'
  · rw [g2]
    have e : (TimelineModel.insertionLane m.st position + 1).toNat
        = (TimelineModel.insertionLane m.st position).toNat + 1 := by omega
    rw [e]
    refine head?_insertAt_succ _ _ _ (fun hnil => ?_)
    have := hcons.tractor_len
    rw [hnil] at this
    simp at this
  · intro T hT
    have hTt : T ∈ m.st.m_iteratorTable := by simpa [TimelineModel.isTrack] using hT
    have hTa := hlookup T hTt
    have hne : T ≠ m.st.next_id := fun e => hfresh (e ▸ hTa)
    constructor
    · unfold TimelineModel.isTrack
      rw [g3]
      exact decide_eq_true (mem_insertKey.mpr (Or.inr hTt))
    · unfold TimelineModel.getTrackPosition
      rw [g1, indexOf_insertAt_other hne hTa hlen]
      split <;> rename_i hlt
      · rw [if_pos (by omega)]
      · rw [if_neg (by omega)]
        push_cast
        rfl
  · intro T hT
    have hTt : T ∈ insertKey m.st.next_id m.st.m_iteratorTable := by
      rw [← g3]
      simpa [TimelineModel.isTrack] using hT
    have hTa : T ∈ (TimelineModel.requestTrackInsertion m position id).2.2.st.m_allTracks := by
      rw [g1]
      rcases mem_insertKey.mp hTt with e | h'
      · exact mem_insertAt.mpr (Or.inl e)
      · exact mem_insertAt.mpr (Or.inr (hlookup T h'))
    unfold TimelineModel.getTrackPosition
    rw [Int.toNat_ofNat, List.getElem?_eq_getElem (List.indexOf_lt_length.mpr hTa)]
    exact congrArg some (List.getElem_indexOf _)

/-- Witness of C13 on scenario A: a track inserted at lane 0, before the track
that is there. -/
theorem C13_witness :
    (Consistent scenarioA.st ∧
      (∀ T ∈ scenarioA.st.m_iteratorTable, T ∈ scenarioA.st.m_allTracks) ∧
      (TimelineModel.requestTrackInsertion scenarioA 0 (-1)).1 = true) ∧
    TimelineModel.getTrackPosition (TimelineModel.requestTrackInsertion scenarioA 0 (-1)).2.2.st
      (TimelineModel.requestTrackInsertion scenarioA 0 (-1)).2.1
      = TimelineModel.insertionLane scenarioA.st 0 :=
  ⟨⟨(stackOK_of_reachable scenarioA_reachable).1, by decide, by decide⟩,
    (C13_requestTrackInsertion_effect scenarioA 0 (-1)
      (stackOK_of_reachable scenarioA_reachable).1 (by decide) (by decide)).2.2.1⟩

/-! ## Grouping request -/

theorem groupable_eq_false_iff (s : TimelineState) (ids : List Int) :
    TimelineModel.groupable s ids = false ↔ GroupRefused s ids := by
  unfold TimelineModel.groupable GroupRefused
  rw [← Bool.not_eq_true, List.all_eq_true]
  constructor
  · intro h
    by_contra hn
    apply h
    intro id hid
    by_cases hc : TimelineModel.isClip s id = true
    · rw [if_pos hc]
      by_contra hb
      apply hn
      refine ⟨id, hid, Or.inl ⟨hc, ?_⟩⟩
      by_contra hne
      exact hb (by simpa using hne)
    · rw [if_neg hc]
      by_contra hb
      exact hn ⟨id, hid, Or.inr ⟨by simpa using hc, by simpa using hb⟩⟩
  · rintro ⟨id, hid, h | h⟩ hall
    · have := hall id hid
      rw [if_pos h.1] at this
      simp [h.2] at this
    · have := hall id hid
      rw [if_neg (by simp [h.1]), h.2] at this
      exact absurd this (by simp)

/-- C16, as stated, fails: a set made of one registered composition is refused,
although it holds no unplaced clip and no id that is neither a clip, nor a
composition, nor a group. -/
theorem C16_counterexample :
    TimelineModel.isComposition scenarioComposition.st 3 = true ∧
    (TimelineModel.requestClipsGroup scenarioComposition [3]).1 = false ∧
    ¬ GroupRefusedAsStated scenarioComposition.st [3] := by
  refine ⟨by decide, by decide, ?_⟩
  rintro ⟨id, hid, h | h⟩
  · rw [List.mem_singleton.mp hid] at h
    exact absurd h.1 (by decide)
  · rw [List.mem_singleton.mp hid] at h
    exact absurd h.2.1 (by decide)

/-- C16 (amended): for a non-empty set of ids, `requestClipsGroup` returns false
exactly when the set holds a clip that is on no track or an id that is neither a
clip nor a group (a composition is refused), the id counter being non-negative
as it is from its initial value 0 on.  When it returns false the model
and the undo stack are as before the call; when it returns true the id handed
out by the counter is a new group node, parent of the root of every given id,
and one undo/redo pair has been pushed. -/
theorem C16_requestClipsGroup_refuses_iff (m : TimelineModel) (ids : List Int)
    (hne : ids ≠ []) (hcounter : 0 ≤ m.st.next_id) :
    ((TimelineModel.requestClipsGroup m ids).1 = false ↔ GroupRefused m.st ids) ∧
    ((TimelineModel.requestClipsGroup m ids).1 = false →
      TimelineModel.requestClipsGroup m ids = (false, m)) ∧
    ((TimelineModel.requestClipsGroup m ids).1 = true →
      TimelineModel.isGroup (TimelineModel.requestClipsGroup m ids).2.st m.st.next_id = true ∧
      (TimelineModel.requestClipsGroup m ids).2.st.m_allGroups
        = insertKey m.st.next_id m.st.m_allGroups ∧
      (TimelineModel.requestClipsGroup m ids).2.st.m_groups.m_nodes
        = insertKey m.st.next_id m.st.m_groups.m_nodes ∧
      (∀ id ∈ ids,
        (TimelineModel.requestClipsGroup m ids).2.st.m_groups.m_upLink
          (m.st.m_groups.getRootId id) = m.st.next_id) ∧
      (TimelineModel.requestClipsGroup m ids).2.m_undoStack.m_done.length
        = m.m_undoStack.m_done.length + 1) := by
  by_cases hg : TimelineModel.groupable m.st ids = false
  · have e : TimelineModel.requestClipsGroup m ids = (false, m) := by
      unfold TimelineModel.requestClipsGroup
      rw [if_pos hg]
    rw [e]
    exact ⟨⟨fun _ => (groupable_eq_false_iff _ _).mp hg, fun _ => rfl⟩, fun _ => rfl,
      fun h => absurd h (by simp)⟩
  · have hnr : ¬ GroupRefused m.st ids := fun h => hg ((groupable_eq_false_iff _ _).mpr h)
    have hid : (GroupsModel.groupItems m.st ids noop noop).id = m.st.next_id := by
      unfold GroupsModel.groupItems
      rw [if_neg hne]
      rfl
    have hst : (GroupsModel.groupItems m.st ids noop noop).s =
        (GroupsModel.groupItems_lambda m.st.next_id
          ((ids.map (GroupsModel.getRootId m.st.m_groups)).dedup)
          (TimelineModel.getNextId m.st).2).2 := by
      unfold GroupsModel.groupItems
      rw [if_neg hne]
      rfl
    have hfresh : m.st.next_id ≠ -1 := by omega
    have e : TimelineModel.requestClipsGroup m ids
        = (true, PUSH_UNDO m (GroupsModel.groupItems m.st ids noop noop).s
            (GroupsModel.groupItems m.st ids noop noop).undo
            (GroupsModel.groupItems m.st ids noop noop).redo) := by
      unfold TimelineModel.requestClipsGroup
      rw [if_neg hg]
      dsimp only
      rw [if_pos (by rw [hid]; exact hfresh)]
    rw [e]
    refine ⟨⟨fun h => absurd h (by simp), fun h => absurd h hnr⟩,
      fun h => absurd h (by simp), fun _ => ?_⟩
    show TimelineModel.isGroup (GroupsModel.groupItems m.st ids noop noop).s m.st.next_id = true ∧
      (GroupsModel.groupItems m.st ids noop noop).s.m_allGroups = _ ∧
      (GroupsModel.groupItems m.st ids noop noop).s.m_groups.m_nodes = _ ∧
      (∀ id ∈ ids, (GroupsModel.groupItems m.st ids noop noop).s.m_groups.m_upLink
        (m.st.m_groups.getRootId id) = m.st.next_id) ∧ _
    rw [hst]
    refine ⟨?_, rfl, rfl, ?_, rfl⟩
    · simp [TimelineModel.isGroup, GroupsModel.groupItems_lambda, TimelineModel.registerGroup,
        mem_insertKey]
    · intro id hid'
      have hmem : m.st.m_groups.getRootId id ∈
          (ids.map (GroupsModel.getRootId m.st.m_groups)).dedup :=
        List.mem_dedup.mpr (List.mem_map.mpr ⟨id, hid', rfl⟩)
      show (if m.st.m_groups.getRootId id ∈
          (ids.map (GroupsModel.getRootId m.st.m_groups)).dedup then m.st.next_id
        else if m.st.m_groups.getRootId id = m.st.next_id then -1
        else m.st.m_groups.m_upLink (m.st.m_groups.getRootId id)) = m.st.next_id
      rw [if_pos hmem]

/-- Witness of C16 on scenario A with a composition: the set of the two placed
clips is grouped. -/
theorem C16_witness :
    (([1, 2] : List Int) ≠ [] ∧ 0 ≤ scenarioComposition.st.next_id) ∧
    ((TimelineModel.requestClipsGroup scenarioComposition [1, 2]).1 = false ↔
      GroupRefused scenarioComposition.st [1, 2]) :=
  ⟨⟨by decide, by decide⟩,
    (C16_requestClipsGroup_refuses_iff scenarioComposition [1, 2] (by decide) (by decide)).1⟩

/-! ## Snap index -/

theorem qAbs_nonneg (t : Int) : 0 ≤ qAbs t := by
  unfold qAbs
  split <;> omega

theorem foldl_closer_spec (position : Int) : ∀ (ps : List Int) (p : Int),
    (ps.foldl (SnapModel.closer position) p ∈ p :: ps) ∧
    ∀ q ∈ p :: ps,
      qAbs (position - ps.foldl (SnapModel.closer position) p) ≤ qAbs (position - q) := by
  intro ps
  induction ps with
  | nil =>
    intro p
    refine ⟨List.mem_singleton.mpr rfl, fun q hq => ?_⟩
    rw [List.mem_singleton.mp hq]
    exact le_refl _
  | cons a t ih =>
    intro p
    obtain ⟨h1, h2⟩ := ih (SnapModel.closer position p a)
    rw [List.foldl_cons]
    have hc : SnapModel.closer position p a = p ∨ SnapModel.closer position p a = a := by
      unfold SnapModel.closer
      split
      · exact Or.inr rfl
      · exact Or.inl rfl
    have hle : qAbs (position - SnapModel.closer position p a) ≤ qAbs (position - p) ∧
        qAbs (position - SnapModel.closer position p a) ≤ qAbs (position - a) := by
      unfold SnapModel.closer
      split <;> rename_i hlt
      · exact ⟨le_of_lt hlt, le_refl _⟩
      · exact ⟨le_refl _, not_lt.mp hlt⟩
    constructor
    · rcases List.mem_cons.mp h1 with e | e
      · rw [e]
        rcases hc with e' | e'
        · rw [e']; exact List.mem_cons_self _ _
        · rw [e']; exact List.mem_cons_of_mem _ (List.mem_cons_self _ _)
      · exact List.mem_cons_of_mem _ (List.mem_cons_of_mem _ e)
    · intro q hq
      have h0 := h2 _ (List.mem_cons_self _ _)
      rcases List.mem_cons.mp hq with e | e
      · rw [e]; exact le_trans h0 hle.1
      · rcases List.mem_cons.mp e with e' | e'
        · rw [e']; exact le_trans h0 hle.2
        · exact h2 q (List.mem_cons_of_mem _ e')

/-- Without an eligible point the query answers -1. -/
theorem getClosestPoint_none {sn : SnapModel} (h : sn.eligible = []) (position : Int) :
    sn.getClosestPoint position = -1 := by
  unfold SnapModel.getClosestPoint
  rw [h]

/-- With an eligible point the query answers an eligible point that is nearest
to the position. -/
theorem getClosestPoint_spec {sn : SnapModel} (h : sn.eligible ≠ []) (position : Int) :
    sn.getClosestPoint position ∈ sn.eligible ∧
    ∀ q ∈ sn.eligible, qAbs (position - sn.getClosestPoint position) ≤ qAbs (position - q) := by
  unfold SnapModel.getClosestPoint
  cases he : sn.eligible with
  | nil => exact absurd he h
  | cons p ps => exact foldl_closer_spec position ps p

theorem mem_eligible {sn : SnapModel} {p : Int} :
    p ∈ sn.eligible ↔ p ∈ sn.m_snaps ∧ p ∉ sn.m_ignore := by
  unfold SnapModel.eligible
  simp [List.mem_filter]

/-- The snap index `requestBestSnapPos` queries. -/
theorem eligible_ignore (sn : SnapModel) (pts : List Int) {p : Int} :
    p ∈ (if pts ≠ [] then sn.ignore pts else sn).eligible ↔
      p ∈ sn.m_snaps ∧ p ∉ sn.m_ignore ∧ p ∉ pts := by
  by_cases h : pts = []
  · rw [if_neg (by simpa using h), mem_eligible, h]
    simp
  · rw [if_pos h, mem_eligible]
    unfold SnapModel.ignore
    simp [List.mem_append, not_or]

/-! ## Best snap position -/

/-- The result of `requestBestSnapPos` in terms of the two closest points. -/
theorem requestBestSnapPos_eq (sn : SnapModel) (pos length : Int) (pts : List Int) :
    (TimelineModel.requestBestSnapPos sn pos length pts).1 =
      if qAbs (pos - TimelineModel.snappedStart sn pos pts) <
            qAbs (pos + length - TimelineModel.snappedEnd sn pos length pts) ∧
          0 ≤ TimelineModel.snappedStart sn pos pts then
        (if qAbs (pos - TimelineModel.snappedStart sn pos pts) < 10 then
          TimelineModel.snappedStart sn pos pts else -1)
      else
        (if qAbs (pos + length - TimelineModel.snappedEnd sn pos length pts) < 10 ∧
            0 ≤ TimelineModel.snappedEnd sn pos length pts then
          TimelineModel.snappedEnd sn pos length pts - length else -1) := by
  unfold TimelineModel.requestBestSnapPos TimelineModel.snappedStart TimelineModel.snappedEnd
  dsimp only
  generalize (if pts ≠ [] then sn.ignore pts else sn) = sn1
  simp only [apply_ite Prod.fst]

theorem requestBestSnapPos_index (sn : SnapModel) (pos length : Int) (pts : List Int) :
    (TimelineModel.requestBestSnapPos sn pos length pts).2 =
      (if pts ≠ [] then sn.ignore pts else sn).unIgnore := by
  unfold TimelineModel.requestBestSnapPos
  dsimp only
  generalize (if pts ≠ [] then sn.ignore pts else sn) = sn1
  simp only [apply_ite Prod.snd, ite_self]

/-- The two closest points when some point is eligible: they are eligible and
nearest; without an eligible point both are -1. -/
theorem snapped_spec (sn : SnapModel) (pos length : Int) (pts : List Int) :
    ((∃ p, TimelineModel.snapEligible sn pts p) →
      (TimelineModel.snapEligible sn pts (TimelineModel.snappedStart sn pos pts) ∧
        ∀ q, TimelineModel.snapEligible sn pts q →
          qAbs (pos - TimelineModel.snappedStart sn pos pts) ≤ qAbs (pos - q)) ∧
      (TimelineModel.snapEligible sn pts (TimelineModel.snappedEnd sn pos length pts) ∧
        ∀ q, TimelineModel.snapEligible sn pts q →
          qAbs (pos + length - TimelineModel.snappedEnd sn pos length pts)
            ≤ qAbs (pos + length - q))) ∧
    ((¬ ∃ p, TimelineModel.snapEligible sn pts p) →
      TimelineModel.snappedStart sn pos pts = -1 ∧
      TimelineModel.snappedEnd sn pos length pts = -1) := by
  unfold TimelineModel.snapEligible TimelineModel.snappedStart TimelineModel.snappedEnd
  constructor
  · rintro ⟨p, hp⟩
    have hne : (if pts ≠ [] then sn.ignore pts else sn).eligible ≠ [] := by
      intro he
      have := (eligible_ignore sn pts).mpr hp
      rw [he] at this
      exact absurd this (List.not_mem_nil p)
    obtain ⟨a1, a2⟩ := getClosestPoint_spec hne pos
    obtain ⟨b1, b2⟩ := getClosestPoint_spec hne (pos + length)
    exact ⟨⟨(eligible_ignore sn pts).mp a1, fun q hq => a2 q ((eligible_ignore sn pts).mpr hq)⟩,
      ⟨(eligible_ignore sn pts).mp b1, fun q hq => b2 q ((eligible_ignore sn pts).mpr hq)⟩⟩
  · intro hn
    have he : (if pts ≠ [] then sn.ignore pts else sn).eligible = [] := by
      apply List.eq_nil_iff_forall_not_mem.mpr
      intro p hp
      exact hn ⟨p, (eligible_ignore sn pts).mp hp⟩
    exact ⟨getClosestPoint_none he _, getClosestPoint_none he _⟩

/-- C18 (snap tolerance boundary): for snap points that are valid positions,
when the nearest eligible point to the start and the nearest one to the end are
both exactly 10 away, `requestBestSnapPos` returns -1; when the start is 9 away
from its nearest point and the end further, it returns that point (the start
lands on it); when the end is 9 away from its nearest point and the start no
closer, it returns the position that puts the end on that point; and a result
other than -1 is only returned when the smaller of the two distances is below
10. -/
theorem C18_snap_tolerance_boundary (sn : SnapModel) (pos length : Int) (pts : List Int)
    (hpts : ∀ p ∈ sn.m_snaps, 0 ≤ p) :
    (qAbs (pos - TimelineModel.snappedStart sn pos pts) = 10 ∧
      qAbs (pos + length - TimelineModel.snappedEnd sn pos length pts) = 10 →
      (TimelineModel.requestBestSnapPos sn pos length pts).1 = -1) ∧
    ((∃ p, TimelineModel.snapEligible sn pts p) →
      qAbs (pos - TimelineModel.snappedStart sn pos pts) = 9 ∧
      9 < qAbs (pos + length - TimelineModel.snappedEnd sn pos length pts) →
      (TimelineModel.requestBestSnapPos sn pos length pts).1
        = TimelineModel.snappedStart sn pos pts) ∧
    ((∃ p, TimelineModel.snapEligible sn pts p) →
      qAbs (pos + length - TimelineModel.snappedEnd sn pos length pts) = 9 ∧
      9 ≤ qAbs (pos - TimelineModel.snappedStart sn pos pts) →
      (TimelineModel.requestBestSnapPos sn pos length pts).1 + length
        = TimelineModel.snappedEnd sn pos length pts) ∧
    ((TimelineModel.requestBestSnapPos sn pos length pts).1 ≠ -1 →
      min (qAbs (pos - TimelineModel.snappedStart sn pos pts))
        (qAbs (pos + length - TimelineModel.snappedEnd sn pos length pts)) < 10) := by
  rw [requestBestSnapPos_eq]
  have hs := snapped_spec sn pos length pts
  refine ⟨?_, ?_, ?_, ?_⟩
  · rintro ⟨h1, h2⟩
    rw [h1, h2, if_neg (by omega), if_neg (by omega)]
  · rintro he ⟨h1, h2⟩
    have h0 : 0 ≤ TimelineModel.snappedStart sn pos pts := hpts _ (hs.1 he).1.1.1
    rw [h1, if_pos ⟨by omega, h0⟩, if_pos (by omega)]
  · rintro he ⟨h1, h2⟩
    have h0 : 0 ≤ TimelineModel.snappedEnd sn pos length pts := hpts _ (hs.1 he).2.1.1
    rw [h1, if_neg (by omega), if_pos ⟨by omega, h0⟩]
    omega
  · intro hr
    split at hr
    · split at hr
      · rename_i h1 h2
        exact lt_of_le_of_lt (min_le_left _ _) h2
      · exact absurd rfl hr
    · split at hr
      · rename_i h1 h2
        exact lt_of_le_of_lt (min_le_right _ _) h2.1
      · exact absurd rfl hr

/-- Witness of C18: a clip of 50 at 100 with snap points 90 and 160, each 10
away from an edge. -/
theorem C18_witness :
    (∀ p ∈ ({ m_snaps := [90, 160] } : SnapModel).m_snaps, 0 ≤ p) ∧
    (TimelineModel.requestBestSnapPos { m_snaps := [90, 160] } 100 50 []).1 = -1 :=
  ⟨by decide,
    (C18_snap_tolerance_boundary { m_snaps := [90, 160] } 100 50 [] (by decide)).1
      ⟨by decide, by decide⟩⟩

theorem qAbs_sub_comm (a b : Int) : qAbs (a - b) = qAbs (b - a) := by
  unfold qAbs
  split <;> split <;> omega

/-- C19, as stated, fails: for a clip of 50 asked at 3 with the single snap
point 47, the end wins at distance 6, below the tolerance, and the result is
-3: neither the value -1 nor a valid position. -/
theorem C19_counterexample :
    (TimelineModel.requestBestSnapPos { m_snaps := [47] } 3 50 []).1 = -3 ∧
    TimelineModel.snapEligible { m_snaps := [47] } [] 47 ∧
    min (qAbs (3 - TimelineModel.snappedStart { m_snaps := [47] } 3 []))
      (qAbs (3 + 50 - TimelineModel.snappedEnd { m_snaps := [47] } 3 50 [])) = 6 :=
  ⟨by decide, ⟨by decide, by decide, by decide⟩, by decide⟩

/-- C19 (amended): for snap points that are valid positions, `requestBestSnapPos`
returns either a negative value or a position `r >= 0` less than 10 away from
the position asked, such that `r` or `r + length` is an eligible snap point; the
start wins when its distance is strictly smaller and the end otherwise; and the
value is negative exactly when no point is eligible, or the winning distance is
10 or more, or the end wins with a snap point below `length`, which would put
the start before 0.  The snap index is left with no point excluded. -/
theorem C19_requestBestSnapPos_result (sn : SnapModel) (pos length : Int) (pts : List Int)
    (hpts : ∀ p ∈ sn.m_snaps, 0 ≤ p) :
    ((TimelineModel.requestBestSnapPos sn pos length pts).1 < 0 ∨
      (0 ≤ (TimelineModel.requestBestSnapPos sn pos length pts).1 ∧
        qAbs ((TimelineModel.requestBestSnapPos sn pos length pts).1 - pos) < 10 ∧
        (TimelineModel.snapEligible sn pts (TimelineModel.requestBestSnapPos sn pos length pts).1 ∨
          TimelineModel.snapEligible sn pts
            ((TimelineModel.requestBestSnapPos sn pos length pts).1 + length)))) ∧
    (0 ≤ (TimelineModel.requestBestSnapPos sn pos length pts).1 →
      (qAbs (pos - TimelineModel.snappedStart sn pos pts) <
          qAbs (pos + length - TimelineModel.snappedEnd sn pos length pts) →
        (TimelineModel.requestBestSnapPos sn pos length pts).1
          = TimelineModel.snappedStart sn pos pts) ∧
      (qAbs (pos + length - TimelineModel.snappedEnd sn pos length pts) ≤
          qAbs (pos - TimelineModel.snappedStart sn pos pts) →
        (TimelineModel.requestBestSnapPos sn pos length pts).1 + length
          = TimelineModel.snappedEnd sn pos length pts)) ∧
    ((TimelineModel.requestBestSnapPos sn pos length pts).1 < 0 ↔
      ((¬ ∃ p, TimelineModel.snapEligible sn pts p) ∨
        10 ≤ min (qAbs (pos - TimelineModel.snappedStart sn pos pts))
          (qAbs (pos + length - TimelineModel.snappedEnd sn pos length pts)) ∨
        (qAbs (pos + length - TimelineModel.snappedEnd sn pos length pts) ≤
            qAbs (pos - TimelineModel.snappedStart sn pos pts) ∧
          TimelineModel.snappedEnd sn pos length pts < length))) ∧
    (TimelineModel.requestBestSnapPos sn pos length pts).2.m_snaps = sn.m_snaps ∧
    (TimelineModel.requestBestSnapPos sn pos length pts).2.m_ignore = [] := by
  have hidx : (TimelineModel.requestBestSnapPos sn pos length pts).2.m_snaps = sn.m_snaps ∧
      (TimelineModel.requestBestSnapPos sn pos length pts).2.m_ignore = [] := by
    rw [requestBestSnapPos_index]
    split <;> exact ⟨rfl, rfl⟩
  rw [requestBestSnapPos_eq]
  by_cases he : ∃ p, TimelineModel.snapEligible sn pts p
  · obtain ⟨⟨es, _⟩, ⟨ee, _⟩⟩ := (snapped_spec sn pos length pts).1 he
    have h0s := hpts _ es.1
    have h0e := hpts _ ee.1
    have hcomm1 : qAbs (TimelineModel.snappedStart sn pos pts - pos)
        = qAbs (pos - TimelineModel.snappedStart sn pos pts) := qAbs_sub_comm _ _
    have hcomm2 : qAbs (TimelineModel.snappedEnd sn pos length pts - length - pos)
        = qAbs (pos + length - TimelineModel.snappedEnd sn pos length pts) := by
      rw [qAbs_sub_comm (pos + length)]
      congr 1
      omega
    have hback : TimelineModel.snappedEnd sn pos length pts - length + length
        = TimelineModel.snappedEnd sn pos length pts := by omega
    by_cases c1 : qAbs (pos - TimelineModel.snappedStart sn pos pts) <
        qAbs (pos + length - TimelineModel.snappedEnd sn pos length pts)
    · rw [if_pos ⟨c1, h0s⟩]
      by_cases c2 : qAbs (pos - TimelineModel.snappedStart sn pos pts) < 10
      · rw [if_pos c2]
        refine ⟨Or.inr ⟨h0s, by rw [hcomm1]; exact c2, Or.inl es⟩,
          fun _ => ⟨fun _ => rfl, fun h => absurd c1 (not_lt.mpr h)⟩,
          ⟨fun h => absurd h0s (not_le.mpr h), ?_⟩, hidx.1, hidx.2⟩
        rintro (h | h | h)
        · exact absurd he h
        · exact absurd (lt_of_le_of_lt (le_trans h (min_le_left _ _)) c2) (lt_irrefl _)
        · exact absurd c1 (not_lt.mpr h.1)
      · rw [if_neg c2]
        refine ⟨Or.inl (by omega), fun h => absurd h (by omega),
          ⟨fun _ => Or.inr (Or.inl (le_min (not_lt.mp c2) (le_trans (not_lt.mp c2) (le_of_lt c1)))),
            fun _ => by omega⟩, hidx.1, hidx.2⟩
    · rw [if_neg (fun h => c1 h.1)]
      by_cases c3 : qAbs (pos + length - TimelineModel.snappedEnd sn pos length pts) < 10
      · rw [if_pos ⟨c3, h0e⟩]
        refine ⟨?_, fun _ => ⟨fun h => absurd h c1, fun _ => hback⟩, ⟨fun h =>
          Or.inr (Or.inr ⟨not_lt.mp c1, by omega⟩), ?_⟩, hidx.1, hidx.2⟩
        · by_cases hn : TimelineModel.snappedEnd sn pos length pts - length < 0
          · exact Or.inl hn
          · exact Or.inr ⟨not_lt.mp hn, by rw [hcomm2]; exact c3, Or.inr (by rw [hback]; exact ee)⟩
        · rintro (h | h | h)
          · exact absurd he h
          · exact absurd (lt_of_le_of_lt (le_trans h (min_le_right _ _)) c3) (lt_irrefl _)
          · omega
      · rw [if_neg (fun h => c3 h.1)]
        refine ⟨Or.inl (by omega), fun h => absurd h (by omega),
          ⟨fun _ => Or.inr (Or.inl (le_min (le_trans (not_lt.mp c3) (not_lt.mp c1))
            (not_lt.mp c3))), fun _ => by omega⟩, hidx.1, hidx.2⟩
  · obtain ⟨e1, e2⟩ := (snapped_spec sn pos length pts).2 he
    rw [e1, e2, if_neg (fun h => absurd h.2 (by omega)), if_neg (fun h => absurd h.2 (by omega))]
    exact ⟨Or.inl (by omega), fun h => absurd h (by omega),
      ⟨fun _ => Or.inl he, fun _ => by omega⟩, hidx.1, hidx.2⟩

/-- Witness of C19 (amended): a clip of 50 asked at 100 with snap points 91 and
160; the start wins at distance 9. -/
theorem C19_witness :
    (∀ p ∈ ({ m_snaps := [91, 160] } : SnapModel).m_snaps, 0 ≤ p) ∧
    ((TimelineModel.requestBestSnapPos { m_snaps := [91, 160] } 100 50 []).1 < 0 ∨
      (0 ≤ (TimelineModel.requestBestSnapPos { m_snaps := [91, 160] } 100 50 []).1 ∧
        qAbs ((TimelineModel.requestBestSnapPos { m_snaps := [91, 160] } 100 50 []).1 - 100) < 10 ∧
        (TimelineModel.snapEligible { m_snaps := [91, 160] } []
            (TimelineModel.requestBestSnapPos { m_snaps := [91, 160] } 100 50 []).1 ∨
          TimelineModel.snapEligible { m_snaps := [91, 160] } []
            ((TimelineModel.requestBestSnapPos { m_snaps := [91, 160] } 100 50 []).1 + 50)))) :=
  ⟨by decide, (C19_requestBestSnapPos_result { m_snaps := [91, 160] } 100 50 [] (by decide)).1⟩

/-! ## Resize with snapping -/

theorem resized_resized (c : ClipModel) (size : Int) (right : Bool) :
    (c.resized size right).resized c.m_playtime right = c := by
  cases c with
  | mk m_id m_binClipId m_currentTrackId m_position m_in m_playtime m_sourceLength =>
    cases right
    · have e1 : m_in + (m_playtime - size) + (size - m_playtime) = m_in := by omega
      have e2 : m_position + (m_playtime - size) + (size - m_playtime) = m_position := by omega
      simp only [ClipModel.resized, Bool.false_eq_true, if_false, e1, e2]
    · rfl

theorem resized_position_back (c : ClipModel) (size : Int) (right : Bool) :
    ((c.resized size right).resized c.m_playtime right).m_position = c.m_position := by
  rw [resized_resized]

theorem resizeAllowed_eq_true_iff (s : TimelineState) (c size : Int) (right : Bool) :
    ClipModel.resizeAllowed s c size right = true ↔
      0 < size ∧
      (if right = true then (s.clipObj c).m_in + size ≤ (s.clipObj c).m_sourceLength
        else 0 ≤ (s.clipObj c).m_in + ((s.clipObj c).m_playtime - size)) ∧
      ((s.clipObj c).m_currentTrackId = -1 ∨
        ∀ c' ∈ (s.trackObj (s.clipObj c).m_currentTrackId).m_allClips, c' = c ∨
          intervalsOverlap ((s.clipObj c).resized size right).m_position size
            (s.clipObj c').m_position (s.clipObj c').m_playtime = false) := by
  unfold ClipModel.resizeAllowed
  cases right <;>
    simp only [Bool.and_eq_true, decide_eq_true_eq, Bool.or_eq_true, List.all_eq_true,
      beq_iff_eq, Bool.not_eq_true', Bool.false_eq_true, if_false, if_true, and_assoc]

/-- A trial resize of a clip that succeeded is undone by its undo. -/
theorem clipResize_undone {s : TimelineState} (h : Consistent s) {c : Int} (size : Int)
    (right : Bool) (hv : (s.clipObj c).valid)
    (hok : (ClipModel.requestResize s c size right noop noop).ok = true) :
    ((ClipModel.requestResize s c size right noop noop).undo
      (ClipModel.requestResize s c size right noop noop).s).2 = s := by
  unfold ClipModel.requestResize at hok ⊢
  unfold ClipModel.resize_lambda at hok ⊢
  by_cases hal : ClipModel.resizeAllowed s c size right = true
  · simp only [hal, if_true] at hok ⊢
    have hback : ClipModel.resizeAllowed
        { s with clipObj := setAt s.clipObj c ((s.clipObj c).resized size right) } c
        (s.clipObj c).m_playtime right = true := by
      rw [resizeAllowed_eq_true_iff]
      simp only [setAt_same]
      refine ⟨hv.1, ?_, ?_⟩
      · cases right
        · simp only [ClipModel.resized, Bool.false_eq_true, if_false]
          have := hv.2.1
          omega
        · simp only [ClipModel.resized, if_true]
          exact hv.2.2
      · rw [resized_track]
        by_cases hun : (s.clipObj c).m_currentTrackId = -1
        · exact Or.inl hun
        · right
          intro c' hc'
          by_cases e : c' = c
          · exact Or.inl e
          · right
            rw [resized_position_back, setAt_other _ _ _ _ e]
            exact h.disjoint _ c (h.track_member c hun) c' hc' (fun e' => e e'.symm)
    simp only [UPDATE_UNDO_REDO, noop, hback, if_true, setAt_same, resized_resized]
    show ({ s with clipObj := setAt (setAt s.clipObj c _) c (s.clipObj c) } : TimelineState) = s
    rw [setAt_setAt, setAt_eq_self _ _ _ rfl]
  · simp [hal] at hok

/-- A trial resize of a composition that succeeded is undone by its undo. -/
theorem compositionResize_undone {s : TimelineState} {c : Int} (size : Int) (right : Bool)
    (hv : 0 < (s.compoObj c).m_playtime)
    (hok : (CompositionModel.requestResize s c size right noop noop).ok = true) :
    ((CompositionModel.requestResize s c size right noop noop).undo
      (CompositionModel.requestResize s c size right noop noop).s).2 = s := by
  unfold CompositionModel.requestResize at hok ⊢
  unfold CompositionModel.resize_lambda at hok ⊢
  by_cases hsz : 0 < size
  · simp only [hsz, if_true, UPDATE_UNDO_REDO, noop, setAt_same, hv] at hok ⊢
    have hobj : (if right = true then
          { (if right = true then { s.compoObj c with m_playtime := size }
              else { s.compoObj c with
                m_position := (s.compoObj c).m_position + ((s.compoObj c).m_playtime - size),
                m_playtime := size } : CompositionModel) with
            m_playtime := (s.compoObj c).m_playtime }
        else
          { (if right = true then { s.compoObj c with m_playtime := size }
              else { s.compoObj c with
                m_position := (s.compoObj c).m_position + ((s.compoObj c).m_playtime - size),
                m_playtime := size } : CompositionModel) with
            m_position :=
              (if right = true then ({ s.compoObj c with m_playtime := size } : CompositionModel)
                else { s.compoObj c with
                  m_position := (s.compoObj c).m_position + ((s.compoObj c).m_playtime - size),
                  m_playtime := size }).m_position +
              ((if right = true then ({ s.compoObj c with m_playtime := size } : CompositionModel)
                else { s.compoObj c with
                  m_position := (s.compoObj c).m_position + ((s.compoObj c).m_playtime - size),
                  m_playtime := size }).m_playtime - (s.compoObj c).m_playtime),
            m_playtime := (s.compoObj c).m_playtime }) = s.compoObj c := by
      cases right
      · have e : (s.compoObj c).m_position + ((s.compoObj c).m_playtime - size) +
            (size - (s.compoObj c).m_playtime) = (s.compoObj c).m_position := by omega
        simp only [Bool.false_eq_true, if_false, e]
      · rfl
    show ({ s with compoObj := setAt (setAt s.compoObj c _) c _ } : TimelineState) = s
    rw [setAt_setAt]
    exact congrArg (fun f => ({ s with compoObj := f } : TimelineState))
      (setAt_eq_self _ _ _ hobj.symm)
  · simp [hsz] at hok

theorem clipResize_failed {s : TimelineState} {c : Int} (size : Int) (right : Bool)
    (hok : (ClipModel.requestResize s c size right noop noop).ok = false) :
    (ClipModel.requestResize s c size right noop noop).s = s := by
  unfold ClipModel.requestResize at hok ⊢
  unfold ClipModel.resize_lambda at hok ⊢
  by_cases hal : ClipModel.resizeAllowed s c size right = true
  · simp [hal] at hok
  · simp [hal]

theorem compositionResize_failed {s : TimelineState} {c : Int} (size : Int) (right : Bool)
    (hok : (CompositionModel.requestResize s c size right noop noop).ok = false) :
    (CompositionModel.requestResize s c size right noop noop).s = s := by
  unfold CompositionModel.requestResize at hok ⊢
  unfold CompositionModel.resize_lambda at hok ⊢
  by_cases hsz : 0 < size
  · simp [hsz] at hok
  · simp [hsz]

/-- A trial resize leaves the model as it was: undone when it succeeded,
without effect when it failed. -/
theorem trialResize_state {s : TimelineState} (h : Consistent s) (itemId size : Int)
    (right : Bool)
    (hclip : TimelineModel.isClip s itemId = true → (s.clipObj itemId).valid)
    (hcompo : TimelineModel.isClip s itemId = false → 0 < (s.compoObj itemId).m_playtime) :
    (if (if TimelineModel.isClip s itemId = true then
            ClipModel.requestResize s itemId size right noop noop
          else CompositionModel.requestResize s itemId size right noop noop).ok = true then
        ((if TimelineModel.isClip s itemId = true then
            ClipModel.requestResize s itemId size right noop noop
          else CompositionModel.requestResize s itemId size right noop noop).undo
          (if TimelineModel.isClip s itemId = true then
            ClipModel.requestResize s itemId size right noop noop
          else CompositionModel.requestResize s itemId size right noop noop).s).2
      else
        (if TimelineModel.isClip s itemId = true then
            ClipModel.requestResize s itemId size right noop noop
          else CompositionModel.requestResize s itemId size right noop noop).s) = s := by
  by_cases hc : TimelineModel.isClip s itemId = true
  · simp only [hc, if_true]
    split
    · rename_i hok
      exact clipResize_undone h size right (hclip hc) hok
    · rename_i hok
      exact clipResize_failed size right (by simpa using hok)
  · simp only [hc, if_false, Bool.false_eq_true]
    split
    · rename_i hok
      exact compositionResize_undone size right (hcompo (by simpa using hc)) hok
    · rename_i hok
      exact compositionResize_failed size right (by simpa using hok)

/-- The block `if (snapping)` leaves the model as it was and chooses the size
proposed when there is one and the item accepts it. -/
theorem snapResize_eq (proposeSize : TimelineState → Int → Int → Int → Bool → Int → Int)
    {s : TimelineState} (h : Consistent s) (itemId size : Int) (right : Bool)
    (hclip : TimelineModel.isClip s itemId = true → (s.clipObj itemId).valid)
    (hcompo : TimelineModel.isClip s itemId = false → 0 < (s.compoObj itemId).m_playtime) :
    TimelineModel.snapResize proposeSize s itemId size right =
      (if 0 ≤ TimelineModel.proposedSize proposeSize s itemId size right ∧
          TimelineModel.resizeSucceeds s itemId
            (TimelineModel.proposedSize proposeSize s itemId size right) right = true
        then TimelineModel.proposedSize proposeSize s itemId size right else size, s) := by
  have hP : (proposeSize s
      (if TimelineModel.isClip s itemId = true then TimelineModel.getClipPosition s itemId
        else (s.compoObj itemId).m_position)
      (if TimelineModel.isClip s itemId = true then
        (if TimelineModel.isClip s itemId = true then TimelineModel.getClipPosition s itemId
          else (s.compoObj itemId).m_position) + TimelineModel.getClipPlaytime s itemId - 1
        else
          (if TimelineModel.isClip s itemId = true then TimelineModel.getClipPosition s itemId
            else (s.compoObj itemId).m_position) + (s.compoObj itemId).m_playtime - 1)
      size right 10) = TimelineModel.proposedSize proposeSize s itemId size right := by
    unfold TimelineModel.proposedSize
    by_cases hc : TimelineModel.isClip s itemId = true
    · simp only [hc, if_true]
    · simp only [hc, if_false, Bool.false_eq_true]
  have key : ∀ psize : Int,
      (if (if TimelineModel.isClip s itemId = true then
              ClipModel.requestResize s itemId psize right noop noop
            else CompositionModel.requestResize s itemId psize right noop noop).ok = true then
          (psize,
            ((if TimelineModel.isClip s itemId = true then
                ClipModel.requestResize s itemId psize right noop noop
              else CompositionModel.requestResize s itemId psize right noop noop).undo
              (if TimelineModel.isClip s itemId = true then
                ClipModel.requestResize s itemId psize right noop noop
              else CompositionModel.requestResize s itemId psize right noop noop).s).2)
        else
          (size,
            (if TimelineModel.isClip s itemId = true then
                ClipModel.requestResize s itemId psize right noop noop
              else CompositionModel.requestResize s itemId psize right noop noop).s)) =
        (if TimelineModel.resizeSucceeds s itemId psize right = true then psize else size, s) := by
    intro psize
    have hst := trialResize_state h itemId psize right hclip hcompo
    unfold TimelineModel.resizeSucceeds
    generalize (if TimelineModel.isClip s itemId = true then
        ClipModel.requestResize s itemId psize right noop noop
      else CompositionModel.requestResize s itemId psize right noop noop) = t at hst ⊢
    by_cases hok : t.ok = true
    · rw [if_pos hok] at hst
      rw [if_pos hok, if_pos hok, hst]
    · rw [if_neg hok] at hst
      rw [if_neg hok, if_neg hok, hst]
  unfold TimelineModel.snapResize
  dsimp only
  rw [hP]
  generalize TimelineModel.proposedSize proposeSize s itemId size right = P
  rw [key]
  by_cases hneg : P < 0
  · have e2 : (if 0 ≤ P ∧ TimelineModel.resizeSucceeds s itemId P right = true then P else size)
        = size := if_neg (fun hh => absurd hh.1 (by omega))
    rw [if_pos hneg, e2, ite_self]
  · rw [if_neg hneg]
    by_cases hok : TimelineModel.resizeSucceeds s itemId P right = true
    · have e2 : (if 0 ≤ P ∧ TimelineModel.resizeSucceeds s itemId P right = true then P
          else size) = P := if_pos ⟨by omega, hok⟩
      rw [if_pos hok, e2]
    · have e2 : (if 0 ≤ P ∧ TimelineModel.resizeSucceeds s itemId P right = true then P
          else size) = size := if_neg (fun hh => hok hh.2)
      rw [if_neg hok, e2]

/-- C17 (resize with snapping): on a consistent model, for a clip that plays a
non-empty part of its source or a composition of positive length,
`requestItemResize` with `snapping` is the call without snapping at the size the
snap index proposes, when it proposes one (a value `>= 0`) and the item accepts
a resize to it, and at the size asked otherwise: the trial resize leaves nothing
in the model nor on the undo stack.  Without snapping the call is the resize
with explicit accumulators at the size asked, pushed when it succeeds and
`logUndo` is set. -/
theorem C17_requestItemResize_snapping
    (proposeSize : TimelineState → Int → Int → Int → Bool → Int → Int) (m : TimelineModel)
    (itemId size : Int) (right logUndo : Bool) (hcons : Consistent m.st)
    (hclip : TimelineModel.isClip m.st itemId = true → (m.st.clipObj itemId).valid)
    (hcompo : TimelineModel.isClip m.st itemId = false → 0 < (m.st.compoObj itemId).m_playtime) :
    TimelineModel.requestItemResize proposeSize m itemId size right logUndo true =
      TimelineModel.requestItemResize proposeSize m itemId
        (if 0 ≤ TimelineModel.proposedSize proposeSize m.st itemId size right ∧
            TimelineModel.resizeSucceeds m.st itemId
              (TimelineModel.proposedSize proposeSize m.st itemId size right) right = true
          then TimelineModel.proposedSize proposeSize m.st itemId size right else size)
        right logUndo false ∧
    TimelineModel.requestItemResize proposeSize m itemId size right logUndo false =
      (if (TimelineModel.requestItemResizeFun m.st itemId size right logUndo noop noop).ok = true ∧
          logUndo = true then
        ((TimelineModel.requestItemResizeFun m.st itemId size right logUndo noop noop).ok,
          PUSH_UNDO m
            (TimelineModel.requestItemResizeFun m.st itemId size right logUndo noop noop).s
            (TimelineModel.requestItemResizeFun m.st itemId size right logUndo noop noop).undo
            (TimelineModel.requestItemResizeFun m.st itemId size right logUndo noop noop).redo)
      else
        ((TimelineModel.requestItemResizeFun m.st itemId size right logUndo noop noop).ok,
          { m with
            st := (TimelineModel.requestItemResizeFun m.st itemId size right logUndo noop
              noop).s })) := by
  refine ⟨?_, rfl⟩
  unfold TimelineModel.requestItemResize
  simp only [if_true, Bool.false_eq_true, if_false]
  rw [snapResize_eq proposeSize hcons itemId size right hclip hcompo]

/-- Witness of C17 on scenario A: the clip of 100 at 80 is resized from the
right to 95 while the snap index proposes 93. -/
theorem C17_witness :
    (Consistent scenarioA.st ∧ (scenarioA.st.clipObj 1).valid) ∧
    TimelineModel.requestItemResize (snapToSize 93) scenarioA 1 95 true true true =
      TimelineModel.requestItemResize (snapToSize 93) scenarioA 1
        (if 0 ≤ TimelineModel.proposedSize (snapToSize 93) scenarioA.st 1 95 true ∧
            TimelineModel.resizeSucceeds scenarioA.st 1
              (TimelineModel.proposedSize (snapToSize 93) scenarioA.st 1 95 true) true = true
          then TimelineModel.proposedSize (snapToSize 93) scenarioA.st 1 95 true else 95)
        true true false :=
  ⟨⟨(stackOK_of_reachable scenarioA_reachable).1, by decide, by decide, by decide⟩,
    (C17_requestItemResize_snapping (snapToSize 93) scenarioA 1 95 true true
      (stackOK_of_reachable scenarioA_reachable).1
      (fun _ => ⟨by decide, by decide, by decide⟩) (fun h => absurd h (by decide))).1⟩

/-! ## Move suggestion -/

/-- A trial move of a placed clip that does not tell the view, followed by its
undo when it succeeded, leaves the state as it was. -/
theorem trialMove_state {s : TimelineState} (h : Consistent s) {c T : Int} (p : Int)
    (hold : TimelineModel.getClipTrackId s c ≠ -1) :
    (if (TimelineModel.requestClipMoveFun s c T p false noop noop).ok = true then
        ((TimelineModel.requestClipMoveFun s c T p false noop noop).undo
          (TimelineModel.requestClipMoveFun s c T p false noop noop).s).2
      else (TimelineModel.requestClipMoveFun s c T p false noop noop).s) = s := by
  cases hcan : TrackModel.canInsert
      (TrackModel.unplace s (TimelineModel.getClipTrackId s c) c false) T c p
  · rw [clipMove_placed_fail h false noop noop hold hcan]
    rw [if_neg (by simp)]
    have e := place_unplace h false false hold
    exact e
  · rw [clipMove_placed_ok h false noop noop hold hcan]
    rw [if_pos rfl]
    have e := moveUndo_apply h (T := T) (p := p) false hold s.viewNotifications
    change (TimelineModel.moveUndo (TimelineModel.getClipTrackId s c) c (s.clipObj c).m_position
      T p false
      (TrackModel.place (TrackModel.unplace s (TimelineModel.getClipTrackId s c) c false)
        T c p false)).2 = s
    exact congrArg Prod.snd e

/-- C20 (`suggestClipMove` is a pure query): on a consistent model, for a track
of the timeline and a snap index with no point excluded, the model (clips,
tracks, group forest, undo stack) and the snap index are after the call what
they were before it, whether the trial move succeeded or failed. -/
theorem C20_suggestClipMove_pure (m : TimelineModel) (sn : SnapModel)
    (clipId trackId position : Int) (hcons : Consistent m.st)
    (htrack : TimelineModel.isTrack m.st trackId = true) (hign : sn.m_ignore = []) :
    (TimelineModel.suggestClipMove m sn clipId trackId position).2.1 = m ∧
    (TimelineModel.suggestClipMove m sn clipId trackId position).2.2 = sn := by
  have hT : trackId ≠ -1 := by
    have := hcons.tracks_ok trackId (by simpa [TimelineModel.isTrack] using htrack)
    omega
  have hsn : ∀ pos length pts, (TimelineModel.requestBestSnapPos sn pos length pts).2 = sn := by
    intro pos length pts
    rw [requestBestSnapPos_index]
    cases sn with
    | mk snaps ign =>
      simp only at hign
      subst hign
      split
      · simp [SnapModel.unIgnore, SnapModel.ignore]
      · rfl
  unfold TimelineModel.suggestClipMove
  dsimp only
  split
  · exact ⟨rfl, rfl⟩
  · rename_i hcond
    have hcur : TimelineModel.getClipTrackId m.st clipId = trackId := by
      by_contra hne
      exact hcond (Or.inr hne)
    have hold : TimelineModel.getClipTrackId m.st clipId ≠ -1 := by rw [hcur]; exact hT
    rw [hsn]
    generalize (if 0 ≤ (TimelineModel.requestBestSnapPos sn position
      (m.st.clipObj clipId).m_playtime (TimelineModel.ignoredPoints m.st clipId)).1 then
        (TimelineModel.requestBestSnapPos sn position (m.st.clipObj clipId).m_playtime
          (TimelineModel.ignoredPoints m.st clipId)).1 else position) = q
    have hst := trialMove_state hcons (T := trackId) q hold
    generalize TimelineModel.requestClipMoveFun m.st clipId trackId q false noop noop = r at hst ⊢
    by_cases hok : r.ok = true
    · rw [if_pos hok] at hst
      rw [if_pos hok, hst]
      exact ⟨rfl, rfl⟩
    · rw [if_neg hok] at hst
      rw [if_neg hok, hst]
      split <;> exact ⟨rfl, rfl⟩

/-- Witness of C20 on scenario A: the clip at 180 is dragged towards 150, where
the trial move runs into the clip at 80. -/
theorem C20_witness :
    (Consistent scenarioA.st ∧ TimelineModel.isTrack scenarioA.st 0 = true ∧
      ({ m_snaps := [80, 179, 180, 199] } : SnapModel).m_ignore = []) ∧
    (TimelineModel.suggestClipMove scenarioA { m_snaps := [80, 179, 180, 199] } 2 0 150).2.1
      = scenarioA :=
  ⟨⟨(stackOK_of_reachable scenarioA_reachable).1, by decide, rfl⟩,
    (C20_suggestClipMove_pure scenarioA { m_snaps := [80, 179, 180, 199] } 2 0 150
      (stackOK_of_reachable scenarioA_reachable).1 (by decide) rfl).1⟩

/-! ## The group forest of a tidy model -/

theorem length_filter_lt_of_imp {l : List Int} {p q : Int → Bool}
    (himp : ∀ x ∈ l, p x = true → q x = true) {a : Int} (ha : a ∈ l) (hq : q a = true)
    (hp : p a = false) : (l.filter p).length < (l.filter q).length := by
  induction l with
  | nil => exact absurd ha (List.not_mem_nil a)
  | cons b t ih =>
    have hle : ∀ (t : List Int), (∀ x ∈ t, p x = true → q x = true) →
        (t.filter p).length ≤ (t.filter q).length := by
      intro t
      induction t with
      | nil => intro _; exact le_refl _
      | cons c u ihu =>
        intro hi
        have hu := ihu (fun x hx => hi x (List.mem_cons_of_mem _ hx))
        by_cases hpc : p c = true
        · have hqc := hi c (List.mem_cons_self _ _) hpc
          simp only [List.filter_cons, hpc, hqc, if_true, List.length_cons]
          omega
        · by_cases hqc : q c = true
          · simp only [List.filter_cons, hpc, hqc, if_true, List.length_cons]
            simp only [Bool.false_eq_true, if_false]
            omega
          · simp only [List.filter_cons, hpc, hqc, Bool.false_eq_true, if_false]
            exact hu
    rcases List.mem_cons.mp ha with e | hin
    · subst e
      have ht := hle t (fun x hx => himp x (List.mem_cons_of_mem _ hx))
      simp only [List.filter_cons, hp, hq, if_true, List.length_cons, Bool.false_eq_true,
        if_false]
      omega
    · have ht := ih (fun x hx => himp x (List.mem_cons_of_mem _ hx)) hin
      by_cases hpb : p b = true
      · have hqb := himp b (List.mem_cons_self _ _) hpb
        simp only [List.filter_cons, hpb, hqb, if_true, List.length_cons]
        omega
      · by_cases hqb : q b = true
        · simp only [List.filter_cons, hpb, hqb, if_true, List.length_cons]
          simp only [Bool.false_eq_true, if_false]
          omega
        · simp only [List.filter_cons, hpb, hqb, Bool.false_eq_true, if_false]
          exact ht

/-- Going up one link, fewer nodes are above. -/
theorem above_parent_lt {s : TimelineState} (h : Tidy s) {n : Int}
    (hn : s.m_groups.m_upLink n ≠ -1) :
    s.m_groups.above (s.m_groups.m_upLink n) < s.m_groups.above n := by
  obtain ⟨_, hp, _, hlt⟩ := h.parent n hn
  unfold GroupsModel.above
  refine length_filter_lt_of_imp (fun x _ hx => ?_) hp (by simpa using hlt) (by simp)
  have : s.m_groups.m_upLink n < x := by simpa using hx
  simpa using lt_trans hlt this

/-- With enough fuel the walk ends on a node without parent. -/
theorem rootFrom_isRoot {s : TimelineState} (h : Tidy s) : ∀ (fuel : Nat) (n : Int),
    s.m_groups.above n ≤ fuel → s.m_groups.m_upLink (s.m_groups.rootFrom fuel n) = -1 := by
  intro fuel
  induction fuel with
  | zero =>
    intro n hle
    unfold GroupsModel.rootFrom
    by_contra hne
    have := above_parent_lt h hne
    omega
  | succ k ih =>
    intro n hle
    unfold GroupsModel.rootFrom
    split
    · assumption
    · rename_i hne
      have := above_parent_lt h hne
      exact ih _ (by omega)

theorem above_le_length (g : GroupsModel) (n : Int) : g.above n ≤ g.m_nodes.length := by
  unfold GroupsModel.above
  exact List.length_filter_le _ _

/-- The root of a node has no parent. -/
theorem getRootId_isRoot {s : TimelineState} (h : Tidy s) (n : Int) :
    s.m_groups.m_upLink (s.m_groups.getRootId n) = -1 :=
  rootFrom_isRoot h _ n (above_le_length _ _)

/-- The walk ends on the node it starts from or on the parent of a node, which
is then a registered group above the start. -/
theorem rootFrom_up {s : TimelineState} (h : Tidy s) : ∀ (fuel : Nat) (n : Int),
    s.m_groups.rootFrom fuel n = n ∨
      (n < s.m_groups.rootFrom fuel n ∧ s.m_groups.rootFrom fuel n ∈ s.m_groups.m_nodes ∧
        s.m_groups.rootFrom fuel n ∈ s.m_allGroups ∧ s.m_groups.m_upLink n ≠ -1 ∧
        n ∈ s.m_groups.m_nodes ∧ s.m_groups.rootFrom fuel n ≠ -1) := by
  intro fuel
  induction fuel with
  | zero => intro n; exact Or.inl rfl
  | succ k ih =>
    intro n
    unfold GroupsModel.rootFrom
    split
    · exact Or.inl rfl
    · rename_i hne
      obtain ⟨hn, hp, hg, hlt⟩ := h.parent n hne
      right
      rcases ih (s.m_groups.m_upLink n) with e | ⟨a1, a2, a3, _, _, a6⟩
      · rw [e]
        exact ⟨hlt, hp, hg, hne, hn, hne⟩
      · exact ⟨lt_trans hlt a1, a2, a3, hne, hn, a6⟩

/-- An item that is in a group: its root is a registered group, a node of the
forest without parent, with an id above the item's. -/
theorem root_of_grouped {s : TimelineState} (h : Tidy s) {id : Int}
    (hin : s.m_groups.isInGroup id = true) :
    s.m_groups.getRootId id ≠ id ∧ id < s.m_groups.getRootId id ∧
    s.m_groups.getRootId id ∈ s.m_groups.m_nodes ∧ s.m_groups.getRootId id ∈ s.m_allGroups ∧
    s.m_groups.m_upLink (s.m_groups.getRootId id) = -1 ∧ s.m_groups.m_upLink id ≠ -1 ∧
    id ∈ s.m_groups.m_nodes ∧ s.m_groups.getRootId id ≠ -1 := by
  have hne : s.m_groups.getRootId id ≠ id := by
    unfold GroupsModel.isInGroup at hin
    simpa using hin
  rcases rootFrom_up h s.m_groups.m_nodes.length id with e | ⟨a1, a2, a3, a4, a5, a6⟩
  · exact absurd e hne
  · exact ⟨hne, a1, a2, a3, getRootId_isRoot h id, a4, a5, a6⟩

/-- A node without parent is its own root, so it is in no group. -/
theorem not_inGroup_of_root (g : GroupsModel) {id : Int} (h : g.m_upLink id = -1) :
    g.isInGroup id = false := by
  unfold GroupsModel.isInGroup GroupsModel.getRootId
  have : g.rootFrom g.m_nodes.length id = id := by
    cases g.m_nodes.length with
    | zero => rfl
    | succ k => unfold GroupsModel.rootFrom; rw [if_pos h]
  rw [this]
  simp

/-- In a tidy model an item in no group has no parent. -/
theorem root_of_ungrouped {s : TimelineState} (h : Tidy s) {id : Int}
    (hin : s.m_groups.isInGroup id = false) : s.m_groups.m_upLink id = -1 := by
  have he : s.m_groups.getRootId id = id := by
    unfold GroupsModel.isInGroup at hin
    simpa using hin
  have := getRootId_isRoot h id
  rw [he] at this
  exact this

/-! ## Steps and the closures that reverse them -/

/-- One more step in a transaction: the accumulated closures still lead back
and forth. -/
theorem Inverse.step {s0 s s' : TimelineState} {undo redo : Fun} (operation reverse : Fun)
    (h : Inverse s0 s undo redo)
    (hrev : ∀ v, ∃ v', reverse (s'.withView v) = (true, s.withView v'))
    (hop : ∀ v, ∃ v', operation (s.withView v) = (true, s'.withView v')) :
    Inverse s0 s' (UPDATE_UNDO_REDO operation reverse undo redo).1
      (UPDATE_UNDO_REDO operation reverse undo redo).2 := by
  constructor
  · intro v
    obtain ⟨v1, h1⟩ := hrev v
    obtain ⟨v2, h2⟩ := h.1 v1
    exact ⟨v2, by simp only [UPDATE_UNDO_REDO, h1, h2, Bool.and_self]⟩
  · intro v
    obtain ⟨v1, h1⟩ := h.2 v
    obtain ⟨v2, h2⟩ := hop v1
    exact ⟨v2, by simp only [UPDATE_UNDO_REDO, h1, h2, Bool.and_self]⟩

theorem tidy_withView {s : TimelineState} (h : Tidy s) (v : Nat) : Tidy (s.withView v) :=
  ⟨h.tractor_eq, h.table_sorted, h.table_tracks, h.clips_sorted, h.nodes_sorted,
    h.groups_sorted, h.clips_nodes, h.clips_not_groups, h.parent, h.nodes_nonneg⟩

theorem tidy_unplace {s : TimelineState} (h : Tidy s) (T c : Int) (uv : Bool) :
    Tidy (TrackModel.unplace s T c uv) :=
  ⟨h.tractor_eq, h.table_sorted, h.table_tracks, h.clips_sorted, h.nodes_sorted,
    h.groups_sorted, h.clips_nodes, h.clips_not_groups, h.parent, h.nodes_nonneg⟩

/-- Removing a root group keeps the model tidy. -/
theorem tidy_destructGroup {s : TimelineState} (h : Tidy s) {gid : Int}
    (hg : gid ∈ s.m_allGroups) :
    Tidy (GroupsModel.destructGroupItem_lambda gid s).2 := by
  refine ⟨h.tractor_eq, h.table_sorted, h.table_tracks, h.clips_sorted,
    sorted_eraseKey h.nodes_sorted, sorted_eraseKey h.groups_sorted, ?_, ?_, ?_,
    fun n hn => h.nodes_nonneg n (mem_eraseKey.mp hn).1⟩
  · intro c hc
    exact mem_eraseKey.mpr ⟨h.clips_nodes c hc, fun e => h.clips_not_groups c hc (e ▸ hg)⟩
  · intro c hc hcg
    exact h.clips_not_groups c hc (mem_eraseKey.mp hcg).1
  · intro n hn
    have hn' : ¬ (n = gid ∨ s.m_groups.m_upLink n = gid) ∧ s.m_groups.m_upLink n ≠ -1 := by
      by_cases hc : n = gid ∨ s.m_groups.m_upLink n = gid
      · exact absurd (if_pos hc) hn
      · exact ⟨hc, fun e => hn (by
          show (if n = gid ∨ s.m_groups.m_upLink n = gid then -1 else s.m_groups.m_upLink n) = -1
          rw [if_neg hc]; exact e)⟩
    obtain ⟨a1, a2, a3, a4⟩ := h.parent n hn'.2
    have e : (GroupsModel.destructGroupItem_lambda gid s).2.m_groups.m_upLink n
        = s.m_groups.m_upLink n := if_neg hn'.1
    rw [e]
    exact ⟨mem_eraseKey.mpr ⟨a1, fun e' => hn'.1 (Or.inl e')⟩,
      mem_eraseKey.mpr ⟨a2, fun e' => hn'.1 (Or.inr e')⟩,
      mem_eraseKey.mpr ⟨a3, fun e' => hn'.1 (Or.inr e')⟩, a4⟩

/-- Regrouping the children of a root group that has just been removed gives
the state back. -/
theorem regroup_destruct {s : TimelineState} (h : Tidy s) {gid : Int}
    (hg : gid ∈ s.m_allGroups) (hn : gid ∈ s.m_groups.m_nodes)
    (hroot : s.m_groups.m_upLink gid = -1) (hne : gid ≠ -1) (v : Nat) :
    GroupsModel.groupItems_lambda gid (s.m_groups.getDirectChildren gid)
      ((GroupsModel.destructGroupItem_lambda gid s).2.withView v) = (true, s.withView v) := by
  have hup : (fun n => if n ∈ s.m_groups.getDirectChildren gid then gid
        else if n = gid then -1
        else if n = gid ∨ s.m_groups.m_upLink n = gid then -1 else s.m_groups.m_upLink n)
      = s.m_groups.m_upLink := by
    funext n
    by_cases hc : n ∈ s.m_groups.getDirectChildren gid
    · rw [if_pos hc]
      unfold GroupsModel.getDirectChildren at hc
      have := (List.mem_filter.mp hc).2
      exact (by simpa using this : s.m_groups.m_upLink n = gid).symm
    · rw [if_neg hc]
      by_cases hng : n = gid
      · rw [if_pos hng, hng, hroot]
      · rw [if_neg hng]
        by_cases hu : s.m_groups.m_upLink n = gid
        · exfalso
          apply hc
          unfold GroupsModel.getDirectChildren
          refine List.mem_filter.mpr ⟨(h.parent n (by rw [hu]; exact hne)).1, by simpa using hu⟩
        · rw [if_neg (by simp [hng, hu])]
  have e := TimelineState.eq_withView
    (x := (GroupsModel.groupItems_lambda gid (s.m_groups.getDirectChildren gid)
      ((GroupsModel.destructGroupItem_lambda gid s).2.withView v)).2) (s := s)
    rfl rfl rfl rfl rfl rfl rfl rfl rfl ?_ ?_ rfl
  · exact Prod.ext rfl e
  · show ({ m_nodes := insertKey gid (eraseKey gid s.m_groups.m_nodes),
            m_upLink := _ } : GroupsModel) = s.m_groups
    rw [insertKey_eraseKey h.nodes_sorted hn]
    exact congrArg (fun f => ({ m_nodes := s.m_groups.m_nodes, m_upLink := f } : GroupsModel)) hup
  · show insertKey gid (eraseKey gid s.m_allGroups) = s.m_allGroups
    exact insertKey_eraseKey h.groups_sorted hg

/-- `ungroupItem` on an item that is in a group: the root of the item is
removed, and the transaction can still be rolled back and replayed. -/
theorem ungroupItem_spec {s0 s : TimelineState} (ht : Tidy s)
    {undo redo : Fun} (hinv : Inverse s0 s undo redo) {id : Int}
    (hin : s.m_groups.isInGroup id = true) :
    GroupsModel.ungroupItem s id undo redo =
      { ok := true, s := (GroupsModel.destructGroupItem_lambda (s.m_groups.getRootId id) s).2,
        undo := (UPDATE_UNDO_REDO (GroupsModel.destructGroupItem_lambda (s.m_groups.getRootId id))
          (GroupsModel.groupItems_lambda (s.m_groups.getRootId id)
            (s.m_groups.getDirectChildren (s.m_groups.getRootId id))) undo redo).1,
        redo := (UPDATE_UNDO_REDO (GroupsModel.destructGroupItem_lambda (s.m_groups.getRootId id))
          (GroupsModel.groupItems_lambda (s.m_groups.getRootId id)
            (s.m_groups.getDirectChildren (s.m_groups.getRootId id))) undo redo).2 } ∧
    Tidy (GroupsModel.ungroupItem s id undo redo).s ∧
    Inverse s0 (GroupsModel.ungroupItem s id undo redo).s
      (GroupsModel.ungroupItem s id undo redo).undo
      (GroupsModel.ungroupItem s id undo redo).redo := by
  obtain ⟨hne, hlt, hn, hg, hroot, _, _, hne1⟩ := root_of_grouped ht hin
  have e : GroupsModel.ungroupItem s id undo redo =
      { ok := true, s := (GroupsModel.destructGroupItem_lambda (s.m_groups.getRootId id) s).2,
        undo := (UPDATE_UNDO_REDO (GroupsModel.destructGroupItem_lambda (s.m_groups.getRootId id))
          (GroupsModel.groupItems_lambda (s.m_groups.getRootId id)
            (s.m_groups.getDirectChildren (s.m_groups.getRootId id))) undo redo).1,
        redo := (UPDATE_UNDO_REDO (GroupsModel.destructGroupItem_lambda (s.m_groups.getRootId id))
          (GroupsModel.groupItems_lambda (s.m_groups.getRootId id)
            (s.m_groups.getDirectChildren (s.m_groups.getRootId id))) undo redo).2 } := by
    unfold GroupsModel.ungroupItem
    simp only [if_neg hne]
  refine ⟨e, ?_⟩
  rw [e]
  refine ⟨tidy_destructGroup ht hg, ?_⟩
  exact Inverse.step _ _ hinv (fun v => ⟨v, regroup_destruct ht hg hn hroot hne1 v⟩)
    (fun v => ⟨v, rfl⟩)

theorem lanes_of_consistent {s : TimelineState} (h : Consistent s) : Lanes s :=
  ⟨h.sorted, h.disjoint⟩

theorem lanes_withView {s : TimelineState} (h : Lanes s) (v : Nat) : Lanes (s.withView v) :=
  ⟨h.sorted, h.disjoint⟩

theorem lanes_destructGroup {s : TimelineState} (h : Lanes s) (gid : Int) :
    Lanes (GroupsModel.destructGroupItem_lambda gid s).2 :=
  ⟨h.sorted, h.disjoint⟩

theorem lanes_deregisterClip {s : TimelineState} (h : Lanes s) (c : Int) :
    Lanes (TimelineModel.deregisterClip_lambda c s).2 :=
  ⟨h.sorted, h.disjoint⟩

theorem lanes_unplace {s : TimelineState} (h : Lanes s) (T c : Int) (uv : Bool) :
    Lanes (TrackModel.unplace s T c uv) := by
  constructor
  · intro T'
    rw [unplace_members]
    split
    · exact sorted_eraseKey (h.sorted T)
    · exact h.sorted T'
  · intro T' a ha b hb hab
    have ha' : a ∈ (s.trackObj T').m_allClips := by
      rw [unplace_members] at ha
      split at ha
      · rename_i e; rw [e]; exact (mem_eraseKey.mp ha).1
      · exact ha
    have hb' : b ∈ (s.trackObj T').m_allClips := by
      rw [unplace_members] at hb
      split at hb
      · rename_i e; rw [e]; exact (mem_eraseKey.mp hb).1
      · exact hb
    have e : ∀ x, ((TrackModel.unplace s T c uv).clipObj x).m_position = (s.clipObj x).m_position ∧
        ((TrackModel.unplace s T c uv).clipObj x).m_playtime = (s.clipObj x).m_playtime := by
      intro x
      rw [unplace_clip]
      split
      · rename_i e; rw [e]; exact ⟨rfl, rfl⟩
      · exact ⟨rfl, rfl⟩
    rw [(e a).1, (e a).2, (e b).1, (e b).2]
    exact h.disjoint T' a ha' b hb' hab

/-- Deregistering a registered clip keeps the model tidy. -/
theorem tidy_deregisterClip {s : TimelineState} (h : Tidy s) {c : Int} (hc : c ∈ s.m_allClips) :
    Tidy (TimelineModel.deregisterClip_lambda c s).2 := by
  refine ⟨h.tractor_eq, h.table_sorted, h.table_tracks, sorted_eraseKey h.clips_sorted,
    sorted_eraseKey h.nodes_sorted, h.groups_sorted, ?_, ?_, ?_,
    fun n hn => h.nodes_nonneg n (mem_eraseKey.mp hn).1⟩
  · intro x hx
    obtain ⟨h1, h2⟩ := mem_eraseKey.mp hx
    exact mem_eraseKey.mpr ⟨h.clips_nodes x h1, h2⟩
  · intro x hx
    exact h.clips_not_groups x (mem_eraseKey.mp hx).1
  · intro n hn
    have e : (TimelineModel.deregisterClip_lambda c s).2.m_groups.m_upLink n =
        if n = c then -1 else s.m_groups.m_upLink n := rfl
    rw [e] at hn ⊢
    by_cases hnc : n = c
    · rw [if_pos hnc] at hn; exact absurd rfl hn
    · rw [if_neg hnc] at hn ⊢
      obtain ⟨a1, a2, a3, a4⟩ := h.parent n hn
      exact ⟨mem_eraseKey.mpr ⟨a1, hnc⟩,
        mem_eraseKey.mpr ⟨a2, fun e' => h.clips_not_groups c hc (e' ▸ a3)⟩, a3, a4⟩

/-- Registering again a clip without parent that has just been deregistered
gives the state back. -/
theorem register_deregister {s : TimelineState} (h : Tidy s) {c : Int} (hc : c ∈ s.m_allClips)
    (hroot : s.m_groups.m_upLink c = -1) (v : Nat) :
    TimelineModel.registerClip_lambda c ((TimelineModel.deregisterClip_lambda c s).2.withView v)
      = (true, s.withView v) := by
  have e := TimelineState.eq_withView
    (x := (TimelineModel.registerClip_lambda c
      ((TimelineModel.deregisterClip_lambda c s).2.withView v)).2) (s := s)
    rfl rfl rfl rfl ?_ rfl rfl rfl rfl ?_ rfl rfl
  · exact Prod.ext rfl e
  · show insertKey c (eraseKey c s.m_allClips) = s.m_allClips
    exact insertKey_eraseKey h.clips_sorted hc
  · show ({ m_nodes := insertKey c (eraseKey c s.m_groups.m_nodes),
            m_upLink := setAt (setAt s.m_groups.m_upLink c (-1)) c (-1) } : GroupsModel)
        = s.m_groups
    rw [insertKey_eraseKey h.nodes_sorted (h.clips_nodes c hc), setAt_setAt,
      setAt_eq_self s.m_groups.m_upLink c (-1) hroot]

theorem clipDeleted_members (s : TimelineState) (c T : Int) :
    ((TimelineModel.clipDeleted s c).trackObj T).m_allClips =
      if T = (s.clipObj c).m_currentTrackId ∧ T ≠ -1 then eraseKey c (s.trackObj T).m_allClips
      else (s.trackObj T).m_allClips := by
  unfold TimelineModel.clipDeleted
  by_cases h : (s.clipObj c).m_currentTrackId = -1
  · have e : ¬ (T = (s.clipObj c).m_currentTrackId ∧ T ≠ -1) := by
      rintro ⟨a, b⟩; exact b (a.trans h)
    rw [if_neg e, if_neg (by simpa using h)]
    rfl
  · rw [if_pos h]
    show ((TrackModel.unplace s _ c true).trackObj T).m_allClips = _
    rw [unplace_members]
    by_cases hT : T = (s.clipObj c).m_currentTrackId
    · rw [if_pos hT, if_pos ⟨hT, fun e => h (hT ▸ e)⟩, hT]
    · rw [if_neg hT, if_neg (fun e => hT e.1)]

theorem clipDeleted_clip (s : TimelineState) (c x : Int) :
    (TimelineModel.clipDeleted s c).clipObj x =
      if x = c then { s.clipObj c with m_currentTrackId := -1 } else s.clipObj x := by
  unfold TimelineModel.clipDeleted
  by_cases h : (s.clipObj c).m_currentTrackId = -1
  · rw [if_neg (by simpa using h)]
    show s.clipObj x = _
    by_cases hx : x = c
    · rw [if_pos hx, hx]
      conv_lhs => rw [show s.clipObj c = { s.clipObj c with m_currentTrackId :=
        (s.clipObj c).m_currentTrackId } from rfl]
      rw [h]
    · rw [if_neg hx]
  · rw [if_pos h]
    exact unplace_clip s (s.clipObj c).m_currentTrackId c true x

theorem clipDeleted_fields (s : TimelineState) (c : Int) :
    (TimelineModel.clipDeleted s c).m_allClips = eraseKey c s.m_allClips ∧
    (TimelineModel.clipDeleted s c).m_groups = s.m_groups.destructGroupItem c ∧
    (TimelineModel.clipDeleted s c).m_allGroups = s.m_allGroups ∧
    (TimelineModel.clipDeleted s c).m_allTracks = s.m_allTracks ∧
    (TimelineModel.clipDeleted s c).m_iteratorTable = s.m_iteratorTable ∧
    (TimelineModel.clipDeleted s c).m_tractor = s.m_tractor ∧
    (TimelineModel.clipDeleted s c).next_id = s.next_id ∧
    (TimelineModel.clipDeleted s c).m_allCompositions = s.m_allCompositions ∧
    (TimelineModel.clipDeleted s c).compoObj = s.compoObj := by
  unfold TimelineModel.clipDeleted
  split <;> exact ⟨rfl, rfl, rfl, rfl, rfl, rfl, rfl, rfl, rfl⟩

/-- A `requestClipDeletion` whose track step goes through. -/
theorem clipDeletion_ok (s : TimelineState) (undo redo : Fun) {c : Int}
    (hm : (s.clipObj c).m_currentTrackId ≠ -1 →
      c ∈ (s.trackObj (s.clipObj c).m_currentTrackId).m_allClips) :
    TimelineModel.requestClipDeletionFun s c undo redo =
      { ok := true, s := TimelineModel.clipDeleted s c,
        undo := (TimelineModel.clipDeletionClosures s c undo redo).1,
        redo := (TimelineModel.clipDeletionClosures s c undo redo).2 } := by
  unfold TimelineModel.requestClipDeletionFun TimelineModel.clipDeletionClosures
    TimelineModel.clipDeleted TimelineModel.getClipTrackId
  by_cases h : (s.clipObj c).m_currentTrackId = -1
  · simp [h, TimelineModel.deregisterClip_lambda]
  · simp [h, TrackModel.requestClipDeletion, deletion_lambda_ok true (hm h),
      TimelineModel.deregisterClip_lambda]

/-- A `requestClipDeletion` whose track step fails: the closures it was given
are run and handed back. -/
theorem clipDeletion_fail (s : TimelineState) (undo redo : Fun) {c : Int}
    (hT : (s.clipObj c).m_currentTrackId ≠ -1)
    (hm : c ∉ (s.trackObj (s.clipObj c).m_currentTrackId).m_allClips) :
    TimelineModel.requestClipDeletionFun s c undo redo =
      { ok := false, s := (undo s).2, undo := undo, redo := redo } := by
  unfold TimelineModel.requestClipDeletionFun TimelineModel.getClipTrackId
  simp [hT, TrackModel.requestClipDeletion, TrackModel.requestClipDeletion_lambda, hm]

theorem tidy_clipDeleted {s : TimelineState} (h : Tidy s) {c : Int} (hc : c ∈ s.m_allClips) :
    Tidy (TimelineModel.clipDeleted s c) := by
  unfold TimelineModel.clipDeleted
  split
  · exact tidy_deregisterClip (tidy_unplace h _ _ _) hc
  · exact tidy_deregisterClip h hc

theorem lanes_clipDeleted {s : TimelineState} (h : Lanes s) (c : Int) :
    Lanes (TimelineModel.clipDeleted s c) := by
  unfold TimelineModel.clipDeleted
  split
  · exact lanes_deregisterClip (lanes_unplace h _ _ _) c
  · exact lanes_deregisterClip h c

/-- Once a clip has left the track that holds it, it fits back where it was. -/
theorem canInsert_back_lanes {s : TimelineState} (h : Lanes s) {c : Int} (uv : Bool)
    (hm : c ∈ (s.trackObj (s.clipObj c).m_currentTrackId).m_allClips) :
    TrackModel.canInsert (TrackModel.unplace s (s.clipObj c).m_currentTrackId c uv)
      (s.clipObj c).m_currentTrackId c (s.clipObj c).m_position = true := by
  rw [canInsert_eq_true_iff]
  constructor
  · rw [unplace_clip]; simp
  · rw [isFree_eq_true_iff]
    intro c' hc'
    rw [unplace_members, if_pos rfl] at hc'
    obtain ⟨m', hne⟩ := mem_eraseKey.mp hc'
    simp only [unplace_clip, hne, if_false, if_true]
    exact h.disjoint _ c hm c' m' (fun e => hne e.symm)

/-- Putting a clip back on the track that held it, at its position, restores the
state. -/
theorem place_unplace_lanes {s : TimelineState} (h : Lanes s) {c : Int} (uv uv' : Bool)
    (hm : c ∈ (s.trackObj (s.clipObj c).m_currentTrackId).m_allClips) :
    (TrackModel.place (TrackModel.unplace s (s.clipObj c).m_currentTrackId c uv)
      (s.clipObj c).m_currentTrackId c (s.clipObj c).m_position uv').withView
        s.viewNotifications = s := by
  have h1 : setAt (setAt s.trackObj (s.clipObj c).m_currentTrackId
        { s.trackObj (s.clipObj c).m_currentTrackId with
          m_allClips := eraseKey c (s.trackObj (s.clipObj c).m_currentTrackId).m_allClips })
      (s.clipObj c).m_currentTrackId
        { m_id := (s.trackObj (s.clipObj c).m_currentTrackId).m_id,
          m_allClips := insertKey c
            (eraseKey c (s.trackObj (s.clipObj c).m_currentTrackId).m_allClips),
          m_allCompositions := (s.trackObj (s.clipObj c).m_currentTrackId).m_allCompositions }
      = s.trackObj := by
    rw [setAt_setAt, insertKey_eraseKey (h.sorted _) hm]
    exact setAt_eq_self _ _ _ rfl
  have h2 : setAt (setAt s.clipObj c { s.clipObj c with m_currentTrackId := -1 }) c
      { s.clipObj c with
        m_currentTrackId := (s.clipObj c).m_currentTrackId,
        m_position := (s.clipObj c).m_position } = s.clipObj := by
    rw [setAt_setAt]
    exact setAt_eq_self _ _ _ rfl
  have h3 : TrackModel.place (TrackModel.unplace s (s.clipObj c).m_currentTrackId c uv)
      (s.clipObj c).m_currentTrackId c (s.clipObj c).m_position uv' =
      { s with
        trackObj := setAt (setAt s.trackObj (s.clipObj c).m_currentTrackId
            { s.trackObj (s.clipObj c).m_currentTrackId with
              m_allClips := eraseKey c (s.trackObj (s.clipObj c).m_currentTrackId).m_allClips })
          (s.clipObj c).m_currentTrackId
            { m_id := (s.trackObj (s.clipObj c).m_currentTrackId).m_id,
              m_allClips := insertKey c
                (eraseKey c (s.trackObj (s.clipObj c).m_currentTrackId).m_allClips),
              m_allCompositions :=
                (s.trackObj (s.clipObj c).m_currentTrackId).m_allCompositions }
        clipObj := setAt (setAt s.clipObj c { s.clipObj c with m_currentTrackId := -1 }) c
          { s.clipObj c with
            m_currentTrackId := (s.clipObj c).m_currentTrackId,
            m_position := (s.clipObj c).m_position }
        viewNotifications := s.viewNotifications + (if uv then 1 else 0) +
          (if uv' then 1 else 0) } := by
    simp [TrackModel.place, TrackModel.unplace, setAt_same]
  rw [h3, h1, h2]
  rfl

/-- Putting a clip back where it was gives the state back. -/
theorem insertion_back {s : TimelineState} (hl : Lanes s) {c : Int}
    (hm : c ∈ (s.trackObj (s.clipObj c).m_currentTrackId).m_allClips) (v : Nat) :
    TrackModel.requestClipInsertion_lambda (s.clipObj c).m_currentTrackId c
        (s.clipObj c).m_position true
        ((TrackModel.unplace s (s.clipObj c).m_currentTrackId c true).withView v)
      = (true, s.withView (v + 1)) := by
  rw [insertion_lambda_ok true (by rw [canInsert_withView]; exact canInsert_back_lanes hl true hm),
    place_withView]
  have e := place_unplace_lanes hl true true hm
  refine Prod.ext rfl ?_
  show (TrackModel.place (TrackModel.unplace s (s.clipObj c).m_currentTrackId c true)
      (s.clipObj c).m_currentTrackId c (s.clipObj c).m_position true).withView (v + 1) = _
  conv_rhs => rw [← e]
  rfl

/-- After a `requestClipDeletion` of a registered clip that is in no group the
closures still lead back and forth. -/
theorem clipDeletion_inverse {s0 s : TimelineState} (ht : Tidy s) (hl : Lanes s)
    {undo redo : Fun} (hinv : Inverse s0 s undo redo) {c : Int} (hreg : c ∈ s.m_allClips)
    (hroot : s.m_groups.m_upLink c = -1)
    (hm : (s.clipObj c).m_currentTrackId ≠ -1 →
      c ∈ (s.trackObj (s.clipObj c).m_currentTrackId).m_allClips) :
    Inverse s0 (TimelineModel.clipDeleted s c)
      (TimelineModel.clipDeletionClosures s c undo redo).1
      (TimelineModel.clipDeletionClosures s c undo redo).2 := by
  unfold TimelineModel.clipDeletionClosures TimelineModel.clipDeleted
  by_cases h : (s.clipObj c).m_currentTrackId = -1
  · simp only [ne_eq, h, not_true_eq_false, if_false]
    exact Inverse.step _ _ hinv (fun v => ⟨v, register_deregister ht hreg hroot v⟩)
      (fun v => ⟨v, rfl⟩)
  · simp only [ne_eq, h, not_false_eq_true, if_true]
    have h1 : Inverse s0 (TrackModel.unplace s (s.clipObj c).m_currentTrackId c true)
        (UPDATE_UNDO_REDO
          (TrackModel.requestClipDeletion_lambda (s.clipObj c).m_currentTrackId c true)
          (TrackModel.requestClipInsertion_lambda (s.clipObj c).m_currentTrackId c
            (s.clipObj c).m_position true) undo redo).1
        (UPDATE_UNDO_REDO
          (TrackModel.requestClipDeletion_lambda (s.clipObj c).m_currentTrackId c true)
          (TrackModel.requestClipInsertion_lambda (s.clipObj c).m_currentTrackId c
            (s.clipObj c).m_position true) undo redo).2 := by
      refine Inverse.step _ _ hinv (fun v => ⟨v + 1, insertion_back hl (hm h) v⟩)
        (fun v => ⟨v + 1, ?_⟩)
      rw [deletion_lambda_ok true (by exact hm h)]
      rfl
    exact Inverse.step _ _ h1
      (fun v => ⟨v, register_deregister (tidy_unplace ht _ _ _) hreg hroot v⟩)
      (fun v => ⟨v, rfl⟩)

theorem shrunk_refl (s : TimelineState) : Shrunk s s :=
  ⟨rfl, rfl, rfl, fun _ => Or.inl rfl, fun _ h => h, fun _ h => h, fun _ h => h,
    fun _ _ h => h, fun _ => Or.inl rfl, fun _ _ => ⟨rfl, fun _ h => h⟩⟩

theorem shrunk_trans {a b c : TimelineState} (h1 : Shrunk a b) (h2 : Shrunk b c) :
    Shrunk a c := by
  refine ⟨h2.tracks.trans h1.tracks, h2.table.trans h1.table, h2.tractor.trans h1.tractor, ?_,
    fun n h => h1.nodes n (h2.nodes n h), fun n h => h1.groups n (h2.groups n h),
    fun n h => h1.clips n (h2.clips n h), fun T x h => h1.held T x (h2.held T x h), ?_, ?_⟩
  · intro n
    rcases h2.links n with e | e
    · rcases h1.links n with e' | e'
      · exact Or.inl (e.trans e')
      · exact Or.inr (e.trans e')
    · exact Or.inr e
  · intro x
    rcases h2.placed x with e | e
    · rcases h1.placed x with e' | e'
      · exact Or.inl (e.trans e')
      · exact Or.inr (e.trans e')
    · exact Or.inr e
  · intro x hx
    obtain ⟨e2, k2⟩ := h2.kept x hx
    obtain ⟨e1, k1⟩ := h1.kept x (h2.clips x hx)
    exact ⟨e2.trans e1, fun T h => k2 T (k1 T h)⟩

theorem shrunk_destructGroup (s : TimelineState) (gid : Int) :
    Shrunk s (GroupsModel.destructGroupItem_lambda gid s).2 := by
  refine ⟨rfl, rfl, rfl, ?_, fun n h => (mem_eraseKey.mp h).1, fun n h => (mem_eraseKey.mp h).1,
    fun _ h => h, fun _ _ h => h, fun _ => Or.inl rfl, fun _ _ => ⟨rfl, fun _ h => h⟩⟩
  intro n
  show (if n = gid ∨ s.m_groups.m_upLink n = gid then -1 else s.m_groups.m_upLink n) = _ ∨
    (if n = gid ∨ s.m_groups.m_upLink n = gid then -1 else s.m_groups.m_upLink n) = -1
  split
  · exact Or.inr rfl
  · exact Or.inl rfl

theorem shrunk_clipDeleted (s : TimelineState) (c : Int) :
    Shrunk s (TimelineModel.clipDeleted s c) := by
  obtain ⟨e1, e2, e3, e4, e5, e6, _, _, _⟩ := clipDeleted_fields s c
  refine ⟨e4, e5, e6, ?_, ?_, ?_, ?_, ?_, ?_, ?_⟩
  · intro n
    rw [e2]
    show setAt s.m_groups.m_upLink c (-1) n = _ ∨ setAt s.m_groups.m_upLink c (-1) n = -1
    unfold setAt
    split
    · exact Or.inr rfl
    · exact Or.inl rfl
  · intro n hn
    rw [e2] at hn
    exact (mem_eraseKey.mp hn).1
  · intro n hn
    rw [e3] at hn
    exact hn
  · intro x hx
    rw [e1] at hx
    exact (mem_eraseKey.mp hx).1
  · intro T x hx
    rw [clipDeleted_members] at hx
    split at hx
    · exact (mem_eraseKey.mp hx).1
    · exact hx
  · intro x
    rw [clipDeleted_clip]
    split
    · exact Or.inr rfl
    · exact Or.inl rfl
  · intro x hx
    rw [e1] at hx
    obtain ⟨_, hne⟩ := mem_eraseKey.mp hx
    refine ⟨by rw [clipDeleted_clip, if_neg hne], fun T h => ?_⟩
    rw [clipDeleted_members]
    split
    · exact mem_eraseKey.mpr ⟨h, hne⟩
    · exact h

/-- Removing the root above a node leaves fewer nodes above it. -/
theorem above_destruct_lt {s : TimelineState} {id gid : Int} (hlt : id < gid)
    (hn : gid ∈ s.m_groups.m_nodes) :
    (GroupsModel.destructGroupItem_lambda gid s).2.m_groups.above id < s.m_groups.above id := by
  show ((eraseKey gid s.m_groups.m_nodes).filter (fun x => decide (id < x))).length <
    (s.m_groups.m_nodes.filter (fun x => decide (id < x))).length
  unfold eraseKey
  rw [List.filter_filter]
  refine length_filter_lt_of_imp (fun x _ hx => ?_) hn (by simpa using hlt) (by simp)
  simp only [Bool.and_eq_true] at hx
  exact hx.1

theorem pert_start (s0 s : TimelineState) (v : Nat) : Pert s0 s (s0.withView v) :=
  ⟨⟨v, rfl⟩, rfl, fun _ => Or.inl rfl⟩

theorem absorb_noop (s : TimelineState) : Absorb s s noop := by
  intro x hx
  obtain ⟨⟨v, e⟩, hn, hl⟩ := hx
  refine ⟨true, v, Prod.ext rfl ?_⟩
  show x = s.withView v
  have hup : x.m_groups.m_upLink = s.m_groups.m_upLink := by
    funext n
    rcases hl n with h | ⟨h1, h2⟩
    · exact h
    · rw [h1, h2]
  have hg : x.m_groups = s.m_groups := by
    cases hx : x.m_groups
    cases hs : s.m_groups
    rw [hx] at hn hup
    rw [hs] at hn hup
    simp only at hn hup
    rw [hn, hup]
  rw [← e]
  cases x
  simp only at hg
  rw [hg]

/-- The undo of an ungrouping step, run on the starting state, leaves it. -/
theorem absorb_regroup {s0 s : TimelineState} {undo : Fun} (redo : Fun) (ht : Tidy s)
    (hs : Shrunk s0 s) (ha : Absorb s0 s undo) {gid : Int} (hg : gid ∈ s.m_allGroups)
    (hn : gid ∈ s.m_groups.m_nodes) (hroot : s.m_groups.m_upLink gid = -1) (hne : gid ≠ -1) :
    Absorb s0 (GroupsModel.destructGroupItem_lambda gid s).2
      (UPDATE_UNDO_REDO (GroupsModel.destructGroupItem_lambda gid)
        (GroupsModel.groupItems_lambda gid (s.m_groups.getDirectChildren gid)) undo redo).1 := by
  intro x hx
  obtain ⟨⟨v, e⟩, hxn, hxl⟩ := hx
  have hp : Pert s0 s
      (GroupsModel.groupItems_lambda gid (s.m_groups.getDirectChildren gid) x).2 := by
    refine ⟨⟨v, ?_⟩, ?_, ?_⟩
    · rw [← e]
      show ({ x with m_groups := s0.m_groups, m_allGroups := insertKey gid x.m_allGroups } :
        TimelineState) = { x with m_groups := s0.m_groups }
      have e1 : x.m_allGroups = s0.m_allGroups := congrArg (fun y => y.m_allGroups) e
      have e2 : insertKey gid x.m_allGroups = x.m_allGroups := by
        unfold insertKey
        rw [if_pos (by rw [e1]; exact hs.groups gid hg)]
      rw [e2]
    · show insertKey gid x.m_groups.m_nodes = _
      unfold insertKey
      rw [if_pos (by rw [hxn]; exact hs.nodes gid hn), hxn]
    · intro n
      show (if n ∈ s.m_groups.getDirectChildren gid then gid
          else if n = gid then -1 else x.m_groups.m_upLink n) = _ ∨ _ ∧
        (if n ∈ s.m_groups.getDirectChildren gid then gid
          else if n = gid then -1 else x.m_groups.m_upLink n) = -1
      by_cases hc : n ∈ s.m_groups.getDirectChildren gid
      · rw [if_pos hc]
        have hu : s.m_groups.m_upLink n = gid := by
          unfold GroupsModel.getDirectChildren at hc
          simpa using (List.mem_filter.mp hc).2
        rcases hs.links n with h | h
        · left; rw [← h, hu]
        · exact absurd (hu.symm.trans h) hne
      · rw [if_neg hc]
        by_cases hng : n = gid
        · rw [if_pos hng, hng]
          exact Or.inr ⟨hroot, rfl⟩
        · rw [if_neg hng]
          rcases hxl n with h | ⟨h1, h2⟩
          · exact Or.inl h
          · right
            refine ⟨?_, h2⟩
            have h1' : (if n = gid ∨ s.m_groups.m_upLink n = gid then -1
                else s.m_groups.m_upLink n) = -1 := h1
            by_cases hu : s.m_groups.m_upLink n = gid
            · exfalso
              apply hc
              unfold GroupsModel.getDirectChildren
              exact List.mem_filter.mpr
                ⟨(ht.parent n (by rw [hu]; exact hne)).1, by simpa using hu⟩
            · rw [if_neg (by simp [hng, hu])] at h1'
              exact h1'
  obtain ⟨b, v', hb⟩ := ha _ hp
  refine ⟨b && true, v', ?_⟩
  show ((undo (GroupsModel.groupItems_lambda gid (s.m_groups.getDirectChildren gid) x).2).1 &&
      (GroupsModel.groupItems_lambda gid (s.m_groups.getDirectChildren gid) x).1,
    (undo (GroupsModel.groupItems_lambda gid (s.m_groups.getDirectChildren gid) x).2).2) = _
  rw [hb]
  rfl

/-- The undo of a removal from a track, run on the starting state, leaves it:
the clip is still on its track there. -/
theorem absorb_place {s0 s : TimelineState} {undo : Fun} (redo : Fun) (hs : Shrunk s0 s)
    (ha : Absorb s0 s undo) {c : Int} (hT : (s.clipObj c).m_currentTrackId ≠ -1) (T p : Int) :
    Absorb s0 (TrackModel.unplace s T c true)
      (UPDATE_UNDO_REDO (TrackModel.requestClipDeletion_lambda T c true)
        (TrackModel.requestClipInsertion_lambda T c p true) undo redo).1 := by
  intro x hx
  have hp : Pert s0 s x := ⟨hx.1, hx.2.1, hx.2.2⟩
  obtain ⟨⟨v, e⟩, _, _⟩ := hx
  have e1 : x.clipObj = s0.clipObj := congrArg (fun y => y.clipObj) e
  have h0 : (s0.clipObj c).m_currentTrackId ≠ -1 := by
    rcases hs.placed c with h | h
    · rw [← h]; exact hT
    · exact absurd h hT
  have hf : TrackModel.canInsert x T c p = false := by
    unfold TrackModel.canInsert
    rw [e1]
    simp [h0]
  obtain ⟨b, v', hb⟩ := ha _ hp
  refine ⟨b && false, v', ?_⟩
  show ((undo (TrackModel.requestClipInsertion_lambda T c p true x).2).1 &&
      (TrackModel.requestClipInsertion_lambda T c p true x).1,
    (undo (TrackModel.requestClipInsertion_lambda T c p true x).2).2) = _
  rw [insertion_lambda_fail true hf, hb]

/-- The undo of a deregistration, run on the starting state, leaves it. -/
theorem absorb_register {s0 s : TimelineState} {undo : Fun} (redo : Fun)
    (ha : Absorb s0 s undo) {c : Int} (hc : c ∈ s0.m_allClips) (hcn : c ∈ s0.m_groups.m_nodes)
    (hroot : s.m_groups.m_upLink c = -1) :
    Absorb s0 (TimelineModel.deregisterClip_lambda c s).2
      (UPDATE_UNDO_REDO (TimelineModel.deregisterClip_lambda c)
        (TimelineModel.registerClip_lambda c) undo redo).1 := by
  intro x hx
  obtain ⟨⟨v, e⟩, hxn, hxl⟩ := hx
  have hp : Pert s0 s (TimelineModel.registerClip_lambda c x).2 := by
    refine ⟨⟨v, ?_⟩, ?_, ?_⟩
    · rw [← e]
      show ({ x with m_groups := s0.m_groups, m_allClips := insertKey c x.m_allClips } :
        TimelineState) = { x with m_groups := s0.m_groups }
      have e1 : x.m_allClips = s0.m_allClips := congrArg (fun y => y.m_allClips) e
      have e2 : insertKey c x.m_allClips = x.m_allClips := by
        unfold insertKey
        rw [if_pos (by rw [e1]; exact hc)]
      rw [e2]
    · show insertKey c x.m_groups.m_nodes = _
      unfold insertKey
      rw [if_pos (by rw [hxn]; exact hcn), hxn]
    · intro n
      show setAt x.m_groups.m_upLink c (-1) n = _ ∨ _ ∧ setAt x.m_groups.m_upLink c (-1) n = -1
      unfold setAt
      by_cases hnc : n = c
      · rw [if_pos hnc, hnc]
        exact Or.inr ⟨hroot, rfl⟩
      · rw [if_neg hnc]
        rcases hxl n with h | ⟨h1, h2⟩
        · exact Or.inl h
        · right
          refine ⟨?_, h2⟩
          have h1' : setAt s.m_groups.m_upLink c (-1) n = -1 := h1
          unfold setAt at h1'
          rw [if_neg hnc] at h1'
          exact h1'
  obtain ⟨b, v', hb⟩ := ha _ hp
  refine ⟨b && true, v', ?_⟩
  show ((undo (TimelineModel.registerClip_lambda c x).2).1 &&
      (TimelineModel.registerClip_lambda c x).1,
    (undo (TimelineModel.registerClip_lambda c x).2).2) = _
  rw [hb]
  rfl

/-- An ungrouping step inside a transaction. -/
theorem transOK_ungroup {s0 : TimelineState} {r : Res} (h : TransOK s0 r) {id : Int}
    (hin : r.s.m_groups.isInGroup id = true) :
    TransOK s0 (GroupsModel.ungroupItem r.s id r.undo r.redo) ∧
    (GroupsModel.ungroupItem r.s id r.undo r.redo).s =
      (GroupsModel.destructGroupItem_lambda (r.s.m_groups.getRootId id) r.s).2 := by
  obtain ⟨_, ht, hl, hinv, ha, hs⟩ := h
  obtain ⟨e, ht', hinv'⟩ := ungroupItem_spec ht hinv hin
  obtain ⟨_, _, hn, hg, hroot, _, _, hne⟩ := root_of_grouped ht hin
  have ha' := absorb_regroup r.redo ht hs ha hg hn hroot hne
  rw [e] at ht' hinv' ⊢
  exact ⟨⟨rfl, ht', lanes_destructGroup hl _, hinv', ha', shrunk_trans hs (shrunk_destructGroup _ _)⟩,
    rfl⟩

/-- A clip deletion inside a transaction, for a registered clip in no group
whose track, if it has one, holds it. -/
theorem transOK_clipDeletion {s0 : TimelineState} {r : Res} (h : TransOK s0 r) {c : Int}
    (hreg : c ∈ r.s.m_allClips) (hroot : r.s.m_groups.m_upLink c = -1)
    (hm : (r.s.clipObj c).m_currentTrackId ≠ -1 →
      c ∈ (r.s.trackObj (r.s.clipObj c).m_currentTrackId).m_allClips) :
    TransOK s0 (TimelineModel.requestClipDeletionFun r.s c r.undo r.redo) ∧
    (TimelineModel.requestClipDeletionFun r.s c r.undo r.redo).s =
      TimelineModel.clipDeleted r.s c := by
  obtain ⟨_, ht, hl, hinv, ha, hs⟩ := h
  rw [clipDeletion_ok r.s r.undo r.redo hm]
  refine ⟨⟨rfl, tidy_clipDeleted ht hreg, lanes_clipDeleted hl c,
    clipDeletion_inverse ht hl hinv hreg hroot hm, ?_, shrunk_trans hs (shrunk_clipDeleted _ _)⟩, rfl⟩
  show Absorb s0 (TimelineModel.clipDeleted r.s c)
    (TimelineModel.clipDeletionClosures r.s c r.undo r.redo).1
  unfold TimelineModel.clipDeletionClosures TimelineModel.clipDeleted
  have h1 := hs.clips c hreg
  have h2 := hs.nodes c (ht.clips_nodes c hreg)
  by_cases hT : (r.s.clipObj c).m_currentTrackId = -1
  · simp only [ne_eq, hT, not_true_eq_false, if_false]
    exact absorb_register _ ha h1 h2 hroot
  · simp only [ne_eq, hT, not_false_eq_true, if_true]
    exact absorb_register _ (absorb_place _ hs ha hT _ _) h1 h2 hroot

/-- The loop that takes a clip out of every group it is in: with enough fuel
it ends with the clip in no group; only the forest and the registered groups
change. -/
theorem ungroupWhile_spec (clip : Int) : ∀ (fuel : Nat) {s0 : TimelineState} {r : Res},
    TransOK s0 r → r.s.m_groups.above clip < fuel →
    TransOK s0 (TimelineModel.ungroupWhile fuel clip r.s r.undo r.redo) ∧
    (TimelineModel.ungroupWhile fuel clip r.s r.undo r.redo).s.m_groups.isInGroup clip = false ∧
    Shrunk r.s (TimelineModel.ungroupWhile fuel clip r.s r.undo r.redo).s ∧
    (TimelineModel.ungroupWhile fuel clip r.s r.undo r.redo).s.m_allClips = r.s.m_allClips ∧
    (TimelineModel.ungroupWhile fuel clip r.s r.undo r.redo).s.clipObj = r.s.clipObj ∧
    (TimelineModel.ungroupWhile fuel clip r.s r.undo r.redo).s.trackObj = r.s.trackObj := by
  intro fuel
  induction fuel with
  | zero => intro s0 r _ h; omega
  | succ k ih =>
    intro s0 r h hfuel
    unfold TimelineModel.ungroupWhile
    by_cases hin : r.s.m_groups.isInGroup clip = true
    · obtain ⟨h', e⟩ := transOK_ungroup h hin
      obtain ⟨_, hlt, hn, _⟩ := root_of_grouped h.2.1 hin
      have hlt' := above_destruct_lt hlt hn
      have hk : (GroupsModel.ungroupItem r.s clip r.undo r.redo).s.m_groups.above clip < k := by
        rw [e]; omega
      have hstep : (if r.s.m_groups.isInGroup clip = true then
            (let res := TimelineModel.requestClipUngroupFun r.s clip r.undo r.redo
             if res.ok = false then res
             else TimelineModel.ungroupWhile k clip res.s res.undo res.redo)
          else { ok := true, s := r.s, undo := r.undo, redo := r.redo }) =
          TimelineModel.ungroupWhile k clip (GroupsModel.ungroupItem r.s clip r.undo r.redo).s
            (GroupsModel.ungroupItem r.s clip r.undo r.redo).undo
            (GroupsModel.ungroupItem r.s clip r.undo r.redo).redo := by
        rw [if_pos hin]
        show (if (GroupsModel.ungroupItem r.s clip r.undo r.redo).ok = false then _ else _) = _
        rw [if_neg (by rw [h'.1]; simp)]
        rfl
      rw [hstep]
      obtain ⟨a1, a2, a3, a4, a5, a6⟩ := ih h' hk
      refine ⟨a1, a2, ?_, a4.trans ?_, a5.trans ?_, a6.trans ?_⟩
      · refine shrunk_trans ?_ a3
        rw [e]
        exact shrunk_destructGroup _ _
      · rw [e]; rfl
      · rw [e]; rfl
      · rw [e]; rfl
    · rw [if_neg hin]
      exact ⟨⟨rfl, h.2⟩, by simpa using hin, shrunk_refl _, rfl, rfl, rfl⟩

/-- Rolling a transaction back, and running its undo once more, gives the
state it started from. -/
theorem transOK_rollback {s0 : TimelineState} {r : Res} (h : TransOK s0 r) :
    (∃ v, (r.undo r.s).2 = s0.withView v) ∧ ∃ v, (r.undo (r.undo r.s).2).2 = s0.withView v := by
  obtain ⟨_, _, _, hinv, ha, _⟩ := h
  obtain ⟨v, hv⟩ := hinv.1 r.s.viewNotifications
  rw [withView_self] at hv
  obtain ⟨b, v', hb⟩ := ha _ (pert_start s0 r.s v)
  refine ⟨⟨v, by rw [hv]⟩, ⟨v', ?_⟩⟩
  rw [hv]
  show (r.undo (s0.withView v)).2 = _
  rw [hb]

/-- The loop of `requestTrackDeletion`: either every clip of the list has been
taken out of its groups, removed from its track and deregistered, or the loop
fails on a clip whose track does not hold it, and the state is the one the
transaction started from. -/
theorem trackDeletionLoop_spec : ∀ (l : List Int) {s0 : TimelineState} {r : Res},
    TransOK s0 r → l.Nodup → (∀ c ∈ l, c ∈ r.s.m_allClips) →
    (TransOK s0 (TimelineModel.trackDeletionLoop l r.s r.undo r.redo) ∧
      Shrunk r.s (TimelineModel.trackDeletionLoop l r.s r.undo r.redo).s ∧
      (∀ c ∈ l, c ∉ (TimelineModel.trackDeletionLoop l r.s r.undo r.redo).s.m_allClips ∧
        (TimelineModel.trackDeletionLoop l r.s r.undo r.redo).s.m_groups.m_upLink c = -1) ∧
      (∀ x ∈ r.s.m_allClips, x ∉ l →
        x ∈ (TimelineModel.trackDeletionLoop l r.s r.undo r.redo).s.m_allClips)) ∨
    ((TimelineModel.trackDeletionLoop l r.s r.undo r.redo).ok = false ∧
      (∃ v, (TimelineModel.trackDeletionLoop l r.s r.undo r.redo).s = s0.withView v) ∧
      ∃ c ∈ l, (r.s.clipObj c).m_currentTrackId ≠ -1 ∧
        c ∉ (r.s.trackObj (r.s.clipObj c).m_currentTrackId).m_allClips) := by
  intro l
  induction l with
  | nil =>
    intro s0 r h _ _
    left
    exact ⟨⟨rfl, h.2⟩, shrunk_refl _, fun _ hc => absurd hc (List.not_mem_nil _),
      fun x hx _ => hx⟩
  | cons c rest ih =>
    intro s0 r h hnd hreg
    obtain ⟨h1, hng, hs1, e1, e2, e3⟩ :=
      ungroupWhile_spec c (r.s.m_groups.m_nodes.length + 1) h
        (Nat.lt_succ_of_le (above_le_length _ _))
    generalize hr1 : TimelineModel.ungroupWhile (r.s.m_groups.m_nodes.length + 1) c r.s r.undo
      r.redo = r1 at h1 hng hs1 e1 e2 e3
    have hloop : TimelineModel.trackDeletionLoop (c :: rest) r.s r.undo r.redo =
        if (TimelineModel.requestClipDeletionFun r1.s c r1.undo r1.redo).ok = false then
          { ok := false,
            s := ((TimelineModel.requestClipDeletionFun r1.s c r1.undo r1.redo).undo
              (TimelineModel.requestClipDeletionFun r1.s c r1.undo r1.redo).s).2,
            undo := (TimelineModel.requestClipDeletionFun r1.s c r1.undo r1.redo).undo,
            redo := (TimelineModel.requestClipDeletionFun r1.s c r1.undo r1.redo).redo }
        else TimelineModel.trackDeletionLoop rest
          (TimelineModel.requestClipDeletionFun r1.s c r1.undo r1.redo).s
          (TimelineModel.requestClipDeletionFun r1.s c r1.undo r1.redo).undo
          (TimelineModel.requestClipDeletionFun r1.s c r1.undo r1.redo).redo := by
      conv_lhs => unfold TimelineModel.trackDeletionLoop
      simp only [hr1, h1.1, if_true]
    rw [hloop]
    have hcreg : c ∈ r1.s.m_allClips := by rw [e1]; exact hreg c (List.mem_cons_self _ _)
    by_cases hm : (r1.s.clipObj c).m_currentTrackId ≠ -1 →
        c ∈ (r1.s.trackObj (r1.s.clipObj c).m_currentTrackId).m_allClips
    · obtain ⟨h2, es⟩ := transOK_clipDeletion h1 hcreg (root_of_ungrouped h1.2.1 hng) hm
      generalize TimelineModel.requestClipDeletionFun r1.s c r1.undo r1.redo = r2 at h2 es ⊢
      rw [if_neg (by rw [h2.1]; simp)]
      have hclips2 : r2.s.m_allClips = eraseKey c r.s.m_allClips := by
        rw [es, (clipDeleted_fields r1.s c).1, e1]
      have hs2 : Shrunk r.s r2.s := by
        rw [es]; exact shrunk_trans hs1 (shrunk_clipDeleted _ _)
      have hreg2 : ∀ x ∈ rest, x ∈ r2.s.m_allClips := by
        intro x hx
        rw [hclips2]
        exact mem_eraseKey.mpr ⟨hreg x (List.mem_cons_of_mem _ hx),
          fun e => (List.nodup_cons.mp hnd).1 (e ▸ hx)⟩
      rcases ih h2 (List.nodup_cons.mp hnd).2 hreg2 with ⟨a1, a2, a3, a4⟩ | ⟨b1, b2, x, hx, b3, b4⟩
      · left
        refine ⟨a1, shrunk_trans hs2 a2, ?_, ?_⟩
        · intro x hx
          rcases List.mem_cons.mp hx with e | hx'
          · subst e
            constructor
            · intro hin
              have := a2.clips _ hin
              rw [hclips2] at this
              exact (mem_eraseKey.mp this).2 rfl
            · rcases a2.links x with e' | e'
              · rw [e', es, (clipDeleted_fields r1.s x).2.1]
                show setAt r1.s.m_groups.m_upLink x (-1) x = -1
                simp [setAt]
              · exact e'
          · exact a3 x hx'
        · intro x hx hnl
          refine a4 x ?_ (fun hr => hnl (List.mem_cons_of_mem _ hr))
          rw [hclips2]
          exact mem_eraseKey.mpr ⟨hx, fun e => hnl (e ▸ List.mem_cons_self _ _)⟩
      · right
        refine ⟨b1, b2, x, List.mem_cons_of_mem _ hx, ?_⟩
        obtain ⟨k1, k2⟩ := hs2.kept x (hreg2 x hx)
        rw [k1] at b3 b4
        exact ⟨b3, fun hin => b4 (k2 _ hin)⟩
    · right
      have hm' : (r1.s.clipObj c).m_currentTrackId ≠ -1 ∧
          c ∉ (r1.s.trackObj (r1.s.clipObj c).m_currentTrackId).m_allClips := by
        by_contra hcon
        apply hm
        intro hT
        by_contra hnm
        exact hcon ⟨hT, hnm⟩
      rw [clipDeletion_fail r1.s r1.undo r1.redo hm'.1 hm'.2]
      refine ⟨rfl, (transOK_rollback h1).2, c, List.mem_cons_self _ _, ?_⟩
      rw [e2, e3] at hm'
      exact hm'

/-! ## Track deletion -/

theorem insertAt_eraseIdx {a : Int} : ∀ {l : List Int} {i : Nat}, l[i]? = some a →
    TimelineModel.insertAt i a (l.eraseIdx i) = l := by
  intro l
  induction l with
  | nil => intro i h; simp at h
  | cons b t ih =>
    intro i h
    cases i with
    | zero =>
      have e : b = a := by simpa using h
      subst e
      rfl
    | succ k =>
      have h' : t[k]? = some a := by simpa using h
      have := ih h'
      unfold TimelineModel.insertAt at this ⊢
      simp only [List.eraseIdx_cons_succ, List.take_succ_cons, List.drop_succ_cons,
        List.cons_append]
      rw [this]

theorem getElem?_indexOf {a : Int} {l : List Int} (h : a ∈ l) : l[l.indexOf a]? = some a := by
  have hlt := List.indexOf_lt_length.mpr h
  rw [List.getElem?_eq_getElem hlt]
  simp

/-- Registering a track again at the lane it had gives the state back. -/
theorem registerTrack_deregister {s : TimelineState} (ht : Tidy s) {t : Int}
    (hT : t ∈ s.m_iteratorTable) (v : Nat) :
    TimelineModel.registerTrack_lambda t (TimelineModel.getTrackPosition s t)
      ((TimelineModel.deregisterTrack_lambda t true s).2.withView v) = (true, s.withView (v + 1)) := by
  have hmem : t ∈ s.m_allTracks := ht.table_tracks t hT
  have hpos : ¬ ((List.indexOf t s.m_allTracks : Int) = -1) := by omega
  have e := TimelineState.eq_withView
    (x := (TimelineModel.registerTrack_lambda t (TimelineModel.getTrackPosition s t)
      ((TimelineModel.deregisterTrack_lambda t true s).2.withView v)).2) (s := s)
    rfl rfl rfl rfl rfl rfl ?_ ?_ ?_ rfl rfl rfl
  · exact Prod.ext rfl e
  · show TimelineModel.insertAt (if TimelineModel.getTrackPosition s t = -1 then _
        else TimelineModel.getTrackPosition s t).toNat t
      (s.m_allTracks.eraseIdx (TimelineModel.getTrackPosition s t).toNat) = _
    unfold TimelineModel.getTrackPosition
    rw [if_neg hpos, Int.toNat_ofNat]
    exact insertAt_eraseIdx (getElem?_indexOf hmem)
  · show insertKey t (eraseKey t s.m_iteratorTable) = _
    exact insertKey_eraseKey ht.table_sorted hT
  · show TimelineModel.insertAt ((if TimelineModel.getTrackPosition s t = -1 then _
        else TimelineModel.getTrackPosition s t) + 1).toNat t
      (s.m_tractor.eraseIdx (TimelineModel.getTrackPosition s t + 1).toNat) = _
    unfold TimelineModel.getTrackPosition
    rw [if_neg hpos]
    have e1 : ((List.indexOf t s.m_allTracks : Int) + 1).toNat = List.indexOf t s.m_allTracks + 1 := by
      omega
    rw [e1]
    refine insertAt_eraseIdx ?_
    rw [ht.tractor_eq]
    simpa using getElem?_indexOf hmem

theorem transOK_start {s : TimelineState} (ht : Tidy s) (hl : Lanes s) :
    TransOK s { ok := true, s := s, undo := noop, redo := noop } :=
  ⟨rfl, ht, hl, inverse_refl s, absorb_noop s, shrunk_refl s⟩

/-- `requestTrackDeletion(int, Fun &, Fun &)` on a track whose clips are
registered: either the loop over the clips goes through, the track is then
deregistered and the closures handed back lead back and forth, or the call
fails on a clip whose own track does not hold it, with the state it started
from and the closures it was given. -/
theorem trackDeletionFun_spec {s : TimelineState} (ht : Tidy s) (hl : Lanes s) {t : Int}
    (hreg : ∀ c ∈ (s.trackObj t).m_allClips, c ∈ s.m_allClips) (hT : t ∈ s.m_iteratorTable)
    {a : TimelineState} {undo redo : Fun} (hinv : Inverse a s undo redo) :
    ((TimelineModel.requestTrackDeletionFun s t undo redo).ok = true ∧
      TransOK s (TimelineModel.trackDeletionLoop (s.trackObj t).m_allClips s noop noop) ∧
      (∀ c ∈ (s.trackObj t).m_allClips,
        c ∉ (TimelineModel.trackDeletionLoop (s.trackObj t).m_allClips s noop noop).s.m_allClips ∧
        (TimelineModel.trackDeletionLoop (s.trackObj t).m_allClips s noop
          noop).s.m_groups.m_upLink c = -1) ∧
      (TimelineModel.requestTrackDeletionFun s t undo redo).s =
        (TimelineModel.deregisterTrack_lambda t true
          (TimelineModel.trackDeletionLoop (s.trackObj t).m_allClips s noop noop).s).2 ∧
      Inverse a (TimelineModel.requestTrackDeletionFun s t undo redo).s
        (TimelineModel.requestTrackDeletionFun s t undo redo).undo
        (TimelineModel.requestTrackDeletionFun s t undo redo).redo) ∨
    ((TimelineModel.requestTrackDeletionFun s t undo redo).ok = false ∧
      (∃ v, (TimelineModel.requestTrackDeletionFun s t undo redo).s = s.withView v) ∧
      (TimelineModel.requestTrackDeletionFun s t undo redo).undo = undo ∧
      (TimelineModel.requestTrackDeletionFun s t undo redo).redo = redo ∧
      ∃ c ∈ (s.trackObj t).m_allClips, (s.clipObj c).m_currentTrackId ≠ -1 ∧
        c ∉ (s.trackObj (s.clipObj c).m_currentTrackId).m_allClips) := by
  have hnd : (s.trackObj t).m_allClips.Nodup := (hl.sorted t).nodup
  rcases trackDeletionLoop_spec (s.trackObj t).m_allClips (transOK_start ht hl) hnd hreg with
    ⟨h1, h2, h3, _⟩ | ⟨b1, b2, b3⟩
  · left
    generalize hL : TimelineModel.trackDeletionLoop (s.trackObj t).m_allClips s noop noop = L
      at h1 h2 h3
    have hTL : t ∈ L.s.m_iteratorTable := by rw [h2.table]; exact hT
    have e : TimelineModel.requestTrackDeletionFun s t undo redo =
        { ok := true, s := (TimelineModel.deregisterTrack_lambda t true L.s).2,
          undo := (UPDATE_UNDO_REDO
            (UPDATE_UNDO_REDO (TimelineModel.deregisterTrack_lambda t true)
              (TimelineModel.registerTrack_lambda t (TimelineModel.getTrackPosition L.s t))
              L.undo L.redo).2
            (UPDATE_UNDO_REDO (TimelineModel.deregisterTrack_lambda t true)
              (TimelineModel.registerTrack_lambda t (TimelineModel.getTrackPosition L.s t))
              L.undo L.redo).1 undo redo).1,
          redo := (UPDATE_UNDO_REDO
            (UPDATE_UNDO_REDO (TimelineModel.deregisterTrack_lambda t true)
              (TimelineModel.registerTrack_lambda t (TimelineModel.getTrackPosition L.s t))
              L.undo L.redo).2
            (UPDATE_UNDO_REDO (TimelineModel.deregisterTrack_lambda t true)
              (TimelineModel.registerTrack_lambda t (TimelineModel.getTrackPosition L.s t))
              L.undo L.redo).1 undo redo).2 } := by
      unfold TimelineModel.requestTrackDeletionFun
      simp only [hL, h1.1, Bool.true_eq_false, if_false]
      rfl
    have hp : Inverse s (TimelineModel.deregisterTrack_lambda t true L.s).2
        (UPDATE_UNDO_REDO (TimelineModel.deregisterTrack_lambda t true)
          (TimelineModel.registerTrack_lambda t (TimelineModel.getTrackPosition L.s t))
          L.undo L.redo).1
        (UPDATE_UNDO_REDO (TimelineModel.deregisterTrack_lambda t true)
          (TimelineModel.registerTrack_lambda t (TimelineModel.getTrackPosition L.s t))
          L.undo L.redo).2 :=
      Inverse.step _ _ h1.2.2.2.1
        (fun v => ⟨v + 1, registerTrack_deregister h1.2.1 hTL v⟩) (fun v => ⟨v + 1, rfl⟩)
    rw [e]
    exact ⟨rfl, h1, h3, rfl, Inverse.step _ _ hinv hp.1 hp.2⟩
  · right
    have e : TimelineModel.requestTrackDeletionFun s t undo redo =
        { ok := false,
          s := (TimelineModel.trackDeletionLoop (s.trackObj t).m_allClips s noop noop).s,
          undo := undo, redo := redo } := by
      unfold TimelineModel.requestTrackDeletionFun
      have b1' : (TimelineModel.trackDeletionLoop (s.trackObj t).m_allClips s noop noop).ok
          = false := b1
      simp only [b1', if_true]
    rw [e]
    exact ⟨rfl, b2, rfl, rfl, b3⟩

/-- What `deregisterTrack_lambda` leaves of a registered track. -/
theorem deregisterTrack_fields {s : TimelineState} (ht : Tidy s) {t : Int}
    (hT : t ∈ s.m_iteratorTable) :
    TimelineModel.isTrack (TimelineModel.deregisterTrack_lambda t true s).2 t = false ∧
    (TimelineModel.deregisterTrack_lambda t true s).2.m_allTracks = s.m_allTracks.erase t ∧
    TimelineModel.getTracksCount (TimelineModel.deregisterTrack_lambda t true s).2 =
      TimelineModel.getTracksCount s - 1 := by
  have hmem : t ∈ s.m_allTracks := ht.table_tracks t hT
  have hlt := List.indexOf_lt_length.mpr hmem
  refine ⟨?_, ?_, ?_⟩
  · unfold TimelineModel.isTrack
    show decide (t ∈ eraseKey t s.m_iteratorTable) = false
    simp [mem_eraseKey]
  · show s.m_allTracks.eraseIdx (TimelineModel.getTrackPosition s t).toNat = _
    unfold TimelineModel.getTrackPosition
    rw [Int.toNat_ofNat, List.eraseIdx_indexOf_eq_erase]
  · unfold TimelineModel.getTracksCount
    show ((s.m_tractor.eraseIdx (TimelineModel.getTrackPosition s t + 1).toNat).length : Int) - 1 = _
    unfold TimelineModel.getTrackPosition
    have e1 : ((List.indexOf t s.m_allTracks : Int) + 1).toNat = List.indexOf t s.m_allTracks + 1 := by
      omega
    rw [e1, List.length_eraseIdx_of_lt (by rw [ht.tractor_eq, List.length_cons]; omega),
      ht.tractor_eq, List.length_cons]
    omega

/-- `requestTrackDeletion(int)` on a track whose clips are registered: either
it succeeds, the track is deregistered after the loop over its clips, one
command is pushed and undoing it gives the starting state; or it fails on a
clip whose own track does not hold it, and neither the state nor the stack has
changed. -/
theorem trackDeletion_request_spec (m : TimelineModel) {t : Int} (ht : Tidy m.st)
    (hl : Lanes m.st) (hreg : ∀ c ∈ (m.st.trackObj t).m_allClips, c ∈ m.st.m_allClips)
    (hT : t ∈ m.st.m_iteratorTable) :
    ((TimelineModel.requestTrackDeletion m t).1 = true ∧
      (∃ cmd, (TimelineModel.requestTrackDeletion m t).2.m_undoStack.m_done =
        cmd :: m.m_undoStack.m_done) ∧
      (TimelineModel.requestTrackDeletion m t).2.st =
        (TimelineModel.deregisterTrack_lambda t true
          (TimelineModel.trackDeletionLoop (m.st.trackObj t).m_allClips m.st noop noop).s).2 ∧
      TransOK m.st (TimelineModel.trackDeletionLoop (m.st.trackObj t).m_allClips m.st noop noop) ∧
      (∀ c ∈ (m.st.trackObj t).m_allClips,
        c ∉ (TimelineModel.trackDeletionLoop (m.st.trackObj t).m_allClips m.st noop
          noop).s.m_allClips ∧
        (TimelineModel.trackDeletionLoop (m.st.trackObj t).m_allClips m.st noop
          noop).s.m_groups.m_upLink c = -1) ∧
      ∃ v, (TimelineModel.undo (TimelineModel.requestTrackDeletion m t).2).st =
        m.st.withView v) ∨
    ((TimelineModel.requestTrackDeletion m t).1 = false ∧
      (∃ v, (TimelineModel.requestTrackDeletion m t).2.st = m.st.withView v) ∧
      (TimelineModel.requestTrackDeletion m t).2.m_undoStack = m.m_undoStack ∧
      ∃ c ∈ (m.st.trackObj t).m_allClips, (m.st.clipObj c).m_currentTrackId ≠ -1 ∧
        c ∉ (m.st.trackObj (m.st.clipObj c).m_currentTrackId).m_allClips) := by
  rcases trackDeletionFun_spec ht hl hreg hT (inverse_refl m.st) with
    ⟨a1, a2, a3, a4, a5⟩ | ⟨b1, b2, _, _, b5⟩
  · left
    have e : TimelineModel.requestTrackDeletion m t =
        (true, PUSH_UNDO m (TimelineModel.requestTrackDeletionFun m.st t noop noop).s
          (TimelineModel.requestTrackDeletionFun m.st t noop noop).undo
          (TimelineModel.requestTrackDeletionFun m.st t noop noop).redo) := by
      unfold TimelineModel.requestTrackDeletion
      simp only [a1, if_true]
    rw [e]
    refine ⟨rfl, ⟨_, rfl⟩, a4, a2, a3, ?_⟩
    obtain ⟨v, hv⟩ := a5.1 (TimelineModel.requestTrackDeletionFun m.st t noop noop).s.viewNotifications
    rw [withView_self] at hv
    exact ⟨v, by
      show ((TimelineModel.requestTrackDeletionFun m.st t noop noop).undo
        (TimelineModel.requestTrackDeletionFun m.st t noop noop).s).2 = _
      rw [hv]⟩
  · right
    have e : TimelineModel.requestTrackDeletion m t =
        (false, { m with st := (TimelineModel.requestTrackDeletionFun m.st t noop noop).s }) := by
      unfold TimelineModel.requestTrackDeletion
      simp only [b1, Bool.false_eq_true, if_false]
    rw [e]
    exact ⟨rfl, b2, rfl, b5⟩

theorem scenarioC_reachable : Reachable scenarioBin noSnap scenarioC :=
  reachable_runAll _ Reachable.init (by decide)

theorem scenarioC_uplink : scenarioC.st.m_groups.m_upLink =
    fun n => if n ∈ [3, 4] then 6 else if n = 6 then -1
      else setAt (setAt (setAt (fun _ => -1) 3 (-1)) 4 (-1)) 5 (-1) n := rfl

theorem scenarioC_tidy : Tidy scenarioC.st := by
  refine ⟨by decide, by decide, by decide, by decide, by decide, by decide, by decide,
    by decide, ?_, by decide⟩
  intro n hn
  rw [scenarioC_uplink] at hn ⊢
  by_cases h : n ∈ [3, 4]
  · simp only [h, if_true]
    have h' : n = 3 ∨ n = 4 := by simpa using h
    rcases h' with e | e <;> subst e <;> decide
  · exfalso
    apply hn
    simp only [h, if_false]
    unfold setAt
    split
    · rfl
    · split_ifs <;> rfl

/-- C14: after a successful `requestTrackDeletion(t)` on a registered track whose
clips are registered, `t` is no longer a track, every clip that was on `t` is
deregistered and in no group, the count of tracks is one less and the sequence
of tracks is the old one without `t`; one command has been pushed, and undoing
it gives the model of before the call (up to the notifications sent to the
view): `t` is a track at its old lane, every clip that was on `t` is registered,
on `t`, at its old position with its old playtime, and the group forest is the
old one. -/
theorem C14_requestTrackDeletion_effect_and_undo (m : TimelineModel) (t : Int)
    (ht : Tidy m.st) (hl : Lanes m.st)
    (hreg : ∀ c ∈ (m.st.trackObj t).m_allClips, c ∈ m.st.m_allClips)
    (hT : TimelineModel.isTrack m.st t = true)
    (hok : (TimelineModel.requestTrackDeletion m t).1 = true) :
    TimelineModel.isTrack (TimelineModel.requestTrackDeletion m t).2.st t = false ∧
    (∀ c ∈ (m.st.trackObj t).m_allClips,
      TimelineModel.isClip (TimelineModel.requestTrackDeletion m t).2.st c = false ∧
      (TimelineModel.requestTrackDeletion m t).2.st.m_groups.isInGroup c = false) ∧
    TimelineModel.getTracksCount (TimelineModel.requestTrackDeletion m t).2.st =
      TimelineModel.getTracksCount m.st - 1 ∧
    (TimelineModel.requestTrackDeletion m t).2.st.m_allTracks = m.st.m_allTracks.erase t ∧
    (∃ cmd, (TimelineModel.requestTrackDeletion m t).2.m_undoStack.m_done =
      cmd :: m.m_undoStack.m_done) ∧
    SameModel m.st (TimelineModel.undo (TimelineModel.requestTrackDeletion m t).2).st ∧
    TimelineModel.isTrack (TimelineModel.undo (TimelineModel.requestTrackDeletion m t).2).st t
      = true ∧
    TimelineModel.getTrackPosition (TimelineModel.undo (TimelineModel.requestTrackDeletion m t).2).st
      t = TimelineModel.getTrackPosition m.st t ∧
    (∀ c ∈ (m.st.trackObj t).m_allClips,
      TimelineModel.isClip (TimelineModel.undo (TimelineModel.requestTrackDeletion m t).2).st c
        = true ∧
      c ∈ ((TimelineModel.undo (TimelineModel.requestTrackDeletion m t).2).st.trackObj t).m_allClips ∧
      TimelineModel.getClipPosition (TimelineModel.undo (TimelineModel.requestTrackDeletion m t).2).st
        c = TimelineModel.getClipPosition m.st c ∧
      TimelineModel.getClipPlaytime (TimelineModel.undo (TimelineModel.requestTrackDeletion m t).2).st
        c = TimelineModel.getClipPlaytime m.st c) ∧
    (TimelineModel.undo (TimelineModel.requestTrackDeletion m t).2).st.m_groups = m.st.m_groups := by
  have hT' : t ∈ m.st.m_iteratorTable := by
    unfold TimelineModel.isTrack at hT
    simpa using hT
  rcases trackDeletion_request_spec m ht hl hreg hT' with
    ⟨_, a2, a3, a4, a5, v, a6⟩ | ⟨b1, _⟩
  · have hTL : t ∈ (TimelineModel.trackDeletionLoop (m.st.trackObj t).m_allClips m.st noop
        noop).s.m_iteratorTable := by
      rw [a4.2.2.2.2.2.table]; exact hT'
    obtain ⟨f1, f2, f3⟩ := deregisterTrack_fields a4.2.1 hTL
    rw [a6, a3]
    refine ⟨f1, ?_, ?_, ?_, a2, rfl, hT, rfl, ?_, rfl⟩
    · intro c hc
      obtain ⟨g1, g2⟩ := a5 c hc
      exact ⟨by unfold TimelineModel.isClip; simpa using g1, not_inGroup_of_root _ g2⟩
    · rw [f3]
      unfold TimelineModel.getTracksCount
      rw [a4.2.2.2.2.2.tractor]
    · rw [f2, a4.2.2.2.2.2.tracks]
    · intro c hc
      exact ⟨by unfold TimelineModel.isClip; simpa using hreg c hc, hc, rfl, rfl⟩
  · rw [b1] at hok
    exact absurd hok (by simp)

/-- C14 on scenario C: the middle track holds three clips, two of them grouped;
the deletion succeeds, dissolves the group and deregisters the clips, and the
undo restores the track, its clips and their group. -/
theorem C14_witness :
    (TimelineModel.isTrack scenarioC.st 1 = true ∧
      (scenarioC.st.trackObj 1).m_allClips = [3, 4, 5] ∧
      scenarioC.st.m_groups.getRootId 3 = 6 ∧ scenarioC.st.m_groups.getRootId 4 = 6 ∧
      scenarioC.st.m_groups.isInGroup 5 = false ∧
      (TimelineModel.requestTrackDeletion scenarioC 1).1 = true) ∧
    TimelineModel.isTrack (TimelineModel.requestTrackDeletion scenarioC 1).2.st 1 = false ∧
    (∀ c ∈ (scenarioC.st.trackObj 1).m_allClips,
      TimelineModel.isClip (TimelineModel.requestTrackDeletion scenarioC 1).2.st c = false ∧
      (TimelineModel.requestTrackDeletion scenarioC 1).2.st.m_groups.isInGroup c = false) ∧
    TimelineModel.getTracksCount (TimelineModel.requestTrackDeletion scenarioC 1).2.st =
      TimelineModel.getTracksCount scenarioC.st - 1 ∧
    (TimelineModel.requestTrackDeletion scenarioC 1).2.st.m_allTracks =
      scenarioC.st.m_allTracks.erase 1 ∧
    (∃ cmd, (TimelineModel.requestTrackDeletion scenarioC 1).2.m_undoStack.m_done =
      cmd :: scenarioC.m_undoStack.m_done) ∧
    SameModel scenarioC.st
      (TimelineModel.undo (TimelineModel.requestTrackDeletion scenarioC 1).2).st ∧
    TimelineModel.isTrack
      (TimelineModel.undo (TimelineModel.requestTrackDeletion scenarioC 1).2).st 1 = true ∧
    TimelineModel.getTrackPosition
      (TimelineModel.undo (TimelineModel.requestTrackDeletion scenarioC 1).2).st 1 =
      TimelineModel.getTrackPosition scenarioC.st 1 ∧
    (∀ c ∈ (scenarioC.st.trackObj 1).m_allClips,
      TimelineModel.isClip
        (TimelineModel.undo (TimelineModel.requestTrackDeletion scenarioC 1).2).st c = true ∧
      c ∈ ((TimelineModel.undo
        (TimelineModel.requestTrackDeletion scenarioC 1).2).st.trackObj 1).m_allClips ∧
      TimelineModel.getClipPosition
        (TimelineModel.undo (TimelineModel.requestTrackDeletion scenarioC 1).2).st c =
        TimelineModel.getClipPosition scenarioC.st c ∧
      TimelineModel.getClipPlaytime
        (TimelineModel.undo (TimelineModel.requestTrackDeletion scenarioC 1).2).st c =
        TimelineModel.getClipPlaytime scenarioC.st c) ∧
    (TimelineModel.undo (TimelineModel.requestTrackDeletion scenarioC 1).2).st.m_groups =
      scenarioC.st.m_groups :=
  ⟨⟨by decide, by decide, by decide, by decide, by decide, by decide⟩,
    C14_requestTrackDeletion_effect_and_undo scenarioC 1 scenarioC_tidy
      (lanes_of_consistent (stackOK_of_reachable scenarioC_reachable).1) (by decide) (by decide)
      (by decide)⟩

/-- On a consistent model the deletion of a registered track whose clips are
registered goes through. -/
theorem trackDeletion_succeeds (m : TimelineModel) {t : Int} (hc : Consistent m.st)
    (ht : Tidy m.st) (hreg : ∀ c ∈ (m.st.trackObj t).m_allClips, c ∈ m.st.m_allClips)
    (hT : t ∈ m.st.m_iteratorTable) : (TimelineModel.requestTrackDeletion m t).1 = true := by
  rcases trackDeletion_request_spec m ht (lanes_of_consistent hc) hreg hT with
    ⟨a1, _⟩ | ⟨_, _, _, c, _, b1, b2⟩
  · exact a1
  · exact absurd (hc.track_member c b1) b2

theorem scenarioDesync_tidy : Tidy scenarioDesync.st :=
  ⟨scenarioC_tidy.tractor_eq, scenarioC_tidy.table_sorted, scenarioC_tidy.table_tracks,
    scenarioC_tidy.clips_sorted, scenarioC_tidy.nodes_sorted, scenarioC_tidy.groups_sorted,
    scenarioC_tidy.clips_nodes, scenarioC_tidy.clips_not_groups, scenarioC_tidy.parent,
    scenarioC_tidy.nodes_nonneg⟩

theorem scenarioDesync_lanes : Lanes scenarioDesync.st := by
  have h := lanes_of_consistent (stackOK_of_reachable scenarioC_reachable).1
  refine ⟨h.sorted, ?_⟩
  intro T a ha b hb hab
  have e : ∀ x, (scenarioDesync.st.clipObj x).m_position = (scenarioC.st.clipObj x).m_position ∧
      (scenarioDesync.st.clipObj x).m_playtime = (scenarioC.st.clipObj x).m_playtime := by
    intro x
    show (setAt scenarioC.st.clipObj 4 _ x).m_position = _ ∧
      (setAt scenarioC.st.clipObj 4 _ x).m_playtime = _
    unfold setAt
    split
    · rename_i e; rw [e]; exact ⟨rfl, rfl⟩
    · exact ⟨rfl, rfl⟩
  rw [(e a).1, (e a).2, (e b).1, (e b).2]
  exact h.disjoint T a ha b hb hab

/-- The state `requestTrackDeletion` gives back when its loop fails.  On a track
whose clips are registered, if the loop that ungroups and deletes the clips of
the track fails on some clip, then both overloads return false, the state is
the one of before the call (up to the notifications sent to the view), the
overload with accumulators hands back the closures it was given, and nothing is
pushed on the undo stack.  From a consistent store the loop does not fail
(`trackDeletion_succeeds`). -/
theorem trackDeletion_failure_state (m : TimelineModel) (t : Int) (undo redo : Fun)
    (ht : Tidy m.st) (hl : Lanes m.st)
    (hreg : ∀ c ∈ (m.st.trackObj t).m_allClips, c ∈ m.st.m_allClips)
    (hfail : (TimelineModel.trackDeletionLoop (m.st.trackObj t).m_allClips m.st noop noop).ok
      = false) :
    (TimelineModel.requestTrackDeletionFun m.st t undo redo).ok = false ∧
    SameModel m.st (TimelineModel.requestTrackDeletionFun m.st t undo redo).s ∧
    (TimelineModel.requestTrackDeletionFun m.st t undo redo).undo = undo ∧
    (TimelineModel.requestTrackDeletionFun m.st t undo redo).redo = redo ∧
    (TimelineModel.requestTrackDeletion m t).1 = false ∧
    SameModel m.st (TimelineModel.requestTrackDeletion m t).2.st ∧
    (TimelineModel.requestTrackDeletion m t).2.m_undoStack = m.m_undoStack := by
  have hnd : (m.st.trackObj t).m_allClips.Nodup := (hl.sorted t).nodup
  have e1 : ∀ u r, TimelineModel.requestTrackDeletionFun m.st t u r =
      { ok := false,
        s := (TimelineModel.trackDeletionLoop (m.st.trackObj t).m_allClips m.st noop noop).s,
        undo := u, redo := r } := by
    intro u r
    unfold TimelineModel.requestTrackDeletionFun
    simp only [hfail, if_true]
  have e2 : TimelineModel.requestTrackDeletion m t =
      (false, { m with st :=
        (TimelineModel.trackDeletionLoop (m.st.trackObj t).m_allClips m.st noop noop).s }) := by
    unfold TimelineModel.requestTrackDeletion
    rw [e1]
    simp only [Bool.false_eq_true, if_false]
  rcases trackDeletionLoop_spec (m.st.trackObj t).m_allClips (transOK_start ht hl) hnd hreg with
    ⟨a1, _⟩ | ⟨_, ⟨v, b2⟩, _⟩
  · have : (TimelineModel.trackDeletionLoop (m.st.trackObj t).m_allClips m.st noop noop).ok
        = true := a1.1
    rw [hfail] at this
    exact absurd this (by simp)
  · have b2' : (TimelineModel.trackDeletionLoop (m.st.trackObj t).m_allClips m.st noop noop).s
        = m.st.withView v := b2
    have hs : SameModel m.st
        (TimelineModel.trackDeletionLoop (m.st.trackObj t).m_allClips m.st noop noop).s := by
      rw [b2']; rfl
    rw [e1, e2]
    exact ⟨rfl, hs, rfl, rfl, rfl, hs, rfl⟩

/-- The failing iteration of the loop of `requestTrackDeletion` and the loop:
the loop fails exactly when an iteration does, and then its state is the one
the second `local_undo()` leaves. -/
theorem trackDeletionLoop_failing (l : List Int) :
    ∀ (s : TimelineState) (undo redo : Fun),
      (TimelineModel.trackDeletionFailing l s undo redo = none ∧
        (TimelineModel.trackDeletionLoop l s undo redo).ok = true) ∨
      (∃ r : Res, TimelineModel.trackDeletionFailing l s undo redo = some r ∧ r.ok = false ∧
        TimelineModel.trackDeletionLoop l s undo redo =
          { ok := false, s := (r.undo r.s).2, undo := r.undo, redo := r.redo }) := by
  induction l with
  | nil =>
    intro s undo redo
    exact Or.inl ⟨rfl, rfl⟩
  | cons clip rest ih =>
    intro s undo redo
    unfold TimelineModel.trackDeletionFailing TimelineModel.trackDeletionLoop
    dsimp only
    generalize (if (TimelineModel.ungroupWhile (s.m_groups.m_nodes.length + 1) clip s undo
        redo).ok = true then
      TimelineModel.requestClipDeletionFun
        (TimelineModel.ungroupWhile (s.m_groups.m_nodes.length + 1) clip s undo redo).s clip
        (TimelineModel.ungroupWhile (s.m_groups.m_nodes.length + 1) clip s undo redo).undo
        (TimelineModel.ungroupWhile (s.m_groups.m_nodes.length + 1) clip s undo redo).redo
      else TimelineModel.ungroupWhile (s.m_groups.m_nodes.length + 1) clip s undo redo) = r2
    by_cases h : r2.ok = false
    · rw [if_pos h, if_pos h]
      exact Or.inr ⟨r2, rfl, h, rfl⟩
    · rw [if_neg h, if_neg h]
      exact ih r2.s r2.undo r2.redo

/-- The state after the failing deletion on the desynchronised copy of scenario
C: the second run of the undo leaves the state of before the call, and nothing
is pushed. -/
theorem trackDeletion_failure_scenarioDesync :
    ((TimelineModel.trackDeletionLoop (scenarioDesync.st.trackObj 1).m_allClips scenarioDesync.st
        noop noop).ok = false ∧
      (scenarioDesync.st.trackObj 1).m_allClips = [3, 4, 5]) ∧
    (TimelineModel.requestTrackDeletionFun scenarioDesync.st 1 noop noop).ok = false ∧
    SameModel scenarioDesync.st
      (TimelineModel.requestTrackDeletionFun scenarioDesync.st 1 noop noop).s ∧
    (TimelineModel.requestTrackDeletionFun scenarioDesync.st 1 noop noop).undo = noop ∧
    (TimelineModel.requestTrackDeletionFun scenarioDesync.st 1 noop noop).redo = noop ∧
    (TimelineModel.requestTrackDeletion scenarioDesync 1).1 = false ∧
    SameModel scenarioDesync.st (TimelineModel.requestTrackDeletion scenarioDesync 1).2.st ∧
    (TimelineModel.requestTrackDeletion scenarioDesync 1).2.m_undoStack =
      scenarioDesync.m_undoStack :=
  ⟨⟨by decide, by decide⟩,
    trackDeletion_failure_state scenarioDesync 1 noop noop scenarioDesync_tidy
      scenarioDesync_lanes (by decide) (by decide)⟩

/-! ## Group deletion -/

/-- A child of a node without parent has that node as root. -/
theorem getRootId_of_child {s : TimelineState} (h : Tidy s) {n q : Int}
    (hu : s.m_groups.m_upLink n = q) (hq : q ≠ -1) (hroot : s.m_groups.m_upLink q = -1) :
    s.m_groups.getRootId n = q ∧ s.m_groups.isInGroup n = true := by
  have hn : s.m_groups.m_upLink n ≠ -1 := by rw [hu]; exact hq
  obtain ⟨hmem, _, _, hlt⟩ := h.parent n hn
  have e : s.m_groups.getRootId n = q := by
    unfold GroupsModel.getRootId
    cases hlen : s.m_groups.m_nodes.length with
    | zero =>
      have := List.length_pos_of_mem hmem
      omega
    | succ k =>
      unfold GroupsModel.rootFrom
      rw [if_neg hn, hu]
      cases k with
      | zero => rfl
      | succ j => unfold GroupsModel.rootFrom; rw [if_pos hroot]
  refine ⟨e, ?_⟩
  unfold GroupsModel.isInGroup
  rw [e]
  rw [hu] at hlt
  simp only [bne_iff_ne, ne_eq]
  omega

/-- What the scan of the children of a group collects. -/
theorem scanChildren_spec (s : TimelineState) : ∀ (C A : List Int) (o : Int) (Q : List Int),
    (∀ x, x ∈ (TimelineModel.scanChildren s C A o Q).1 ↔
      x ∈ A ∨ (x ∈ C ∧ x ∈ s.m_allClips)) ∧
    (A.Sorted (· < ·) → (TimelineModel.scanChildren s C A o Q).1.Sorted (· < ·)) ∧
    (TimelineModel.scanChildren s C A o Q).2.2 =
      Q ++ C.filter (fun c => !TimelineModel.isClip s c) ∧
    (C ≠ [] → (TimelineModel.scanChildren s C A o Q).2.1 ∈ C) := by
  intro C
  induction C with
  | nil =>
    intro A o Q
    unfold TimelineModel.scanChildren
    simp
  | cons c cs ih =>
    intro A o Q
    unfold TimelineModel.scanChildren
    by_cases hc : TimelineModel.isClip s c = true
    · rw [if_pos hc]
      obtain ⟨i1, i2, i3, i4⟩ := ih (insertKey c A) c Q
      have hc' : c ∈ s.m_allClips := by
        unfold TimelineModel.isClip at hc; simpa using hc
      refine ⟨?_, fun hA => i2 (sorted_insertKey hA), ?_, ?_⟩
      · intro x
        rw [i1, mem_insertKey]
        constructor
        · rintro ((e | h) | ⟨h1, h2⟩)
          · exact Or.inr ⟨e ▸ List.mem_cons_self _ _, e ▸ hc'⟩
          · exact Or.inl h
          · exact Or.inr ⟨List.mem_cons_of_mem _ h1, h2⟩
        · rintro (h | ⟨h1, h2⟩)
          · exact Or.inl (Or.inr h)
          · rcases List.mem_cons.mp h1 with e | h1'
            · exact Or.inl (Or.inl e)
            · exact Or.inr ⟨h1', h2⟩
      · rw [i3]
        simp [hc]
      · intro _
        by_cases hcs : cs = []
        · subst hcs
          unfold TimelineModel.scanChildren
          exact List.mem_cons_self _ _
        · exact List.mem_cons_of_mem _ (i4 hcs)
    · rw [if_neg hc]
      obtain ⟨i1, i2, i3, i4⟩ := ih A c (Q ++ [c])
      have hc' : c ∉ s.m_allClips := by
        unfold TimelineModel.isClip at hc; simpa using hc
      refine ⟨?_, i2, ?_, ?_⟩
      · intro x
        rw [i1]
        constructor
        · rintro (h | ⟨h1, h2⟩)
          · exact Or.inl h
          · exact Or.inr ⟨List.mem_cons_of_mem _ h1, h2⟩
        · rintro (h | ⟨h1, h2⟩)
          · exact Or.inl h
          · rcases List.mem_cons.mp h1 with e | h1'
            · exact absurd (e ▸ h2) hc'
            · exact Or.inr ⟨h1', h2⟩
      · rw [i3]
        simp [hc]
      · intro _
        by_cases hcs : cs = []
        · subst hcs
          unfold TimelineModel.scanChildren
          exact List.mem_cons_self _ _
        · exact List.mem_cons_of_mem _ (i4 hcs)

theorem under_of_below (g : GroupsModel) (top : Int) : ∀ (fuel : Nat) (n : Int),
    g.below top fuel n = true → Under g.m_upLink top n := by
  intro fuel
  induction fuel with
  | zero =>
    intro n h
    unfold GroupsModel.below at h
    have e : n = top := by simpa using h
    rw [e]; exact Under.self
  | succ k ih =>
    intro n h
    unfold GroupsModel.below at h
    simp only [Bool.or_eq_true, beq_iff_eq, Bool.and_eq_true, bne_iff_ne, ne_eq] at h
    rcases h with e | ⟨h1, h2⟩
    · rw [e]; exact Under.self
    · exact Under.step n h1 (ih _ h2)

theorem below_of_under {s : TimelineState} (h : Tidy s) (top : Int) : ∀ (fuel : Nat) (n : Int),
    s.m_groups.above n ≤ fuel → Under s.m_groups.m_upLink top n →
    s.m_groups.below top fuel n = true := by
  intro fuel
  induction fuel with
  | zero =>
    intro n hf hu
    unfold GroupsModel.below
    cases hu with
    | self => simp
    | step _ hne _ =>
      have := above_parent_lt h hne
      omega
  | succ k ih =>
    intro n hf hu
    unfold GroupsModel.below
    cases hu with
    | self => simp
    | step _ hne hu' =>
      have := above_parent_lt h hne
      simp only [Bool.or_eq_true, beq_iff_eq, Bool.and_eq_true, bne_iff_ne, ne_eq]
      exact Or.inr ⟨hne, ih _ (by omega) hu'⟩

theorem mem_getDirectChildren (g : GroupsModel) (q x : Int) :
    x ∈ g.getDirectChildren q ↔ x ∈ g.m_nodes ∧ g.m_upLink x = q := by
  unfold GroupsModel.getDirectChildren
  simp [List.mem_filter]

theorem destructGroup_nodes (s : TimelineState) (q n : Int) :
    n ∈ (GroupsModel.destructGroupItem_lambda q s).2.m_groups.m_nodes ↔
      n ∈ s.m_groups.m_nodes ∧ n ≠ q :=
  mem_eraseKey

theorem destructGroup_groups (s : TimelineState) (q n : Int) :
    n ∈ (GroupsModel.destructGroupItem_lambda q s).2.m_allGroups ↔
      n ∈ s.m_allGroups ∧ n ≠ q :=
  mem_eraseKey

theorem destructGroup_up (s : TimelineState) (q n : Int) :
    (GroupsModel.destructGroupItem_lambda q s).2.m_groups.m_upLink n =
      if n = q ∨ s.m_groups.m_upLink n = q then -1 else s.m_groups.m_upLink n := rfl

/-- One round of the exploration: the group at the head of the queue has a
child, `ungroupItem` on the last child removes that group, and the exploration
goes on with the clips and groups found among the children. -/
theorem bfs_step {s0 : TimelineState} {R : Int} (hf : GroupsFull s0) {r : Res}
    (h : TransOK s0 r) {q : Int} {Q A : List Int} (hb : BFS s0 R r.s (q :: Q) A) :
    (TimelineModel.scanChildren r.s (r.s.m_groups.getDirectChildren q) A (-1) Q).2.1 ≠ -1 ∧
    TransOK s0 (GroupsModel.ungroupItem r.s
      (TimelineModel.scanChildren r.s (r.s.m_groups.getDirectChildren q) A (-1) Q).2.1
      r.undo r.redo) ∧
    BFS s0 R (GroupsModel.ungroupItem r.s
      (TimelineModel.scanChildren r.s (r.s.m_groups.getDirectChildren q) A (-1) Q).2.1
      r.undo r.redo).s
      (TimelineModel.scanChildren r.s (r.s.m_groups.getDirectChildren q) A (-1) Q).2.2
      (TimelineModel.scanChildren r.s (r.s.m_groups.getDirectChildren q) A (-1) Q).1 ∧
    (GroupsModel.ungroupItem r.s
      (TimelineModel.scanChildren r.s (r.s.m_groups.getDirectChildren q) A (-1) Q).2.1
      r.undo r.redo).s.m_groups.m_nodes.length + 1 = r.s.m_groups.m_nodes.length := by
  have ht : Tidy r.s := h.2.1
  have hs : Shrunk s0 r.s := h.2.2.2.2.2
  obtain ⟨hqg, hqn, hqroot, hqu⟩ := hb.queue q (List.mem_cons_self _ _)
  have hq1 : q ≠ -1 := by
    have := ht.nodes_nonneg q hqn
    omega
  have hC : r.s.m_groups.getDirectChildren q ≠ [] := by
    obtain ⟨n, hn⟩ := List.exists_mem_of_ne_nil _ (hf.full q (hs.groups q hqg))
    rw [mem_getDirectChildren] at hn
    have hup : r.s.m_groups.m_upLink n = q := by
      have := hb.alive n (by rw [hn.2]; exact hq1) (by rw [hn.2]; exact hqn)
      rw [this, hn.2]
    intro e
    have hmem : n ∈ r.s.m_groups.getDirectChildren q := by
      rw [mem_getDirectChildren]
      exact ⟨(ht.parent n (by rw [hup]; exact hq1)).1, hup⟩
    rw [e] at hmem
    exact absurd hmem (List.not_mem_nil _)
  obtain ⟨i1, i2, i3, i4⟩ := scanChildren_spec r.s (r.s.m_groups.getDirectChildren q) A (-1) Q
  generalize TimelineModel.scanChildren r.s (r.s.m_groups.getDirectChildren q) A (-1) Q = sc
    at i1 i2 i3 i4 ⊢
  have hone := (mem_getDirectChildren _ _ _).mp (i4 hC)
  have hone1 : sc.2.1 ≠ -1 := by
    have := ht.nodes_nonneg _ hone.1
    omega
  obtain ⟨hroot, hin⟩ := getRootId_of_child ht hone.2 hq1 hqroot
  obtain ⟨h', e⟩ := transOK_ungroup h hin
  rw [hroot] at e
  refine ⟨hone1, h', ?_, ?_⟩
  · rw [e]
    constructor
    · -- root
      rcases hb.root with hR | hR
      · rcases List.mem_cons.mp hR with e' | hR'
        · right
          rw [destructGroup_nodes]
          exact fun hcon => hcon.2 e'
        · left
          rw [i3]
          exact List.mem_append_left _ hR'
      · right
        rw [destructGroup_nodes]
        exact fun hcon => hR hcon.1
    · -- reach
      intro n hu hne hgone
      rw [destructGroup_nodes] at hgone
      by_cases hp : s0.m_groups.m_upLink n ∈ r.s.m_groups.m_nodes
      · have hpq : s0.m_groups.m_upLink n = q := by
          by_contra hcon
          exact hgone ⟨hp, hcon⟩
        have hup : r.s.m_groups.m_upLink n = q := by
          rw [hb.alive n hne hp, hpq]
        have hnC : n ∈ r.s.m_groups.getDirectChildren q := by
          rw [mem_getDirectChildren]
          exact ⟨(ht.parent n (by rw [hup]; exact hq1)).1, hup⟩
        constructor
        · intro hc
          rw [i1]
          exact Or.inr ⟨hnC, by rw [hb.frame.1]; exact hc⟩
        · intro hc
          left
          rw [i3]
          refine List.mem_append_right _ (List.mem_filter.mpr ⟨hnC, ?_⟩)
          unfold TimelineModel.isClip
          rw [hb.frame.1]
          simpa using hc
      · obtain ⟨o1, o2⟩ := hb.reach n hu hne hp
        constructor
        · intro hc
          rw [i1]
          exact Or.inl (o1 hc)
        · intro hc
          rcases o2 hc with o | o
          · rcases List.mem_cons.mp o with e' | o'
            · right
              rw [destructGroup_nodes]
              exact fun hcon => hcon.2 e'
            · left
              rw [i3]
              exact List.mem_append_left _ o'
          · right
            rw [destructGroup_nodes]
            exact fun hcon => o hcon.1
    · -- queue
      intro x hx
      rw [i3] at hx
      rcases List.mem_append.mp hx with hx' | hx'
      · obtain ⟨a1, a2, a3, a4⟩ := hb.queue x (List.mem_cons_of_mem _ hx')
        have hxq : x ≠ q := by
          intro e'
          exact (List.nodup_cons.mp hb.queue_nodup).1 (e' ▸ hx')
        refine ⟨(destructGroup_groups _ _ _).mpr ⟨a1, hxq⟩,
          (destructGroup_nodes _ _ _).mpr ⟨a2, hxq⟩, ?_, a4⟩
        rw [destructGroup_up]
        split
        · rfl
        · exact a3
      · obtain ⟨hxC, hxc⟩ := List.mem_filter.mp hx'
        rw [mem_getDirectChildren] at hxC
        have hxne : r.s.m_groups.m_upLink x ≠ -1 := by rw [hxC.2]; exact hq1
        have hxq : x ≠ q := by
          have := (ht.parent x hxne).2.2.2
          rw [hxC.2] at this
          omega
        have hx0 : s0.m_groups.m_upLink x = q := by
          rcases hs.links x with l | l
          · rw [← l]; exact hxC.2
          · exact absurd l hxne
        have hxg : x ∈ s0.m_allGroups := by
          rcases hf.kind x (by rw [hx0]; exact hq1) with k | k
          · exfalso
            unfold TimelineModel.isClip at hxc
            rw [hb.frame.1] at hxc
            simp [k] at hxc
          · exact k
        refine ⟨(destructGroup_groups _ _ _).mpr ⟨hb.groups_alive x hxg hxC.1, hxq⟩,
          (destructGroup_nodes _ _ _).mpr ⟨hxC.1, hxq⟩, ?_,
          Under.step x (by rw [hx0]; exact hq1) (by rw [hx0]; exact hqu)⟩
        rw [destructGroup_up, if_pos (Or.inr hxC.2)]
    · -- queue_nodup
      rw [i3]
      refine List.Nodup.append (List.nodup_cons.mp hb.queue_nodup).2 ?_ ?_
      · refine List.Nodup.filter _ ?_
        unfold GroupsModel.getDirectChildren
        exact List.Nodup.filter _ ht.nodes_sorted.nodup
      · intro x hx1 hx2
        obtain ⟨hxC, _⟩ := List.mem_filter.mp hx2
        rw [mem_getDirectChildren] at hxC
        have := (hb.queue x (List.mem_cons_of_mem _ hx1)).2.2.1
        rw [hxC.2] at this
        exact hq1 this
    · -- clips
      intro a ha
      rw [i1] at ha
      rcases ha with ha | ⟨ha1, ha2⟩
      · obtain ⟨c1, c2, c3⟩ := hb.clips a ha
        refine ⟨c1, c2, ?_⟩
        rw [destructGroup_up]
        split
        · rfl
        · exact c3
      · rw [mem_getDirectChildren] at ha1
        have hane : r.s.m_groups.m_upLink a ≠ -1 := by rw [ha1.2]; exact hq1
        have ha0 : s0.m_groups.m_upLink a = q := by
          rcases hs.links a with l | l
          · rw [← l]; exact ha1.2
          · exact absurd l hane
        refine ⟨by rw [← hb.frame.1]; exact ha2,
          Under.step a (by rw [ha0]; exact hq1) (by rw [ha0]; exact hqu), ?_⟩
        rw [destructGroup_up, if_pos (Or.inr ha1.2)]
    · exact i2 hb.clips_sorted
    · -- gone
      intro n hn0 hn
      rw [destructGroup_nodes] at hn
      by_cases hns : n ∈ r.s.m_groups.m_nodes
      · have hnq : n = q := by
          by_contra hcon
          exact hn ⟨hns, hcon⟩
        rw [hnq]
        exact ⟨hqu, hs.groups q hqg, fun hcon => ((destructGroup_groups _ _ _).mp hcon).2 rfl⟩
      · obtain ⟨g1, g2, g3⟩ := hb.gone n hn0 hns
        exact ⟨g1, g2, fun hcon => g3 ((destructGroup_groups _ _ _).mp hcon).1⟩
    · -- alive
      intro n hne hp
      rw [destructGroup_nodes] at hp
      have hup := hb.alive n hne hp.1
      rw [destructGroup_up]
      have hnq : n ≠ q := by
        intro e'
        subst e'
        rw [hqroot] at hup
        exact hne hup.symm
      rw [if_neg (by
        rintro (e' | e')
        · exact hnq e'
        · exact hp.2 (hup ▸ e'))]
      exact hup
    · -- groups_alive
      intro g hg hgn
      rw [destructGroup_nodes] at hgn
      exact (destructGroup_groups _ _ _).mpr ⟨hb.groups_alive g hg hgn.1, hgn.2⟩
    · exact hb.frame
  · rw [e]
    show (eraseKey q r.s.m_groups.m_nodes).length + 1 = _
    have hlen := length_eraseKey ht.nodes_sorted.nodup hqn
    have := List.length_pos_of_mem hqn
    omega

/-- The exploration of `requestGroupDeletion` goes through and ends with an
empty queue. -/
theorem groupDeletionLoop_spec {s0 : TimelineState} {R : Int} (hf : GroupsFull s0) :
    ∀ (fuel : Nat) (Q A : List Int) {r : Res}, TransOK s0 r → BFS s0 R r.s Q A →
    r.s.m_groups.m_nodes.length < fuel →
    TransOK s0 (TimelineModel.groupDeletionLoop fuel Q A r.s r.undo r.redo).1 ∧
    BFS s0 R (TimelineModel.groupDeletionLoop fuel Q A r.s r.undo r.redo).1.s []
      (TimelineModel.groupDeletionLoop fuel Q A r.s r.undo r.redo).2 := by
  intro fuel
  induction fuel with
  | zero => intro Q A r _ _ hlt; omega
  | succ k ih =>
    intro Q A r h hb hlt
    cases Q with
    | nil =>
      unfold TimelineModel.groupDeletionLoop
      exact ⟨⟨rfl, h.2⟩, hb⟩
    | cons q Q' =>
      obtain ⟨b1, b2, b3, b4⟩ := bfs_step hf h hb
      have e : TimelineModel.groupDeletionLoop (k + 1) (q :: Q') A r.s r.undo r.redo =
          TimelineModel.groupDeletionLoop k
            (TimelineModel.scanChildren r.s (r.s.m_groups.getDirectChildren q) A (-1) Q').2.2
            (TimelineModel.scanChildren r.s (r.s.m_groups.getDirectChildren q) A (-1) Q').1
            (GroupsModel.ungroupItem r.s
              (TimelineModel.scanChildren r.s (r.s.m_groups.getDirectChildren q) A (-1) Q').2.1
              r.undo r.redo).s
            (GroupsModel.ungroupItem r.s
              (TimelineModel.scanChildren r.s (r.s.m_groups.getDirectChildren q) A (-1) Q').2.1
              r.undo r.redo).undo
            (GroupsModel.ungroupItem r.s
              (TimelineModel.scanChildren r.s (r.s.m_groups.getDirectChildren q) A (-1) Q').2.1
              r.undo r.redo).redo := by
        conv_lhs => unfold TimelineModel.groupDeletionLoop
        simp only [b1, ne_eq, not_false_eq_true, if_true, b2.1, Bool.true_eq_false, if_false]
      rw [e]
      exact ih _ _ b2 b3 (by omega)

/-- When the queue is empty, every clip under the root has been collected and
every other node under the root has been removed. -/
theorem bfs_done {s0 : TimelineState} {R : Int} {s : TimelineState} {A : List Int} (h0 : Tidy s0)
    (hR : R ∈ s0.m_allGroups) (hb : BFS s0 R s [] A) :
    ∀ n, Under s0.m_groups.m_upLink R n →
      (n ∈ s0.m_allClips → n ∈ A) ∧ (n ∉ s0.m_allClips → n ∉ s.m_groups.m_nodes) := by
  intro n hu
  induction hu with
  | self =>
    refine ⟨fun hc => absurd hR (h0.clips_not_groups R hc), fun _ => ?_⟩
    rcases hb.root with h | h
    · exact absurd h (List.not_mem_nil _)
    · exact h
  | step n hne _ ih =>
    have hp : s0.m_groups.m_upLink n ∉ s0.m_allClips :=
      fun hc => h0.clips_not_groups _ hc (h0.parent n hne).2.2.1
    obtain ⟨o1, o2⟩ := hb.reach n (Under.step n hne (by assumption)) hne (ih.2 hp)
    refine ⟨o1, fun hc => ?_⟩
    rcases o2 hc with h | h
    · exact absurd h (List.not_mem_nil _)
    · exact h

/-- The leaves under a registered group are the registered clips under it. -/
theorem mem_getLeaves {s : TimelineState} (h : Tidy s) (hf : GroupsFull s) {R : Int}
    (hR : R ∈ s.m_allGroups) (c : Int) :
    c ∈ s.m_groups.getLeaves R ↔ c ∈ s.m_allClips ∧ Under s.m_groups.m_upLink R c := by
  unfold GroupsModel.getLeaves
  rw [List.mem_dedup, List.mem_filter]
  simp only [Bool.and_eq_true, List.isEmpty_iff]
  constructor
  · rintro ⟨_, hempty, hbelow⟩
    have hu := under_of_below _ _ _ _ hbelow
    refine ⟨?_, hu⟩
    cases hu with
    | self => exact absurd hempty (hf.full R hR)
    | step _ hne _ =>
      rcases hf.kind c hne with k | k
      · exact k
      · exact absurd hempty (hf.full c k)
  · rintro ⟨hc, hu⟩
    refine ⟨h.clips_nodes c hc, ?_, below_of_under h R _ c (above_le_length _ _) hu⟩
    by_contra hne
    obtain ⟨x, hx⟩ := List.exists_mem_of_ne_nil _ hne
    rw [mem_getDirectChildren] at hx
    have hc0 : c ≠ -1 := by
      have := h.nodes_nonneg c (h.clips_nodes c hc)
      omega
    have := (h.parent x (by rw [hx.2]; exact hc0)).2.2.1
    rw [hx.2] at this
    exact h.clips_not_groups c hc this

theorem ClipsDeleted.nil (s : TimelineState) : ClipsDeleted s s [] :=
  ⟨fun _ => ⟨fun h => ⟨h, List.not_mem_nil _⟩, fun h => h.1⟩, fun _ _ => rfl,
    fun _ h => absurd h (List.not_mem_nil _), fun _ _ _ => Iff.rfl, rfl,
    fun _ => ⟨fun h => ⟨h, List.not_mem_nil _⟩, fun h => h.1⟩, rfl, ⟨rfl, rfl⟩, ⟨rfl, rfl, rfl⟩⟩

theorem ClipsDeleted.cons {s s' : TimelineState} {c : Int} {rest : List Int}
    (hroot : s.m_groups.m_upLink c = -1) (hc : c ∉ rest)
    (h : ClipsDeleted (TimelineModel.clipDeleted s c) s' rest) :
    ClipsDeleted s s' (c :: rest) := by
  obtain ⟨e1, e2, e3, e4, e5, e6, _, e8, e9⟩ := clipDeleted_fields s c
  constructor
  · intro x
    rw [h.clips, e1, mem_eraseKey, List.mem_cons]
    constructor
    · rintro ⟨⟨a, b⟩, d⟩
      exact ⟨a, fun hcon => hcon.elim b d⟩
    · rintro ⟨a, b⟩
      exact ⟨⟨a, fun e => b (Or.inl e)⟩, fun hr => b (Or.inr hr)⟩
  · intro x hx
    rw [List.mem_cons, not_or] at hx
    rw [h.objects x hx.2, clipDeleted_clip, if_neg hx.1]
  · intro x hx
    rcases List.mem_cons.mp hx with e | hx'
    · subst e
      have ho := h.objects x hc
      rw [clipDeleted_clip, if_pos rfl] at ho
      refine ⟨by rw [ho], fun hT hin => ?_⟩
      have := (h.held _ x hc).mp hin
      rw [clipDeleted_members, if_pos ⟨rfl, hT⟩] at this
      exact (mem_eraseKey.mp this).2 rfl
    · have hxc : x ≠ c := fun e => hc (e ▸ hx')
      obtain ⟨u1, u2⟩ := h.unplaced x hx'
      rw [clipDeleted_clip, if_neg hxc] at u2
      exact ⟨u1, u2⟩
  · intro T x hx
    rw [List.mem_cons, not_or] at hx
    rw [h.held T x hx.2, clipDeleted_members]
    split
    · rw [mem_eraseKey]
      exact ⟨fun a => a.1, fun a => ⟨a, hx.1⟩⟩
    · exact Iff.rfl
  · rw [h.links, e2]
    exact setAt_eq_self s.m_groups.m_upLink c (-1) hroot
  · intro x
    rw [h.nodes, e2, List.mem_cons]
    show (x ∈ eraseKey c s.m_groups.m_nodes ∧ x ∉ rest) ↔ _
    rw [mem_eraseKey]
    constructor
    · rintro ⟨⟨a, b⟩, d⟩
      exact ⟨a, fun hcon => hcon.elim b d⟩
    · rintro ⟨a, b⟩
      exact ⟨⟨a, fun e => b (Or.inl e)⟩, fun hr => b (Or.inr hr)⟩
  · rw [h.groups, e3]
  · exact ⟨h.compos.1.trans e8, h.compos.2.trans e9⟩
  · exact ⟨h.tracks.1.trans e4, h.tracks.2.1.trans e5, h.tracks.2.2.trans e6⟩

/-- The loop of `requestGroupDeletion` over the clips collected, registered
clips without parent: either all of them are deleted, or the loop fails on a
clip whose track does not hold it and the state is the one the transaction
started from. -/
theorem deleteClipsLoop_spec : ∀ (l : List Int) {s0 : TimelineState} {r : Res},
    TransOK s0 r → l.Nodup →
    (∀ c ∈ l, c ∈ r.s.m_allClips ∧ r.s.m_groups.m_upLink c = -1) →
    (TransOK s0 (TimelineModel.deleteClipsLoop l r.s r.undo r.redo) ∧
      ClipsDeleted r.s (TimelineModel.deleteClipsLoop l r.s r.undo r.redo).s l) ∨
    ((TimelineModel.deleteClipsLoop l r.s r.undo r.redo).ok = false ∧
      (∃ v, (TimelineModel.deleteClipsLoop l r.s r.undo r.redo).s = s0.withView v) ∧
      ∃ c ∈ l, (r.s.clipObj c).m_currentTrackId ≠ -1 ∧
        c ∉ (r.s.trackObj (r.s.clipObj c).m_currentTrackId).m_allClips) := by
  intro l
  induction l with
  | nil =>
    intro s0 r h _ _
    left
    exact ⟨⟨rfl, h.2⟩, ClipsDeleted.nil _⟩
  | cons c rest ih =>
    intro s0 r h hnd hreg
    obtain ⟨hcreg, hcroot⟩ := hreg c (List.mem_cons_self _ _)
    have hcr : c ∉ rest := (List.nodup_cons.mp hnd).1
    have hloop : TimelineModel.deleteClipsLoop (c :: rest) r.s r.undo r.redo =
        if (TimelineModel.requestClipDeletionFun r.s c r.undo r.redo).ok = false then
          { ok := false,
            s := ((TimelineModel.requestClipDeletionFun r.s c r.undo r.redo).undo
              (TimelineModel.requestClipDeletionFun r.s c r.undo r.redo).s).2,
            undo := (TimelineModel.requestClipDeletionFun r.s c r.undo r.redo).undo,
            redo := (TimelineModel.requestClipDeletionFun r.s c r.undo r.redo).redo }
        else TimelineModel.deleteClipsLoop rest
          (TimelineModel.requestClipDeletionFun r.s c r.undo r.redo).s
          (TimelineModel.requestClipDeletionFun r.s c r.undo r.redo).undo
          (TimelineModel.requestClipDeletionFun r.s c r.undo r.redo).redo := by
      conv_lhs => unfold TimelineModel.deleteClipsLoop
    rw [hloop]
    by_cases hm : (r.s.clipObj c).m_currentTrackId ≠ -1 →
        c ∈ (r.s.trackObj (r.s.clipObj c).m_currentTrackId).m_allClips
    · obtain ⟨h2, es⟩ := transOK_clipDeletion h hcreg hcroot hm
      generalize TimelineModel.requestClipDeletionFun r.s c r.undo r.redo = r2 at h2 es ⊢
      rw [if_neg (by rw [h2.1]; simp)]
      have hreg2 : ∀ x ∈ rest, x ∈ r2.s.m_allClips ∧ r2.s.m_groups.m_upLink x = -1 := by
        intro x hx
        obtain ⟨a, b⟩ := hreg x (List.mem_cons_of_mem _ hx)
        have hxc : x ≠ c := fun e => hcr (e ▸ hx)
        rw [es, (clipDeleted_fields r.s c).1, (clipDeleted_fields r.s c).2.1]
        refine ⟨mem_eraseKey.mpr ⟨a, hxc⟩, ?_⟩
        show setAt r.s.m_groups.m_upLink c (-1) x = -1
        unfold setAt
        rw [if_neg hxc]
        exact b
      rcases ih h2 (List.nodup_cons.mp hnd).2 hreg2 with ⟨a1, a2⟩ | ⟨b1, b2, x, hx, b3, b4⟩
      · left
        refine ⟨a1, ClipsDeleted.cons hcroot hcr ?_⟩
        rw [← es]
        exact a2
      · right
        refine ⟨b1, b2, x, List.mem_cons_of_mem _ hx, ?_⟩
        have hxc : x ≠ c := fun e => hcr (e ▸ hx)
        rw [es, clipDeleted_clip, if_neg hxc] at b3 b4
        refine ⟨b3, fun hin => b4 ?_⟩
        rw [clipDeleted_members]
        split
        · exact mem_eraseKey.mpr ⟨hin, hxc⟩
        · exact hin
    · right
      have hm' : (r.s.clipObj c).m_currentTrackId ≠ -1 ∧
          c ∉ (r.s.trackObj (r.s.clipObj c).m_currentTrackId).m_allClips := by
        by_contra hcon
        apply hm
        intro hT
        by_contra hnm
        exact hcon ⟨hT, hnm⟩
      rw [clipDeletion_fail r.s r.undo r.redo hm'.1 hm'.2]
      exact ⟨rfl, (transOK_rollback h).2, c, List.mem_cons_self _ _, hm'⟩

theorem bfs_start {s : TimelineState} (h : Tidy s) {R : Int} (hR : R ∈ s.m_allGroups)
    (hRn : R ∈ s.m_groups.m_nodes) (hroot : s.m_groups.m_upLink R = -1) : BFS s R s [R] [] := by
  refine ⟨Or.inl (List.mem_cons_self _ _), ?_, ?_, List.nodup_singleton R, ?_,
    List.sorted_nil, fun n h1 h2 => absurd h1 h2, fun _ _ _ => rfl, fun _ h1 _ => h1,
    ⟨rfl, rfl, rfl, rfl, rfl⟩⟩
  · intro n _ hne hp
    exact absurd (h.parent n hne).2.1 hp
  · intro q hq
    have e : q = R := by simpa using hq
    rw [e]
    exact ⟨hR, hRn, hroot, Under.self⟩
  · intro a ha
    exact absurd ha (List.not_mem_nil _)

/-- What the two loops of `requestGroupDeletion` leave when they go through. -/
theorem groupDeleted_of_loops {s0 s1 s2 : TimelineState} {R : Int} {A : List Int}
    (h0 : Tidy s0) (hf : GroupsFull s0) (hR : R ∈ s0.m_allGroups) (hs : Shrunk s0 s1)
    (hb : BFS s0 R s1 [] A) (hd : ClipsDeleted s1 s2 A) : GroupDeleted s0 s2 R := by
  have hdone := bfs_done h0 hR hb
  have hA : ∀ a, a ∈ A ↔ a ∈ s0.m_groups.getLeaves R := by
    intro a
    rw [mem_getLeaves h0 hf hR]
    exact ⟨fun ha => ⟨(hb.clips a ha).1, (hb.clips a ha).2.1⟩, fun ha => (hdone a ha.2).1 ha.1⟩
  have hAu : ∀ a ∈ A, Under s0.m_groups.m_upLink R a := fun a ha => (hb.clips a ha).2.1
  refine ⟨?_, ?_, ?_, ?_, hd.compos.1.trans hb.frame.2.2.2.1, hd.compos.2.trans hb.frame.2.2.2.2,
    hd.tracks.1.trans hs.tracks, hd.tracks.2.1.trans hs.table⟩
  · intro g hg hbelow
    have hu := under_of_below _ _ _ _ hbelow
    have hgn : g ∉ s1.m_groups.m_nodes :=
      (hdone g hu).2 (fun hc => h0.clips_not_groups g hc hg)
    have hgg := (hb.gone g (hf.registered g hg) hgn).2.2
    refine ⟨?_, fun hcon => hgn ((hd.nodes g).mp hcon).1⟩
    unfold TimelineModel.isGroup
    rw [hd.groups]
    simpa using hgg
  · intro c hc
    have hcA := (hA c).mpr hc
    obtain ⟨u1, u2⟩ := hd.unplaced c hcA
    rw [hb.frame.2.1] at u2
    refine ⟨?_, u1, u2⟩
    unfold TimelineModel.isClip
    have : c ∉ s2.m_allClips := fun hcon => ((hd.clips c).mp hcon).2 hcA
    simpa using this
  · intro x hx
    have hxA : x ∉ A := fun hcon => hx ((hA x).mp hcon)
    refine ⟨?_, ?_, ?_⟩
    · unfold TimelineModel.isClip
      have : x ∈ s2.m_allClips ↔ x ∈ s0.m_allClips := by
        rw [hd.clips, hb.frame.1]
        exact ⟨fun a => a.1, fun a => ⟨a, hxA⟩⟩
      simp only [this]
    · rw [hd.objects x hxA, hb.frame.2.1]
    · intro T
      rw [hd.held T x hxA, hb.frame.2.2.1]
  · intro n hn
    have hnu : ¬ Under s0.m_groups.m_upLink R n := by
      intro hu
      have := below_of_under h0 R _ n (above_le_length _ _) hu
      rw [hn] at this
      exact absurd this (by simp)
    have hnA : n ∉ A := fun hcon => hnu (hAu n hcon)
    have hnodes : n ∈ s1.m_groups.m_nodes ↔ n ∈ s0.m_groups.m_nodes :=
      ⟨hs.nodes n, fun hn0 => by
        by_contra hcon
        exact hnu (hb.gone n hn0 hcon).1⟩
    refine ⟨?_, ?_, ?_⟩
    · rw [hd.links]
      by_cases hup : s0.m_groups.m_upLink n = -1
      · rcases hs.links n with e | e
        · exact e
        · rw [e, hup]
      · refine hb.alive n hup ?_
        by_contra hcon
        exact hnu (Under.step n hup (hb.gone _ (h0.parent n hup).2.1 hcon).1)
    · rw [hd.nodes, hnodes]
      exact ⟨fun a => a.1, fun a => ⟨a, hnA⟩⟩
    · unfold TimelineModel.isGroup
      have : n ∈ s2.m_allGroups ↔ n ∈ s0.m_allGroups := by
        rw [hd.groups]
        exact ⟨hs.groups n, fun hg => hb.groups_alive n hg (hnodes.mpr (hf.registered n hg))⟩
      simp only [this]

/-- `requestGroupDeletion` on an item that is in a group: either it returns
true, the group is deleted, one command is pushed and undoing it gives the
starting state; or it returns false on a clip whose track does not hold it,
and neither the state nor the stack has changed. -/
theorem groupDeletion_spec (m : TimelineModel) {itemId : Int} (ht : Tidy m.st) (hl : Lanes m.st)
    (hf : GroupsFull m.st) (hin : m.st.m_groups.isInGroup itemId = true) :
    ((TimelineModel.requestGroupDeletion m itemId).1 = true ∧
      GroupDeleted m.st (TimelineModel.requestGroupDeletion m itemId).2.st
        (m.st.m_groups.getRootId itemId) ∧
      (∃ cmd, (TimelineModel.requestGroupDeletion m itemId).2.m_undoStack.m_done =
        cmd :: m.m_undoStack.m_done) ∧
      ∃ v, (TimelineModel.undo (TimelineModel.requestGroupDeletion m itemId).2).st =
        m.st.withView v) ∨
    ((TimelineModel.requestGroupDeletion m itemId).1 = false ∧
      (∃ v, (TimelineModel.requestGroupDeletion m itemId).2.st = m.st.withView v) ∧
      (TimelineModel.requestGroupDeletion m itemId).2.m_undoStack = m.m_undoStack ∧
      ∃ c ∈ m.st.m_groups.getLeaves (m.st.m_groups.getRootId itemId),
        (m.st.clipObj c).m_currentTrackId ≠ -1 ∧
        c ∉ (m.st.trackObj (m.st.clipObj c).m_currentTrackId).m_allClips) := by
  obtain ⟨_, _, hRn, hR, hroot, _, _, _⟩ := root_of_grouped ht hin
  obtain ⟨g1, g2⟩ := groupDeletionLoop_spec hf (m.st.m_groups.m_nodes.length + 1)
    [m.st.m_groups.getRootId itemId] [] (transOK_start ht hl) (bfs_start ht hR hRn hroot)
    (Nat.lt_succ_self _)
  generalize hG : TimelineModel.groupDeletionLoop (m.st.m_groups.m_nodes.length + 1)
    [m.st.m_groups.getRootId itemId] [] m.st noop noop = G at g1 g2
  have hreq : TimelineModel.requestGroupDeletion m itemId =
      if (TimelineModel.deleteClipsLoop G.2 G.1.s G.1.undo G.1.redo).ok = false then
        (false, { m with st := (TimelineModel.deleteClipsLoop G.2 G.1.s G.1.undo G.1.redo).s })
      else (true, PUSH_UNDO m (TimelineModel.deleteClipsLoop G.2 G.1.s G.1.undo G.1.redo).s
        (TimelineModel.deleteClipsLoop G.2 G.1.s G.1.undo G.1.redo).undo
        (TimelineModel.deleteClipsLoop G.2 G.1.s G.1.undo G.1.redo).redo) := by
    unfold TimelineModel.requestGroupDeletion
    simp only [hG, g1.1, Bool.true_eq_false, if_false]
  rw [hreq]
  have hAreg : ∀ c ∈ G.2, c ∈ G.1.s.m_allClips ∧ G.1.s.m_groups.m_upLink c = -1 := by
    intro c hc
    obtain ⟨c1, _, c3⟩ := g2.clips c hc
    exact ⟨by rw [g2.frame.1]; exact c1, c3⟩
  rcases deleteClipsLoop_spec G.2 g1 g2.clips_sorted.nodup hAreg with
    ⟨d1, d2⟩ | ⟨e1, e2, c, hc, e3, e4⟩
  · left
    rw [if_neg (by rw [d1.1]; simp)]
    refine ⟨rfl, groupDeleted_of_loops ht hf hR g1.2.2.2.2.2 g2 d2, ⟨_, rfl⟩, ?_⟩
    obtain ⟨v, hv⟩ := d1.2.2.2.1.1
      (TimelineModel.deleteClipsLoop G.2 G.1.s G.1.undo G.1.redo).s.viewNotifications
    rw [withView_self] at hv
    exact ⟨v, by
      show ((TimelineModel.deleteClipsLoop G.2 G.1.s G.1.undo G.1.redo).undo
        (TimelineModel.deleteClipsLoop G.2 G.1.s G.1.undo G.1.redo).s).2 = _
      rw [hv]⟩
  · right
    rw [if_pos e1]
    refine ⟨rfl, e2, rfl, c, ?_, ?_⟩
    · rw [mem_getLeaves ht hf hR]
      exact ⟨(g2.clips c hc).1, (g2.clips c hc).2.1⟩
    · rw [g2.frame.2.1] at e3 e4
      rw [g2.frame.2.2.1] at e4
      exact ⟨e3, e4⟩

theorem scenarioC_groupsFull : GroupsFull scenarioC.st := by
  refine ⟨?_, by decide, by decide⟩
  intro n hn
  rw [scenarioC_uplink] at hn
  by_cases h : n ∈ [3, 4]
  · have h' : n = 3 ∨ n = 4 := by simpa using h
    rcases h' with e | e <;> subst e <;> decide
  · exfalso
    apply hn
    simp only [h, if_false]
    unfold setAt
    split
    · rfl
    · split_ifs <;> rfl

theorem scenarioDesync_groupsFull : GroupsFull scenarioDesync.st :=
  ⟨scenarioC_groupsFull.kind, scenarioC_groupsFull.full, scenarioC_groupsFull.registered⟩

theorem scenarioNested_reachable : Reachable scenarioBin noSnap scenarioNested :=
  reachable_runAll _ Reachable.init (by decide)

theorem scenarioNested_uplink : scenarioNested.st.m_groups.m_upLink =
    fun n => if n ∈ [6, 4] then 7 else if n = 7 then -1
      else (fun n => if n ∈ [2, 3] then 6 else if n = 6 then -1
        else setAt (setAt (setAt (setAt (fun _ => -1) 2 (-1)) 3 (-1)) 4 (-1)) 5 (-1) n) n := rfl

theorem scenarioNested_links (n : Int) (hn : scenarioNested.st.m_groups.m_upLink n ≠ -1) :
    n = 2 ∨ n = 3 ∨ n = 4 ∨ n = 6 := by
  rw [scenarioNested_uplink] at hn
  by_cases h : n ∈ [6, 4]
  · have h' : n = 6 ∨ n = 4 := by simpa using h
    omega
  · by_cases h2 : n ∈ [2, 3]
    · have h' : n = 2 ∨ n = 3 := by simpa using h2
      omega
    · exfalso
      apply hn
      simp only [h, h2, if_false]
      unfold setAt
      split
      · rfl
      · split_ifs <;> rfl

theorem scenarioNested_tidy : Tidy scenarioNested.st := by
  refine ⟨by decide, by decide, by decide, by decide, by decide, by decide, by decide,
    by decide, ?_, by decide⟩
  intro n hn
  rcases scenarioNested_links n hn with e | e | e | e <;> subst e <;> decide

theorem scenarioNested_groupsFull : GroupsFull scenarioNested.st := by
  refine ⟨?_, by decide, by decide⟩
  intro n hn
  rcases scenarioNested_links n hn with e | e | e | e <;> subst e <;> decide

/-- C11: group deletion is atomic.  For an item that is in a group, with `L` the
leaves under its root, `requestItemDeletion` either returns true, and then every
registered group under that root is gone, every leaf of `L` is deregistered and
out of its track, and every item outside `L`, the forest outside the subtree,
the compositions and the tracks are as they were; or it returns false, the model
is as before the call (up to the notifications sent to the view) and nothing is
pushed on the undo stack. -/
theorem C11_group_deletion_atomic (m : TimelineModel) (itemId : Int) (logUndo : Bool)
    (ht : Tidy m.st) (hl : Lanes m.st) (hf : GroupsFull m.st)
    (hin : m.st.m_groups.isInGroup itemId = true) :
    ((TimelineModel.requestItemDeletion m itemId logUndo).1 = true ∧
      GroupDeleted m.st (TimelineModel.requestItemDeletion m itemId logUndo).2.st
        (m.st.m_groups.getRootId itemId)) ∨
    ((TimelineModel.requestItemDeletion m itemId logUndo).1 = false ∧
      SameModel m.st (TimelineModel.requestItemDeletion m itemId logUndo).2.st ∧
      (TimelineModel.requestItemDeletion m itemId logUndo).2.m_undoStack = m.m_undoStack) := by
  have e : TimelineModel.requestItemDeletion m itemId logUndo =
      TimelineModel.requestGroupDeletion m itemId := by
    unfold TimelineModel.requestItemDeletion
    rw [if_pos hin]
  rw [e]
  rcases groupDeletion_spec m ht hl hf hin with ⟨a1, a2, _⟩ | ⟨b1, ⟨v, b2⟩, b3, _⟩
  · exact Or.inl ⟨a1, a2⟩
  · refine Or.inr ⟨b1, ?_, b3⟩
    rw [b2]
    rfl

/-- C11 on the nested group (item 3, root 7, leaves 2, 3, 4): the deletion goes
through; and on the desynchronised copy of scenario C (item 3, root 6, leaves
3, 4): the deletion of clip 4 fails and the call returns false. -/
theorem C11_witness :
    (scenarioNested.st.m_groups.isInGroup 3 = true ∧
      scenarioNested.st.m_groups.getRootId 3 = 7 ∧
      scenarioNested.st.m_groups.getLeaves 7 = [2, 3, 4] ∧
      (TimelineModel.requestItemDeletion scenarioNested 3 true).1 = true ∧
      scenarioDesync.st.m_groups.isInGroup 3 = true ∧
      (TimelineModel.requestItemDeletion scenarioDesync 3 true).1 = false) ∧
    (((TimelineModel.requestItemDeletion scenarioNested 3 true).1 = true ∧
      GroupDeleted scenarioNested.st (TimelineModel.requestItemDeletion scenarioNested 3 true).2.st
        (scenarioNested.st.m_groups.getRootId 3)) ∨
    ((TimelineModel.requestItemDeletion scenarioNested 3 true).1 = false ∧
      SameModel scenarioNested.st (TimelineModel.requestItemDeletion scenarioNested 3 true).2.st ∧
      (TimelineModel.requestItemDeletion scenarioNested 3 true).2.m_undoStack =
        scenarioNested.m_undoStack)) ∧
    (((TimelineModel.requestItemDeletion scenarioDesync 3 true).1 = true ∧
      GroupDeleted scenarioDesync.st (TimelineModel.requestItemDeletion scenarioDesync 3 true).2.st
        (scenarioDesync.st.m_groups.getRootId 3)) ∨
    ((TimelineModel.requestItemDeletion scenarioDesync 3 true).1 = false ∧
      SameModel scenarioDesync.st (TimelineModel.requestItemDeletion scenarioDesync 3 true).2.st ∧
      (TimelineModel.requestItemDeletion scenarioDesync 3 true).2.m_undoStack =
        scenarioDesync.m_undoStack)) :=
  ⟨⟨by decide, by decide, by decide, by decide, by decide, by decide⟩,
    C11_group_deletion_atomic scenarioNested 3 true scenarioNested_tidy
      (lanes_of_consistent (stackOK_of_reachable scenarioNested_reachable).1)
      scenarioNested_groupsFull (by decide),
    C11_group_deletion_atomic scenarioDesync 3 true scenarioDesync_tidy scenarioDesync_lanes
      scenarioDesync_groupsFull (by decide)⟩

/-! ## The comparator of `requestGroupMove`, unlogged deletions, resizing to a position -/

/-- The comparator that `requestGroupMove` hands to `std::sort`, on a leaf
compared with itself, answers `delta_pos <= 0`: it is true whenever the group
does not move forward in time. -/
theorem groupMoveComp_self (s : TimelineState) (delta_track delta_pos a : Int) :
    TimelineModel.groupMoveComp s delta_track delta_pos a a = decide (delta_pos ≤ 0) := by
  unfold TimelineModel.groupMoveComp
  simp only [if_true, le_refl, decide_True, Bool.not_true]
  by_cases h : delta_pos ≤ 0 <;> simp [h]

/-- C27: the comparator of `requestGroupMove` is not irreflexive.  On scenario
B, for the group move by one lane and no frame (`requestClipMove` of clip 3 to
the second track at its own position) and for the group move by 5 frames to the
left, it answers true on leaf 3 compared with itself and on leaf 4 compared
with itself; for a move forward in time it answers false. -/
theorem C27_comparator_not_irreflexive :
    scenarioB.st.m_groups.getLeaves 5 = [3, 4] ∧
    TimelineModel.groupMoveComp scenarioB.st 1 0 3 3 = true ∧
    TimelineModel.groupMoveComp scenarioB.st 1 0 4 4 = true ∧
    TimelineModel.groupMoveComp scenarioB.st 0 (-5) 3 3 = true ∧
    TimelineModel.groupMoveComp scenarioB.st 0 5 3 3 = false := by
  decide

/-- C28: on scenario B, where clips 3 and 4 form a group,
`requestItemDeletion(3, logUndo = false)` succeeds and pushes a command on the
undo stack. -/
theorem C28_grouped_deletion_is_logged :
    scenarioB.st.m_groups.isInGroup 3 = true ∧
    (TimelineModel.requestItemDeletion scenarioB 3 false).1 = true ∧
    (TimelineModel.requestItemDeletion scenarioB 3 false).2.m_undoStack.m_done.length =
      scenarioB.m_undoStack.m_done.length + 1 := by
  decide

/-- For an item that is in a group `requestItemDeletion` is `requestGroupDeletion`,
whatever `logUndo` is. -/
theorem requestItemDeletion_grouped (m : TimelineModel) (itemId : Int) (logUndo : Bool)
    (hin : m.st.m_groups.isInGroup itemId = true) :
    TimelineModel.requestItemDeletion m itemId logUndo =
      TimelineModel.requestGroupDeletion m itemId := by
  unfold TimelineModel.requestItemDeletion
  rw [if_pos hin]

/-- For an item that is in no group `requestItemDeletion` pushes a command
exactly when the deletion succeeds and `logUndo` is set. -/
theorem requestItemDeletion_ungrouped_stack (m : TimelineModel) (itemId : Int) (logUndo : Bool)
    (hin : m.st.m_groups.isInGroup itemId = false) :
    (TimelineModel.requestItemDeletion m itemId logUndo).2.m_undoStack.m_done.length =
      if (TimelineModel.requestItemDeletion m itemId logUndo).1 = true ∧ logUndo = true then
        m.m_undoStack.m_done.length + 1
      else m.m_undoStack.m_done.length := by
  unfold TimelineModel.requestItemDeletion
  simp only [hin, Bool.false_eq_true, if_false]
  generalize (if TimelineModel.isClip m.st itemId = true then
      TimelineModel.requestClipDeletionFun m.st itemId noop noop
    else TimelineModel.requestCompositionDeletionFun m.st itemId noop noop) = r
  by_cases h : r.ok = true ∧ logUndo = true
  · simp only [h, and_self, if_true]
    rfl
  · simp only [h, if_false]

/-- C30: on scenario A (clip 1 plays `[80, 180)`), `requestItemResizeToPos` from
the left to position 100 asks for the size 79, not 80, and the start of the clip
lands on 101; to position 179, one frame before the fixed edge, it asks for the
size 0 and fails.  From the right to position 150 it asks for 70 and the end
lands on 150. -/
theorem C30_left_edge_is_one_frame_off :
    (TimelineModel.getClipPosition scenarioA.st 1 = 80 ∧
      TimelineModel.getClipPlaytime scenarioA.st 1 = 100) ∧
    (TimelineModel.resizeToPosSize scenarioA.st 1 100 false = 79 ∧
      (TimelineModel.requestItemResizeToPos scenarioA 1 100 false).1 = true ∧
      TimelineModel.getClipPosition (TimelineModel.requestItemResizeToPos scenarioA 1 100 false).2.st 1
        = 101) ∧
    (TimelineModel.resizeToPosSize scenarioA.st 1 179 false = 0 ∧
      (TimelineModel.requestItemResizeToPos scenarioA 1 179 false).1 = false) ∧
    (TimelineModel.resizeToPosSize scenarioA.st 1 150 true = 70 ∧
      (TimelineModel.requestItemResizeToPos scenarioA 1 150 true).1 = true ∧
      TimelineModel.getClipPosition (TimelineModel.requestItemResizeToPos scenarioA 1 150 true).2.st 1
        + TimelineModel.getClipPlaytime
          (TimelineModel.requestItemResizeToPos scenarioA 1 150 true).2.st 1 = 150) := by
  decide

theorem toInt32_of_range {x : Int} (h1 : -2147483648 ≤ x) (h2 : x < 2147483648) :
    toInt32 x = x := by
  unfold toInt32
  omega

/-- The size `requestItemResizeToPos` asks for, with `end` the exclusive end of
the item, where the values stay within the range of an `int`: from the right
the distance from the start, from the left the distance from `end - 1`. -/
theorem resizeToPosSize_clip (s : TimelineState) (itemId position : Int) (right : Bool)
    (hclip : TimelineModel.isClip s itemId = true)
    (hin : 0 ≤ TimelineModel.getClipPosition s itemId)
    (hlen : 0 < TimelineModel.getClipPlaytime s itemId)
    (hout : TimelineModel.getClipPosition s itemId + TimelineModel.getClipPlaytime s itemId
      < 2147483648)
    (hpos : 0 ≤ position) (hpos' : position < 2147483648) :
    TimelineModel.resizeToPosSize s itemId position right =
      if right = true then
        (if TimelineModel.getClipPosition s itemId < position then
          position - TimelineModel.getClipPosition s itemId else 0)
      else
        (if position < TimelineModel.getClipPosition s itemId +
            TimelineModel.getClipPlaytime s itemId - 1 then
          TimelineModel.getClipPosition s itemId + TimelineModel.getClipPlaytime s itemId - 1
            - position
        else 0) := by
  unfold TimelineModel.resizeToPosSize
  simp only [hclip, if_true]
  rw [toInt32_of_range (x := TimelineModel.getClipPosition s itemId +
    TimelineModel.getClipPlaytime s itemId) (by omega) hout]
  rw [toInt32_of_range (x := TimelineModel.getClipPosition s itemId +
    TimelineModel.getClipPlaytime s itemId - 1) (by omega) (by omega)]
  cases right
  · simp only [Bool.not_false, if_true, Bool.false_eq_true, if_false]
    split
    · rw [toInt32_of_range (by omega) (by omega)]
    · rfl
  · simp only [Bool.not_true, Bool.false_eq_true, if_false, if_true, gt_iff_lt]
    split
    · rw [toInt32_of_range (by omega) (by omega)]
    · rfl

/-- At the position `INT_MIN` the difference `out - position` of the left branch
leaves the range of an `int`: the size asked for is negative and the resize is
refused. -/
theorem resizeToPosSize_at_int_min :
    TimelineModel.resizeToPosSize scenarioA.st 1 (-2147483648) false = -2147483469 ∧
    (TimelineModel.requestItemResizeToPos scenarioA 1 (-2147483648) false).1 = false := by
  decide

/-- C29: on `scenarioCompo` (composition 3 on track 1, with A-track 0) the
deletion of track 1 succeeds and leaves the registered composition on the
deleted track, and the deletion of track 0 succeeds and leaves it with the
deleted track as A-track. -/
theorem C29_composition_left_on_deleted_track :
    (TimelineModel.requestTrackDeletion scenarioCompo 1).1 = true ∧
    TimelineModel.isTrack (TimelineModel.requestTrackDeletion scenarioCompo 1).2.st 1 = false ∧
    TimelineModel.isComposition (TimelineModel.requestTrackDeletion scenarioCompo 1).2.st 3 = true ∧
    TimelineModel.getCompositionTrackId (TimelineModel.requestTrackDeletion scenarioCompo 1).2.st 3
      = 1 ∧
    (TimelineModel.requestTrackDeletion scenarioCompo 0).1 = true ∧
    TimelineModel.isTrack (TimelineModel.requestTrackDeletion scenarioCompo 0).2.st 0 = false ∧
    TimelineModel.isComposition (TimelineModel.requestTrackDeletion scenarioCompo 0).2.st 3 = true ∧
    TimelineModel.getATrack (TimelineModel.requestTrackDeletion scenarioCompo 0).2.st 3 = 0 := by
  decide

/-! ## The position suggested for a move -/

theorem foldl_min_le (l : List Int) (init x : Int) (hx : x ∈ init :: l) :
    l.foldl min init ≤ x := by
  induction l generalizing init x with
  | nil =>
    simp at hx
    simp [hx]
  | cons a l ih =>
    simp only [List.foldl_cons]
    rcases List.mem_cons.mp hx with e | hx'
    · have := ih (min init a) (min init a) (List.mem_cons_self _ _)
      have h2 : min init a ≤ init := min_le_left _ _
      rw [e]; omega
    · rcases List.mem_cons.mp hx' with e | hx''
      · have := ih (min init a) (min init a) (List.mem_cons_self _ _)
        have h2 : min init a ≤ a := min_le_right _ _
        rw [e]; omega
      · exact ih (min init a) x (List.mem_cons_of_mem _ hx'')

theorem foldl_min_mem (l : List Int) (init : Int) : l.foldl min init ∈ init :: l := by
  induction l generalizing init with
  | nil => simp
  | cons a l ih =>
    simp only [List.foldl_cons]
    rcases List.mem_cons.mp (ih (min init a)) with e | hm
    · rw [e]
      rcases min_choice init a with e' | e' <;> rw [e'] <;> simp
    · exact List.mem_cons_of_mem _ (List.mem_cons_of_mem _ hm)

theorem le_foldl_max (l : List Int) (init x : Int) (hx : x ∈ init :: l) :
    x ≤ l.foldl max init := by
  induction l generalizing init x with
  | nil =>
    simp at hx
    simp [hx]
  | cons a l ih =>
    simp only [List.foldl_cons]
    rcases List.mem_cons.mp hx with e | hx'
    · have := ih (max init a) (max init a) (List.mem_cons_self _ _)
      have h2 : init ≤ max init a := le_max_left _ _
      rw [e]; omega
    · rcases List.mem_cons.mp hx' with e | hx''
      · have := ih (max init a) (max init a) (List.mem_cons_self _ _)
        have h2 : a ≤ max init a := le_max_right _ _
        rw [e]; omega
      · exact ih (max init a) x (List.mem_cons_of_mem _ hx'')

theorem foldl_max_mem (l : List Int) (init : Int) : l.foldl max init ∈ init :: l := by
  induction l generalizing init with
  | nil => simp
  | cons a l ih =>
    simp only [List.foldl_cons]
    rcases List.mem_cons.mp (ih (max init a)) with e | hm
    · rw [e]
      rcases max_choice init a with e' | e' <;> rw [e'] <;> simp
    · exact List.mem_cons_of_mem _ (List.mem_cons_of_mem _ hm)

theorem fitsOn_eq_true_iff (s : TimelineState) (c T p : Int) :
    TimelineModel.fitsOn s c T p = true ↔
      ∀ c' ∈ (s.trackObj T).m_allClips, c' ≠ c →
        intervalsOverlap p (s.clipObj c).m_playtime (s.clipObj c').m_position
          (s.clipObj c').m_playtime = false := by
  unfold TimelineModel.fitsOn
  rw [List.all_eq_true]
  simp

/-- A clip that has left its track can enter it again at a position exactly
when it fits there. -/
theorem canInsert_unplace_same (s : TimelineState) (c T p : Int) (uv : Bool) :
    TrackModel.canInsert (TrackModel.unplace s T c uv) T c p = TimelineModel.fitsOn s c T p := by
  rw [Bool.eq_iff_iff, canInsert_eq_true_iff, fitsOn_eq_true_iff, isFree_eq_true_iff]
  constructor
  · rintro ⟨_, h⟩ c' hc' hne
    have := h c' (by rw [unplace_members, if_pos rfl]; exact mem_eraseKey.mpr ⟨hc', hne⟩)
    simpa [unplace_clip, hne] using this
  · intro h
    refine ⟨by simp [unplace_clip], ?_⟩
    intro c' hc'
    rw [unplace_members, if_pos rfl] at hc'
    obtain ⟨hm, hne⟩ := mem_eraseKey.mp hc'
    have := h c' hm hne
    simpa [unplace_clip, hne] using this

theorem overlap_shift_after {cur d g s1 d1 : Int} (hg : 0 ≤ g)
    (hold : intervalsOverlap cur d s1 d1 = false) (hlt : s1 < cur + d) :
    intervalsOverlap (cur + g) d s1 d1 = false := by
  unfold intervalsOverlap at hold ⊢
  rw [decide_eq_false_iff_not] at hold ⊢
  omega

/-- The gap after a clip: when a clip of the track starts at or after its end,
the gap is the distance to the nearest such start. -/
theorem blank_after_spec (s : TimelineState) {c T c0 : Int}
    (hc0 : c0 ∈ (s.trackObj T).m_allClips) (hne : c0 ≠ c)
    (hstart : (s.clipObj c).m_position + (s.clipObj c).m_playtime ≤ (s.clipObj c0).m_position) :
    (∃ c1 ∈ (s.trackObj T).m_allClips, c1 ≠ c ∧
      (s.clipObj c).m_position + (s.clipObj c).m_playtime ≤ (s.clipObj c1).m_position ∧
      TrackModel.getBlankSizeNearClip s T c true =
        (s.clipObj c1).m_position - ((s.clipObj c).m_position + (s.clipObj c).m_playtime)) ∧
    ∀ c' ∈ (s.trackObj T).m_allClips, c' ≠ c →
      (s.clipObj c).m_position + (s.clipObj c).m_playtime ≤ (s.clipObj c').m_position →
      (s.clipObj c).m_position + (s.clipObj c).m_playtime +
        TrackModel.getBlankSizeNearClip s T c true ≤ (s.clipObj c').m_position := by
  have hmem : ∀ c', c' ∈ (s.trackObj T).m_allClips → c' ≠ c →
      (s.clipObj c).m_position + (s.clipObj c).m_playtime ≤ (s.clipObj c').m_position →
      (s.clipObj c').m_position ∈
        (((s.trackObj T).m_allClips.filter (fun c' => c' != c)).map
          (fun c' => (s.clipObj c').m_position)).filter
          (fun p => decide ((s.clipObj c).m_position + (s.clipObj c).m_playtime ≤ p)) := by
    intro c' h1 h2 h3
    rw [List.mem_filter]
    refine ⟨List.mem_map.mpr ⟨c', List.mem_filter.mpr ⟨h1, by simpa using h2⟩, rfl⟩, ?_⟩
    simpa using h3
  have hof : ∀ p, p ∈
        (((s.trackObj T).m_allClips.filter (fun c' => c' != c)).map
          (fun c' => (s.clipObj c').m_position)).filter
          (fun p => decide ((s.clipObj c).m_position + (s.clipObj c).m_playtime ≤ p)) →
      ∃ c1 ∈ (s.trackObj T).m_allClips, c1 ≠ c ∧
        (s.clipObj c).m_position + (s.clipObj c).m_playtime ≤ (s.clipObj c1).m_position ∧
        p = (s.clipObj c1).m_position := by
    intro p hp
    rw [List.mem_filter] at hp
    obtain ⟨c1, h1, h2⟩ := List.mem_map.mp hp.1
    rw [List.mem_filter] at h1
    refine ⟨c1, h1.1, by simpa using h1.2, ?_, h2.symm⟩
    rw [h2]
    simpa using hp.2
  have h0 := hmem c0 hc0 hne hstart
  unfold TrackModel.getBlankSizeNearClip
  simp only [if_true]
  generalize (((s.trackObj T).m_allClips.filter (fun c' => c' != c)).map
          (fun c' => (s.clipObj c').m_position)).filter
          (fun p => decide ((s.clipObj c).m_position + (s.clipObj c).m_playtime ≤ p)) = starts
    at hmem hof h0
  cases starts with
  | nil => simp at h0
  | cons p ps =>
    simp only
    constructor
    · obtain ⟨c1, h1, h2, h3, h4⟩ := hof _ (foldl_min_mem ps p)
      exact ⟨c1, h1, h2, h3, by rw [h4]⟩
    · intro c' h1 h2 h3
      have := foldl_min_le ps p _ (hmem c' h1 h2 h3)
      omega

/-- The gap before a clip: the distance back to the latest end of a clip of
the track that ends at or before its start, or to the start of the track. -/
theorem blank_before_spec (s : TimelineState) (c T : Int) :
    ((s.clipObj c).m_position - TrackModel.getBlankSizeNearClip s T c false = 0 ∨
      ∃ c1 ∈ (s.trackObj T).m_allClips, c1 ≠ c ∧
        (s.clipObj c1).m_position + (s.clipObj c1).m_playtime ≤ (s.clipObj c).m_position ∧
        (s.clipObj c).m_position - TrackModel.getBlankSizeNearClip s T c false =
          (s.clipObj c1).m_position + (s.clipObj c1).m_playtime) ∧
    0 ≤ (s.clipObj c).m_position - TrackModel.getBlankSizeNearClip s T c false ∧
    ∀ c' ∈ (s.trackObj T).m_allClips, c' ≠ c →
      (s.clipObj c').m_position + (s.clipObj c').m_playtime ≤ (s.clipObj c).m_position →
      (s.clipObj c').m_position + (s.clipObj c').m_playtime ≤
        (s.clipObj c).m_position - TrackModel.getBlankSizeNearClip s T c false := by
  have hmem : ∀ c', c' ∈ (s.trackObj T).m_allClips → c' ≠ c →
      (s.clipObj c').m_position + (s.clipObj c').m_playtime ≤ (s.clipObj c).m_position →
      (s.clipObj c').m_position + (s.clipObj c').m_playtime ∈
        (((s.trackObj T).m_allClips.filter (fun c' => c' != c)).map
          (fun c' => (s.clipObj c').m_position + (s.clipObj c').m_playtime)).filter
          (fun e => decide (e ≤ (s.clipObj c).m_position)) := by
    intro c' h1 h2 h3
    rw [List.mem_filter]
    refine ⟨List.mem_map.mpr ⟨c', List.mem_filter.mpr ⟨h1, by simpa using h2⟩, rfl⟩, ?_⟩
    simpa using h3
  have hof : ∀ e, e ∈
        (((s.trackObj T).m_allClips.filter (fun c' => c' != c)).map
          (fun c' => (s.clipObj c').m_position + (s.clipObj c').m_playtime)).filter
          (fun e => decide (e ≤ (s.clipObj c).m_position)) →
      ∃ c1 ∈ (s.trackObj T).m_allClips, c1 ≠ c ∧
        (s.clipObj c1).m_position + (s.clipObj c1).m_playtime ≤ (s.clipObj c).m_position ∧
        e = (s.clipObj c1).m_position + (s.clipObj c1).m_playtime := by
    intro e he
    rw [List.mem_filter] at he
    obtain ⟨c1, h1, h2⟩ := List.mem_map.mp he.1
    rw [List.mem_filter] at h1
    refine ⟨c1, h1.1, by simpa using h1.2, ?_, h2.symm⟩
    rw [h2]
    simpa using he.2
  unfold TrackModel.getBlankSizeNearClip
  simp only [Bool.false_eq_true, if_false]
  generalize (((s.trackObj T).m_allClips.filter (fun c' => c' != c)).map
          (fun c' => (s.clipObj c').m_position + (s.clipObj c').m_playtime)).filter
          (fun e => decide (e ≤ (s.clipObj c).m_position)) = ends at hmem hof
  have e1 : (s.clipObj c).m_position - ((s.clipObj c).m_position - List.foldl max 0 ends) =
      List.foldl max 0 ends := by omega
  rw [e1]
  refine ⟨?_, le_foldl_max ends 0 0 (List.mem_cons_self _ _), ?_⟩
  · rcases List.mem_cons.mp (foldl_max_mem ends 0) with e | hm
    · exact Or.inl e
    · obtain ⟨c1, h1, h2, h3, h4⟩ := hof _ hm
      exact Or.inr ⟨c1, h1, h2, h3, h4⟩
  · intro c' h1 h2 h3
    exact le_foldl_max ends 0 _ (List.mem_cons_of_mem _ (hmem c' h1 h2 h3))

/-- The trial move of a placed clip on its own track succeeds exactly when the
clip fits at the position. -/
theorem trialMove_ok {s : TimelineState} (h : Consistent s) {c T : Int} (p : Int) (uv : Bool)
    (undo redo : Fun) (hT : T ≠ -1) (hcur : TimelineModel.getClipTrackId s c = T) :
    (TimelineModel.requestClipMoveFun s c T p uv undo redo).ok = TimelineModel.fitsOn s c T p := by
  have hold : TimelineModel.getClipTrackId s c ≠ -1 := by rw [hcur]; exact hT
  have e := canInsert_unplace_same s c T p uv
  cases hcan : TrackModel.canInsert
      (TrackModel.unplace s (TimelineModel.getClipTrackId s c) c uv) T c p
  · rw [clipMove_placed_fail h uv undo redo hold hcan]
    rw [hcur] at hcan
    rw [← e, hcan]
  · rw [clipMove_placed_ok h uv undo redo hold hcan]
    rw [hcur] at hcan
    rw [← e, hcan]

/-- What `suggestClipMove` returns for a clip on the track it is on, and the
model after the call. -/
theorem suggestClipMove_on_track (m : TimelineModel) (sn : SnapModel) (c T p : Int)
    (hcons : Consistent m.st) (hT : T ≠ -1) (hcur : TimelineModel.getClipTrackId m.st c = T)
    (hp : TimelineModel.getClipPosition m.st c ≠ p) :
    (TimelineModel.suggestClipMove m sn c T p).1 =
      (if TimelineModel.fitsOn m.st c T (TimelineModel.suggestCandidate m.st sn c p) = true then
        TimelineModel.suggestCandidate m.st sn c p
      else if TrackModel.getBlankSizeNearClip m.st T c
          (decide (TimelineModel.getClipPosition m.st c <
            TimelineModel.suggestCandidate m.st sn c p)) < INT_MAX then
        (if TimelineModel.getClipPosition m.st c < TimelineModel.suggestCandidate m.st sn c p then
          TimelineModel.getClipPosition m.st c +
            TrackModel.getBlankSizeNearClip m.st T c true
        else TimelineModel.getClipPosition m.st c -
            TrackModel.getBlankSizeNearClip m.st T c false)
      else TimelineModel.suggestCandidate m.st sn c p) ∧
    (TimelineModel.suggestClipMove m sn c T p).2.1 = m := by
  have hold : TimelineModel.getClipTrackId m.st c ≠ -1 := by rw [hcur]; exact hT
  have hst := trialMove_state hcons (T := T) (TimelineModel.suggestCandidate m.st sn c p) hold
  have hok := trialMove_ok hcons (TimelineModel.suggestCandidate m.st sn c p) false noop noop
    hT hcur
  unfold TimelineModel.suggestClipMove
  unfold TimelineModel.suggestCandidate at hst hok ⊢
  dsimp only
  rw [if_neg (by
    intro hcond
    rcases hcond with e | e
    · exact hp e
    · exact e hcur)]
  generalize (if 0 ≤ (TimelineModel.requestBestSnapPos sn p
      (m.st.clipObj c).m_playtime (TimelineModel.ignoredPoints m.st c)).1 then
        (TimelineModel.requestBestSnapPos sn p (m.st.clipObj c).m_playtime
          (TimelineModel.ignoredPoints m.st c)).1 else p) = q at hst hok ⊢
  generalize TimelineModel.requestClipMoveFun m.st c T q false noop noop = r at hst hok ⊢
  rw [← hok]
  by_cases hr : r.ok = true
  · rw [if_pos hr] at hst
    rw [if_pos hr, if_pos hr, hst]
    exact ⟨rfl, rfl⟩
  · rw [if_neg hr] at hst
    rw [if_neg hr, if_neg hr, hst]
    by_cases hq : TimelineModel.getClipPosition m.st c < q
    · simp only [hq, decide_True, if_true]
      split <;> exact ⟨rfl, rfl⟩
    · simp only [hq, decide_False, if_false, Bool.false_eq_true]
      split <;> exact ⟨rfl, rfl⟩

theorem fitsOn_eq_false_iff (s : TimelineState) (c T p : Int) :
    TimelineModel.fitsOn s c T p = false ↔
      ∃ c' ∈ (s.trackObj T).m_allClips, c' ≠ c ∧
        intervalsOverlap p (s.clipObj c).m_playtime (s.clipObj c').m_position
          (s.clipObj c').m_playtime = true := by
  rw [← Bool.not_eq_true, fitsOn_eq_true_iff]
  simp

/-- A placed clip fits where it is. -/
theorem fitsOn_current {s : TimelineState} (h : Consistent s) {c T : Int}
    (hm : c ∈ (s.trackObj T).m_allClips) :
    TimelineModel.fitsOn s c T (s.clipObj c).m_position = true := by
  rw [fitsOn_eq_true_iff]
  intro c' hc' hne
  exact h.disjoint T c hm c' hc' (fun e => hne e.symm)

/-- The forward branch of the suggestion: when the clip does not fit at a
candidate after its position, the gap after it is smaller than the
displacement asked for, and the clip fits at the end of the gap. -/
theorem gap_branch_after {s : TimelineState} (h : Consistent s) {c T q : Int}
    (hm : c ∈ (s.trackObj T).m_allClips)
    (hfit : TimelineModel.fitsOn s c T q = false) (hq : (s.clipObj c).m_position < q) :
    0 ≤ TrackModel.getBlankSizeNearClip s T c true ∧
    (s.clipObj c).m_position + TrackModel.getBlankSizeNearClip s T c true < q ∧
    TimelineModel.fitsOn s c T
      ((s.clipObj c).m_position + TrackModel.getBlankSizeNearClip s T c true) = true ∧
    ∃ c1 ∈ (s.trackObj T).m_allClips, c1 ≠ c ∧
      (s.clipObj c).m_position + (s.clipObj c).m_playtime +
        TrackModel.getBlankSizeNearClip s T c true = (s.clipObj c1).m_position := by
  obtain ⟨c0, hc0, hne, hov⟩ := (fitsOn_eq_false_iff s c T q).mp hfit
  have hd := h.disjoint T c hm c0 hc0 (fun e => hne e.symm)
  unfold intervalsOverlap at hov hd
  rw [decide_eq_true_iff] at hov
  rw [decide_eq_false_iff_not] at hd
  have hstart : (s.clipObj c).m_position + (s.clipObj c).m_playtime ≤ (s.clipObj c0).m_position := by
    omega
  obtain ⟨⟨c1, h1, h2, h3, h4⟩, hall⟩ := blank_after_spec s hc0 hne hstart
  have hb := hall c0 hc0 hne hstart
  refine ⟨by omega, by omega, ?_, c1, h1, h2, by omega⟩
  rw [fitsOn_eq_true_iff]
  intro c' hc' hne'
  by_cases hs : (s.clipObj c).m_position + (s.clipObj c).m_playtime ≤ (s.clipObj c').m_position
  · have := hall c' hc' hne' hs
    unfold intervalsOverlap
    rw [decide_eq_false_iff_not]
    omega
  · exact overlap_shift_after (by omega) (h.disjoint T c hm c' hc' (fun e => hne' e.symm))
      (by omega)

/-- The backward branch of the suggestion: when the clip, placed at a
non-negative position, does not fit at a candidate that is not after its
position, the candidate is before the start of the gap, and the clip fits at
the start of the gap. -/
theorem gap_branch_before {s : TimelineState} (h : Consistent s) {c T q : Int}
    (hm : c ∈ (s.trackObj T).m_allClips) (hpos : 0 ≤ (s.clipObj c).m_position)
    (hfit : TimelineModel.fitsOn s c T q = false) (hq : ¬ (s.clipObj c).m_position < q) :
    0 ≤ TrackModel.getBlankSizeNearClip s T c false ∧
    q < (s.clipObj c).m_position - TrackModel.getBlankSizeNearClip s T c false ∧
    TimelineModel.fitsOn s c T
      ((s.clipObj c).m_position - TrackModel.getBlankSizeNearClip s T c false) = true ∧
    ∃ c1 ∈ (s.trackObj T).m_allClips, c1 ≠ c ∧
      (s.clipObj c1).m_position <
        (s.clipObj c).m_position - TrackModel.getBlankSizeNearClip s T c false := by
  obtain ⟨c0, hc0, hne, hov⟩ := (fitsOn_eq_false_iff s c T q).mp hfit
  have hd := h.disjoint T c hm c0 hc0 (fun e => hne e.symm)
  unfold intervalsOverlap at hov hd
  rw [decide_eq_true_iff] at hov
  rw [decide_eq_false_iff_not] at hd
  have hend : (s.clipObj c0).m_position + (s.clipObj c0).m_playtime ≤ (s.clipObj c).m_position := by
    omega
  obtain ⟨hor, h0, hall⟩ := blank_before_spec s c T
  have hb := hall c0 hc0 hne hend
  have hle : (s.clipObj c).m_position - TrackModel.getBlankSizeNearClip s T c false ≤
      (s.clipObj c).m_position := by
    rcases hor with e | ⟨c1, _, _, h3, h4⟩
    · omega
    · omega
  refine ⟨by omega, by omega, ?_, ?_⟩
  · rw [fitsOn_eq_true_iff]
    intro c' hc' hne'
    have hd' := h.disjoint T c hm c' hc' (fun e => hne' e.symm)
    unfold intervalsOverlap at hd' ⊢
    rw [decide_eq_false_iff_not] at hd' ⊢
    by_cases hs : (s.clipObj c').m_position + (s.clipObj c').m_playtime ≤ (s.clipObj c).m_position
    · have := hall c' hc' hne' hs
      omega
    · omega
  · exact ⟨c0, hc0, hne, by omega⟩

/-- The move of an ungrouped clip on its own track to a position where it
fits succeeds. -/
theorem requestClipMove_of_fits (m : TimelineModel) {c T r : Int} (uv logUndo : Bool)
    (hcons : Consistent m.st) (hT : T ≠ -1) (hcur : TimelineModel.getClipTrackId m.st c = T)
    (hgr : m.st.m_groups.isInGroup c = false)
    (hfit : TimelineModel.fitsOn m.st c T r = true) :
    (TimelineModel.requestClipMove m c T r uv logUndo).1 = true := by
  have hok := trialMove_ok hcons r uv noop noop hT hcur
  rw [hfit] at hok
  unfold TimelineModel.requestClipMove
  split
  · rfl
  · rw [if_neg (by rw [hgr]; simp)]
    dsimp only
    split <;> exact hok

/-- The suggestion for a clip on its own track, in a consistent model whose
positions on that track are non-negative `int`s: the clip fits at the position
returned, which is the candidate when the clip fits there, and the end of the
adjacent gap otherwise. -/
theorem suggestion_on_track (m : TimelineModel) (sn : SnapModel) (c T p : Int)
    (hcons : Consistent m.st) (hT : T ≠ -1) (hcur : TimelineModel.getClipTrackId m.st c = T)
    (hrange : TimelineModel.positionsInRange m.st T) :
    TimelineModel.fitsOn m.st c T (TimelineModel.suggestClipMove m sn c T p).1 = true ∧
    (TimelineModel.suggestClipMove m sn c T p).2.1 = m := by
  have hold : (m.st.clipObj c).m_currentTrackId ≠ -1 := by
    rw [show (m.st.clipObj c).m_currentTrackId = T from hcur]; exact hT
  have hm : c ∈ (m.st.trackObj T).m_allClips := by
    have := hcons.track_member c hold
    rwa [show (m.st.clipObj c).m_currentTrackId = T from hcur] at this
  have hc := hrange c hm
  by_cases hp : TimelineModel.getClipPosition m.st c = p
  · have e : TimelineModel.suggestClipMove m sn c T p = (p, m, sn) := by
      unfold TimelineModel.suggestClipMove
      dsimp only
      rw [if_pos (Or.inl hp)]
    rw [e]
    refine ⟨?_, rfl⟩
    rw [← hp]
    exact fitsOn_current hcons hm
  · obtain ⟨e1, e2⟩ := suggestClipMove_on_track m sn c T p hcons hT hcur hp
    refine ⟨?_, e2⟩
    rw [e1]
    generalize TimelineModel.suggestCandidate m.st sn c p = q
    cases hfit : TimelineModel.fitsOn m.st c T q
    · rw [if_neg (by simp)]
      obtain ⟨c0, _, _, hov⟩ := (fitsOn_eq_false_iff m.st c T q).mp hfit
      unfold intervalsOverlap at hov
      rw [decide_eq_true_iff] at hov
      unfold TimelineModel.getClipPosition
      by_cases hq : (m.st.clipObj c).m_position < q
      · obtain ⟨g0, _, gfit, c1, h1, _, h3⟩ := gap_branch_after hcons hm hfit hq
        have := hrange c1 h1
        simp only [hq, decide_True, if_true]
        rw [if_pos (by omega)]
        exact gfit
      · obtain ⟨g0, _, gfit, c1, h1, _, h3⟩ := gap_branch_before hcons hm hc.1 hfit hq
        have := hrange c1 h1
        simp only [hq, decide_False, if_false]
        rw [if_pos (by omega)]
        exact gfit
    · rw [if_pos rfl]
      exact hfit

/-- C21, as stated, fails: on the nested scenario the ungrouped clip 5 (on
track 0) is dragged over track 1 at position 10, where clip 4 plays `[0, 20)`;
`suggestClipMove` returns 10, clip 5 does not fit there, and the move to the
suggested position fails. -/
theorem C21_counterexample :
    Consistent scenarioNested.st ∧
    TimelineModel.isClip scenarioNested.st 5 = true ∧
    TimelineModel.getClipTrackId scenarioNested.st 5 = 0 ∧
    TimelineModel.isTrack scenarioNested.st 1 = true ∧
    scenarioNested.st.m_groups.isInGroup 5 = false ∧
    (TimelineModel.suggestClipMove scenarioNested {} 5 1 10).1 = 10 ∧
    TimelineModel.fitsOn scenarioNested.st 5 1 10 = false ∧
    (TimelineModel.requestClipMove (TimelineModel.suggestClipMove scenarioNested {} 5 1 10).2.1
      5 1 10 true true).1 = false :=
  ⟨(stackOK_of_reachable scenarioNested_reachable).1, by decide, by decide, by decide, by decide,
    by decide, by decide, by decide⟩

/-- C21 (amended): in a consistent model whose positions on track `T` are
non-negative `int`s, for a clip `c` that is on `T`, the position returned by
`suggestClipMove(c, T, p)` is one where `c` fits on `T`, and the move of an
ungrouped `c` to it on the model left by the call succeeds. -/
theorem C21_suggestion_fits_on_own_track (m : TimelineModel) (sn : SnapModel) (c T p : Int)
    (uv logUndo : Bool) (hcons : Consistent m.st)
    (htrack : TimelineModel.isTrack m.st T = true)
    (hcur : TimelineModel.getClipTrackId m.st c = T)
    (hrange : TimelineModel.positionsInRange m.st T) :
    TimelineModel.fitsOn m.st c T (TimelineModel.suggestClipMove m sn c T p).1 = true ∧
    (m.st.m_groups.isInGroup c = false →
      (TimelineModel.requestClipMove (TimelineModel.suggestClipMove m sn c T p).2.1 c T
        (TimelineModel.suggestClipMove m sn c T p).1 uv logUndo).1 = true) := by
  have hT : T ≠ -1 := by
    have := hcons.tracks_ok T (by simpa [TimelineModel.isTrack] using htrack)
    omega
  obtain ⟨h1, h2⟩ := suggestion_on_track m sn c T p hcons hT hcur hrange
  refine ⟨h1, fun hgr => ?_⟩
  rw [h2]
  exact requestClipMove_of_fits m uv logUndo hcons hT hcur hgr h1

theorem scenarioNested_range : TimelineModel.positionsInRange scenarioNested.st 0 := by
  unfold TimelineModel.positionsInRange
  decide

/-- Witness of C21 on the nested scenario: clip 5 (at 200 on track 0) is
dragged to 110, into clip 3 at `[100, 120)`; the suggestion is 120. -/
theorem C21_witness :
    (Consistent scenarioNested.st ∧ TimelineModel.isTrack scenarioNested.st 0 = true ∧
      TimelineModel.getClipTrackId scenarioNested.st 5 = 0 ∧
      TimelineModel.positionsInRange scenarioNested.st 0) ∧
    (TimelineModel.suggestClipMove scenarioNested {} 5 0 110).1 = 120 ∧
    TimelineModel.fitsOn scenarioNested.st 5 0
      (TimelineModel.suggestClipMove scenarioNested {} 5 0 110).1 = true :=
  ⟨⟨(stackOK_of_reachable scenarioNested_reachable).1, by decide, by decide,
      scenarioNested_range⟩,
    by decide,
    (C21_suggestion_fits_on_own_track scenarioNested {} 5 0 110 true true
      (stackOK_of_reachable scenarioNested_reachable).1 (by decide) (by decide)
      scenarioNested_range).1⟩

/-- C25: what `suggestClipMove(c, T, p)` returns.  When `T` is not the track of
the clip or `p` is its position `cur`, the result is `p`.  Otherwise, in a
consistent model with `T` a track and `cur` non-negative, with `q` the
candidate after snapping: when the trial move to `q` succeeds the result is
`q`; when it fails and the gap `g` adjacent to the clip in the direction of the
move is below `INT_MAX`, the result is `cur + g` if `q > cur` and `cur - g`
otherwise, `g` is non-negative and the result lies between `cur` and `q`. -/
theorem C25_suggestClipMove_result (m : TimelineModel) (sn : SnapModel) (c T p : Int)
    (hcons : Consistent m.st) (htrack : TimelineModel.isTrack m.st T = true)
    (hpos : 0 ≤ TimelineModel.getClipPosition m.st c) :
    ((TimelineModel.getClipTrackId m.st c ≠ T ∨ TimelineModel.getClipPosition m.st c = p) →
      (TimelineModel.suggestClipMove m sn c T p).1 = p) ∧
    (TimelineModel.getClipTrackId m.st c = T → TimelineModel.getClipPosition m.st c ≠ p →
      ((TimelineModel.requestClipMoveFun m.st c T (TimelineModel.suggestCandidate m.st sn c p)
          false noop noop).ok = true →
        (TimelineModel.suggestClipMove m sn c T p).1 = TimelineModel.suggestCandidate m.st sn c p) ∧
      ((TimelineModel.requestClipMoveFun m.st c T (TimelineModel.suggestCandidate m.st sn c p)
          false noop noop).ok = false →
        TrackModel.getBlankSizeNearClip m.st T c
          (decide (TimelineModel.getClipPosition m.st c <
            TimelineModel.suggestCandidate m.st sn c p)) < INT_MAX →
        (TimelineModel.suggestClipMove m sn c T p).1 =
          (if TimelineModel.getClipPosition m.st c < TimelineModel.suggestCandidate m.st sn c p then
            TimelineModel.getClipPosition m.st c + TrackModel.getBlankSizeNearClip m.st T c true
          else
            TimelineModel.getClipPosition m.st c - TrackModel.getBlankSizeNearClip m.st T c false) ∧
        0 ≤ TrackModel.getBlankSizeNearClip m.st T c
          (decide (TimelineModel.getClipPosition m.st c <
            TimelineModel.suggestCandidate m.st sn c p)) ∧
        (TimelineModel.getClipPosition m.st c < TimelineModel.suggestCandidate m.st sn c p →
          TimelineModel.getClipPosition m.st c ≤ (TimelineModel.suggestClipMove m sn c T p).1 ∧
          (TimelineModel.suggestClipMove m sn c T p).1 ≤
            TimelineModel.suggestCandidate m.st sn c p) ∧
        (¬ TimelineModel.getClipPosition m.st c < TimelineModel.suggestCandidate m.st sn c p →
          TimelineModel.suggestCandidate m.st sn c p ≤
            (TimelineModel.suggestClipMove m sn c T p).1 ∧
          (TimelineModel.suggestClipMove m sn c T p).1 ≤
            TimelineModel.getClipPosition m.st c))) := by
  have hT : T ≠ -1 := by
    have := hcons.tracks_ok T (by simpa [TimelineModel.isTrack] using htrack)
    omega
  constructor
  · intro hcond
    unfold TimelineModel.suggestClipMove
    dsimp only
    rw [if_pos (by
      rcases hcond with e | e
      · exact Or.inr e
      · exact Or.inl e)]
  · intro hcur hp
    have hold : (m.st.clipObj c).m_currentTrackId ≠ -1 := by
      rw [show (m.st.clipObj c).m_currentTrackId = T from hcur]; exact hT
    have hm : c ∈ (m.st.trackObj T).m_allClips := by
      have := hcons.track_member c hold
      rwa [show (m.st.clipObj c).m_currentTrackId = T from hcur] at this
    obtain ⟨e1, _⟩ := suggestClipMove_on_track m sn c T p hcons hT hcur hp
    rw [e1, trialMove_ok hcons _ false noop noop hT hcur]
    generalize TimelineModel.suggestCandidate m.st sn c p = q
    unfold TimelineModel.getClipPosition at hpos ⊢
    constructor
    · intro hfit
      rw [if_pos hfit]
    · intro hfit hfin
      rw [if_neg (by rw [hfit]; simp), if_pos hfin]
      refine ⟨rfl, ?_⟩
      by_cases hq : (m.st.clipObj c).m_position < q
      · obtain ⟨g0, g1, _, _⟩ := gap_branch_after hcons hm hfit hq
        simp only [hq, decide_True, if_true, not_true_eq_false, false_implies, true_implies,
          and_true]
        omega
      · obtain ⟨g0, g1, _, _⟩ := gap_branch_before hcons hm hpos hfit hq
        simp only [hq, decide_False, if_false, not_false_eq_true, false_implies, true_implies,
          true_and]
        omega

/-- Witness of C25 on the nested scenario: clip 5 (at 200 on track 0) is
dragged to 110, into clip 3 at `[100, 120)`; the gap before clip 5 is 80 and
the suggestion is 120. -/
theorem C25_witness :
    (Consistent scenarioNested.st ∧ TimelineModel.isTrack scenarioNested.st 0 = true ∧
      0 ≤ TimelineModel.getClipPosition scenarioNested.st 5) ∧
    TimelineModel.getClipPosition scenarioNested.st 5 = 200 ∧
    TrackModel.getBlankSizeNearClip scenarioNested.st 0 5 false = 80 ∧
    (TimelineModel.suggestClipMove scenarioNested {} 5 0 110).1 = 120 :=
  ⟨⟨(stackOK_of_reachable scenarioNested_reachable).1, by decide, by decide⟩, by decide,
    by decide,
    ((((C25_suggestClipMove_result scenarioNested {} 5 0 110
      (stackOK_of_reachable scenarioNested_reachable).1 (by decide) (by decide)).2
        (by decide) (by decide)).2 (by decide) (by decide)).1).trans (by decide)⟩

/-! ## Replanting the compositions -/

theorem replantable_eq_false_iff (s : TimelineState) (k : Int) :
    TimelineModel.replantable s k = false ↔
      ((s.compoObj k).m_currentTrackId = -1 ∨ TimelineModel.getATrack s k = -1) := by
  unfold TimelineModel.replantable
  by_cases h1 : (s.compoObj k).m_currentTrackId = -1 <;>
    by_cases h2 : TimelineModel.getATrack s k = -1 <;> simp [h1, h2]

theorem replantable_unplant (k : Int) (s : TimelineState) :
    TimelineModel.replantable (TimelineModel.unplantComposition k s).2 =
      TimelineModel.replantable s := rfl

/-- The first loop of `replantCompositions`: the pairs collected and the field
it leaves. -/
theorem replantScan_spec (cur : Int) (ks : List Int) (compos : List (Int × Int))
    (s : TimelineState) :
    TimelineModel.replantScan cur ks compos s =
      (compos ++ (ks.filter (TimelineModel.replantable s)).map
        (fun k => (TimelineModel.getTrackMltIndex s (s.compoObj k).m_currentTrackId, k)),
       { s with m_field := (s.m_field.filter
          (fun p => !(decide (p.id ∈ ks.filter (TimelineModel.replantable s)) && p.id != cur))) }) := by
  induction ks generalizing compos s with
  | nil =>
    simp [TimelineModel.replantScan]
  | cons k ks ih =>
    unfold TimelineModel.replantScan
    cases hel : TimelineModel.replantable s k
    · have hcond := (replantable_eq_false_iff s k).mp hel
      simp only [hcond, if_true]
      rw [ih, List.filter_cons_of_neg (by simp [hel])]
    · have hcond : ¬ ((s.compoObj k).m_currentTrackId = -1 ∨ TimelineModel.getATrack s k = -1) := by
        intro h
        have := (replantable_eq_false_iff s k).mpr h
        rw [hel] at this
        exact absurd this (by simp)
      simp only [hcond, if_false]
      rw [List.filter_cons_of_pos hel]
      by_cases hk : k = cur
      · subst hk
        simp only [ne_eq, not_true_eq_false, if_false]
        rw [ih]
        congr 1
        · simp
        · congr 1
          apply List.filter_congr
          intro p _
          by_cases hp : p.id = k <;> simp [hp]
      · simp only [ne_eq, hk, not_false_eq_true, if_true]
        rw [ih]
        congr 1
        · simp
          rfl
        · show ({ s with m_field := List.filter _ (List.filter _ s.m_field) } : TimelineState) = _
          rw [List.filter_filter]
          congr 1
          apply List.filter_congr
          intro p _
          by_cases hp : p.id = k
          · simp [hp, hk, replantable_unplant]
          · simp [hp, replantable_unplant]

/-- The second loop of `replantCompositions`: every pair is planted, in the
order of the list. -/
theorem replantLoop_spec (l : List (Int × Int)) (s : TimelineState) :
    TimelineModel.replantLoop l s =
      (true, { s with m_field := (s.m_field ++ l.map (fun c =>
        ({ id := c.2, a_track := TimelineModel.getTrackMltIndex s (TimelineModel.getATrack s c.2),
           b_track := c.1 } : Planted))) }) := by
  induction l generalizing s with
  | nil => simp [TimelineModel.replantLoop]
  | cons c l ih =>
    unfold TimelineModel.replantLoop
    simp only [TimelineModel.plant_transition, ne_eq, not_true_eq_false, if_false]
    rw [ih]
    simp only [List.map_cons, List.append_assoc, List.singleton_append]
    rfl

/-- The whole of `replantCompositions`: it succeeds, and it changes only the
field of the engine and tells the view. -/
theorem replantCompositions_spec (cur : Int) (s : TimelineState) :
    TimelineModel.replantCompositions cur s =
      (true, { s with
        m_field := (s.m_field.filter (fun p =>
            !(decide (p.id ∈ s.m_allCompositions.filter (TimelineModel.replantable s)) &&
              p.id != cur)) ++
          (((s.m_allCompositions.filter (TimelineModel.replantable s)).map
            (fun k => (TimelineModel.getTrackMltIndex s (s.compoObj k).m_currentTrackId, k))
            ).insertionSort (fun a b => a.1 > b.1)).map (fun c =>
              ({ id := c.2,
                 a_track := TimelineModel.getTrackMltIndex s (TimelineModel.getATrack s c.2),
                 b_track := c.1 } : Planted))),
        viewNotifications := s.viewNotifications + 1 }) := by
  unfold TimelineModel.replantCompositions
  simp only [replantScan_spec, replantLoop_spec, List.nil_append, if_true]
  rfl

theorem orderedInsert_sorted_fst (a : Int × Int) (l : List (Int × Int))
    (h : (l.map Prod.fst).Sorted (· ≥ ·)) :
    ((l.orderedInsert (fun a b => a.1 > b.1) a).map Prod.fst).Sorted (· ≥ ·) := by
  induction l with
  | nil => simp
  | cons b l ih =>
    rw [List.orderedInsert]
    rw [List.map_cons, List.sorted_cons] at h
    split
    · rename_i hab
      rw [List.map_cons, List.sorted_cons, List.map_cons, List.sorted_cons]
      refine ⟨?_, h⟩
      intro x hx
      rcases List.mem_cons.mp hx with e | hx'
      · rw [e]; show b.1 ≤ a.1; omega
      · have := h.1 x hx'
        show x ≤ a.1
        have h2 : x ≤ b.1 := this
        omega
    · rename_i hab
      rw [List.map_cons, List.sorted_cons]
      refine ⟨?_, ih h.2⟩
      intro x hx
      obtain ⟨y, hy, rfl⟩ := List.mem_map.mp hx
      rcases (List.mem_orderedInsert (fun a b : Int × Int => a.1 > b.1)).mp hy with e | hy'
      · rw [e]; show a.1 ≤ b.1; omega
      · exact h.1 y.1 (List.mem_map.mpr ⟨y, hy', rfl⟩)

/-- The sort of `replantCompositions` leaves the pairs in non-increasing order
of their first component. -/
theorem insertionSort_sorted_fst (l : List (Int × Int)) :
    ((l.insertionSort (fun a b => a.1 > b.1)).map Prod.fst).Sorted (· ≥ ·) := by
  induction l with
  | nil => simp
  | cons a l ih =>
    rw [List.insertionSort]
    exact orderedInsert_sorted_fst a _ ih

/-- C24, as stated, fails: on the scenario with three compositions, two of them
on the same track, composition 5 is unplanted and the compositions are
replanted for it; the transitions are planted with the B-track indices 3, 2, 2,
which are not strictly decreasing. -/
theorem C24_counterexample :
    (TimelineModel.replantCompositions 5
      (TimelineModel.unplantComposition 5 scenarioCompos.st).2).2.m_field =
      [{ id := 5, a_track := 2, b_track := 3 }, { id := 4, a_track := 1, b_track := 2 },
        { id := 3, a_track := 1, b_track := 2 }] ∧
    ¬ ((TimelineModel.replantCompositions 5
      (TimelineModel.unplantComposition 5 scenarioCompos.st).2).2.m_field.map
        (fun p => p.b_track)).Sorted (· > ·) := by
  decide

/-- C24 (amended): `replantCompositions(current)` succeeds; it detaches from
the field of the engine every registered composition that is placed on a track
and has an A-track, except `current`, and leaves the other transitions of the
field alone; then it plants every such composition, each exactly once, in
non-increasing order of the engine index of its own track, each with the A-track
index `getTrackMltIndex(A-track)` and the B-track index
`getTrackMltIndex(own track)`. -/
theorem C24_replant_in_non_increasing_order (cur : Int) (s : TimelineState)
    (hnodup : s.m_allCompositions.Nodup) :
    (TimelineModel.replantCompositions cur s).1 = true ∧
    ∃ plan : List Planted,
      (TimelineModel.replantCompositions cur s).2.m_field =
        s.m_field.filter (fun p =>
          !(TimelineModel.isComposition s p.id && TimelineModel.replantable s p.id &&
            p.id != cur)) ++ plan ∧
      (plan.map (fun p => p.id)).Nodup ∧
      (∀ k, k ∈ plan.map (fun p => p.id) ↔
        (TimelineModel.isComposition s k = true ∧ TimelineModel.getCompositionTrackId s k ≠ -1 ∧
          TimelineModel.getATrack s k ≠ -1)) ∧
      (plan.map (fun p => p.b_track)).Sorted (· ≥ ·) ∧
      ∀ p ∈ plan,
        p.a_track = TimelineModel.getTrackMltIndex s (TimelineModel.getATrack s p.id) ∧
        p.b_track = TimelineModel.getTrackMltIndex s (TimelineModel.getCompositionTrackId s p.id) := by
  rw [replantCompositions_spec]
  have hperm := List.perm_insertionSort (fun a b : Int × Int => a.1 > b.1)
    ((s.m_allCompositions.filter (TimelineModel.replantable s)).map
      (fun k => (TimelineModel.getTrackMltIndex s (s.compoObj k).m_currentTrackId, k)))
  have hsorted := insertionSort_sorted_fst
    ((s.m_allCompositions.filter (TimelineModel.replantable s)).map
      (fun k => (TimelineModel.getTrackMltIndex s (s.compoObj k).m_currentTrackId, k)))
  generalize List.insertionSort (fun a b : Int × Int => a.1 > b.1)
    ((s.m_allCompositions.filter (TimelineModel.replantable s)).map
      (fun k => (TimelineModel.getTrackMltIndex s (s.compoObj k).m_currentTrackId, k))) = S
    at hperm hsorted
  have hids : (S.map Prod.snd).Perm (s.m_allCompositions.filter (TimelineModel.replantable s)) := by
    have := hperm.map Prod.snd
    rw [List.map_map] at this
    have e : (Prod.snd ∘ fun k =>
        (TimelineModel.getTrackMltIndex s (s.compoObj k).m_currentTrackId, k)) = id := rfl
    rw [e, List.map_id] at this
    exact this
  have hrep : ∀ k, TimelineModel.replantable s k = true ↔
      (TimelineModel.getCompositionTrackId s k ≠ -1 ∧ TimelineModel.getATrack s k ≠ -1) := by
    intro k
    simp [TimelineModel.replantable, TimelineModel.getCompositionTrackId]
  refine ⟨rfl, S.map (fun c =>
      ({ id := c.2, a_track := TimelineModel.getTrackMltIndex s (TimelineModel.getATrack s c.2),
         b_track := c.1 } : Planted)), ?_, ?_, ?_, ?_, ?_⟩
  · show _ ++ _ = _ ++ _
    congr 1
    apply List.filter_congr
    intro p _
    simp [TimelineModel.isComposition, List.mem_filter]
  · rw [List.map_map]
    exact (hids.nodup_iff).mpr (hnodup.filter _)
  · intro k
    rw [List.map_map]
    rw [show ((fun p : Planted => p.id) ∘ fun c : Int × Int =>
      ({ id := c.2, a_track := TimelineModel.getTrackMltIndex s (TimelineModel.getATrack s c.2),
         b_track := c.1 } : Planted)) = Prod.snd from rfl]
    rw [hids.mem_iff, List.mem_filter, hrep]
    simp [TimelineModel.isComposition]
  · rw [List.map_map]
    exact hsorted
  · intro p hp
    obtain ⟨c, hc, rfl⟩ := List.mem_map.mp hp
    refine ⟨rfl, ?_⟩
    have hc' := hperm.mem_iff.mp hc
    obtain ⟨k, _, rfl⟩ := List.mem_map.mp hc'
    rfl

/-- Witness of C24 on the scenario with three compositions. -/
theorem C24_witness :
    scenarioCompos.st.m_allCompositions.Nodup ∧
    (TimelineModel.replantCompositions 5 scenarioCompos.st).1 = true :=
  ⟨by decide, (C24_replant_in_non_increasing_order 5 scenarioCompos.st (by decide)).1⟩

/-! ## Moving a composition -/

theorem compoInsertion_lambda_eq (T k p : Int) (uv : Bool) (s : TimelineState) :
    TrackModel.requestCompositionInsertion_lambda T k p uv s =
      if TrackModel.canInsertCompo s T k p = true then (true, TrackModel.placeCompo s T k p uv)
      else (false, s) := by
  unfold TrackModel.requestCompositionInsertion_lambda TrackModel.canInsertCompo
  by_cases h1 : (s.compoObj k).m_currentTrackId = -1 <;>
    cases h2 : TrackModel.isFreeCompo s T p (s.compoObj k).m_playtime <;>
    simp [h1, TrackModel.placeCompo]

theorem compoDeletion_lambda_eq (T k : Int) (uv : Bool) (s : TimelineState) :
    TrackModel.requestCompositionDeletion_lambda T k uv s =
      if k ∈ (s.trackObj T).m_allCompositions then (true, TrackModel.unplaceCompo s T k uv)
      else (false, s) := rfl

theorem setAndReplant_fst (k a : Int) (s : TimelineState) :
    (TimelineModel.setAndReplant k a s).1 = true := by
  unfold TimelineModel.setAndReplant
  rw [replantCompositions_spec]

theorem setAndReplant_compoObj (k a : Int) (s : TimelineState) :
    (TimelineModel.setAndReplant k a s).2.compoObj =
      setAt s.compoObj k { s.compoObj k with a_track := a } := by
  unfold TimelineModel.setAndReplant
  rw [replantCompositions_spec]
  rfl

theorem setAndReplant_trackObj (k a : Int) (s : TimelineState) :
    (TimelineModel.setAndReplant k a s).2.trackObj = s.trackObj := by
  unfold TimelineModel.setAndReplant
  rw [replantCompositions_spec]
  rfl

theorem unplantAndClear_eq (k : Int) (s : TimelineState) :
    TimelineModel.unplantAndClear k s =
      if TimelineModel.isPlanted s k = true then
        (true, TimelineModel.setATrack (TimelineModel.unplantComposition k s).2 k (-1))
      else (false, (TimelineModel.unplantComposition k s).2) := rfl

/-- The first placement of a composition (it names no track). -/
theorem compoMove_first (s : TimelineState) (k T p : Int) (uv : Bool) (undo redo : Fun)
    (hprev : TimelineModel.getPreviousTrackId s T ≠ -1)
    (hold : TimelineModel.getCompositionTrackId s k = -1) :
    (TimelineModel.requestCompositionMoveFun s k T p uv undo redo).ok =
      TrackModel.canInsertCompo s T k p ∧
    (TimelineModel.requestCompositionMoveFun s k T p uv undo redo).s =
      if TrackModel.canInsertCompo s T k p = true then
        (if -1 ≠ T then
          (TimelineModel.setAndReplant k (TimelineModel.getPreviousTrackId s T)
            (TrackModel.placeCompo s T k p uv)).2
        else TrackModel.placeCompo s T k p uv)
      else s := by
  unfold TimelineModel.requestCompositionMoveFun
  simp only [hprev, hold, if_false, ne_eq, not_true_eq_false, TrackModel.requestCompositionInsertion,
    compoInsertion_lambda_eq]
  cases hcan : TrackModel.canInsertCompo s T k p
  · simp [noop]
  · by_cases hT : -1 = T
    · simp [hT, noop]
    · simp [hT, noop, setAndReplant_fst]

/-- The move of a placed composition within its track. -/
theorem compoMove_same (s : TimelineState) (k T p : Int) (uv : Bool) (undo redo : Fun)
    (hprev : TimelineModel.getPreviousTrackId s T ≠ -1)
    (hold : TimelineModel.getCompositionTrackId s k = T) (hT : T ≠ -1) :
    (TimelineModel.requestCompositionMoveFun s k T p uv undo redo).ok =
      (decide (k ∈ (s.trackObj T).m_allCompositions) &&
        TrackModel.canInsertCompo (TrackModel.unplaceCompo s T k uv) T k p) ∧
    (TimelineModel.requestCompositionMoveFun s k T p uv undo redo).s =
      if k ∈ (s.trackObj T).m_allCompositions then
        (if TrackModel.canInsertCompo (TrackModel.unplaceCompo s T k uv) T k p = true then
          TrackModel.placeCompo (TrackModel.unplaceCompo s T k uv) T k p uv
        else
          (TrackModel.requestCompositionInsertion_lambda T k (s.compoObj k).m_position uv
            (TrackModel.unplaceCompo s T k uv)).2)
      else s := by
  unfold TimelineModel.requestCompositionMoveFun
  simp only [hprev, hold, hT, if_false, if_true, ne_eq, not_true_eq_false, not_false_eq_true,
    TrackModel.requestCompositionInsertion, TrackModel.requestCompositionDeletion,
    compoDeletion_lambda_eq]
  by_cases hm : k ∈ (s.trackObj T).m_allCompositions
  · cases hcan : TrackModel.canInsertCompo (TrackModel.unplaceCompo s T k uv) T k p
    · simp [hm, hcan, noop, UPDATE_UNDO_REDO, compoInsertion_lambda_eq]
    · simp [hm, hcan, noop, UPDATE_UNDO_REDO, compoInsertion_lambda_eq]
  · simp [hm, noop, UPDATE_UNDO_REDO]

/-- The move of a placed composition to another track. -/
theorem compoMove_cross (s : TimelineState) (k T p : Int) (uv : Bool) (undo redo : Fun)
    (hprev : TimelineModel.getPreviousTrackId s T ≠ -1)
    (hold : TimelineModel.getCompositionTrackId s k ≠ -1)
    (hne : TimelineModel.getCompositionTrackId s k ≠ T) :
    (TimelineModel.requestCompositionMoveFun s k T p uv undo redo).ok =
      (TimelineModel.isPlanted s k &&
        decide (k ∈ (s.trackObj (TimelineModel.getCompositionTrackId s k)).m_allCompositions) &&
        TrackModel.canInsertCompo
          (TrackModel.unplaceCompo
            (TimelineModel.setATrack (TimelineModel.unplantComposition k s).2 k (-1))
            (TimelineModel.getCompositionTrackId s k) k uv) T k p) ∧
    (TimelineModel.requestCompositionMoveFun s k T p uv undo redo).s =
      if TimelineModel.isPlanted s k = true then
        (if k ∈ (s.trackObj (TimelineModel.getCompositionTrackId s k)).m_allCompositions then
          (if TrackModel.canInsertCompo
              (TrackModel.unplaceCompo
                (TimelineModel.setATrack (TimelineModel.unplantComposition k s).2 k (-1))
                (TimelineModel.getCompositionTrackId s k) k uv) T k p = true then
            (TimelineModel.setAndReplant k (TimelineModel.getPreviousTrackId s T)
              (TrackModel.placeCompo
                (TrackModel.unplaceCompo
                  (TimelineModel.setATrack (TimelineModel.unplantComposition k s).2 k (-1))
                  (TimelineModel.getCompositionTrackId s k) k uv) T k p uv)).2
          else
            (TimelineModel.setAndReplant k (TimelineModel.getATrack s k)
              (TrackModel.requestCompositionInsertion_lambda
                (TimelineModel.getCompositionTrackId s k) k (s.compoObj k).m_position uv
                (TrackModel.unplaceCompo
                  (TimelineModel.setATrack (TimelineModel.unplantComposition k s).2 k (-1))
                  (TimelineModel.getCompositionTrackId s k) k uv)).2).2)
        else
          (TimelineModel.setAndReplant k (TimelineModel.getATrack s k)
            (TimelineModel.setATrack (TimelineModel.unplantComposition k s).2 k (-1))).2)
      else (TimelineModel.unplantComposition k s).2 := by
  unfold TimelineModel.requestCompositionMoveFun
  simp only [hprev, hold, hne, if_false, if_true, ne_eq, not_true_eq_false, not_false_eq_true,
    TrackModel.requestCompositionInsertion, TrackModel.requestCompositionDeletion,
    compoDeletion_lambda_eq, unplantAndClear_eq]
  cases hpl : TimelineModel.isPlanted s k
  · simp [noop]
  · have e1 : (TimelineModel.setATrack (TimelineModel.unplantComposition k s).2 k (-1)).trackObj =
        s.trackObj := rfl
    have e2 : ((TimelineModel.setATrack (TimelineModel.unplantComposition k s).2 k (-1)).compoObj
        k).m_position = (s.compoObj k).m_position := by
      simp [TimelineModel.setATrack, TimelineModel.unplantComposition, setAt]
    simp only [if_true, e1, e2, Bool.true_and]
    by_cases hm : k ∈ (s.trackObj (TimelineModel.getCompositionTrackId s k)).m_allCompositions
    · cases hcan : TrackModel.canInsertCompo
          (TrackModel.unplaceCompo
            (TimelineModel.setATrack (TimelineModel.unplantComposition k s).2 k (-1))
            (TimelineModel.getCompositionTrackId s k) k uv) T k p
      · simp [hm, hcan, noop, UPDATE_UNDO_REDO, compoInsertion_lambda_eq, setAndReplant_fst]
      · simp [hm, hcan, noop, UPDATE_UNDO_REDO, compoInsertion_lambda_eq, setAndReplant_fst]
    · simp [hm, noop, UPDATE_UNDO_REDO, setAndReplant_fst]

/-- A composition that has left its track fits back where it was, when it
overlapped no other composition of the track. -/
theorem canInsertCompo_back {s x : TimelineState} {k : Int} (uv : Bool)
    (h1 : x.trackObj = s.trackObj) (h2 : ∀ c, c ≠ k → x.compoObj c = s.compoObj c)
    (h3 : (x.compoObj k).m_playtime = (s.compoObj k).m_playtime)
    (hfit : TimelineModel.compoFitsBack s k) :
    TrackModel.canInsertCompo
      (TrackModel.unplaceCompo x (s.compoObj k).m_currentTrackId k uv)
      (s.compoObj k).m_currentTrackId k (s.compoObj k).m_position = true := by
  unfold TrackModel.canInsertCompo TrackModel.isFreeCompo
  simp only [TrackModel.unplaceCompo, setAt, if_true, decide_True, Bool.true_and, h1]
  rw [List.all_eq_true]
  intro c hc
  obtain ⟨hm, hne⟩ := mem_eraseKey.mp hc
  rw [if_neg hne, h2 c hne, h3]
  simpa using hfit c hm hne

theorem placeCompo_obj (s : TimelineState) (T k p : Int) (uv : Bool) :
    (TrackModel.placeCompo s T k p uv).compoObj k =
      { s.compoObj k with m_currentTrackId := T, m_position := p } := by
  simp [TrackModel.placeCompo, setAt]

theorem unplaceCompo_obj (s : TimelineState) (T k : Int) (uv : Bool) :
    (TrackModel.unplaceCompo s T k uv).compoObj k =
      { s.compoObj k with m_currentTrackId := -1 } := by
  simp [TrackModel.unplaceCompo, setAt]

/-- C22: the A-track after `requestCompositionMove(k, T, p, ...)`.  When `T` has
no previous track the call returns false and changes nothing.  After a
successful move or first placement onto a track `T` other than the track `k`
was on, the A-track of `k` is `getPreviousTrackId(T)`; after a successful move
within the same track it is unchanged.  When the move fails, the track, the
position and the A-track of `k` are as before the call (for a composition that
overlapped no other composition of its track). -/
theorem C22_composition_move_A_track (s : TimelineState) (k T p : Int) (uv : Bool)
    (undo redo : Fun) :
    (TimelineModel.getPreviousTrackId s T = -1 →
      (TimelineModel.requestCompositionMoveFun s k T p uv undo redo).ok = false ∧
      (TimelineModel.requestCompositionMoveFun s k T p uv undo redo).s = s ∧
      (TimelineModel.requestCompositionMoveFun s k T p uv undo redo).undo = undo ∧
      (TimelineModel.requestCompositionMoveFun s k T p uv undo redo).redo = redo) ∧
    ((TimelineModel.requestCompositionMoveFun s k T p uv undo redo).ok = true →
      TimelineModel.getCompositionTrackId s k ≠ T →
      TimelineModel.getATrack (TimelineModel.requestCompositionMoveFun s k T p uv undo redo).s k =
        TimelineModel.getPreviousTrackId s T) ∧
    ((TimelineModel.requestCompositionMoveFun s k T p uv undo redo).ok = true →
      TimelineModel.getCompositionTrackId s k = T →
      TimelineModel.getATrack (TimelineModel.requestCompositionMoveFun s k T p uv undo redo).s k =
        TimelineModel.getATrack s k) ∧
    ((TimelineModel.requestCompositionMoveFun s k T p uv undo redo).ok = false →
      TimelineModel.compoFitsBack s k →
      TimelineModel.getCompositionTrackId
          (TimelineModel.requestCompositionMoveFun s k T p uv undo redo).s k =
        TimelineModel.getCompositionTrackId s k ∧
      TimelineModel.getCompositionPosition
          (TimelineModel.requestCompositionMoveFun s k T p uv undo redo).s k =
        TimelineModel.getCompositionPosition s k ∧
      TimelineModel.getATrack (TimelineModel.requestCompositionMoveFun s k T p uv undo redo).s k =
        TimelineModel.getATrack s k) := by
  by_cases hprev : TimelineModel.getPreviousTrackId s T = -1
  · have e : TimelineModel.requestCompositionMoveFun s k T p uv undo redo =
        { ok := false, s := s, undo := undo, redo := redo } := by
      unfold TimelineModel.requestCompositionMoveFun
      simp [hprev]
    rw [e]
    exact ⟨fun _ => ⟨rfl, rfl, rfl, rfl⟩, fun h => absurd h (by simp),
      fun h => absurd h (by simp), fun _ _ => ⟨rfl, rfl, rfl⟩⟩
  · refine ⟨fun h => absurd h hprev, ?_⟩
    by_cases hold : TimelineModel.getCompositionTrackId s k = -1
    · obtain ⟨e1, e2⟩ := compoMove_first s k T p uv undo redo hprev hold
      rw [e1, e2]
      refine ⟨?_, ?_, ?_⟩
      · intro hok hne
        rw [if_pos hok, if_pos (by rw [← hold]; exact hne)]
        simp [TimelineModel.getATrack, setAndReplant_compoObj, setAt]
      · intro hok he
        rw [if_pos hok, if_neg (by rw [← hold, he]; simp)]
        simp [TimelineModel.getATrack, placeCompo_obj]
      · intro hok _
        rw [if_neg (by rw [hok]; simp)]
        exact ⟨rfl, rfl, rfl⟩
    · by_cases hsame : TimelineModel.getCompositionTrackId s k = T
      · have hT : T ≠ -1 := by rw [← hsame]; exact hold
        obtain ⟨e1, e2⟩ := compoMove_same s k T p uv undo redo hprev hsame hT
        rw [e1, e2]
        refine ⟨fun _ h => absurd hsame h, ?_, ?_⟩
        · intro hok _
          simp only [Bool.and_eq_true, decide_eq_true_eq] at hok
          rw [if_pos hok.1, if_pos hok.2]
          simp [TimelineModel.getATrack, placeCompo_obj, unplaceCompo_obj]
        · intro hok hfit
          by_cases hm : k ∈ (s.trackObj T).m_allCompositions
          · have hcan : TrackModel.canInsertCompo (TrackModel.unplaceCompo s T k uv) T k p = false := by
              simpa [hm] using hok
            have hback := canInsertCompo_back (s := s) (x := s) (k := k) uv rfl (fun _ _ => rfl) rfl hfit
            rw [show (s.compoObj k).m_currentTrackId = T from hsame] at hback
            rw [if_pos hm, if_neg (by rw [hcan]; simp), compoInsertion_lambda_eq, if_pos hback]
            simp [TimelineModel.getCompositionTrackId, TimelineModel.getCompositionPosition,
              TimelineModel.getATrack, placeCompo_obj, unplaceCompo_obj]
            exact hsame.symm
          · rw [if_neg hm]
            exact ⟨rfl, rfl, rfl⟩
      · obtain ⟨e1, e2⟩ := compoMove_cross s k T p uv undo redo hprev hold hsame
        rw [e1, e2]
        refine ⟨?_, fun _ h => absurd h hsame, ?_⟩
        · intro hok _
          simp only [Bool.and_eq_true, decide_eq_true_eq] at hok
          rw [if_pos hok.1.1, if_pos hok.1.2, if_pos hok.2]
          simp [TimelineModel.getATrack, setAndReplant_compoObj, setAt]
        · intro hok hfit
          cases hpl : TimelineModel.isPlanted s k
          · rw [if_neg (by simp)]
            exact ⟨rfl, rfl, rfl⟩
          · rw [if_pos rfl]
            by_cases hm : k ∈ (s.trackObj (TimelineModel.getCompositionTrackId s k)).m_allCompositions
            · have hcan : TrackModel.canInsertCompo
                  (TrackModel.unplaceCompo
                    (TimelineModel.setATrack (TimelineModel.unplantComposition k s).2 k (-1))
                    (TimelineModel.getCompositionTrackId s k) k uv) T k p = false := by
                simpa [hm, hpl] using hok
              have hback := canInsertCompo_back (s := s)
                (x := TimelineModel.setATrack (TimelineModel.unplantComposition k s).2 k (-1))
                (k := k) uv rfl
                (fun c hc => by
                  simp [TimelineModel.setATrack, TimelineModel.unplantComposition, setAt, hc])
                (by simp [TimelineModel.setATrack, TimelineModel.unplantComposition, setAt]) hfit
              rw [if_pos hm, if_neg (by rw [hcan]; simp)]
              unfold TimelineModel.getCompositionTrackId
              rw [compoInsertion_lambda_eq, if_pos hback]
              simp [TimelineModel.getCompositionTrackId, TimelineModel.getCompositionPosition,
                TimelineModel.getATrack, placeCompo_obj, unplaceCompo_obj, setAndReplant_compoObj,
                setAt, TimelineModel.setATrack, TimelineModel.unplantComposition]
            · rw [if_neg hm]
              simp [TimelineModel.getCompositionTrackId, TimelineModel.getCompositionPosition,
                TimelineModel.getATrack, setAndReplant_compoObj,
                setAt, TimelineModel.setATrack, TimelineModel.unplantComposition]

theorem scenarioCompos_fitsBack : TimelineModel.compoFitsBack scenarioCompos.st 3 := by
  unfold TimelineModel.compoFitsBack
  decide

/-- Witness of C22: on the scenario with one composition (id 3, on track 1 with
A-track 0), the move to track 0, which has no previous track, is refused, and
the move to track 2 succeeds and gives the A-track 1; on the scenario with
three compositions the move of composition 3 to track 2 at position 5, into
composition 5, fails and leaves composition 3 on track 1 at 0 with A-track 0. -/
theorem C22_witness :
    (TimelineModel.getPreviousTrackId scenarioCompo.st 0 = -1 ∧
      (TimelineModel.requestCompositionMoveFun scenarioCompo.st 3 0 0 true noop noop).s =
        scenarioCompo.st) ∧
    ((TimelineModel.requestCompositionMoveFun scenarioCompo.st 3 2 0 true noop noop).ok = true ∧
      TimelineModel.getCompositionTrackId scenarioCompo.st 3 ≠ 2 ∧
      TimelineModel.getATrack
        (TimelineModel.requestCompositionMoveFun scenarioCompo.st 3 2 0 true noop noop).s 3 = 1) ∧
    ((TimelineModel.requestCompositionMoveFun scenarioCompos.st 3 2 5 true noop noop).ok = false ∧
      TimelineModel.compoFitsBack scenarioCompos.st 3 ∧
      TimelineModel.getCompositionTrackId
        (TimelineModel.requestCompositionMoveFun scenarioCompos.st 3 2 5 true noop noop).s 3 = 1 ∧
      TimelineModel.getATrack
        (TimelineModel.requestCompositionMoveFun scenarioCompos.st 3 2 5 true noop noop).s 3 = 0) :=
  ⟨⟨by decide,
      ((C22_composition_move_A_track scenarioCompo.st 3 0 0 true noop noop).1 (by decide)).2.1⟩,
    ⟨by decide, by decide,
      ((C22_composition_move_A_track scenarioCompo.st 3 2 0 true noop noop).2.1 (by decide)
        (by decide)).trans (by decide)⟩,
    ⟨by decide, scenarioCompos_fitsBack,
      ((C22_composition_move_A_track scenarioCompos.st 3 2 5 true noop noop).2.2.2 (by decide)
        scenarioCompos_fitsBack).1.trans (by decide),
      ((C22_composition_move_A_track scenarioCompos.st 3 2 5 true noop noop).2.2.2 (by decide)
        scenarioCompos_fitsBack).2.2.trans (by decide)⟩⟩

/-! ## The consistency check -/

theorem matchesTransition_iff (s : TimelineState) (b a i o k : Int) :
    TimelineModel.matchesTransition s b a i o k = true ↔
      TimelineModel.compoTuple s k = (b, a, i, o) := by
  simp [TimelineModel.matchesTransition, TimelineModel.compoTuple, and_assoc]

/-- The loop over the services succeeds exactly when the tuples of the
remaining compositions are, up to order, the tuples of the transitions. -/
theorem checkServices_iff (s : TimelineState) (services : List Service) (rem : List Int)
    (hnodup : rem.Nodup) (hid : (-1 : Int) ∉ rem) :
    TimelineModel.checkServices s services rem = true ↔
      (rem.map (TimelineModel.compoTuple s)).Perm (TimelineModel.transitionTuples services) := by
  induction services generalizing rem with
  | nil =>
    cases rem with
    | nil => simp [TimelineModel.checkServices, TimelineModel.transitionTuples]
    | cons k ks => simp [TimelineModel.checkServices, TimelineModel.transitionTuples]
  | cons sv rest ih =>
    cases sv with
    | other =>
      simp only [TimelineModel.checkServices, TimelineModel.transitionTuples]
      exact ih rem hnodup hid
    | transition b a i o =>
      simp only [TimelineModel.checkServices, TimelineModel.transitionTuples,
        TimelineModel.findMatch]
      cases hf : rem.find? (TimelineModel.matchesTransition s b a i o) with
      | none =>
        simp only [if_true, Bool.false_eq_true, false_iff]
        intro hperm
        have hmem : (b, a, i, o) ∈ rem.map (TimelineModel.compoTuple s) :=
          hperm.mem_iff.mpr (List.mem_cons_self _ _)
        obtain ⟨k, hk, hkt⟩ := List.mem_map.mp hmem
        have := List.find?_eq_none.mp hf k hk
        exact this ((matchesTransition_iff s b a i o k).mpr hkt)
      | some k =>
        have hk : k ∈ rem := List.mem_of_find?_eq_some hf
        have hkt : TimelineModel.compoTuple s k = (b, a, i, o) :=
          (matchesTransition_iff s b a i o k).mp (List.find?_some hf)
        have hne : k ≠ -1 := fun e => hid (e ▸ hk)
        simp only [hne, if_false]
        have he : eraseKey k rem = rem.erase k := by
          unfold eraseKey
          rw [hnodup.erase_eq_filter]
        rw [he, ih (rem.erase k) (hnodup.erase k) (fun h => hid (List.mem_of_mem_erase h))]
        have hp : (rem.map (TimelineModel.compoTuple s)).Perm
            ((b, a, i, o) :: (rem.erase k).map (TimelineModel.compoTuple s)) := by
          have := (List.perm_cons_erase hk).map (TimelineModel.compoTuple s)
          rw [List.map_cons, hkt] at this
          exact this
        constructor
        · intro h
          exact hp.trans (List.Perm.cons _ h)
        · intro h
          exact (List.perm_cons _).mp (hp.symm.trans h)

/-- C23: `checkConsistency` returns true if and only if the check of every
track passes and the 4-tuples (engine index of own track, engine index of
A-track, in-point, out-point) of the registered compositions that are placed
and have an A-track are, as a multiset, the 4-tuples of the transitions in the
chain of services of the engine.  The ids of the compositions are distinct and
none of them is `-1`. -/
theorem C23_checkConsistency_iff (trackCheck : TimelineState → Int → Bool)
    (services : List Service) (s : TimelineState)
    (hnodup : s.m_allCompositions.Nodup) (hid : (-1 : Int) ∉ s.m_allCompositions) :
    TimelineModel.checkConsistency trackCheck services s = true ↔
      ((∀ T ∈ s.m_iteratorTable, trackCheck s T = true) ∧
        ((s.m_allCompositions.filter (fun k =>
            decide (TimelineModel.getCompositionTrackId s k ≠ -1) &&
              decide (TimelineModel.getATrack s k ≠ -1))).map
          (TimelineModel.compoTuple s)).Perm (TimelineModel.transitionTuples services)) := by
  unfold TimelineModel.checkConsistency
  by_cases hall : s.m_iteratorTable.all (trackCheck s) = true
  · rw [if_neg (by rw [hall]; simp)]
    rw [checkServices_iff s services _ (hnodup.filter _)
      (fun h => hid (List.mem_of_mem_filter h))]
    rw [List.all_eq_true] at hall
    exact ⟨fun h => ⟨hall, h⟩, fun h => h.2⟩
  · have hf : s.m_iteratorTable.all (trackCheck s) = false := by
      simpa using hall
    rw [if_pos hf]
    simp only [Bool.false_eq_true, false_iff, not_and]
    intro h
    exact absurd (List.all_eq_true.mpr h) hall

/-- Witness of C23 on the scenario with three compositions, against the chain
of services of its own field: the check passes, and the tuples agree. -/
theorem C23_witness :
    (scenarioCompos.st.m_allCompositions.Nodup ∧ (-1 : Int) ∉ scenarioCompos.st.m_allCompositions) ∧
    TimelineModel.checkConsistency (fun _ _ => true)
      (TimelineModel.fieldServices scenarioCompos.st) scenarioCompos.st = true ∧
    ((scenarioCompos.st.m_allCompositions.filter (fun k =>
        decide (TimelineModel.getCompositionTrackId scenarioCompos.st k ≠ -1) &&
          decide (TimelineModel.getATrack scenarioCompos.st k ≠ -1))).map
      (TimelineModel.compoTuple scenarioCompos.st)).Perm
        (TimelineModel.transitionTuples (TimelineModel.fieldServices scenarioCompos.st)) :=
  ⟨⟨by decide, by decide⟩, by decide,
    ((C23_checkConsistency_iff (fun _ _ => true) (TimelineModel.fieldServices scenarioCompos.st)
      scenarioCompos.st (by decide) (by decide)).mp (by decide)).2⟩

/-- The check at work on the scenario with one composition: it fails against an
engine without transitions, and against an engine with a transition more. -/
theorem checkConsistency_scenarioCompo :
    TimelineModel.checkConsistency (fun _ _ => true) (TimelineModel.fieldServices scenarioCompo.st)
      scenarioCompo.st = true ∧
    TimelineModel.checkConsistency (fun _ _ => true) [] scenarioCompo.st = false ∧
    TimelineModel.checkConsistency (fun _ _ => true)
      (Service.transition 3 2 0 9 :: TimelineModel.fieldServices scenarioCompo.st)
      scenarioCompo.st = false := by
  decide

/-! ## Completeness of the group move -/

/-- After a successful `requestTrackDeletion(t)` no registered clip names the
deleted track. -/
theorem trackDeletion_no_clip_refers (m : TimelineModel) {t : Int} (ht : Tidy m.st)
    (hl : Lanes m.st) (hcons : Consistent m.st)
    (hreg : ∀ c ∈ (m.st.trackObj t).m_allClips, c ∈ m.st.m_allClips)
    (hT : t ∈ m.st.m_iteratorTable)
    (hok : (TimelineModel.requestTrackDeletion m t).1 = true) :
    ∀ c, TimelineModel.isClip (TimelineModel.requestTrackDeletion m t).2.st c = true →
      TimelineModel.getClipTrackId (TimelineModel.requestTrackDeletion m t).2.st c ≠ t := by
  rcases trackDeletion_request_spec m ht hl hreg hT with ⟨_, _, a3, a4, a5, _⟩ | ⟨b1, _⟩
  · intro c hc
    rw [a3] at hc ⊢
    have hc' : c ∈ (TimelineModel.trackDeletionLoop (m.st.trackObj t).m_allClips m.st noop
        noop).s.m_allClips := by
      simpa [TimelineModel.isClip, TimelineModel.deregisterTrack_lambda] using hc
    have hk := (a4.2.2.2.2.2.kept c hc').1
    intro htr
    have htr' : (m.st.clipObj c).m_currentTrackId = t := by
      rw [← hk]
      simpa [TimelineModel.getClipTrackId, TimelineModel.deregisterTrack_lambda] using htr
    have ht0 := hcons.tracks_ok t hT
    have hm := hcons.track_member c (by rw [htr']; omega)
    rw [htr'] at hm
    exact (a5 c hm).1 hc'
  · rw [hok] at b1
    exact absurd b1 (by simp)
